import Mathlib

/-! NoiseChisel detection pipeline: a shallow embedding

Arrays of the C program are lists.  A read past the end yields the default
element and a write past the end is dropped; the C program has no defined
behaviour there, and the theorems about pixels carry the hypotheses on the
labels that keep the accesses in range.  A pointer walking an array is the
position in the list.  The `do ... while(++l<lf)` loops of the source run
their body once per element; the source never calls them on an empty grid.

Floating-point values are kept exact (not-a-number, the infinities, the
rationals), with the comparisons of C; the rounding arithmetic is a
parameter of the embedding.
-/

namespace NoiseChisel

/-! ## Values -/

/-- Modelled from the spec: the blank label `BLANK_I32` of a signed 32-bit
label grid (the constant `GAL_BLANK_INT32` is declared in a library header),
taken as the smallest 32-bit signed integer.  The theorems only use that it
is negative. -/
def GAL_BLANK_INT32 : Int := -2147483648

/-- Modelled from the spec: the blank value `BLANK_U8` of an 8-bit binary
grid (the constant `GAL_BLANK_UINT8` is declared in a library header), taken
as the largest 8-bit unsigned integer. -/
def GAL_BLANK_UINT8 : Nat := 255

/-- Modelled from the spec: the bit of a dataset's `flag` word that records
that the dataset has blank elements (`GAL_DATA_FLAG_HASBLANK`, declared in a
library header).  The theorems only use that it is not zero. -/
def GAL_DATA_FLAG_HASBLANK : Nat := 2


/-- A value of a C floating-point variable (`float` or `double`): not-a-number,
an infinity, or a finite number.  The two zeros compare equal in C and are one
value here. -/
inductive Flt where
  | nan : Flt
  | ninf : Flt
  | fin (q : ℚ) : Flt
  | pinf : Flt
deriving DecidableEq

/-- The C test `isnan(x)`. -/
def Flt.isnan : Flt → Bool
  | Flt.nan => true
  | _ => false

/-- The C comparison `x > y`: false as soon as one side is not-a-number. -/
def Flt.gt : Flt → Flt → Bool
  | Flt.nan, _ => false
  | _, Flt.nan => false
  | Flt.ninf, _ => false
  | _, Flt.pinf => false
  | Flt.pinf, _ => true
  | Flt.fin _, Flt.ninf => true
  | Flt.fin a, Flt.fin b => decide (b < a)

/-- The C comparison `x < y`. -/
def Flt.lt (x y : Flt) : Bool := Flt.gt y x

/-- The precision at which C evaluates an expression: `float` or `double`. -/
inductive Prec where
  | single : Prec
  | double : Prec
deriving DecidableEq

/-- The rounding arithmetic of the machine, which the embedding leaves open:
every theorem holds for every choice of these operations.  Each operation
takes the precision of the C expression it stands for. -/
structure FloatArith where
  /-- Conversion of a `size_t` to floating point. -/
  ofNat : Prec → Nat → Flt
  /-- Conversion of a value to the given precision. -/
  cvt : Prec → Flt → Flt
  /-- Addition. -/
  add : Prec → Flt → Flt → Flt
  /-- Subtraction. -/
  sub : Prec → Flt → Flt → Flt
  /-- Multiplication. -/
  mul : Prec → Flt → Flt → Flt
  /-- Division. -/
  div : Prec → Flt → Flt → Flt
  /-- The library function `sqrt`. -/
  sqrt : Prec → Flt → Flt

/-- Sign of a value as `-1`, `0` or `1` (not-a-number counts as `0`). -/
def Flt.sgn : Flt → Int
  | Flt.nan => 0
  | Flt.ninf => -1
  | Flt.pinf => 1
  | Flt.fin q => if q < 0 then -1 else if 0 < q then 1 else 0

/-- An infinity of the given sign, not-a-number for sign `0`. -/
def Flt.ofSgn (s : Int) : Flt :=
  if s < 0 then Flt.ninf else if 0 < s then Flt.pinf else Flt.nan

/-- Sum without rounding. -/
def Flt.addExact : Flt → Flt → Flt
  | Flt.nan, _ => Flt.nan
  | _, Flt.nan => Flt.nan
  | Flt.pinf, Flt.ninf => Flt.nan
  | Flt.ninf, Flt.pinf => Flt.nan
  | Flt.pinf, _ => Flt.pinf
  | Flt.ninf, _ => Flt.ninf
  | _, Flt.pinf => Flt.pinf
  | _, Flt.ninf => Flt.ninf
  | Flt.fin a, Flt.fin b => Flt.fin (a + b)

/-- Opposite. -/
def Flt.neg : Flt → Flt
  | Flt.nan => Flt.nan
  | Flt.pinf => Flt.ninf
  | Flt.ninf => Flt.pinf
  | Flt.fin a => Flt.fin (-a)

/-- Product without rounding. -/
def Flt.mulExact : Flt → Flt → Flt
  | Flt.nan, _ => Flt.nan
  | _, Flt.nan => Flt.nan
  | Flt.fin a, Flt.fin b => Flt.fin (a * b)
  | x, y => Flt.ofSgn (x.sgn * y.sgn)

/-- Quotient without rounding (one zero: a non-zero value over zero is the
infinity of its sign). -/
def Flt.divExact : Flt → Flt → Flt
  | Flt.nan, _ => Flt.nan
  | _, Flt.nan => Flt.nan
  | Flt.fin a, Flt.fin b => if b = 0 then Flt.ofSgn (Flt.fin a).sgn else Flt.fin (a / b)
  | Flt.fin _, _ => Flt.fin 0
  | x, Flt.fin b => if b < 0 then x.neg else x
  | _, _ => Flt.nan

/-- Square root, rounded down on a grid of rationals. -/
def Flt.sqrtApprox : Flt → Flt
  | Flt.nan => Flt.nan
  | Flt.ninf => Flt.nan
  | Flt.pinf => Flt.pinf
  | Flt.fin q =>
      if q < 0 then Flt.nan
      else Flt.fin (((Nat.sqrt (q.num.toNat * q.den * 2 ^ 40) : Nat) : ℚ) / ((q.den * 2 ^ 20 : Nat) : ℚ))

/-- A reference arithmetic for evaluating the embedding on concrete inputs:
exact rational arithmetic at both precisions, square root rounded down. -/
def FloatArith.exact : FloatArith where
  ofNat := fun _ n => Flt.fin n
  cvt := fun _ x => x
  add := fun _ x y => Flt.addExact x y
  sub := fun _ x y => Flt.addExact x y.neg
  mul := fun _ x y => Flt.mulExact x y
  div := fun _ x y => Flt.divExact x y
  sqrt := fun _ x => Flt.sqrtApprox x

/-- Read `a[i]` of an `int32_t` array. -/
def rdI (a : List Int) (i : Nat) : Int := a.getD i 0

/-- Read `a[i]` of a `uint8_t` or `size_t` array. -/
def rdN (a : List Nat) (i : Nat) : Nat := a.getD i 0

/-- Read `a[i]` of a `float` or `double` array. -/
def rdF (a : List Flt) (i : Nat) : Flt := a.getD i (Flt.fin 0)

/-! ## Parameters -/

/-- The fields of `struct noisechiselparams` (and of the datasets it points
to) that the detection functions read or write.  An `int` or pointer that the
source only tests for being non-zero is a `Bool`. -/
structure noisechiselparams where
  /-- Floating-point arithmetic of the machine. -/
  arith : FloatArith := FloatArith.exact
  /-- The library macro `GAL_DIMENSION_FLT_TO_INT` (declared in a library header). -/
  GAL_DIMENSION_FLT_TO_INT : Flt → Nat := fun _ => 0
  /-- The library function `gal_tile_full_id_from_coord(&p->cp.tl, coord)`. -/
  gal_tile_full_id_from_coord : List Nat → Nat := fun _ => 0
  /-- Number of dimensions `p->input->ndim`. -/
  ndim : Nat := 2
  /-- Size along each dimension `p->input->dsize`. -/
  dsize : List Nat := []
  /-- The image `p->input->array`. -/
  input : List Flt := []
  /-- The flag word `p->input->flag`. -/
  inputflag : Nat := 0
  /-- The label grid `p->olabel->array`. -/
  olabel : List Int := []
  /-- The binary grid `p->binary->array`. -/
  binary : List Nat := []
  /-- Per-tile Sky values `p->sky->array`. -/
  sky : List Flt := []
  /-- Per-tile Sky standard deviations `p->std->array`. -/
  std : List Flt := []
  /-- Whether the input is already Sky subtracted. -/
  skysubtracted : Bool := false
  /-- Correction for counts-per-second data. -/
  cpscorr : Flt := Flt.fin 1
  /-- Minimum area to calculate a S/N. -/
  detsnminarea : Nat := 0
  /-- The S/N threshold found over the Sky. -/
  detsnthresh : Flt := Flt.fin 0
  /-- Whether the S/N tables are to be saved (`p->checkdetsn`). -/
  checkdetsn : Bool := false
  /-- Whether a check image was asked for (`p->detectionname` is not `NULL`). -/
  detectionname : Bool := false
  /-- Whether NoiseChisel goes on after writing a check output. -/
  continueaftercheck : Bool := false
  /-- Number of initial detections: the value returned by the labelling of
  the initial detections. -/
  numinitialdets : Nat := 0
  /-- Number of dilations asked for (0: no dilation). -/
  dilate : Nat := 0
  /-- Number of erosions of the thresholded grid `p->erode`. -/
  erode : Nat := 0
  /-- Connectivity of the erosion `p->erodengb`. -/
  erodengb : Int := 4
  /-- Depth of the opening `p->opening`. -/
  opening : Nat := 0
  /-- Connectivity of the opening `p->openingngb`. -/
  openingngb : Int := 4
  /-- Number of dimensions of the binary grid `p->binary->ndim`. -/
  binaryndim : Nat := 2
  /-- Whether the final detections with a small S/N are to be removed
  (`p->cleandilated`). -/
  cleandilated : Bool := false
  /-- Number of final detections `p->numdetections`. -/
  numdetections : Nat := 0

/-- Whether `p->input->flag & GAL_DATA_FLAG_HASBLANK` is non-zero. -/
def noisechiselparams.hasblank (p : noisechiselparams) : Bool :=
  decide (p.inputflag &&& GAL_DATA_FLAG_HASBLANK ≠ 0)

/-! ## Removing false initial detections -/

/-- First loop of `detection_remove_false_initial`: walking `l` and `b`
together, `newlabels[*l] = newlabels[*l] ? 1 : *b` on every pixel whose
label is neither zero nor blank. -/
def rfi_mark : List Int → List Nat → List Int → List Int
  | l :: ls, b :: bs, newlabels =>
      rfi_mark ls bs
        (if l ≠ 0 ∧ l ≠ GAL_BLANK_INT32 then
           newlabels.set l.toNat (if rdI newlabels l.toNat ≠ 0 then 1 else (b : Int))
         else newlabels)
  | _, _, newlabels => newlabels

/-- One iteration of `for(i=0;i<p->numinitialdets;++i) if(newlabels[i])
newlabels[i] = curlab++;` on the state `(newlabels, curlab)`. -/
def rfi_renumber_step (s : List Int × Int) (i : Nat) : List Int × Int :=
  if rdI s.1 i ≠ 0 then (s.1.set i s.2, s.2 + 1) else s

/-- The loop `for(i=0;i<p->numinitialdets;++i) ...`, started with `curlab`. -/
def rfi_renumber (numinitialdets : Nat) (newlabels : List Int) (curlab : Int) :
    List Int × Int :=
  (List.range numinitialdets).foldl rfi_renumber_step (newlabels, curlab)

/-- Last loop of `detection_remove_false_initial` on one pixel `(*l, *b)`:
with dilation only `*b` is rewritten, without it `*l` too; a blank label
leaves both as they are. -/
def rfi_rewrite_pixel (dilate : Nat) (newlabels : List Int) (lb : Int × Nat) : Int × Nat :=
  if lb.1 ≠ GAL_BLANK_INT32 then
    if dilate ≠ 0 then (lb.1, if rdI newlabels lb.1.toNat > 0 then 1 else 0)
    else (rdI newlabels lb.1.toNat, if rdI newlabels lb.1.toNat > 0 then 1 else 0)
  else lb

/-- The function `detection_remove_false_initial(p, workbin)`: returns the
parameters with the rewritten `olabel`, the rewritten `workbin` array and the
returned count `curlab-1`. -/
def detection_remove_false_initial (p : noisechiselparams) (workbin : List Nat) :
    noisechiselparams × List Nat × Nat :=
  let newlabels0 := List.replicate (p.numinitialdets + 1) (0 : Int)
  let newlabels1 := (rfi_mark p.olabel workbin newlabels0).set 0 0
  let r := rfi_renumber p.numinitialdets newlabels1 1
  let out := (List.zip p.olabel workbin).map (rfi_rewrite_pixel p.dilate r.1)
  ({ p with olabel := out.map Prod.fst }, out.map Prod.snd, (r.2 - 1).toNat)

/-! ## Pseudo-detections: preparing the working binary grid -/

/-- One pixel of `detection_pseudo_sky_or_det`: the value written to `*w`
from the initial label `*l` and the thresholded value `*b`. -/
def detection_pseudo_sky_or_det_pixel (s0d1 : Int) (lb : Int × Nat) : Nat :=
  if s0d1 ≠ 0 then
    (if lb.1 ≠ 0 then lb.2 else 0)
  else
    (if lb.1 ≠ 0 then (if lb.1 = GAL_BLANK_INT32 then GAL_BLANK_UINT8 else 1) else lb.2)

/-- The function `detection_pseudo_sky_or_det(p, w, s0d1)`: the array `w`
after the call (every element of `w` is written, walking `p->olabel` and
`p->binary` together). -/
def detection_pseudo_sky_or_det (p : noisechiselparams) (s0d1 : Int) : List Nat :=
  (List.zip p.olabel p.binary).map (detection_pseudo_sky_or_det_pixel s0d1)

/-! ## Signal-to-noise ratio of the labelled regions -/

/-- The per-label arrays that `detection_sn` allocates and fills. -/
structure snarrays where
  /-- Number of accumulated pixels `area[L]`. -/
  area : List Nat
  /-- Sum of pixel values `brightness[L]`. -/
  brightness : List Flt
  /-- Flux weight and flux-weighted position, `pcols` entries per label. -/
  pos : List Flt
  /-- In the Sky role: whether the label was found over a detection. -/
  flag : List Nat

/-- The arrays as `detection_sn` allocates them for `num` labels: all zero
(`flag` is only allocated for `s0d1D2==0`; the other roles never touch it). -/
def snarrays.init (p : noisechiselparams) (num : Nat) : snarrays where
  area := List.replicate (num + 1) 0
  brightness := List.replicate (num + 1) (Flt.fin 0)
  pos := List.replicate ((1 + p.ndim) * (num + 1)) (Flt.fin 0)
  flag := List.replicate (num + 1) 0

/-- The flux-weighted position update of `detection_sn` for a pixel of
value `f > 0` at offset `idx = f-img` with label `L`. -/
def detection_sn_pos (p : noisechiselparams) (pos : List Flt) (idx L : Nat) (f : Flt) :
    List Flt :=
  let pcols := 1 + p.ndim
  let a := p.arith
  let w := fun (c : Nat) => a.mul Prec.single (a.ofNat Prec.single c) f
  let pos0 := pos.set (L * pcols) (a.add Prec.double (rdF pos (L * pcols)) f)
  if p.ndim = 2 then
    let pos1 := pos0.set (L * pcols + 1)
      (a.add Prec.double (rdF pos0 (L * pcols + 1)) (w (idx / rdN p.dsize 1)))
    pos1.set (L * pcols + 2)
      (a.add Prec.double (rdF pos1 (L * pcols + 2)) (w (idx % rdN p.dsize 1)))
  else if p.ndim = 3 then
    let pos1 := pos0.set (L * pcols + 1)
      (a.add Prec.double (rdF pos0 (L * pcols + 1)) (w (idx % rdN p.dsize 1 * rdN p.dsize 2)))
    let pos2 := pos1.set (L * pcols + 2)
      (a.add Prec.double (rdF pos1 (L * pcols + 2)) (w (idx / rdN p.dsize 2)))
    pos2.set (L * pcols + 3)
      (a.add Prec.double (rdF pos2 (L * pcols + 3)) (w (idx % rdN p.dsize 2)))
  else pos0

/-- One pass of the body of the first loop of `detection_sn`, on the pixel
at offset `idx` with pseudo-label `plab`, initial label `dlab` (only read
when `s0d1D2==0`) and value `f`. -/
def detection_sn_pixel (p : noisechiselparams) (s0d1D2 : Nat) (acc : snarrays)
    (idx : Nat) (plab dlab : Int) (f : Flt) : snarrays :=
  if plab ≠ 0 ∧ ((p.inputflag ||| GAL_DATA_FLAG_HASBLANK) ≠ 0 ∧ plab ≠ GAL_BLANK_INT32) then
    if s0d1D2 = 0 ∧ rdN acc.flag plab.toNat ≠ 0 then acc
    else if s0d1D2 = 0 ∧ dlab ≠ 0 then
      { acc with flag := acc.flag.set plab.toNat 1, area := acc.area.set plab.toNat 0 }
    else if f.isnan then acc
    else
      let acc1 : snarrays :=
        { acc with
          area := acc.area.set plab.toNat (rdN acc.area plab.toNat + 1)
          brightness := acc.brightness.set plab.toNat
            (p.arith.add Prec.double (rdF acc.brightness plab.toNat) f) }
      if Flt.gt f (Flt.fin 0) then
        { acc1 with pos := detection_sn_pos p acc1.pos idx plab.toNat f }
      else acc1
  else acc

/-- The first loop of `detection_sn` over the first `k` pixels, from the
arrays `acc`: `plab` walks `worklab`, `dlab` walks `p->olabel` in the Sky
role, `f` walks the image. -/
def detection_sn_scan (p : noisechiselparams) (worklab : List Int) (s0d1D2 : Nat)
    (acc : snarrays) (k : Nat) : snarrays :=
  (List.range k).foldl
    (fun acc idx => detection_sn_pixel p s0d1D2 acc idx (rdI worklab idx)
      (if s0d1D2 = 0 then rdI p.olabel idx else 0) (rdF p.input idx))
    acc

/-- The arrays after the first loop of `detection_sn` (over all
`p->input->size` pixels). -/
def detection_sn_accumulate (p : noisechiselparams) (worklab : List Int) (num : Nat)
    (s0d1D2 : Nat) : snarrays :=
  detection_sn_scan p worklab s0d1D2 (snarrays.init p num) p.input.length

/-- The mean `ave=brightness[i]/area[i]` of label `i`. -/
def detection_sn_ave (p : noisechiselparams) (acc : snarrays) (i : Nat) : Flt :=
  p.arith.div Prec.double (rdF acc.brightness i) (p.arith.ofNat Prec.double (rdN acc.area i))

/-- The test `area[i]>p->detsnminarea && ave>0.0f && pos[i*pcols]>0.0f`. -/
def detection_sn_eligible (p : noisechiselparams) (acc : snarrays) (i : Nat) : Bool :=
  decide (rdN acc.area i > p.detsnminarea)
    && Flt.gt (detection_sn_ave p acc i) (Flt.fin 0)
    && Flt.gt (rdF acc.pos (i * (1 + p.ndim))) (Flt.fin 0)

/-- The S/N that `detection_sn` stores for an eligible label `i`. -/
def detection_sn_value (p : noisechiselparams) (acc : snarrays) (i : Nat) : Flt :=
  let pcols := 1 + p.ndim
  let a := p.arith
  let coord := (List.range p.ndim).map (fun j =>
    p.GAL_DIMENSION_FLT_TO_INT
      (a.div Prec.double (rdF acc.pos (i * pcols + j + 1)) (rdF acc.pos (i * pcols))))
  let ave := a.sub Prec.double (detection_sn_ave p acc i)
    (rdF p.sky (p.gal_tile_full_id_from_coord coord))
  let err0 := rdF p.std (p.gal_tile_full_id_from_coord coord)
  let err := a.mul Prec.double err0
    (if p.skysubtracted then err0 else a.mul Prec.double (Flt.fin 2) err0)
  a.cvt Prec.single
    (a.div Prec.double
      (a.mul Prec.double
        (a.sqrt Prec.double
          (a.div Prec.single (a.ofNat Prec.single (rdN acc.area i)) p.cpscorr))
        ave)
      (a.sqrt Prec.double (a.add Prec.double ave err)))

/-- The output arrays of `detection_sn` while they are filled. -/
structure snfill where
  /-- The S/N array `snarr`. -/
  snarr : List Flt
  /-- The label array `indarr`, when the table is to be saved. -/
  indarr : Option (List Int)
  /-- Number of entries written in the Sky role. -/
  counter : Nat

/-- The output arrays as allocated (cleared), with `snarr[0]=NAN` and
`indarr[0]` blank in the roles other than Sky. -/
def snfill.init (p : noisechiselparams) (num : Nat) (s0d1D2 : Nat) : snfill :=
  let snarr := List.replicate (num + 1) (Flt.fin 0)
  let indarr := if p.checkdetsn then some (List.replicate (num + 1) (0 : Int)) else none
  if s0d1D2 ≠ 0 then
    { snarr := snarr.set 0 Flt.nan
      indarr := indarr.map (fun a => a.set 0 GAL_BLANK_INT32)
      counter := 0 }
  else { snarr := snarr, indarr := indarr, counter := 0 }

/-- One pass of the body of `for(i=1;i<tablen;++i)` in `detection_sn`. -/
def detection_sn_fill_step (p : noisechiselparams) (acc : snarrays) (s0d1D2 : Nat)
    (s : snfill) (i : Nat) : snfill :=
  if detection_sn_eligible p acc i then
    let ind := if s0d1D2 ≠ 0 then i else s.counter
    { snarr := s.snarr.set ind (detection_sn_value p acc i)
      indarr := s.indarr.map (fun a => a.set ind (i : Int))
      counter := if s0d1D2 ≠ 0 then s.counter else s.counter + 1 }
  else if s0d1D2 ≠ 0 then
    { s with
      snarr := s.snarr.set i Flt.nan
      indarr := s.indarr.map (fun a => a.set i GAL_BLANK_INT32) }
  else s

/-- The loop `for(i=1;i<tablen;++i)` of `detection_sn`, with `tablen=num+1`. -/
def detection_sn_fill (p : noisechiselparams) (acc : snarrays) (num : Nat) (s0d1D2 : Nat) :
    snfill :=
  (List.range' 1 num).foldl (detection_sn_fill_step p acc s0d1D2) (snfill.init p num s0d1D2)

/-- The check-image step of `detection_sn`: for the pseudo-detection roles,
a non-blank label with `area[*plab]<p->detsnminarea || brightness[*plab]<0`
is set to zero in `worklab`. -/
def detection_sn_check (p : noisechiselparams) (acc : snarrays) (s0d1D2 : Nat)
    (worklab : List Int) : List Int :=
  if p.detectionname ∧ s0d1D2 < 2 then
    worklab.map (fun plab =>
      if plab ≠ GAL_BLANK_INT32
          ∧ (rdN acc.area plab.toNat < p.detsnminarea
              ∨ Flt.lt (rdF acc.brightness plab.toNat) (Flt.fin 0) = true) then 0
      else plab)
  else worklab

/-- A one-dimensional dataset (`gal_data_t`): its array and its recorded
number of elements `size`. -/
structure sntable where
  /-- The allocated array. -/
  array : List Flt
  /-- The recorded number of elements. -/
  size : Nat

/-- What `detection_sn` leaves behind. -/
structure snresult where
  /-- The returned dataset `sn`. -/
  sn : sntable
  /-- The first `size` labels of `snind`, when the table is saved. -/
  snind : Option (List Int)
  /-- The label grid `worklab` after the call. -/
  worklab : List Int

/-- The ways in which NoiseChisel stops instead of returning from a
function: a fatal `error(EXIT_FAILURE, ...)`, or `ui_abort_after_check`
once a requested check output has been written. -/
inductive halt where
  | fatal : halt
  | after_check : halt
deriving DecidableEq

/-- The function `detection_sn(p, worklab, num, s0d1D2, extname)`.  An input
that has neither two nor three dimensions is a fatal error.  When the S/N
table is saved (`snind` is allocated), `detection_sn_write_to_file` stops
NoiseChisel after the table of the final detections (`s0d1D2==2`) unless
`p->continueaftercheck` is set. -/
def detection_sn (p : noisechiselparams) (worklab : List Int) (num : Nat) (s0d1D2 : Nat) :
    Except halt snresult :=
  if p.ndim ≠ 2 ∧ p.ndim ≠ 3 then Except.error halt.fatal
  else
    let acc := detection_sn_accumulate p worklab num s0d1D2
    let s := detection_sn_fill p acc num s0d1D2
    let size := if s0d1D2 = 0 then s.counter else num + 1
    if p.checkdetsn = true ∧ s0d1D2 = 2 ∧ p.continueaftercheck = false then
      Except.error halt.after_check
    else
      Except.ok { sn := { array := s.snarr, size := size }
                  snind := s.indarr.map (fun a => a.take size)
                  worklab := detection_sn_check p acc s0d1D2 worklab }

/-! ## Removing pseudo-detections with a low S/N -/

/-- The loop `for(i=0;i<sn->size;++i) if( snarr[i] > p->detsnthresh )
keep[i]=1;` on the cleared array `keep`. -/
def detection_pseudo_keep (p : noisechiselparams) (sn : sntable) : List Nat :=
  (List.range sn.size).foldl
    (fun keep i => if Flt.gt (rdF sn.array i) p.detsnthresh then keep.set i 1 else keep)
    (List.replicate sn.size 0)

/-- The function `detection_pseudo_remove_low_sn(p, workbin, worklab, sn)`:
the array of `workbin` after the call (one element is written per element
of `worklab`). -/
def detection_pseudo_remove_low_sn (p : noisechiselparams) (worklab : List Int)
    (sn : sntable) : List Nat :=
  let keep := detection_pseudo_keep p sn
  if p.hasblank then
    worklab.map (fun l =>
      if l = GAL_BLANK_INT32 then GAL_BLANK_UINT8
      else if rdN keep l.toNat > 0 then 1 else 0)
  else
    worklab.map (fun l => if rdN keep l.toNat > 0 then 1 else 0)

/-! ## Removing final detections with a small S/N -/

/-- One pass of `newlabs[i] = snarr[i] > p->detsnthresh ? curlab++ : 0;` on
the state `(newlabs, curlab)`. -/
def detection_final_newlabs_step (p : noisechiselparams) (snarr : List Flt)
    (s : List Int × Int) (i : Nat) : List Int × Int :=
  if Flt.gt (rdF snarr i) p.detsnthresh then (s.1.set i s.2, s.2 + 1)
  else (s.1.set i 0, s.2)

/-- The loop `for(i=1;i<num+1;++i) newlabs[i] = ...` from the cleared array
`newlabs` and `curlab=1`: the final `(newlabs, curlab)`. -/
def detection_final_newlabs (p : noisechiselparams) (num : Nat) (snarr : List Flt) :
    List Int × Int :=
  (List.range' 1 num).foldl (detection_final_newlabs_step p snarr)
    (List.replicate (num + 1) 0, 1)

/-- One pixel `(*l, *b)` of the relabelling loop of
`detection_final_remove_small_sn`. -/
def detection_final_pixel (p : noisechiselparams) (newlabs : List Int) (lb : Int × Nat) :
    Int × Nat :=
  if p.hasblank then
    if lb.1 ≠ GAL_BLANK_INT32 then
      (rdI newlabs lb.1.toNat, if rdI newlabs lb.1.toNat > 0 then 1 else 0)
    else lb
  else (rdI newlabs lb.1.toNat, if rdI newlabs lb.1.toNat > 0 then 1 else 0)

/-- The part of `detection_final_remove_small_sn(p, num)` that follows its
call of `detection_sn`, given the array `snarr` of the table that call
returned: the parameters with `olabel` and `binary` rewritten, and the
returned count `curlab-1`. -/
def detection_final_remove_small_sn_from (p : noisechiselparams) (num : Nat)
    (snarr : List Flt) : noisechiselparams × Nat :=
  let r := detection_final_newlabs p num snarr
  let out := (List.zip p.olabel p.binary).map (detection_final_pixel p r.1)
  ({ p with olabel := out.map Prod.fst, binary := out.map Prod.snd }, (r.2 - 1).toNat)

/-- The function `detection_final_remove_small_sn(p, num)`: the S/N table
comes from `detection_sn(p, p->olabel, num, 2, "DILATED")`, which leaves the
labels as they are. -/
def detection_final_remove_small_sn (p : noisechiselparams) (num : Nat) :
    Except halt (noisechiselparams × Nat) :=
  (detection_sn p p.olabel num 2).map
    (fun r => detection_final_remove_small_sn_from p num r.sn.array)

/-! ## Dilation, erosion and opening of a binary grid (`binary.c`)

The array `byt` holds the `nr*nc` pixels of the grid row by row, the pixel of
row `i` and column `j` at index `i*nc+j`.  The functions index the array
without a bounds check; on an array of `nr*nc` elements with `nr, nc ≥ 2`
every index they use is inside the array (`adj4_lt`, `read8_lt`), and that is
where the model, which reads 0 outside the list, stands for the source. -/

/-- One test of `dilate0_erode1_4con` or `dilate0_erode1_8con`:
`if(byt[ind]==b && (byt[n1]==f || byt[n2]==f || ...)) byt[ind]=2;` for the
index `c.1` and the neighbour indices `c.2`, in the order of the source. -/
def mark_step (f b : Nat) (byt : List Nat) (c : Nat × List Nat) : List Nat :=
  if rdN byt c.1 = b ∧ c.2.any (fun n => decide (rdN byt n = f)) = true then byt.set c.1 2
  else byt

/-- The last loop of both functions, `do *pt = *pt==2 ? f : *pt;
while(++pt<fpt);`, over the `nr*nc` elements of the array. -/
def set_changed (f : Nat) (byt : List Nat) : List Nat :=
  byt.map (fun x => if x = 2 then f else x)

/-- The tests of `dilate0_erode1_4con` in the order of the source, each as
the tested index with the neighbour indices it reads: the four corners, the
top, bottom, left and right sides (`for(j=1;j<nc-1;++j)`,
`for(i=1;i<nr-1;++i)`), then the body. -/
def checks_4con (nr nc : Nat) : List (Nat × List Nat) :=
  [ (0, [1, nc]),
    (nc - 1, [nc - 2, 2 * nc - 1]),
    ((nr - 1) * nc, [(nr - 2) * nc, (nr - 1) * nc + 1]),
    (nr * nc - 1, [nr * nc - 2, nr * nc - 1 - nc]) ]
  ++ (List.range' 1 (nc - 2)).map (fun j => (j, [j + 1, j - 1, j + nc]))
  ++ (List.range' 1 (nc - 2)).map (fun j =>
      let ind := (nr - 1) * nc + j
      (ind, [ind + 1, ind - 1, ind - nc]))
  ++ (List.range' 1 (nr - 2)).map (fun i =>
      let ind := i * nc
      (ind, [ind + 1, ind + nc, ind - nc]))
  ++ (List.range' 1 (nr - 2)).map (fun i =>
      let ind := (i + 1) * nc - 1
      (ind, [ind - 1, ind + nc, ind - nc]))
  ++ (List.range' 1 (nr - 2)).flatMap (fun i =>
      (List.range' 1 (nc - 2)).map (fun j =>
        let ind := i * nc + j
        (ind, [ind - 1, ind + 1, ind + nc, ind - nc])))

/-- The tests of `dilate0_erode1_8con` in the order of the source. -/
def checks_8con (nr nc : Nat) : List (Nat × List Nat) :=
  [ (0, [1, nc, nc + 1]),
    (nc - 1, [nc - 2, 2 * nc - 1, 2 * nc - 2]),
    ((nr - 1) * nc, [(nr - 2) * nc, (nr - 1) * nc + 1, (nr - 2) * nc + 1]),
    (nr * nc - 1, [nr * nc - 2, nr * nc - 1 - nc, nr * nc - 2 - nc]) ]
  ++ (List.range' 1 (nc - 2)).map (fun j =>
      (j, [j + 1, j - 1, j + nc, j - 1 + nc, j + 1 + nc]))
  ++ (List.range' 1 (nc - 2)).map (fun j =>
      let ind := (nr - 1) * nc + j
      (ind, [ind + 1, ind - 1, ind - nc, ind - 1 - nc, ind + 1 - nc]))
  ++ (List.range' 1 (nr - 2)).map (fun i =>
      let ind := i * nc
      (ind, [ind + 1, ind + nc, ind - nc, ind + 1 - nc, ind + 1 + nc]))
  ++ (List.range' 1 (nr - 2)).map (fun i =>
      let ind := (i + 1) * nc - 1
      (ind, [ind - 1, ind + nc, ind - nc, ind - 1 - nc, ind - 1 + nc]))
  ++ (List.range' 1 (nr - 2)).flatMap (fun i =>
      (List.range' 1 (nc - 2)).map (fun j =>
        let ind := i * nc + j
        (ind, [ind - 1, ind + 1, ind + nc, ind - nc,
               ind - 1 - nc, ind + 1 + nc, ind - 1 + nc, ind + 1 + nc])))

/-- The body of both functions once `f` and `b` are set: the tests in
order on the array, then the last loop. -/
def morph_pass (checks : List (Nat × List Nat)) (f b : Nat) (byt : List Nat) : List Nat :=
  set_changed f (checks.foldl (mark_step f b) byt)

/-- The function `dilate0_erode1_4con(byt, nr, nc, b0_f1)`: the array after
the call, or the fatal error of the sanity check on `b0_f1`. -/
def dilate0_erode1_4con (byt : List Nat) (nr nc b0_f1 : Nat) : Except halt (List Nat) :=
  if b0_f1 ≠ 1 ∧ b0_f1 ≠ 0 then Except.error halt.fatal
  else
    Except.ok (morph_pass (checks_4con nr nc)
      (if b0_f1 = 0 then 1 else 0) (if b0_f1 = 0 then 0 else 1) byt)

/-- The function `dilate0_erode1_8con(byt, nr, nc, b0_f1)`. -/
def dilate0_erode1_8con (byt : List Nat) (nr nc b0_f1 : Nat) : Except halt (List Nat) :=
  if b0_f1 ≠ 1 ∧ b0_f1 ≠ 0 then Except.error halt.fatal
  else
    Except.ok (morph_pass (checks_8con nr nc)
      (if b0_f1 = 0 then 1 else 0) (if b0_f1 = 0 then 0 else 1) byt)

/-- The loop `for(i=0;i<depth;++i) func(byt, s0, s1, b0_f1);`. -/
def repeat_pass (func : List Nat → Except halt (List Nat)) :
    Nat → List Nat → Except halt (List Nat)
  | 0, byt => Except.ok byt
  | depth + 1, byt => (func byt).bind (repeat_pass func depth)

/-- The function `opening(byt, s0, s1, depth, con_type)`: the array after
the call, or the fatal error of the sanity check on `con_type`. -/
def opening (byt : List Nat) (s0 s1 depth : Nat) (con_type : Int) :
    Except halt (List Nat) :=
  if con_type ≠ 4 ∧ con_type ≠ 8 then Except.error halt.fatal
  else
    let func := if con_type = 4 then dilate0_erode1_4con else dilate0_erode1_8con
    (repeat_pass (fun a => func a s0 s1 1) depth byt).bind
      (repeat_pass (fun a => func a s0 s1 0) depth)

/-- The coercion of `detection_initial` after the erosion:
`do *b = *b==THRESHOLD_NO_ERODE_VALUE ? 1 : *b; while(++b<bf);`, for a value
`no_erode` of the marker (the macro is declared in a header that is not
part of the sources at hand). -/
def correct_no_erode (no_erode : Nat) (binary : List Nat) : List Nat :=
  binary.map (fun x => if x = no_erode then 1 else x)

/-- The function `dilate0_erode1_4con` with the array as the call leaves
it: the sanity check on `b0_f1` comes before the first write, so a fatal
error leaves the array as it was given. -/
def dilate0_erode1_4con_run (byt : List Nat) (nr nc b0_f1 : Nat) : List Nat × Option halt :=
  if b0_f1 ≠ 1 ∧ b0_f1 ≠ 0 then (byt, some halt.fatal)
  else
    (morph_pass (checks_4con nr nc)
      (if b0_f1 = 0 then 1 else 0) (if b0_f1 = 0 then 0 else 1) byt, none)

/-- The function `dilate0_erode1_8con` with the array as the call leaves
it. -/
def dilate0_erode1_8con_run (byt : List Nat) (nr nc b0_f1 : Nat) : List Nat × Option halt :=
  if b0_f1 ≠ 1 ∧ b0_f1 ≠ 0 then (byt, some halt.fatal)
  else
    (morph_pass (checks_8con nr nc)
      (if b0_f1 = 0 then 1 else 0) (if b0_f1 = 0 then 0 else 1) byt, none)

/-- The loop `for(i=0;i<depth;++i) func(byt, s0, s1, b0_f1);` with the array
as it is when the loop ends or a call stops the program. -/
def repeat_run (func : List Nat → List Nat × Option halt) :
    Nat → List Nat → List Nat × Option halt
  | 0, byt => (byt, none)
  | depth + 1, byt =>
      match func byt with
      | (a, none) => repeat_run func depth a
      | (a, some h) => (a, some h)

/-- The function `opening(byt, s0, s1, depth, con_type)` with the array as
it is when the call returns (`none`) or stops the program (`some`): the
sanity check on `con_type` comes before the first pass. -/
def opening_run (byt : List Nat) (s0 s1 depth : Nat) (con_type : Int) :
    List Nat × Option halt :=
  if con_type ≠ 4 ∧ con_type ≠ 8 then (byt, some halt.fatal)
  else
    let func := if con_type = 4 then dilate0_erode1_4con_run else dilate0_erode1_8con_run
    match repeat_run (fun a => func a s0 s1 1) depth byt with
    | (a, none) => repeat_run (fun a => func a s0 s1 0) depth a
    | (a, some h) => (a, some h)

/-! ## Initial detection (`detection_initial`) -/

/-- The functions that `detection_initial` calls and that are declared in
headers outside the sources at hand, with the value of the macro
`THRESHOLD_NO_ERODE_VALUE`: they are left open, and every theorem holds for
every choice of them. -/
structure detection_lib where
  /-- The call `threshold_quantile_find_apply(p)`, which fills `p->binary`. -/
  threshold_quantile_find_apply : noisechiselparams → noisechiselparams
  /-- The call `gal_binary_erode(input, num, connectivity, 1)`: the array of
  `input` after it. -/
  gal_binary_erode : List Nat → Nat → Int → List Nat
  /-- The call `gal_binary_open(input, num, connectivity, 1)`: the array of
  `input` after it. -/
  gal_binary_open : List Nat → Nat → Int → List Nat
  /-- The call `gal_binary_connected_components(binary, &olabel, 1)`: the
  labels and the returned number of labels. -/
  gal_binary_connected_components : List Nat → List Int × Nat
  /-- The value of the macro `THRESHOLD_NO_ERODE_VALUE`. -/
  THRESHOLD_NO_ERODE_VALUE : Nat

/-- The `switch(p->binary->ndim)` of `detection_initial`: the connectivity
given to the erosion, or the fatal error of the `default` case. -/
def detection_initial_connectivity (p : noisechiselparams) : Except halt Int :=
  if p.binaryndim = 2 then Except.ok (if p.erodengb = 4 then 1 else 2)
  else if p.binaryndim = 3 then
    Except.ok (if p.erodengb = 6 then 1 else (if p.erodengb = 18 then 2 else 3))
  else Except.error halt.fatal

/-- The function `detection_initial(p)` (its timing reports and check
images aside): threshold, erosion with the connectivity of the `switch`,
coercion of the no-erode marker to 1, opening, labelling. -/
def detection_initial (lib : detection_lib) (p : noisechiselparams) :
    Except halt noisechiselparams :=
  let p1 := lib.threshold_quantile_find_apply p
  (detection_initial_connectivity p1).map (fun connectivity =>
    let eroded := lib.gal_binary_erode p1.binary p1.erode connectivity
    let corrected := correct_no_erode lib.THRESHOLD_NO_ERODE_VALUE eroded
    let opened := lib.gal_binary_open corrected p1.opening
      (if p1.openingngb = 4 then 1 else 2)
    let labelled := lib.gal_binary_connected_components opened
    { p1 with binary := opened, olabel := labelled.1, numinitialdets := labelled.2 })

/-! ## Datasets (`data.c`)

The type codes `GAL_DATA_TYPE_*`, the blank values `GAL_DATA_BLANK_*` and
the function `gal_data_copy_to_new_type` are declared in headers outside the
sources at hand: the blank values and the conversion are left open
(`data_consts`). -/

/-- The C comparison `x == y`: false as soon as one side is not-a-number. -/
def Flt.ceq : Flt → Flt → Bool
  | Flt.nan, _ => false
  | _, Flt.nan => false
  | x, y => decide (x = y)

/-- The values of `data->type` that the `switch` statements of `data.c`
tell apart; `other` is any value that reaches their `default` case. -/
inductive gal_type where
  | bit | uchar | char | logical | string | ushort | short | uint | int | ulong | long
  | longlong | float | double | complex | dcomplex | other
deriving DecidableEq

/-- One element of the array of a dataset: an integer (also for the
character types), a string pointer, a floating point number, or a complex
number with its real and imaginary parts. -/
inductive gal_value where
  | int (v : Int)
  | str (s : String)
  | flt (x : Flt)
  | cplx (re im : Flt)
deriving DecidableEq

/-- The element read as a floating point number, and the real part of a
complex element (`GSL_COMPLEX_P_REAL`). -/
def gal_value.real : gal_value → Flt
  | gal_value.int v => Flt.fin v
  | gal_value.str _ => Flt.fin 0
  | gal_value.flt x => x
  | gal_value.cplx re _ => re

/-- The imaginary part of a complex element (`GSL_COMPLEX_P_IMAG`). -/
def gal_value.imag : gal_value → Flt
  | gal_value.cplx _ im => im
  | _ => Flt.fin 0

/-- The fields of `gal_data_t` that the functions read or write. -/
structure gal_data_t where
  /-- The element type `type`. -/
  type : gal_type
  /-- Number of dimensions `ndim`. -/
  ndim : Nat
  /-- Size along each dimension `dsize`. -/
  dsize : List Nat
  /-- Total number of elements `size`. -/
  size : Nat
  /-- The elements `array`. -/
  array : List gal_value

/-- What `data.c` takes from headers outside the sources at hand, and from
the machine. -/
structure data_consts where
  /-- The blank value of each integer type and of the string type
  (`GAL_DATA_BLANK_UCHAR`, ..., `GAL_DATA_BLANK_STRING`). -/
  blank : gal_type → gal_value
  /-- The macro `GAL_DATA_BLANK_FLOAT`. -/
  GAL_DATA_BLANK_FLOAT : Flt
  /-- The macro `GAL_DATA_BLANK_DOUBLE`. -/
  GAL_DATA_BLANK_DOUBLE : Flt
  /-- The C `sizeof` of the element type, in bytes, for the types wider than
  a character. -/
  sizeof_wide : gal_type → Nat
  /-- The call `gal_data_copy_to_new_type(mask, GAL_DATA_TYPE_FLOAT)`. -/
  gal_data_copy_to_new_type : gal_data_t → gal_data_t

/-- The C `sizeof` of the element type: 1 for the character types. -/
def data_consts.sizeof (c : data_consts) : gal_type → Nat
  | gal_type.uchar => 1
  | gal_type.char => 1
  | gal_type.logical => 1
  | t => c.sizeof_wide t

/-- Read `a[i]` of the array of a dataset. -/
def rdV (a : List gal_value) (i : Nat) : gal_value := a.getD i (gal_value.int 0)

/-- The function `gal_data_dsize_is_different(first, second)`. -/
def gal_data_dsize_is_different (first second : gal_data_t) : Nat :=
  if first.ndim ≠ second.ndim then 1
  else if (List.range first.ndim).any (fun i => decide (rdN first.dsize i ≠ rdN second.dsize i))
  then 1
  else 0

/-- The test for a blank element that `gal_data_blank_to_value` and
`gal_data_has_blank` make in the `case` of the type `t`: equality with the
blank value of the type for the integer and string types; for the floating
point types `isnan` when the blank value is not-a-number and equality with
`GAL_DATA_BLANK_FLOAT` otherwise (also in the `double` cases); for the
complex types the same test on both parts. -/
def is_blank_elem (c : data_consts) (t : gal_type) (v : gal_value) : Bool :=
  match t with
  | gal_type.float =>
      if c.GAL_DATA_BLANK_FLOAT.isnan then v.real.isnan
      else Flt.ceq v.real c.GAL_DATA_BLANK_FLOAT
  | gal_type.double =>
      if c.GAL_DATA_BLANK_DOUBLE.isnan then v.real.isnan
      else Flt.ceq v.real c.GAL_DATA_BLANK_FLOAT
  | gal_type.complex =>
      if c.GAL_DATA_BLANK_FLOAT.isnan then v.real.isnan && v.imag.isnan
      else Flt.ceq v.real c.GAL_DATA_BLANK_FLOAT && Flt.ceq v.imag c.GAL_DATA_BLANK_FLOAT
  | gal_type.dcomplex =>
      if c.GAL_DATA_BLANK_DOUBLE.isnan then v.real.isnan && v.imag.isnan
      else Flt.ceq v.real c.GAL_DATA_BLANK_FLOAT && Flt.ceq v.imag c.GAL_DATA_BLANK_FLOAT
  | _ => decide (v = c.blank t)

/-- One of the loops of `gal_data_has_blank`, with the pointer at element
`k` and `fuel` passes of the body left: `do if(*p++==BLANK) return 1;
while(p<pf);`, or `do if(*uc==BLANK) return 1; while(uc<ucf);` without the
increment in the `unsigned char` case (`incr = false`).  The end pointer is
`A+S` with `A` a `void *`, that is `S` bytes past the start of the array,
so with elements of `w` bytes the test `p<pf` is `k*w < S`.  The result is
`none` when the fuel runs out. -/
def has_blank_loop (c : data_consts) (t : gal_type) (incr : Bool) (w S : Nat)
    (arr : List gal_value) : Nat → Nat → Option Nat
  | 0, _ => none
  | fuel + 1, k =>
      if is_blank_elem c t (rdV arr k) then some 1
      else if (if incr then k + 1 else k) * w < S then
        has_blank_loop c t incr w S arr fuel (if incr then k + 1 else k)
      else some 0

/-- The function `gal_data_has_blank(data)` run for at most `fuel` passes of
its loop: `none` when the fuel runs out, otherwise the returned value or the
fatal error of the `BIT` and `default` cases. -/
def gal_data_has_blank (c : data_consts) (fuel : Nat) (data : gal_data_t) :
    Option (Except halt Nat) :=
  match data.type with
  | gal_type.bit => some (Except.error halt.fatal)
  | gal_type.other => some (Except.error halt.fatal)
  | gal_type.uchar =>
      (has_blank_loop c gal_type.uchar false (c.sizeof gal_type.uchar) data.size data.array
        fuel 0).map Except.ok
  | t => (has_blank_loop c t true (c.sizeof t) data.size data.array fuel 0).map Except.ok

/-- One of the loops of `gal_data_blank_to_value`, with the pointer at
element `k`: `do if(*p==BLANK) *p++=v; while(p<pf);`, where the pointer
moves on only when the element is blank, or for the complex types
`do if(...) GSL_SET_COMPLEX(...); while(++cx<cxf);` (`always = true`).  The
end pointer is `A+S` as in `gal_data_has_blank`. -/
def blank_to_value_loop (c : data_consts) (t : gal_type) (always : Bool) (w S : Nat)
    (v : gal_value) : Nat → Nat → List gal_value → Option (List gal_value)
  | 0, _, _ => none
  | fuel + 1, k, arr =>
      if is_blank_elem c t (rdV arr k) then
        if (k + 1) * w < S then blank_to_value_loop c t always w S v fuel (k + 1) (arr.set k v)
        else some (arr.set k v)
      else if (if always then k + 1 else k) * w < S then
        blank_to_value_loop c t always w S v fuel (if always then k + 1 else k) arr
      else some arr

/-- The function `gal_data_blank_to_value(data, value)` run for at most
`fuel` passes of its loop: `none` when the fuel runs out, otherwise the
array after the call or the fatal error of the `BIT` and `default`
cases. -/
def gal_data_blank_to_value (c : data_consts) (fuel : Nat) (data : gal_data_t)
    (value : gal_value) : Option (Except halt (List gal_value)) :=
  match data.type with
  | gal_type.bit => some (Except.error halt.fatal)
  | gal_type.other => some (Except.error halt.fatal)
  | gal_type.complex =>
      (blank_to_value_loop c gal_type.complex true (c.sizeof gal_type.complex) data.size value
        fuel 0 data.array).map Except.ok
  | gal_type.dcomplex =>
      (blank_to_value_loop c gal_type.dcomplex true (c.sizeof gal_type.dcomplex) data.size value
        fuel 0 data.array).map Except.ok
  | t => (blank_to_value_loop c t false (c.sizeof t) data.size value fuel 0 data.array).map
      Except.ok

/-- What one pass of the loop of `gal_data_apply_mask` leaves in an element
`x` of type `t` whose mask element is `m`: `*p = *mpt++==0.0f ? *p : BLANK`
for the integer, string and floating point types,
`if(*mpt++ == 0.0f) GSL_SET_COMPLEX(cx, BLANK, BLANK)` for the complex
ones. -/
def apply_mask_elem (c : data_consts) (t : gal_type) (m : Flt) (x : gal_value) : gal_value :=
  match t with
  | gal_type.complex =>
      if Flt.ceq m (Flt.fin 0) then gal_value.cplx c.GAL_DATA_BLANK_FLOAT c.GAL_DATA_BLANK_FLOAT
      else x
  | gal_type.dcomplex =>
      if Flt.ceq m (Flt.fin 0) then gal_value.cplx c.GAL_DATA_BLANK_DOUBLE c.GAL_DATA_BLANK_DOUBLE
      else x
  | gal_type.float => if Flt.ceq m (Flt.fin 0) then x else gal_value.flt c.GAL_DATA_BLANK_FLOAT
  | gal_type.double => if Flt.ceq m (Flt.fin 0) then x else gal_value.flt c.GAL_DATA_BLANK_DOUBLE
  | t => if Flt.ceq m (Flt.fin 0) then x else c.blank t

/-- The function `gal_data_apply_mask(in, mask)`: the input after the call,
or the fatal error of a mask of another shape and of the `BIT` and `default`
cases.  The loops are `do ... while(++p<pf)` over the `in->size` elements
(one pass at least). -/
def gal_data_apply_mask (c : data_consts) (inp mask : gal_data_t) : Except halt gal_data_t :=
  if inp.ndim ≠ mask.ndim then Except.error halt.fatal
  else if gal_data_dsize_is_different inp mask ≠ 0 then Except.error halt.fatal
  else
    let converted := if mask.type = gal_type.float then mask
      else c.gal_data_copy_to_new_type mask
    let mpt := fun k => (rdV converted.array k).real
    let n := max 1 inp.size
    if (List.range n).any (fun k => !(Flt.ceq (mpt k) (Flt.fin 0))) then
      if inp.type = gal_type.bit ∨ inp.type = gal_type.other then Except.error halt.fatal
      else
        Except.ok { inp with
          array := (List.range inp.array.length).map (fun k =>
            if k < n then apply_mask_elem c inp.type (mpt k) (rdV inp.array k)
            else rdV inp.array k) }
    else Except.ok inp

/-! ## Filling holes (`binary.c`)

The inverse array of `fh_makeinv` has `idx = s0+4` rows and `idy = s1+4`
columns: the grid with a margin of two pixels on each side. -/

/-- The loop `for(j=lo;j<=hi;++j) inv[target(j)]=2;`. -/
def fill_range (target : Nat → Nat) (lo hi : Nat) (inv : List Nat) : List Nat :=
  (List.range' lo (hi + 1 - lo)).foldl (fun a j => a.set (target j) 2) inv

/-- One pass of the first loop of `fillleftside`, `fillbottomside`,
`fillrightside` and `filltopside` on the state `(inv, min_o)`, for the pixel
`index(i)` that the side reads, the distance `step` to the next pixel along
the side, and the pixel `target(j)` that it writes. -/
def fillside_step (index : Nat → Nat) (step : Nat) (target : Nat → Nat) (maxfill : Nat)
    (st : List Nat × Nat) (i : Nat) : List Nat × Nat :=
  if rdN st.1 (index i) = 1 ∧ rdN st.1 (index i + step) = 0 then
    (if i + 1 - st.2 < maxfill then fill_range target st.2 (i + 1) st.1 else st.1, i + 1)
  else if rdN st.1 (index i) = 0 ∧ rdN st.1 (index i + step) = 1 then (st.1, i)
  else st

/-- The body shared by the four functions that fill along one side: the
loop `for(i=2;i<end;++i)` from `min_o=1`, then the last
`if(min_o!=1 && end-min_o<maxfill)`. -/
def fillside (index : Nat → Nat) (step : Nat) (target : Nat → Nat) (end_ maxfill : Nat)
    (inv : List Nat) : List Nat :=
  let st := (List.range' 2 (end_ - 2)).foldl (fillside_step index step target maxfill) (inv, 1)
  if st.2 ≠ 1 ∧ end_ - st.2 < maxfill then fill_range target st.2 end_ st.1 else st.1

/-- The function `fillleftside(inv, idx, idy, maxfill)`. -/
def fillleftside (inv : List Nat) (idx idy maxfill : Nat) : List Nat :=
  fillside (fun i => i * idy + 2) idy (fun j => j * idy + 1) (idx - 2) maxfill inv

/-- The function `fillbottomside(inv, idy, maxfill)`. -/
def fillbottomside (inv : List Nat) (idy maxfill : Nat) : List Nat :=
  fillside (fun i => 2 * idy + i) 1 (fun j => idy + j) (idy - 2) maxfill inv

/-- The function `fillrightside(inv, idx, idy, maxfill)`. -/
def fillrightside (inv : List Nat) (idx idy maxfill : Nat) : List Nat :=
  fillside (fun i => i * idy + idy - 3) idy (fun j => j * idy + idy - 2) (idx - 2) maxfill inv

/-- The function `filltopside(inv, idx, idy, maxfill)`. -/
def filltopside (inv : List Nat) (idx idy maxfill : Nat) : List Nat :=
  fillside (fun i => (idx - 3) * idy + i) 1 (fun j => (idx - 2) * idy + j) (idy - 2) maxfill inv

/-- The pixels of a grid of `s0` rows and `s1` columns in the order of the
loops `for(i=0;i<s0;++i) for(j=0;j<s1;++j)`. -/
def grid_pixels (s0 s1 : Nat) : List (Nat × Nat) :=
  (List.range s0).flatMap (fun i => (List.range s1).map (fun j => (i, j)))

/-- The function `fh_makeinv(byt, s0, s1, &inv, &oidx, &oidy, l, b, r, t)`:
the inverse array with `idx` and `idy`.  The array starts as all 1, is 0
where the grid is 1, and the sides are filled only for the arguments that
are not 0. -/
def fh_makeinv (byt : List Nat) (s0 s1 l b r t : Nat) : List Nat × Nat × Nat :=
  let tdiff := 2
  let idx := s0 + 2 * tdiff
  let idy := s1 + 2 * tdiff
  let tinv0 := List.replicate (idx * idy) 1
  let tinv1 := (grid_pixels s0 s1).foldl
    (fun a ij => if rdN byt (ij.1 * s1 + ij.2) = 1 then a.set ((ij.1 + tdiff) * idy + ij.2 + tdiff) 0
      else a) tinv0
  let tinv2 := if l ≠ 0 then fillleftside tinv1 idx idy l else tinv1
  let tinv3 := if b ≠ 0 then fillbottomside tinv2 idy b else tinv2
  let tinv4 := if r ≠ 0 then fillrightside tinv3 idx idy r else tinv3
  let tinv5 := if t ≠ 0 then filltopside tinv4 idx idy t else tinv4
  let tinv6 := if l ≠ 0 ∨ b ≠ 0 ∨ r ≠ 0 ∨ t ≠ 0 then tinv5.map (fun x => if x = 2 then 0 else x)
    else tinv5
  (tinv6, idx, idy)

/-- Modelled from the spec: the neighbours that the missing `BF_concmp`
joins, for the pixel of index `k` in a grid of `s0` rows and `s1` columns:
the four orthogonal in-grid ones, and with `connectivity` 8 the four
diagonal ones too. -/
def nbrs (connectivity s0 s1 k : Nat) : List Nat :=
  let i := k / s1
  let j := k % s1
  (if 1 ≤ i then [k - s1] else [])
  ++ (if i + 1 < s0 then [k + s1] else [])
  ++ (if 1 ≤ j then [k - 1] else [])
  ++ (if j + 1 < s1 then [k + 1] else [])
  ++ (if connectivity = 8 then
        (if 1 ≤ i ∧ 1 ≤ j then [k - s1 - 1] else [])
        ++ (if 1 ≤ i ∧ j + 1 < s1 then [k - s1 + 1] else [])
        ++ (if i + 1 < s0 ∧ 1 ≤ j then [k + s1 - 1] else [])
        ++ (if i + 1 < s0 ∧ j + 1 < s1 then [k + s1 + 1] else [])
      else [])

/-- Modelled from the spec: one step of growing a set `S` of pixels inside
the non-zero pixels of `byt`, for the missing `BF_concmp`: a non-zero pixel
with a neighbour in `S` joins `S`. -/
def grow (byt : List Nat) (connectivity s0 s1 : Nat) (S : List Bool) : List Bool :=
  (List.range (s0 * s1)).map (fun k =>
    S.getD k false
      || (decide (rdN byt k ≠ 0) && (nbrs connectivity s0 s1 k).any (fun n => S.getD n false)))

/-- Modelled from the spec: the connected component of the pixel `seed`
among the non-zero pixels of `byt`, for the missing `BF_concmp`, as a set of
pixels: the set that holds `seed` alone, grown once per pixel of the grid. -/
def flood (byt : List Nat) (connectivity s0 s1 seed : Nat) : List Bool :=
  (grow byt connectivity s0 s1)^[s0 * s1] ((List.range (s0 * s1)).map (fun k => decide (k = seed)))

/-- Modelled from the spec: one pixel `k` of the scan of the missing
`BF_concmp` on the state `(lab, curlab)`: a non-zero pixel without a label
starts the next label, which goes to the pixels of its connected
component. -/
def BF_concmp_step (byt : List Nat) (connectivity s0 s1 : Nat) (st : List Int × Int) (k : Nat) :
    List Int × Int :=
  if rdN byt k ≠ 0 ∧ rdI st.1 k = 0 then
    ((List.range (s0 * s1)).map (fun n =>
        if (flood byt connectivity s0 s1 k).getD n false = true ∧ rdI st.1 n = 0 then st.2 + 1
        else rdI st.1 n),
      st.2 + 1)
  else st

/-- Modelled from the spec: the function `BF_concmp(byt, lab, s0, s1,
connectivity)`, of which the sources at hand only have the declaration
(`label.h`).  It labels the connected components of the non-zero pixels of
`byt`, under the given connectivity, from 1 upward in scan order (the
component of the first non-zero pixel gets 1, that of the first non-zero
pixel outside it gets 2, and so on), leaves 0 on the pixels that are 0, and
returns the number of labels: the labels `lab` and that number. -/
def BF_concmp (byt : List Nat) (s0 s1 connectivity : Nat) : List Int × Nat :=
  let r := (List.range (s0 * s1)).foldl (BF_concmp_step byt connectivity s0 s1)
    (List.replicate (s0 * s1) 0, 0)
  (r.1, r.2.toNat)

/-- The function `fillboundedholes(in, s0, s1)`: the array `in` after the
call. -/
def fillboundedholes (inp : List Nat) (s0 s1 : Nat) : List Nat :=
  let m := fh_makeinv inp s0 s1 0 0 0 0
  let inv := m.1
  let idx := m.2.1
  let idy := m.2.2
  let diff := (idx - s0) / 2
  let hlab := (BF_concmp inv idx idy 8).1
  ((List.range' diff (idx - diff - diff)).flatMap
      (fun i => (List.range' diff (idy - diff - diff)).map (fun j => (i, j)))).foldl
    (fun a ij => if rdI hlab (ij.1 * idy + ij.2) > 1 then a.set ((ij.1 - diff) * s1 + ij.2 - diff) 1
      else a) inp

/-! ## The divisions of `detection_sn` -/

/-- The divisor `sqrt(ave+err)` of the S/N that `detection_sn` stores for an
eligible label `i`: `ave` is the mean less the Sky of the tile, `err` the
noise variance of the tile. -/
def detection_sn_noise (p : noisechiselparams) (acc : snarrays) (i : Nat) : Flt :=
  let pcols := 1 + p.ndim
  let a := p.arith
  let coord := (List.range p.ndim).map (fun j =>
    p.GAL_DIMENSION_FLT_TO_INT
      (a.div Prec.double (rdF acc.pos (i * pcols + j + 1)) (rdF acc.pos (i * pcols))))
  let ave := a.sub Prec.double (detection_sn_ave p acc i)
    (rdF p.sky (p.gal_tile_full_id_from_coord coord))
  let err0 := rdF p.std (p.gal_tile_full_id_from_coord coord)
  let err := a.mul Prec.double err0
    (if p.skysubtracted then err0 else a.mul Prec.double (Flt.fin 2) err0)
  a.sqrt Prec.double (a.add Prec.double ave err)

/-- The dividend `sqrt((float)(area[i])/p->cpscorr) * ave` of the S/N that
`detection_sn` stores for an eligible label `i`. -/
def detection_sn_signal (p : noisechiselparams) (acc : snarrays) (i : Nat) : Flt :=
  let pcols := 1 + p.ndim
  let a := p.arith
  let coord := (List.range p.ndim).map (fun j =>
    p.GAL_DIMENSION_FLT_TO_INT
      (a.div Prec.double (rdF acc.pos (i * pcols + j + 1)) (rdF acc.pos (i * pcols))))
  let ave := a.sub Prec.double (detection_sn_ave p acc i)
    (rdF p.sky (p.gal_tile_full_id_from_coord coord))
  a.mul Prec.double
    (a.sqrt Prec.double (a.div Prec.single (a.ofNat Prec.single (rdN acc.area i)) p.cpscorr))
    ave

/-- The C division `x/y` with its divisor watched: no result when `y` is
zero. -/
def div_checked (a : FloatArith) (prec : Prec) (x y : Flt) : Option Flt :=
  if y = Flt.fin 0 then none else some (a.div prec x y)

/-- The results of a sequence of watched divisions: none as soon as one of
them has none. -/
def all_checked : List (Option Flt) → Option (List Flt)
  | [] => some []
  | none :: _ => none
  | some x :: r => (all_checked r).map (fun xs => x :: xs)

/-- One pass of the body of `for(i=1;i<tablen;++i)` in `detection_sn`,
statement by statement, with every division watched (`div_checked`): the
pass has no result as soon as it divides by zero.  The division
`ave=brightness[i]/area[i]` comes first, before the test; inside the test
come the divisions `pos[i*pcols+j+1]/pos[i*pcols]` of the centre, one per
dimension, `(float)(area[i])/p->cpscorr` and the division by
`sqrt(ave+err)`. -/
def detection_sn_fill_step_checked (p : noisechiselparams) (acc : snarrays) (s0d1D2 : Nat)
    (s : snfill) (i : Nat) : Option snfill :=
  let pcols := 1 + p.ndim
  let a := p.arith
  (div_checked a Prec.double (rdF acc.brightness i)
      (a.ofNat Prec.double (rdN acc.area i))).bind (fun ave0 =>
    if decide (rdN acc.area i > p.detsnminarea) && Flt.gt ave0 (Flt.fin 0)
        && Flt.gt (rdF acc.pos (i * pcols)) (Flt.fin 0) then
      (all_checked ((List.range p.ndim).map (fun j =>
          div_checked a Prec.double (rdF acc.pos (i * pcols + j + 1))
            (rdF acc.pos (i * pcols))))).bind (fun q =>
        let coord := q.map p.GAL_DIMENSION_FLT_TO_INT
        let ave := a.sub Prec.double ave0 (rdF p.sky (p.gal_tile_full_id_from_coord coord))
        let err0 := rdF p.std (p.gal_tile_full_id_from_coord coord)
        let err := a.mul Prec.double err0
          (if p.skysubtracted then err0 else a.mul Prec.double (Flt.fin 2) err0)
        let ind := if s0d1D2 ≠ 0 then i else s.counter
        (div_checked a Prec.single (a.ofNat Prec.single (rdN acc.area i)) p.cpscorr).bind
          (fun r =>
            (div_checked a Prec.double (a.mul Prec.double (a.sqrt Prec.double r) ave)
                (a.sqrt Prec.double (a.add Prec.double ave err))).map (fun v =>
              { snarr := s.snarr.set ind (a.cvt Prec.single v)
                indarr := s.indarr.map (fun x => x.set ind (i : Int))
                counter := if s0d1D2 ≠ 0 then s.counter else s.counter + 1 })))
    else if s0d1D2 ≠ 0 then
      some { s with
        snarr := s.snarr.set i Flt.nan
        indarr := s.indarr.map (fun x => x.set i GAL_BLANK_INT32) }
    else some s)

/-- The loop `for(i=1;i<tablen;++i)` of `detection_sn` with every division
watched, from the state `s` over the labels of `labels`: no result as soon
as a pass divides by zero. -/
def detection_sn_fill_checked_from (p : noisechiselparams) (acc : snarrays) (s0d1D2 : Nat) :
    snfill → List Nat → Option snfill
  | s, [] => some s
  | s, i :: rest =>
      (detection_sn_fill_step_checked p acc s0d1D2 s i).bind
        (fun s1 => detection_sn_fill_checked_from p acc s0d1D2 s1 rest)

/-- The function `detection_sn(p, worklab, num, s0d1D2, extname)` with the
divisions of its S/N loop watched: no result when a division by zero is
evaluated, and otherwise what `detection_sn` does. -/
def detection_sn_checked (p : noisechiselparams) (worklab : List Int) (num : Nat)
    (s0d1D2 : Nat) : Option (Except halt snresult) :=
  if p.ndim ≠ 2 ∧ p.ndim ≠ 3 then some (Except.error halt.fatal)
  else
    let acc := detection_sn_accumulate p worklab num s0d1D2
    (detection_sn_fill_checked_from p acc s0d1D2 (snfill.init p num s0d1D2)
        (List.range' 1 num)).map (fun s =>
      let size := if s0d1D2 = 0 then s.counter else num + 1
      if p.checkdetsn = true ∧ s0d1D2 = 2 ∧ p.continueaftercheck = false then
        Except.error halt.after_check
      else
        Except.ok { sn := { array := s.snarr, size := size }
                    snind := s.indarr.map (fun a => a.take size)
                    worklab := detection_sn_check p acc s0d1D2 worklab })

/-! ## The function `detection` -/

/-- The library functions that `detection` calls after
`detection_remove_false_initial`, declared in headers outside the sources at
hand: they are left open. -/
structure dilate_lib where
  /-- The call `gal_binary_dilate(workbin, num, connectivity, 1)`: the array
  of `workbin` after it. -/
  gal_binary_dilate : List Nat → Nat → Nat → Int → List Nat
  /-- The call `gal_binary_connected_components(workbin, &p->olabel,
  connectivity)`: the labels and the returned number of labels. -/
  gal_binary_connected_components : List Nat → Int → List Int × Nat

/-- The part of `detection(p)` that follows its call of
`detection_pseudo_real`, given the grid `workbin` that the call returned
(timing reports and check images aside): removal of the false initial
detections, dilation and relabelling when `p->dilate` is set, removal of the
final detections with a small S/N when `p->cleandilated` is set, then
`p->binary=workbin` and `p->sky = p->std = NULL`.  With a check image and
without `p->continueaftercheck` NoiseChisel stops there. -/
def detection_from (lib : dilate_lib) (p : noisechiselparams) (workbin : List Nat) :
    Except halt noisechiselparams :=
  let r := detection_remove_false_initial p workbin
  let dilated := lib.gal_binary_dilate r.2.1 r.1.dilate r.1.ndim 1
  let labelled := lib.gal_binary_connected_components dilated 8
  let workbin1 := if r.1.dilate ≠ 0 then dilated else r.2.1
  let p1 := if r.1.dilate ≠ 0 then { r.1 with olabel := labelled.1 } else r.1
  let num_true_initial := if r.1.dilate ≠ 0 then labelled.2 else r.2.2
  (if p1.cleandilated then
     (detection_final_remove_small_sn p1 num_true_initial).map
       (fun f => { f.1 with numdetections := f.2 })
   else Except.ok { p1 with numdetections := num_true_initial }).bind
    (fun p2 =>
      if p2.detectionname = true ∧ p2.continueaftercheck = false then
        Except.error halt.after_check
      else Except.ok { p2 with binary := workbin1, sky := [], std := [] })

/-- The functions and the tiles that `detection` uses up to its call of
`detection_remove_false_initial` and that are declared outside the sources
at hand: they are left open. -/
structure pseudo_lib where
  /-- The call `sky_and_std(p, p->detskyname)`, which fills `p->sky` and
  `p->std`. -/
  sky_and_std : noisechiselparams → noisechiselparams
  /-- The call `threshold_apply(p, p->sky->array, p->std->array,
  THRESHOLD_SKY_STD)`, which fills `p->binary`. -/
  threshold_apply : noisechiselparams → noisechiselparams
  /-- The large tiles `p->ltl.tiles`: each one as the indices of its pixels
  in the full array, in the order in which `GAL_TILE_PARSE_OPERATE` visits
  them. -/
  tiles : List (List Nat)
  /-- The call `gal_binary_fill_holes(copy)` on the copy of the tile of the
  given number: the array of `copy` after it. -/
  gal_binary_fill_holes : Nat → List Nat → List Nat
  /-- The call `gal_binary_open(copy, 1, 1, 1)` on the copy of the tile of
  the given number: the array of `copy` after it. -/
  gal_binary_open : Nat → List Nat → List Nat
  /-- The call `gal_statistics_quantile(sn, p->detquant, 1)`: the value
  read from the dataset it returns. -/
  gal_statistics_quantile : sntable → Flt

/-- The function `detection_write_in_large(tile, copy)`: the elements of
`copy` go to the pixels of the tile, in order. -/
def detection_write_in_large (workbin : List Nat) (tile : List Nat) (copy : List Nat) :
    List Nat :=
  (tile.zip copy).foldl (fun w ic => w.set ic.1 ic.2) workbin

/-- The call `gal_threads_spin_off(detection_fill_holes_open, &fho_prm,
p->ltl.tottiles, p->cp.numthreads)` with `fho_prm.step` equal to `step`, on
the array `workbin`: every large tile is copied, its holes are filled, it is
opened unless `step` is 1, and it is written back.  The tiles are taken one
after the other (the threads work on different tiles). -/
def detection_fill_holes_open (lib : pseudo_lib) (step : Nat) (workbin : List Nat) : List Nat :=
  (List.range lib.tiles.length).foldl
    (fun w t =>
      let tile := lib.tiles.getD t []
      let copy := lib.gal_binary_fill_holes t (tile.map (rdN w))
      if step = 1 then detection_write_in_large w tile copy
      else detection_write_in_large w tile (lib.gal_binary_open t copy))
    workbin

/-- The function `detection_pseudo_find(p, workbin, worklab, s0d1)`: the
array of `workbin` after the call, the labels written in `worklab` and the
returned number of labels.  Every element of `workbin` is first written by
`detection_pseudo_sky_or_det`.  With a check image the holes are filled on a
copy that is written out (step 1), then the copy is taken again from
`workbin`, filled and opened (step 2) and becomes the array of `workbin`;
without one the tiles are filled and opened in place (step 0). -/
def detection_pseudo_find (lib : pseudo_lib) (dl : dilate_lib) (p : noisechiselparams)
    (s0d1 : Int) : List Nat × List Int × Nat :=
  let workbin := detection_pseudo_sky_or_det p s0d1
  let workbin1 := if p.detectionname then detection_fill_holes_open lib 2 workbin
    else detection_fill_holes_open lib 0 workbin
  let cc := dl.gal_binary_connected_components workbin1 1
  (workbin1, cc.1, cc.2)

/-- The function `detection_pseudo_real(p)` (its timing reports aside): the
parameters with `p->detsnthresh` set and the array of the returned
`workbin`.  An empty S/N table over the Sky is a fatal error. -/
def detection_pseudo_real (lib : pseudo_lib) (dl : dilate_lib) (p : noisechiselparams) :
    Except halt (noisechiselparams × List Nat) :=
  let sky := detection_pseudo_find lib dl p 0
  (detection_sn p sky.2.1 sky.2.2 0).bind (fun sn0 =>
    if sn0.sn.size = 0 then Except.error halt.fatal
    else
      let p1 := { p with detsnthresh := lib.gal_statistics_quantile sn0.sn }
      let det := detection_pseudo_find lib dl p1 1
      (detection_sn p1 det.2.1 det.2.2 1).map (fun sn1 =>
        (p1, detection_pseudo_remove_low_sn p1 sn1.worklab sn1.sn)))

/-- The function `detection(p)` (timing reports and check images aside):
`sky_and_std`, `threshold_apply`, `detection_pseudo_real`, then the part
embedded as `detection_from`. -/
def detection (lib : pseudo_lib) (dl : dilate_lib) (p : noisechiselparams) :
    Except halt noisechiselparams :=
  let p0 := lib.threshold_apply (lib.sky_and_std p)
  (detection_pseudo_real lib dl p0).bind (fun r => detection_from dl r.1 r.2)

/-! ## Filling holes for any labelling -/

/-- The part of `fillboundedholes(in, s0, s1)` that follows its call of
`BF_concmp`, for the labels `hlab` that the call left: the array `in` after
the loop `if(hlab[i*idy+j]>1) in[(i-diff)*s1+j-diff]=1;`. -/
def fillboundedholes_from (hlab : List Int) (inp : List Nat) (s0 s1 : Nat) : List Nat :=
  let m := fh_makeinv inp s0 s1 0 0 0 0
  let idx := m.2.1
  let idy := m.2.2
  let diff := (idx - s0) / 2
  ((List.range' diff (idx - diff - diff)).flatMap
      (fun i => (List.range' diff (idy - diff - diff)).map (fun j => (i, j)))).foldl
    (fun a ij => if rdI hlab (ij.1 * idy + ij.2) > 1 then a.set ((ij.1 - diff) * s1 + ij.2 - diff) 1
      else a) inp

/-! ## Column arithmetic of Table (`bin/table/arithmetic.c`)

The structures `tableparams`, `arithmetic_token` and `column_pack` are
declared in a header outside the sources at hand: their fields are taken
from the uses in `arithmetic.c`.  The functions and constants of the library
are left open (`table_lib`).  A fatal `error(EXIT_FAILURE, ...)` is
`halt.fatal`. -/

/-- What `arithmetic.c` takes from the library. -/
structure table_lib where
  /-- The code `GAL_ARITHMETIC_OP_INVALID`. -/
  GAL_ARITHMETIC_OP_INVALID : Int
  /-- The code `GAL_ARITHMETIC_OP_LAST_CODE`, the first one free for Table. -/
  GAL_ARITHMETIC_OP_LAST_CODE : Int
  /-- The constant `GAL_BLANK_INT`. -/
  GAL_BLANK_INT : Int
  /-- The constant `GAL_BLANK_SIZE_T`. -/
  GAL_BLANK_SIZE_T : Nat
  /-- The call `gal_arithmetic_set_operator(string, num_operands)`: the
  returned code and the value left in `*num_operands`. -/
  gal_arithmetic_set_operator : String → Int × Int
  /-- The call `gal_arithmetic_operator_string(operator)`: `none` for `NULL`. -/
  gal_arithmetic_operator_string : Int → Option String
  /-- The call `gal_type_string_to_number(token, &ntype)`: the number and
  its type code, `none` for `NULL`. -/
  gal_type_string_to_number : String → Option (gal_value × Nat)
  /-- The call `gal_wcs_read(p->wcsfile, p->wcshdu, 0, 0, &p->nwcs)`: the WCS
  and the value left in `p->nwcs`, `none` for `NULL`. -/
  gal_wcs_read : String → String → Option (Nat × Int)

/-- The code `ARITHMETIC_TABLE_OP_SET` of `enum arithmetic_operators`. -/
def ARITHMETIC_TABLE_OP_SET (c : table_lib) : Int := c.GAL_ARITHMETIC_OP_LAST_CODE

/-- The code `ARITHMETIC_TABLE_OP_SIN`. -/
def ARITHMETIC_TABLE_OP_SIN (c : table_lib) : Int := c.GAL_ARITHMETIC_OP_LAST_CODE + 1

/-- The code `ARITHMETIC_TABLE_OP_COS`. -/
def ARITHMETIC_TABLE_OP_COS (c : table_lib) : Int := c.GAL_ARITHMETIC_OP_LAST_CODE + 2

/-- The code `ARITHMETIC_TABLE_OP_TAN`. -/
def ARITHMETIC_TABLE_OP_TAN (c : table_lib) : Int := c.GAL_ARITHMETIC_OP_LAST_CODE + 3

/-- The code `ARITHMETIC_TABLE_OP_ASIN`. -/
def ARITHMETIC_TABLE_OP_ASIN (c : table_lib) : Int := c.GAL_ARITHMETIC_OP_LAST_CODE + 4

/-- The code `ARITHMETIC_TABLE_OP_ACOS`. -/
def ARITHMETIC_TABLE_OP_ACOS (c : table_lib) : Int := c.GAL_ARITHMETIC_OP_LAST_CODE + 5

/-- The code `ARITHMETIC_TABLE_OP_ATAN`. -/
def ARITHMETIC_TABLE_OP_ATAN (c : table_lib) : Int := c.GAL_ARITHMETIC_OP_LAST_CODE + 6

/-- The code `ARITHMETIC_TABLE_OP_ATAN2`. -/
def ARITHMETIC_TABLE_OP_ATAN2 (c : table_lib) : Int := c.GAL_ARITHMETIC_OP_LAST_CODE + 7

/-- The code `ARITHMETIC_TABLE_OP_SINH`. -/
def ARITHMETIC_TABLE_OP_SINH (c : table_lib) : Int := c.GAL_ARITHMETIC_OP_LAST_CODE + 8

/-- The code `ARITHMETIC_TABLE_OP_COSH`. -/
def ARITHMETIC_TABLE_OP_COSH (c : table_lib) : Int := c.GAL_ARITHMETIC_OP_LAST_CODE + 9

/-- The code `ARITHMETIC_TABLE_OP_TANH`. -/
def ARITHMETIC_TABLE_OP_TANH (c : table_lib) : Int := c.GAL_ARITHMETIC_OP_LAST_CODE + 10

/-- The code `ARITHMETIC_TABLE_OP_ASINH`. -/
def ARITHMETIC_TABLE_OP_ASINH (c : table_lib) : Int := c.GAL_ARITHMETIC_OP_LAST_CODE + 11

/-- The code `ARITHMETIC_TABLE_OP_ACOSH`. -/
def ARITHMETIC_TABLE_OP_ACOSH (c : table_lib) : Int := c.GAL_ARITHMETIC_OP_LAST_CODE + 12

/-- The code `ARITHMETIC_TABLE_OP_ATANH`. -/
def ARITHMETIC_TABLE_OP_ATANH (c : table_lib) : Int := c.GAL_ARITHMETIC_OP_LAST_CODE + 13

/-- The code `ARITHMETIC_TABLE_OP_WCSTOIMG`. -/
def ARITHMETIC_TABLE_OP_WCSTOIMG (c : table_lib) : Int := c.GAL_ARITHMETIC_OP_LAST_CODE + 14

/-- The code `ARITHMETIC_TABLE_OP_IMGTOWCS`. -/
def ARITHMETIC_TABLE_OP_IMGTOWCS (c : table_lib) : Int := c.GAL_ARITHMETIC_OP_LAST_CODE + 15

/-- The code `ARITHMETIC_TABLE_OP_DATETOSEC`. -/
def ARITHMETIC_TABLE_OP_DATETOSEC (c : table_lib) : Int := c.GAL_ARITHMETIC_OP_LAST_CODE + 16

/-- The code `ARITHMETIC_TABLE_OP_DISTANCEFLAT`. -/
def ARITHMETIC_TABLE_OP_DISTANCEFLAT (c : table_lib) : Int :=
  c.GAL_ARITHMETIC_OP_LAST_CODE + 17

/-- The code `ARITHMETIC_TABLE_OP_DISTANCEONSPHERE`. -/
def ARITHMETIC_TABLE_OP_DISTANCEONSPHERE (c : table_lib) : Int :=
  c.GAL_ARITHMETIC_OP_LAST_CODE + 18

/-- One node of the list of tokens of an arithmetic column (`struct
arithmetic_token`, its `next` pointer aside). -/
structure arithmetic_token where
  /-- The operator code `operator`. -/
  operator : Int
  /-- The number of operands `num_operands`. -/
  num_operands : Int
  /-- The dataset `constant` of a number: the number and its type code. -/
  constant : Option (gal_value × Nat)
  /-- The column `index`, `GAL_BLANK_SIZE_T` when the token is no column. -/
  index : Nat
deriving DecidableEq

/-- One package of output columns (`struct column_pack`, its `next` pointer
aside): a run of simple columns, or the tokens of an arithmetic column
(no token for `NULL`). -/
structure column_pack where
  /-- The first column `start` of a run of simple columns. -/
  start : Nat
  /-- The number `numsimple` of simple columns. -/
  numsimple : Nat
  /-- The list `tokens` of an arithmetic column. -/
  tokens : List arithmetic_token
deriving DecidableEq

/-- The fields of `struct tableparams` that `arithmetic.c` reads or writes
in the functions below. -/
structure tableparams where
  /-- The WCS `p->wcs`, `none` for `NULL`. -/
  wcs : Option Nat := none
  /-- The number `p->nwcs`. -/
  nwcs : Int := 0
  /-- The file name `p->wcsfile`, `none` for `NULL`. -/
  wcsfile : Option String := none
  /-- The extension `p->wcshdu`, `none` for `NULL`. -/
  wcshdu : Option String := none
  /-- The list `p->outcols`. -/
  outcols : List column_pack := []
deriving DecidableEq

/-- The function `arithmetic_operator_name(operator)`. -/
def arithmetic_operator_name (c : table_lib) (operator : Int) : Except halt String :=
  match c.gal_arithmetic_operator_string operator with
  | some out => Except.ok out
  | none =>
    if operator = ARITHMETIC_TABLE_OP_SIN c then Except.ok "sin"
    else if operator = ARITHMETIC_TABLE_OP_COS c then Except.ok "cos"
    else if operator = ARITHMETIC_TABLE_OP_TAN c then Except.ok "tan"
    else if operator = ARITHMETIC_TABLE_OP_ASIN c then Except.ok "asin"
    else if operator = ARITHMETIC_TABLE_OP_ACOS c then Except.ok "acos"
    else if operator = ARITHMETIC_TABLE_OP_ATAN c then Except.ok "atan"
    else if operator = ARITHMETIC_TABLE_OP_SINH c then Except.ok "sinh"
    else if operator = ARITHMETIC_TABLE_OP_COSH c then Except.ok "cosh"
    else if operator = ARITHMETIC_TABLE_OP_TANH c then Except.ok "tanh"
    else if operator = ARITHMETIC_TABLE_OP_ASINH c then Except.ok "asinh"
    else if operator = ARITHMETIC_TABLE_OP_ACOSH c then Except.ok "acosh"
    else if operator = ARITHMETIC_TABLE_OP_ATANH c then Except.ok "atanh"
    else if operator = ARITHMETIC_TABLE_OP_ATAN2 c then Except.ok "atan2"
    else if operator = ARITHMETIC_TABLE_OP_WCSTOIMG c then Except.ok "wcstoimg"
    else if operator = ARITHMETIC_TABLE_OP_IMGTOWCS c then Except.ok "imgtowcs"
    else if operator = ARITHMETIC_TABLE_OP_DISTANCEFLAT c then Except.ok "distance-flat"
    else if operator = ARITHMETIC_TABLE_OP_DISTANCEONSPHERE c then
      Except.ok "distance-on-sphere"
    else Except.error halt.fatal

/-- The function `arithmetic_init_wcs(p, operator)`: `p` after the call. -/
def arithmetic_init_wcs (c : table_lib) (p : tableparams) : Except halt tableparams :=
  match p.wcs with
  | some _ => Except.ok p
  | none =>
    match p.wcsfile, p.wcshdu with
    | some wcsfile, some wcshdu =>
      match c.gal_wcs_read wcsfile wcshdu with
      | some w => Except.ok { p with wcs := some w.1, nwcs := w.2 }
      | none => Except.error halt.fatal
    | _, _ => Except.error halt.fatal

/-- The first part of `arithmetic_set_operator(p, string, num_operands)`:
the code `op` and the value of `*num_operands` before the
`switch(op)`. -/
def arithmetic_set_operator_code (c : table_lib) (string : String) : Int × Int :=
  let op := c.gal_arithmetic_set_operator string
  if op.1 = c.GAL_ARITHMETIC_OP_INVALID then
    if string = "sin" then (ARITHMETIC_TABLE_OP_SIN c, 0)
    else if string = "cos" then (ARITHMETIC_TABLE_OP_COS c, 0)
    else if string = "tan" then (ARITHMETIC_TABLE_OP_TAN c, 0)
    else if string = "asin" then (ARITHMETIC_TABLE_OP_ASIN c, 0)
    else if string = "acos" then (ARITHMETIC_TABLE_OP_ACOS c, 0)
    else if string = "atan" then (ARITHMETIC_TABLE_OP_ATAN c, 0)
    else if string = "atan2" then (ARITHMETIC_TABLE_OP_ATAN2 c, 0)
    else if string = "sinh" then (ARITHMETIC_TABLE_OP_SINH c, 0)
    else if string = "cosh" then (ARITHMETIC_TABLE_OP_COSH c, 0)
    else if string = "tanh" then (ARITHMETIC_TABLE_OP_TANH c, 0)
    else if string = "asinh" then (ARITHMETIC_TABLE_OP_ASINH c, 0)
    else if string = "acosh" then (ARITHMETIC_TABLE_OP_ACOSH c, 0)
    else if string = "atanh" then (ARITHMETIC_TABLE_OP_ATANH c, 0)
    else if string = "wcstoimg" then (ARITHMETIC_TABLE_OP_WCSTOIMG c, 0)
    else if string = "imgtowcs" then (ARITHMETIC_TABLE_OP_IMGTOWCS c, 0)
    else if string = "distance-flat" then (ARITHMETIC_TABLE_OP_DISTANCEFLAT c, 0)
    else if string = "distance-on-sphere" then (ARITHMETIC_TABLE_OP_DISTANCEONSPHERE c, 0)
    else (c.GAL_ARITHMETIC_OP_INVALID, c.GAL_BLANK_INT)
  else op

/-- The function `arithmetic_set_operator(p, string, num_operands)`: `p`
after the call, the returned code and the value of `*num_operands`. -/
def arithmetic_set_operator (c : table_lib) (p : tableparams) (string : String) :
    Except halt (tableparams × Int × Int) :=
  let op := arithmetic_set_operator_code c string
  if op.1 = ARITHMETIC_TABLE_OP_WCSTOIMG c ∨ op.1 = ARITHMETIC_TABLE_OP_IMGTOWCS c then
    (arithmetic_init_wcs c p).map (fun p1 => (p1, op))
  else Except.ok (p, op)

/-- The tokens that `strtok_r` cuts out of a string of characters: the
maximal runs of characters that are not delimiters, `cur` being the run
under way, last character first. -/
def strtok_split (delimiter : Char → Bool) : List Char → List Char → List (List Char)
  | [], cur => if cur.isEmpty then [] else [cur.reverse]
  | ch :: rest, cur =>
      if delimiter ch then
        if cur.isEmpty then strtok_split delimiter rest []
        else cur.reverse :: strtok_split delimiter rest []
      else strtok_split delimiter rest (ch :: cur)

/-- The tokens of `expression` that the calls `strtok_r(expression,
delimiter, &saveptr)` and `strtok_r(NULL, delimiter, &saveptr)` of
`arithmetic_init` return in turn, the delimiters being the space and the
tab. -/
def strtok_tokens (expression : String) : List String :=
  (strtok_split (fun ch => decide (ch = Char.ofNat 32) || decide (ch = Char.ofNat 9))
    expression.toList []).map String.mk

/-- The name that `arithmetic_init` adds to `toread` for a column token:
the token without its first character when it is a dollar sign followed by
a digit, the token otherwise. -/
def column_operand_name (token : String) : String :=
  match token.toList with
  | c0 :: c1 :: rest => if c0 = Char.ofNat 36 ∧ c1.isDigit = true then String.mk (c1 :: rest) else token
  | _ => token

/-- What the loop of `arithmetic_init` works on: `p`, the list `*arith`, the
list `*toread` (last added first), `*totcalled` and the node added last
(`none` for `NULL`). -/
structure arithmetic_init_state where
  /-- The parameters `p`. -/
  p : tableparams
  /-- The list `*arith`. -/
  arith : List arithmetic_token
  /-- The list `*toread`. -/
  toread : List String
  /-- The count `*totcalled`. -/
  totcalled : Nat
  /-- The node added last. -/
  node : Option arithmetic_token

/-- One pass of the `while(token!=NULL)` loop of `arithmetic_init`. -/
def arithmetic_init_token (c : table_lib) (s : arithmetic_init_state) (token : String) :
    Except halt arithmetic_init_state :=
  (arithmetic_set_operator c s.p token).map (fun r =>
    let node0 : arithmetic_token :=
      { operator := r.2.1, num_operands := r.2.2, constant := none,
        index := c.GAL_BLANK_SIZE_T }
    if r.2.1 = c.GAL_ARITHMETIC_OP_INVALID then
      match c.gal_type_string_to_number token with
      | some num =>
        { p := r.1, arith := s.arith ++ [{ node0 with constant := some num }],
          toread := s.toread, totcalled := s.totcalled,
          node := some { node0 with constant := some num } }
      | none =>
        { p := r.1, arith := s.arith ++ [{ node0 with index := s.totcalled }],
          toread := column_operand_name token :: s.toread, totcalled := s.totcalled + 1,
          node := some { node0 with index := s.totcalled } }
    else
      { p := r.1, arith := s.arith ++ [node0], toread := s.toread, totcalled := s.totcalled,
        node := some node0 })

/-- The loop of `arithmetic_init` over a list of tokens: it stops at the
first fatal error. -/
def arithmetic_init_loop (c : table_lib) :
    List String → arithmetic_init_state → Except halt arithmetic_init_state
  | [], s => Except.ok s
  | token :: rest, s =>
      match arithmetic_init_token c s token with
      | Except.error e => Except.error e
      | Except.ok s1 => arithmetic_init_loop c rest s1

/-- The function `arithmetic_init(p, arith, toread, totcalled, expression)`:
the state it leaves, or the fatal error. -/
def arithmetic_init (c : table_lib) (p : tableparams) (arith : List arithmetic_token)
    (toread : List String) (totcalled : Nat) (expression : String) :
    Except halt arithmetic_init_state :=
  match arithmetic_init_loop c (strtok_tokens expression)
      { p := p, arith := arith, toread := toread, totcalled := totcalled, node := none } with
  | Except.error e => Except.error e
  | Except.ok s =>
    match s.node with
    | none => Except.error halt.fatal
    | some node =>
      if node.operator = c.GAL_ARITHMETIC_OP_INVALID then Except.error halt.fatal
      else Except.ok s

/-- The loops `numcols=0; for(i=0;i<n;++i) numcols+=colmatch[start+i];` of
`arithmetic_indexs_final`. -/
def colmatch_count (colmatch : List Nat) (start n : Nat) : Nat :=
  (List.range n).foldl (fun numcols i => numcols + rdN colmatch (start + i)) 0

/-- The body of the loop of `arithmetic_indexs_final` over the tokens of an
arithmetic column. -/
def arithmetic_indexs_final_token (c : table_lib) (colmatch : List Nat)
    (atmp : arithmetic_token) : Except halt arithmetic_token :=
  if atmp.index ≠ c.GAL_BLANK_SIZE_T then
    if rdN colmatch atmp.index ≠ 1 then Except.error halt.fatal
    else Except.ok { atmp with index := colmatch_count colmatch 0 atmp.index }
  else Except.ok atmp

/-- A loop over the nodes of a list that rewrites each node and stops at
the first fatal error. -/
def for_each_node {α : Type} (body : α → Except halt α) : List α → Except halt (List α)
  | [] => Except.ok []
  | x :: rest =>
      match body x with
      | Except.error e => Except.error e
      | Except.ok y =>
        match for_each_node body rest with
        | Except.error e => Except.error e
        | Except.ok ys => Except.ok (y :: ys)

/-- The body of the loop of `arithmetic_indexs_final` over the packages of
columns. -/
def arithmetic_indexs_final_pack (c : table_lib) (colmatch : List Nat) (tmp : column_pack) :
    Except halt column_pack :=
  if tmp.tokens ≠ [] then
    match for_each_node (arithmetic_indexs_final_token c colmatch) tmp.tokens with
    | Except.error e => Except.error e
    | Except.ok tokens => Except.ok { tmp with tokens := tokens }
  else
    Except.ok { tmp with
      start := colmatch_count colmatch 0 tmp.start
      numsimple := colmatch_count colmatch tmp.start tmp.numsimple }

/-- The function `arithmetic_indexs_final(p, colmatch)`: `p` after the call
(the array `p->colarray` aside). -/
def arithmetic_indexs_final (c : table_lib) (p : tableparams) (colmatch : List Nat) :
    Except halt tableparams :=
  match for_each_node (arithmetic_indexs_final_pack c colmatch) p.outcols with
  | Except.error e => Except.error e
  | Except.ok outcols => Except.ok { p with outcols := outcols }

/-! ## Histogram bins and quantiles (`lib/statistics.c`)

The array `bins` has `2*(numbins+1)` entries: the lower side of bin `i` at
`i*2`, its value at `i*2+1`.  An access outside the array, which C leaves
undefined, ends the run: the functions return `none`.  The indices are
`size_t`: a subtraction wraps around modulo `2^64`. -/

/-- The C comparison `x >= y`. -/
def Flt.ge (x y : Flt) : Bool := Flt.gt x y || Flt.ceq x y

/-- The `size_t` difference `a-b`. -/
def size_t_sub (a b : Nat) : Nat := (a + 2 ^ 64 - b % 2 ^ 64) % 2 ^ 64

/-- A read of `bins[i]`. -/
def bins_read (bins : List Flt) (i : Nat) : Option Flt := bins[i]?

/-- A write `bins[i]=v`. -/
def bins_write (bins : List Flt) (i : Nat) (v : Flt) : Option (List Flt) :=
  if i < bins.length then some (bins.set i v) else none

/-- The variables of the first loop of `cumulativefp`, with whether the
loop has met its `break`. -/
structure cfp_state where
  /-- The array `bins`. -/
  bins : List Flt
  /-- The bin under way `cfprow`. -/
  cfprow : Nat
  /-- The count `numinds`. -/
  numinds : Nat
  /-- The value `prevind`. -/
  prevind : Flt
  /-- Whether the loop over the data has met `break`. -/
  stopped : Bool

/-- The loop `while(sorted[i]>=bins[(cfprow+1)*2])` of `cumulativefp` for
the datum `x`, at most `fuel` passes.  Each pass reads inside the array and
moves `cfprow` up, so that `bins.length` passes are never all used. -/
def cfp_while (a : FloatArith) (x : Flt) (numbins : Nat) : Nat → cfp_state → Option cfp_state
  | 0, _ => none
  | fuel + 1, s =>
    (bins_read s.bins ((s.cfprow + 1) * 2)).bind (fun next =>
      if Flt.ge x next then
        (bins_read s.bins (s.cfprow * 2 + 1)).bind (fun cur =>
          let v := if s.numinds > 0 then a.div Prec.single cur (a.ofNat Prec.single s.numinds)
            else s.prevind
          (bins_write s.bins (s.cfprow * 2 + 1) v).bind (fun bins1 =>
            let s1 : cfp_state :=
              { s with bins := bins1, prevind := v, numinds := 0, cfprow := s.cfprow + 1 }
            if s.cfprow + 1 = size_t_sub numbins 1 then some s1
            else cfp_while a x numbins fuel s1))
      else some s)

/-- One pass of the loop `for(i=0;i<size;++i)` of `cumulativefp`. -/
def cfp_step (a : FloatArith) (sorted : List Flt) (numbins : Nat) (s : cfp_state) (i : Nat) :
    Option cfp_state :=
  if s.stopped then some s
  else
    (bins_read s.bins (s.cfprow * 2)).bind (fun low =>
      if Flt.lt (rdF sorted i) low then some s
      else
        (if s.cfprow = size_t_sub numbins 1 then
          (bins_read s.bins (numbins * 2)).bind (fun top =>
            if Flt.gt (rdF sorted i) (a.add Prec.single top (Flt.fin (1 / 1000000))) then
              some { s with stopped := true }
            else some s)
         else cfp_while a (rdF sorted i) numbins s.bins.length s).bind (fun s1 =>
          if s1.stopped then some s1
          else
            (bins_read s1.bins (s1.cfprow * 2 + 1)).bind (fun cur =>
              (bins_write s1.bins (s1.cfprow * 2 + 1)
                (a.add Prec.single cur (a.ofNat Prec.single i))).map (fun bins1 =>
                  { s1 with bins := bins1, numinds := s1.numinds + 1 }))))

/-- A loop over a list of indices that reads and writes `bins` and ends at
the first access outside the array. -/
def bins_loop (body : List Flt → Nat → Option (List Flt)) :
    List Nat → List Flt → Option (List Flt)
  | [], bins => some bins
  | i :: rest, bins => (body bins i).bind (bins_loop body rest)

/-- The loop over the data of `cumulativefp`, ending at the first access
outside the array. -/
def cfp_loop (a : FloatArith) (sorted : List Flt) (numbins : Nat) :
    List Nat → cfp_state → Option cfp_state
  | [], s => some s
  | i :: rest, s => (cfp_step a sorted numbins s i).bind (cfp_loop a sorted numbins rest)

/-- The function `cumulativefp(sorted, size, bins, numbins, normcfp)` up to
its last loop: the array `bins` and the bin `cfprow` reached, once the last
bin is finalized and the values are normalized, `none` when an access falls
outside the array. -/
def cumulativefp_filled (a : FloatArith) (sorted : List Flt) (size : Nat) (bins : List Flt)
    (numbins : Nat) (normcfp : Bool) : Option (List Flt × Nat) :=
  (cfp_loop a sorted numbins (List.range size)
      { bins := bins, cfprow := 0, numinds := 0, prevind := Flt.fin 0, stopped := false }).bind
    (fun s =>
      (bins_read s.bins (s.cfprow * 2 + 1)).bind (fun cur =>
        (bins_write s.bins (s.cfprow * 2 + 1)
          (if s.numinds > 0 then a.div Prec.single cur (a.ofNat Prec.single s.numinds)
           else s.prevind)).bind (fun bins1 =>
          (if normcfp then
            bins_loop (fun b i => (bins_read b (i * 2 + 1)).bind (fun v =>
              bins_write b (i * 2 + 1) (a.div Prec.single v (a.ofNat Prec.single size))))
              (List.range numbins) bins1
           else some bins1).map (fun bins2 => (bins2, s.cfprow)))))

/-- The last loop of `cumulativefp`, `for(i=cfprow;i<numbins;++i)
bins[i*2+1]=bins[(cfprow-1)*2+1];`. -/
def cumulativefp_left_behind (bins : List Flt) (cfprow numbins : Nat) : Option (List Flt) :=
  bins_loop (fun b i => (bins_read b ((size_t_sub cfprow 1 * 2 + 1) % 2 ^ 64)).bind
      (fun v => bins_write b (i * 2 + 1) v))
    (List.range' cfprow (numbins - cfprow)) bins

/-- The function `cumulativefp(sorted, size, bins, numbins, normcfp)`: the
array `bins` after the call, `none` when an access falls outside it. -/
def cumulativefp (a : FloatArith) (sorted : List Flt) (size : Nat) (bins : List Flt)
    (numbins : Nat) (normcfp : Bool) : Option (List Flt) :=
  (cumulativefp_filled a sorted size bins numbins normcfp).bind
    (fun r => cumulativefp_left_behind r.1 r.2 numbins)

/-- The C conversion of a floating point value to an integer type: the
fraction is dropped.  C leaves the conversion of not-a-number and of the
infinities undefined: 0 here. -/
def Flt.trunc : Flt → Int
  | Flt.fin q => if q < 0 then -(Rat.floor (-q)) else Rat.floor q
  | _ => 0

/-- The function `indexfromquantile(size, quant)`. -/
def indexfromquantile (a : FloatArith) (size : Nat) (quant : Flt) : Except halt Nat :=
  if Flt.gt quant (Flt.fin 1) then Except.error halt.fatal
  else
    let floatindex := a.mul Prec.single (a.ofNat Prec.single size) quant
    if Flt.gt (a.sub Prec.single floatindex (a.cvt Prec.single (Flt.fin floatindex.trunc)))
        (Flt.fin (1 / 2)) then
      Except.ok (a.add Prec.single floatindex (Flt.fin 1)).trunc.toNat
    else Except.ok floatindex.trunc.toNat

/-- The range that `setbins(sorted, size, numbins, min, max, binonzero,
quant, obins)` takes from the data when `min==max`: the values of `min` and
`max` after its first `if`, `none` when a read falls outside the `size`
elements of `sorted`. -/
def setbins_range (a : FloatArith) (sorted : List Flt) (size : Nat) (min max quant : Flt) :
    Except halt (Option (Flt × Flt)) :=
  if Flt.ceq min max then
    if ¬ Flt.ceq quant (Flt.fin 0) then
      match indexfromquantile a size quant,
        indexfromquantile a size (a.sub Prec.single (Flt.fin 1) quant) with
      | Except.ok i, Except.ok j =>
        Except.ok (if i < size ∧ j < size then some (rdF sorted i, rdF sorted j) else none)
      | Except.error e, _ => Except.error e
      | _, Except.error e => Except.error e
    else
      Except.ok (if 0 < size then some (rdF sorted 0, rdF sorted (size - 1)) else none)
  else Except.ok (some (min, max))

/-! ## Reference notions for the statements -/

/-- Whether some pixel labelled `L` in `olabel` has the value 1 in `workbin`:
the initial detection `L` overlaps a true pseudo-detection. -/
def overlaps (olabel : List Int) (workbin : List Nat) (L : Int) : Bool :=
  (List.zip olabel workbin).any (fun lb => decide (lb.1 = L) && decide (lb.2 = 1))

/-- The number of initial labels `L` in `1..n` with at least one pixel where
`workbin` is 1. -/
def true_initial_count (n : Nat) (olabel : List Int) (workbin : List Nat) : Nat :=
  ((List.range' 1 n).filter (fun L => overlaps olabel workbin (L : Int))).length

/-- The value `detection_remove_false_initial` leaves in `workbin` at a pixel
`(label, value)`, in closed form. -/
def rfi_workbin_pixel (olabel : List Int) (workbin : List Nat) (lb : Int × Nat) : Nat :=
  if lb.1 = GAL_BLANK_INT32 then lb.2
  else if 0 < lb.1 ∧ overlaps olabel workbin lb.1 = true then 1 else 0

/-- The number of labels in `1..m` whose S/N in `snarr` is above the
threshold `p->detsnthresh`. -/
def kept_upto (p : noisechiselparams) (snarr : List Flt) (m : Nat) : Nat :=
  ((List.range' 1 m).filter (fun j => Flt.gt (rdF snarr j) p.detsnthresh)).length

/-- A sample state before `detection_final_remove_small_sn`: three final
detections and a blank pixel, on an input flagged as having blanks. -/
def sample_final : noisechiselparams :=
  { inputflag := 2, detsnthresh := Flt.fin 1,
    olabel := [1, 3, 0, GAL_BLANK_INT32, 2, 2], binary := [1, 1, 0, 255, 1, 1] }

/-- The labels of `1..m` that pass the eligibility test of `detection_sn`,
in ascending order. -/
def eligible_labels (p : noisechiselparams) (acc : snarrays) (m : Nat) : List Nat :=
  (List.range' 1 m).filter (detection_sn_eligible p acc)

/-- A sample input of `detection_sn`: an image of two rows and three columns
with one blank pixel and one initial detection, a single tile. -/
def sample_sn : noisechiselparams :=
  { ndim := 2, dsize := [2, 3],
    input := [Flt.fin 1, Flt.fin 2, Flt.fin 3, Flt.nan, Flt.fin 5, Flt.fin (-1)],
    olabel := [0, 0, 1, 0, 0, 0], sky := [Flt.fin 0], std := [Flt.fin 1] }

/-- Whether some test of `checks` on the index `k` reads a neighbour that
holds `f` in `byt`. -/
def fires (byt : List Nat) (f : Nat) (checks : List (Nat × List Nat)) (k : Nat) : Bool :=
  checks.any (fun c => decide (c.1 = k) && c.2.any (fun n => decide (rdN byt n = f)))

/-- The index `n` is that of a pixel next to the pixel of index `k` in its
row or in its column, both inside the grid of `nr` rows and `nc` columns. -/
def adj4 (nr nc k n : Nat) : Prop :=
  ∃ i j i' j', k = i * nc + j ∧ n = i' * nc + j' ∧ i < nr ∧ j < nc ∧ i' < nr ∧ j' < nc
    ∧ ((i' = i ∧ (j' = j + 1 ∨ j = j' + 1)) ∨ (j' = j ∧ (i' = i + 1 ∨ i = i' + 1)))

/-- The index `n` is read as a neighbour by a test of `checks` on the
index `k`. -/
def tested (checks : List (Nat × List Nat)) (k n : Nat) : Prop :=
  ∃ c ∈ checks, c.1 = k ∧ n ∈ c.2

/-- Whether one of the in-grid orthogonal neighbours of the pixel of row `i`
and column `j` holds `v` in `byt`: the pixels above, below, to the left and
to the right, those that lie inside the grid of `nr` rows and `nc` columns. -/
def has_nbr4 (byt : List Nat) (nr nc i j v : Nat) : Bool :=
  (decide (0 < i) && decide (rdN byt ((i - 1) * nc + j) = v))
  || (decide (i + 1 < nr) && decide (rdN byt ((i + 1) * nc + j) = v))
  || (decide (0 < j) && decide (rdN byt (i * nc + (j - 1)) = v))
  || (decide (j + 1 < nc) && decide (rdN byt (i * nc + (j + 1)) = v))

/-- The index `n` is that of a neighbour that `dilate0_erode1_8con` reads
for the pixel of index `k`: one of the eight pixels around it, both inside
the grid, but not the one above and to the right of a pixel of the body. -/
def read8 (nr nc k n : Nat) : Prop :=
  ∃ i j i' j', k = i * nc + j ∧ n = i' * nc + j' ∧ i < nr ∧ j < nc ∧ i' < nr ∧ j' < nc
    ∧ i' ≤ i + 1 ∧ i ≤ i' + 1 ∧ j' ≤ j + 1 ∧ j ≤ j' + 1 ∧ (i' ≠ i ∨ j' ≠ j)
    ∧ ¬ (1 ≤ i ∧ i + 1 < nr ∧ 1 ≤ j ∧ j + 1 < nc ∧ i = i' + 1 ∧ j' = j + 1)

/-- Whether one of the in-grid neighbours of the pixel of row `i` and column
`j`, orthogonal or diagonal, holds `v` in `byt`. -/
def has_nbr8 (byt : List Nat) (nr nc i j v : Nat) : Bool :=
  has_nbr4 byt nr nc i j v
  || (decide (0 < i ∧ 0 < j) && decide (rdN byt ((i - 1) * nc + (j - 1)) = v))
  || (decide (0 < i ∧ j + 1 < nc) && decide (rdN byt ((i - 1) * nc + (j + 1)) = v))
  || (decide (i + 1 < nr ∧ 0 < j) && decide (rdN byt ((i + 1) * nc + (j - 1)) = v))
  || (decide (i + 1 < nr ∧ j + 1 < nc) && decide (rdN byt ((i + 1) * nc + (j + 1)) = v))

/-- Whether one of the neighbours that `dilate0_erode1_8con` reads for the
pixel of row `i` and column `j` holds `v` in `byt`: the in-grid neighbours,
orthogonal or diagonal, without the one above and to the right when the
pixel is in the body (neither in the first or last row nor in the first or
last column). -/
def reads_nbr8 (byt : List Nat) (nr nc i j v : Nat) : Bool :=
  has_nbr4 byt nr nc i j v
  || (decide (0 < i ∧ 0 < j) && decide (rdN byt ((i - 1) * nc + (j - 1)) = v))
  || (decide (0 < i ∧ j + 1 < nc ∧ (i + 1 = nr ∨ j = 0))
        && decide (rdN byt ((i - 1) * nc + (j + 1)) = v))
  || (decide (i + 1 < nr ∧ 0 < j) && decide (rdN byt ((i + 1) * nc + (j - 1)) = v))
  || (decide (i + 1 < nr ∧ j + 1 < nc) && decide (rdN byt ((i + 1) * nc + (j + 1)) = v))

/-- The complement of a binary grid: 0 and 1 are swapped, any other value is
kept. -/
def complement (byt : List Nat) : List Nat :=
  byt.map (fun x => if x = 0 then 1 else if x = 1 then 0 else x)

/-- A grid of `N` pixels over zero and one. -/
def is_grid01 (N : Nat) (x : List Nat) : Prop :=
  x.length = N ∧ ∀ k, k < N → rdN x k = 0 ∨ rdN x k = 1

/-- The 1-pixels of `x` are 1-pixels of `y`. -/
def sub01 (N : Nat) (x y : List Nat) : Prop :=
  ∀ k, k < N → rdN x k = 1 → rdN y k = 1

/-- An erosion `E` and a dilation `D` of the grids of `N` pixels over zero
and one that look at the same neighbours `R`, where being a neighbour is
mutual: a pixel is 1 after `E` when it and all its neighbours were 1, and 1
after `D` when it or one of its neighbours was 1. -/
structure morph_pair (N : Nat) (R : Nat → Nat → Prop) (E D : List Nat → List Nat) : Prop where
  /-- Being a neighbour is mutual. -/
  symm : ∀ k n, R k n → R n k
  /-- Neighbours are pixels of the grid. -/
  lt : ∀ k n, R k n → n < N
  /-- The erosion of a grid is a grid. -/
  erode_grid : ∀ x, is_grid01 N x → is_grid01 N (E x)
  /-- The dilation of a grid is a grid. -/
  dilate_grid : ∀ x, is_grid01 N x → is_grid01 N (D x)
  /-- The 1-pixels after the erosion. -/
  erode_one : ∀ x, is_grid01 N x → ∀ k, k < N →
    (rdN (E x) k = 1 ↔ rdN x k = 1 ∧ ∀ n, R k n → rdN x n = 1)
  /-- The 1-pixels after the dilation. -/
  dilate_one : ∀ x, is_grid01 N x → ∀ k, k < N →
    (rdN (D x) k = 1 ↔ rdN x k = 1 ∨ ∃ n, R k n ∧ rdN x n = 1)

/-- A grid of three rows and three columns whose only 0 is in the upper
right corner of the first two rows: row 0 is `1 1 0`, rows 1 and 2 are
`1 1 1`. -/
def sample_upper_right : List Nat := [1, 1, 0, 1, 1, 1, 1, 1, 1]

/-- A grid of three rows and three columns with a block of two by two
pixels in its upper right corner. -/
def sample_block : List Nat := [0, 1, 1, 0, 1, 1, 0, 0, 0]

/-- A grid of five rows and five columns holding a square of three by
three pixels: the centre pixel and its eight neighbours are 1. -/
def sample_square : List Nat :=
  [0, 0, 0, 0, 0,
   0, 1, 1, 1, 0,
   0, 1, 1, 1, 0,
   0, 1, 1, 1, 0,
   0, 0, 0, 0, 0]

/-- A grid of three rows and three columns with a blank pixel in its upper
right corner and a 0 in the first column of the middle row. -/
def sample_blank : List Nat := [1, 1, 255, 0, 1, 1, 1, 1, 1]

/-- The number of pixels among the first `k` of the image whose label in
`worklab` is `L` and whose value is not NaN. -/
def label_area (p : noisechiselparams) (worklab : List Int) (L : Nat) (k : Nat) : Nat :=
  ((List.range k).filter
    (fun idx => decide (rdI worklab idx = (L : Int)) && !(rdF p.input idx).isnan)).length

/-- The row-major coordinates of the pixel of flat index `idx` in an image
of `ndim` dimensions with the sizes `dsize`: `(idx / d1, idx mod d1)` in two
dimensions, `(idx / (d1*d2), (idx / d2) mod d1, idx mod d2)` in three. -/
def row_major_coords (dsize : List Nat) (ndim idx : Nat) : List Nat :=
  if ndim = 2 then [idx / rdN dsize 1, idx % rdN dsize 1]
  else if ndim = 3 then
    [idx / (rdN dsize 1 * rdN dsize 2), (idx / rdN dsize 2) % rdN dsize 1, idx % rdN dsize 2]
  else []

/-- A library for evaluating `detection_initial` on a concrete input: the
threshold keeps `p`, the erosion clears the grid when its connectivity is 2
and keeps it otherwise, the opening keeps the grid, every pixel gets the
label 0. -/
def sample_lib : detection_lib where
  threshold_quantile_find_apply := fun p => p
  gal_binary_erode := fun b _ c => if c = 2 then b.map (fun _ => 0) else b
  gal_binary_open := fun b _ _ => b
  gal_binary_connected_components := fun b => (b.map (fun _ => 0), 0)
  THRESHOLD_NO_ERODE_VALUE := 3

/-- Constants for evaluating the functions of `data.c` on concrete inputs:
the largest value as the blank of the unsigned types, the smallest as that
of the signed ones, not-a-number for the floating point types, elements of
the usual sizes, and a conversion to floating point that keeps the
values. -/
def sample_consts : data_consts where
  blank := fun t =>
    match t with
    | gal_type.uchar => gal_value.int 255
    | gal_type.ushort => gal_value.int 65535
    | gal_type.string => gal_value.str ""
    | _ => gal_value.int (-2147483648)
  GAL_DATA_BLANK_FLOAT := Flt.nan
  GAL_DATA_BLANK_DOUBLE := Flt.nan
  sizeof_wide := fun t =>
    match t with
    | gal_type.ushort => 2
    | gal_type.short => 2
    | gal_type.uint => 4
    | gal_type.int => 4
    | gal_type.float => 4
    | gal_type.dcomplex => 16
    | _ => 8
  gal_data_copy_to_new_type := fun d =>
    { d with type := gal_type.float, array := d.array.map (fun v => gal_value.flt v.real) }

/-- A dataset of one `unsigned char` element, 0. -/
def sample_uchar : gal_data_t :=
  { type := gal_type.uchar, ndim := 1, dsize := [1], size := 1, array := [gal_value.int 0] }

/-- A dataset of two `unsigned short` elements, the second one blank. -/
def sample_ushort : gal_data_t :=
  { type := gal_type.ushort, ndim := 1, dsize := [2], size := 2,
    array := [gal_value.int 0, gal_value.int 65535] }

/-- A dataset of two complex elements, `1+2i` and `3+4i`. -/
def sample_complex : gal_data_t :=
  { type := gal_type.complex, ndim := 1, dsize := [2], size := 2,
    array := [gal_value.cplx (Flt.fin 1) (Flt.fin 2), gal_value.cplx (Flt.fin 3) (Flt.fin 4)] }

/-- A dataset of two `int` elements, 5 and 6. -/
def sample_int : gal_data_t :=
  { type := gal_type.int, ndim := 1, dsize := [2], size := 2,
    array := [gal_value.int 5, gal_value.int 6] }

/-- A mask of two `unsigned char` elements: the first 0, the second 1. -/
def sample_mask : gal_data_t :=
  { type := gal_type.uchar, ndim := 1, dsize := [2], size := 2,
    array := [gal_value.int 0, gal_value.int 1] }

/-! ## Reference notions for hole filling -/

/-- The pixel `b`, itself non-zero in `byt`, has the pixel `a` as a
neighbour under the given connectivity. -/
def joins (byt : List Nat) (connectivity s0 s1 a b : Nat) : Prop :=
  a ∈ nbrs connectivity s0 s1 b ∧ rdN byt b ≠ 0

/-- The pixel `b` can be reached from the pixel `a` by steps to a
neighbouring non-zero pixel of `byt`. -/
def connected (byt : List Nat) (connectivity s0 s1 a b : Nat) : Prop :=
  Relation.ReflTransGen (joins byt connectivity s0 s1) a b

/-- The index, in the inverse array of `fh_makeinv`, of the pixel of row
`a` and column `b` of a grid with `s1` columns. -/
def pad (s1 a b : Nat) : Nat := (a + 2) * (s1 + 4) + (b + 2)

/-- The index `n` is that of one of the eight pixels around the pixel of
index `k`, both inside the grid of `s0` rows and `s1` columns. -/
def adj8 (s0 s1 k n : Nat) : Prop :=
  ∃ i j i' j', k = i * s1 + j ∧ n = i' * s1 + j' ∧ i < s0 ∧ j < s1 ∧ i' < s0 ∧ j' < s1
    ∧ i' ≤ i + 1 ∧ i ≤ i' + 1 ∧ j' ≤ j + 1 ∧ j ≤ j' + 1 ∧ (i' ≠ i ∨ j' ≠ j)

/-- The pixel of index `k` lies in the first or last row or in the first or
last column of the grid of `s0` rows and `s1` columns. -/
def on_border (s0 s1 k : Nat) : Prop :=
  ∃ i j, k = i * s1 + j ∧ i < s0 ∧ j < s1 ∧ (i = 0 ∨ i + 1 = s0 ∨ j = 0 ∨ j + 1 = s1)

/-- The pixel `n` belongs to the 8-connected region of the pixel `k` among
the pixels of `inp` that are not 1: it can be reached from `k` by steps to
one of the eight neighbours that is not 1. -/
def hole_region8 (inp : List Nat) (s0 s1 k n : Nat) : Prop :=
  Relation.ReflTransGen (fun a b => adj8 s0 s1 a b ∧ rdN inp b ≠ 1) k n

/-- A grid of three rows and columns whose centre and upper left corner
are 0: the centre has no orthogonal neighbour that is 0, and touches the
corner by a diagonal. -/
def sample_leak : List Nat := [0, 1, 1, 1, 0, 1, 1, 1, 1]

/-- A grid of three rows and columns whose centre is 0 and enclosed by
1-pixels. -/
def sample_hole : List Nat := [1, 1, 1, 1, 0, 1, 1, 1, 1]

/-- A grid of three rows and columns whose centre is blank and enclosed by
1-pixels. -/
def sample_blank_hole : List Nat := [1, 1, 1, 1, 255, 1, 1, 1, 1]

/-- The pixel `n` belongs to the 8-connected region of 0-pixels of the
pixel `k`: it can be reached from `k` by steps to one of the eight
neighbours that is 0. -/
def zero_region8 (inp : List Nat) (s0 s1 k n : Nat) : Prop :=
  Relation.ReflTransGen (fun a b => adj8 s0 s1 a b ∧ rdN inp b = 0) k n

/-- The pixel `n` belongs to the 4-connected region of 0-pixels of the
pixel `k`: it can be reached from `k` by steps to one of the four orthogonal
neighbours that is 0. -/
def zero_region4 (inp : List Nat) (s0 s1 k n : Nat) : Prop :=
  Relation.ReflTransGen (fun a b => adj4 s0 s1 a b ∧ rdN inp b = 0) k n

/-! ## Reference notions for `detection`, Table and the statistics -/

/-- The eligibility test of a label as the specification words it, on the
sums of the label: the area is above the minimum area, the mean
`brightness/area` is positive and the weight of the positive pixels is
positive. -/
def spec_sn_eligible (p : noisechiselparams) (acc : snarrays) (L : Nat) : Bool :=
  decide (p.detsnminarea < rdN acc.area L)
    && Flt.gt (p.arith.div Prec.double (rdF acc.brightness L)
        (p.arith.ofNat Prec.double (rdN acc.area L))) (Flt.fin 0)
    && Flt.gt (rdF acc.pos (L * (1 + p.ndim))) (Flt.fin 0)

/-- The tile of a label as the specification words it: the tile of the
flux-weighted centre, whose coordinate along the axis `k` is the rounded
ratio of the weighted sum of the positions along `k` to the weight. -/
def spec_sn_tile (p : noisechiselparams) (acc : snarrays) (L : Nat) : Nat :=
  p.gal_tile_full_id_from_coord ((List.range p.ndim).map (fun k =>
    p.GAL_DIMENSION_FLT_TO_INT
      (p.arith.div Prec.double (rdF acc.pos (L * (1 + p.ndim) + k + 1))
        (rdF acc.pos (L * (1 + p.ndim))))))

/-- The mean of a label as the specification words it: `brightness / area`
less the Sky of the tile. -/
def spec_sn_mean (p : noisechiselparams) (acc : snarrays) (L : Nat) : Flt :=
  p.arith.sub Prec.double
    (p.arith.div Prec.double (rdF acc.brightness L) (p.arith.ofNat Prec.double (rdN acc.area L)))
    (rdF p.sky (spec_sn_tile p acc L))

/-- The noise variance of a label as the specification words it: the square
of the Sky standard deviation of the tile when the input is Sky subtracted,
twice that square otherwise. -/
def spec_sn_variance (p : noisechiselparams) (acc : snarrays) (L : Nat) : Flt :=
  if p.skysubtracted then
    p.arith.mul Prec.double (rdF p.std (spec_sn_tile p acc L)) (rdF p.std (spec_sn_tile p acc L))
  else
    p.arith.mul Prec.double (rdF p.std (spec_sn_tile p acc L))
      (p.arith.mul Prec.double (Flt.fin 2) (rdF p.std (spec_sn_tile p acc L)))

/-- The S/N of a label as the specification words it:
`sqrt(area / cpscorr) * mean / sqrt(mean + variance)`, the ratio
`area / cpscorr` in single precision, the rest in double precision, the
result stored in single precision. -/
def spec_sn (p : noisechiselparams) (acc : snarrays) (L : Nat) : Flt :=
  p.arith.cvt Prec.single
    (p.arith.div Prec.double
      (p.arith.mul Prec.double
        (p.arith.sqrt Prec.double
          (p.arith.div Prec.single (p.arith.ofNat Prec.single (rdN acc.area L)) p.cpscorr))
        (spec_sn_mean p acc L))
      (p.arith.sqrt Prec.double
        (p.arith.add Prec.double (spec_sn_mean p acc L) (spec_sn_variance p acc L))))

/-- The labels of `1..m` that pass the eligibility test as the
specification words it, in ascending order. -/
def spec_eligible_labels (p : noisechiselparams) (acc : snarrays) (m : Nat) : List Nat :=
  (List.range' 1 m).filter (spec_sn_eligible p acc)

/-- The pixels of a label as the specification words the accumulation: the
pixels among the first `k` whose label is `L` and whose value is not NaN, in
the order of the scan. -/
def spec_label_pixels (p : noisechiselparams) (worklab : List Int) (L k : Nat) : List Nat :=
  (List.range k).filter
    (fun idx => decide (rdI worklab idx = (L : Int)) && !(rdF p.input idx).isnan)

/-- The brightness of a label as the specification words it: the values of
its pixels, added one after the other in double precision. -/
def spec_brightness (p : noisechiselparams) (worklab : List Int) (L k : Nat) : Flt :=
  (spec_label_pixels p worklab L k).foldl
    (fun b idx => p.arith.add Prec.double b (rdF p.input idx)) (Flt.fin 0)

/-- A sum over the pixels of a label whose value is positive, as the
specification words the flux-weighted sums: the terms `term idx`, added one
after the other in double precision. -/
def spec_flux_sum (p : noisechiselparams) (worklab : List Int) (L k : Nat)
    (term : Nat → Flt) : Flt :=
  ((spec_label_pixels p worklab L k).filter
      (fun idx => Flt.gt (rdF p.input idx) (Flt.fin 0))).foldl
    (fun s idx => p.arith.add Prec.double s (term idx)) (Flt.fin 0)

/-- The entries of the label `L` in the arrays `acc` are the sums of the
specification over the pixels of `L` that are not NaN: the area is their
number, the brightness the sum of their values, the flux weight the sum of
their positive values and, in two dimensions, the two position entries the
sums of the row and of the column of the pixels of positive value, weighed
by the value (single precision product, added in double precision). -/
def spec_label_sums (p : noisechiselparams) (worklab : List Int) (acc : snarrays) (L : Nat) :
    Prop :=
  rdN acc.area L = (spec_label_pixels p worklab L p.input.length).length
  ∧ rdF acc.brightness L = spec_brightness p worklab L p.input.length
  ∧ rdF acc.pos (L * (1 + p.ndim))
      = spec_flux_sum p worklab L p.input.length (fun idx => rdF p.input idx)
  ∧ (p.ndim = 2 →
      rdF acc.pos (L * (1 + p.ndim) + 1)
        = spec_flux_sum p worklab L p.input.length (fun idx =>
            p.arith.mul Prec.single (p.arith.ofNat Prec.single (idx / rdN p.dsize 1))
              (rdF p.input idx))
      ∧ rdF acc.pos (L * (1 + p.ndim) + 2)
        = spec_flux_sum p worklab L p.input.length (fun idx =>
            p.arith.mul Prec.single (p.arith.ofNat Prec.single (idx % rdN p.dsize 1))
              (rdF p.input idx)))

/-- The largest `r` with `r * r ≤ n` among the numbers below `2 ^ k` added
to `r0`, found bit by bit from the highest: the integer square root of `n`
when `n < 4 ^ k` and `r0` is 0. -/
def isqrt_bits : Nat → Nat → Nat → Nat
  | 0, _, r0 => r0
  | k + 1, n, r0 =>
      isqrt_bits k n (if (r0 + 2 ^ k) * (r0 + 2 ^ k) ≤ n then r0 + 2 ^ k else r0)

/-- Square root, rounded down on a grid of rationals, as `Flt.sqrtApprox`
with the integer square root found bit by bit (64 bits). -/
def Flt.sqrtBits : Flt → Flt
  | Flt.nan => Flt.nan
  | Flt.ninf => Flt.nan
  | Flt.pinf => Flt.pinf
  | Flt.fin q =>
      if q < 0 then Flt.nan
      else Flt.fin (((isqrt_bits 64 (q.num.toNat * q.den * 2 ^ 40) 0 : Nat) : ℚ)
        / ((q.den * 2 ^ 20 : Nat) : ℚ))

/-- A reference arithmetic as `FloatArith.exact`, whose square root can be
evaluated on any concrete input. -/
def FloatArith.bits : FloatArith where
  ofNat := fun _ n => Flt.fin n
  cvt := fun _ x => x
  add := fun _ x y => Flt.addExact x y
  sub := fun _ x y => Flt.addExact x y.neg
  mul := fun _ x y => Flt.mulExact x y
  div := fun _ x y => Flt.divExact x y
  sqrt := fun _ x => Flt.sqrtBits x

/-- A sample input of `detection_sn`: an image of two rows and three columns
with one blank pixel, Sky subtracted, a single tile whose Sky is 0 and whose
Sky standard deviation is 1. -/
def sample_sn_square : noisechiselparams :=
  { arith := FloatArith.bits, ndim := 2, dsize := [2, 3],
    input := [Flt.fin 3, Flt.fin 3, Flt.fin 3, Flt.fin 3, Flt.nan, Flt.fin (-1)],
    skysubtracted := true, sky := [Flt.fin 0], std := [Flt.fin 1] }

/-- One row of the labels of the initial detections in `sample_image`: the
first detection on three columns, eleven columns of Sky, the second
detection on the last two columns. -/
def sample_row_labels : List Int := [1, 1, 1, 0, 0, 0, 0, 0, 0, 0, 0, 0, 0, 0, 2, 2]

/-- One row of the pixel values of `sample_image`: the first detection has
two bright columns and a faint one, the Sky holds a bright region of three
columns between pixels of value 1 and -1, the second detection is faint. -/
def sample_row_values : List Flt :=
  [Flt.fin 8, Flt.fin 8, Flt.fin 0, Flt.fin 1, Flt.fin (11 / 2), Flt.fin (11 / 2),
   Flt.fin (11 / 2), Flt.fin (-1), Flt.fin 1, Flt.fin (-1), Flt.fin 1, Flt.fin (-1),
   Flt.fin 1, Flt.fin (-1), Flt.fin 1, Flt.fin 1]

/-- A sample state before `detection`: an image of two rows and sixteen
columns, both rows alike, with two initial detections, no dilation, and the
final detections with a small S/N to be removed. -/
def sample_image : noisechiselparams :=
  { arith := FloatArith.bits, ndim := 2, dsize := [2, 16],
    input := sample_row_values ++ sample_row_values,
    olabel := sample_row_labels ++ sample_row_labels,
    numinitialdets := 2, detsnminarea := 3, cleandilated := true }

/-- A library for evaluating `detection` on `sample_image`: a single tile
over the image with Sky 0 and Sky standard deviation 1, a threshold of two
standard deviations above the Sky, no hole to fill (every pixel of a grid of
two rows is on its border), the opening of `binary.c` with depth 1 and
4-connectivity, and the entry of the table as the quantile of a table of one
entry. -/
def sample_pseudo_lib : pseudo_lib where
  sky_and_std := fun p => { p with sky := [Flt.fin 0], std := [Flt.fin 1] }
  threshold_apply := fun p =>
    { p with binary := p.input.map (fun v => if Flt.gt v (Flt.fin 2) then 1 else 0) }
  tiles := [List.range 32]
  gal_binary_fill_holes := fun _ c => c
  gal_binary_open := fun _ c =>
    match opening c 2 16 1 4 with
    | Except.ok w => w
    | Except.error _ => c
  gal_statistics_quantile := fun sn => rdF sn.array 0

/-- A library for evaluating `detection` on `sample_image`: the dilation
keeps the grid (it is not called without dilation), the labelling is that of
`BF_concmp` on two rows and sixteen columns, orthogonal for the
connectivity 1. -/
def sample_label_lib : dilate_lib where
  gal_binary_dilate := fun b _ _ _ => b
  gal_binary_connected_components := fun b c => BF_concmp b 2 16 (if c = 1 then 4 else 8)

/-- A sample input of `detection_sn`: an image of one blank pixel under the
pseudo-detection of label 1. -/
def sample_blank_pseudo : noisechiselparams :=
  { arith := FloatArith.bits, ndim := 2, dsize := [1, 1], input := [Flt.nan],
    sky := [Flt.fin 0], std := [Flt.fin 1] }

/-- A sample input of `detection_sn`: an image of one pixel of value 1
under the pseudo-detection of label 1, on a tile whose Sky is 1 and whose
Sky standard deviation is 0. -/
def sample_flat : noisechiselparams :=
  { arith := FloatArith.bits, ndim := 2, dsize := [1, 1], input := [Flt.fin 1],
    sky := [Flt.fin 1], std := [Flt.fin 0] }

/-- The names of the operators that Table adds to those of the library. -/
def table_operator_names : List String :=
  ["sin", "cos", "tan", "asin", "acos", "atan", "atan2", "sinh", "cosh", "tanh", "asinh",
   "acosh", "atanh", "wcstoimg", "imgtowcs", "distance-flat", "distance-on-sphere"]

/-- Whether a WCS is at hand for `arithmetic_init_wcs`: it is already
loaded, or the file name and the extension are given and the library can
read it. -/
def wcs_available (c : table_lib) (p : tableparams) : Bool :=
  match p.wcs with
  | some _ => true
  | none =>
    match p.wcsfile, p.wcshdu with
    | some wcsfile, some wcshdu => (c.gal_wcs_read wcsfile wcshdu).isSome
    | _, _ => false

/-- Whether the token is `wcstoimg` or `imgtowcs` for `arithmetic_set_operator`. -/
def needs_wcs (c : table_lib) (token : String) : Bool :=
  decide ((arithmetic_set_operator_code c token).1 = ARITHMETIC_TABLE_OP_WCSTOIMG c
    ∨ (arithmetic_set_operator_code c token).1 = ARITHMETIC_TABLE_OP_IMGTOWCS c)

/-- Whether the token is a recognised operator: its code is not
`GAL_ARITHMETIC_OP_INVALID`. -/
def is_operator (c : table_lib) (token : String) : Bool :=
  decide ((arithmetic_set_operator_code c token).1 ≠ c.GAL_ARITHMETIC_OP_INVALID)

/-- Whether the token is a column operand: neither a recognised operator
nor a number. -/
def is_column_operand (c : table_lib) (token : String) : Bool :=
  !(is_operator c token) && (c.gal_type_string_to_number token).isNone

/-- The sum of `colmatch[start]`, ..., `colmatch[start+n-1]`. -/
def colmatch_total (colmatch : List Nat) (start n : Nat) : Nat :=
  ((List.range n).map (fun i => rdN colmatch (start + i))).sum

/-- A library for evaluating the functions of `arithmetic.c`: it knows the
operator `+` with the code 1, names no other code and reads no number but
`2`; the invalid code is 0 and the codes of Table start at 100; no WCS can
be read. -/
def sample_table_lib : table_lib where
  GAL_ARITHMETIC_OP_INVALID := 0
  GAL_ARITHMETIC_OP_LAST_CODE := 100
  GAL_BLANK_INT := -1
  GAL_BLANK_SIZE_T := 18446744073709551615
  gal_arithmetic_set_operator := fun s => if s = "+" then (1, 2) else (0, 0)
  gal_arithmetic_operator_string := fun k => if k = 1 then some "+" else none
  gal_type_string_to_number := fun s => if s = "2" then some (gal_value.int 2, 4) else none
  gal_wcs_read := fun _ _ => none

/-! ## Reading and writing arrays -/

theorem getD_map_zip {α β γ : Type} (f : α × β → γ) (l : List α) (b : List β) (i : Nat)
    (d : γ) (da : α) (db : β) (hi : i < l.length) (hlen : l.length = b.length) :
    ((List.zip l b).map f).getD i d = f (l.getD i da, b.getD i db) := by
  have hb : i < b.length := hlen ▸ hi
  simp [List.getD_eq_getElem?_getD, List.getElem?_map, List.getElem?_zip_eq_some, hi, hb]

theorem getD_set_eq {α : Type} (a : List α) (i j : Nat) (v d : α) :
    (a.set i v).getD j d = if i = j ∧ i < a.length then v else a.getD j d := by
  simp only [List.getD_eq_getElem?_getD, List.getElem?_set]
  by_cases h : i = j
  · subst h
    by_cases h2 : i < a.length
    · simp [h2]
    · simp [h2, List.getElem?_eq_none (Nat.le_of_not_lt h2)]
  · simp [h]

theorem lor_hasblank_ne_zero (x : Nat) : (x ||| GAL_DATA_FLAG_HASBLANK) ≠ 0 := by
  intro h
  have h1 : (x ||| GAL_DATA_FLAG_HASBLANK).testBit 1 = true := by
    rw [Nat.testBit_or]
    have : GAL_DATA_FLAG_HASBLANK.testBit 1 = true := by decide
    simp [this]
  rw [h] at h1
  simp at h1

/-! ## C1, C2: the count and the labels left by `detection_remove_false_initial` -/

/-- C1 (the code departs from the claim): the renumbering loop of
`detection_remove_false_initial` stops one label short of `numinitialdets`.
With one initial detection that overlaps a true pseudo-detection, label 1
stays in `olabel` while the returned count is 0, so the positive labels are
not `1..M`; with two such detections both end with label 1 and the returned
count is 1, so two different survivors share a new label. -/
theorem remove_false_initial_last_label_not_renumbered :
    (detection_remove_false_initial { numinitialdets := 1, olabel := [1] } [1]).1.olabel = [1]
    ∧ (detection_remove_false_initial { numinitialdets := 1, olabel := [1] } [1]).2.2 = 0
    ∧ (detection_remove_false_initial { numinitialdets := 2, olabel := [1, 2] } [1, 1]).1.olabel
        = [1, 1]
    ∧ (detection_remove_false_initial { numinitialdets := 2, olabel := [1, 2] } [1, 1]).2.2 = 1 := by
  decide

/-- C2 (the code departs from the claim): the count returned by
`detection_remove_false_initial` leaves out the last label.  With two
initial detections of which only the second overlaps a true
pseudo-detection, one initial label survives but the function returns 0;
with three detections that all overlap it returns 2. -/
theorem remove_false_initial_count_misses_last_label :
    true_initial_count 2 [1, 2] [0, 1] = 1
    ∧ (detection_remove_false_initial { numinitialdets := 2, olabel := [1, 2] } [0, 1]).2.2 = 0
    ∧ true_initial_count 3 [1, 2, 3] [1, 1, 1] = 3
    ∧ (detection_remove_false_initial { numinitialdets := 3, olabel := [1, 2, 3] }
        [1, 1, 1]).2.2 = 2 := by
  decide

/-! ## C3: the binary grid left by `detection_remove_false_initial` -/

theorem overlaps_nil_left (b : List Nat) (L : Int) : overlaps [] b L = false := by
  simp [overlaps]

theorem overlaps_nil_right (l : List Int) (L : Int) : overlaps l [] L = false := by
  simp [overlaps]

theorem overlaps_cons (x : Int) (y : Nat) (l : List Int) (b : List Nat) (L : Int) :
    overlaps (x :: l) (y :: b) L = ((decide (x = L) && decide (y = 1)) || overlaps l b L) := by
  simp [overlaps]

/-- One assignment `newlabels[k] = newlabels[k] ? 1 : y` on an array of
zeros and ones, for `y` zero or one. -/
theorem rfi_mark_step (nl : List Int) (k y : Nat) (hk : k < nl.length) (hy : y ≤ 1)
    (h01 : ∀ j, rdI nl j = 0 ∨ rdI nl j = 1) (j : Nat) :
    (rdI (nl.set k (if rdI nl k ≠ 0 then 1 else (y : Int))) j = 0
      ∨ rdI (nl.set k (if rdI nl k ≠ 0 then 1 else (y : Int))) j = 1)
    ∧ (rdI (nl.set k (if rdI nl k ≠ 0 then 1 else (y : Int))) j = 1
        ↔ (rdI nl j = 1 ∨ (k = j ∧ y = 1))) := by
  have hval : rdI (nl.set k (if rdI nl k ≠ 0 then 1 else (y : Int))) j
      = if k = j then (if rdI nl k ≠ 0 then 1 else (y : Int)) else rdI nl j := by
    unfold rdI
    rw [getD_set_eq]
    by_cases h : k = j
    · rw [if_pos ⟨h, hk⟩, if_pos h]
    · rw [if_neg (fun hh => h hh.1), if_neg h]
  rw [hval]
  by_cases h : k = j
  · subst h
    rw [if_pos rfl]
    rcases Nat.le_one_iff_eq_zero_or_eq_one.1 hy with hy0 | hy1
    · subst hy0
      rcases h01 k with h0 | h1
      · rw [h0]; simp
      · rw [h1]; simp
    · subst hy1
      rcases h01 k with h0 | h1
      · rw [h0]; simp
      · rw [h1]; simp
  · rw [if_neg h]
    refine ⟨h01 j, ?_⟩
    constructor
    · intro h1; exact Or.inl h1
    · rintro (h1 | ⟨hkj, _⟩)
      · exact h1
      · exact absurd hkj h

/-- The marks left by the first loop of `detection_remove_false_initial`:
an entry is 1 when it was 1 or when its label overlaps `workbin`, else 0. -/
theorem rfi_mark_spec (l : List Int) : ∀ (b : List Nat) (nl : List Int),
    (∀ lb ∈ List.zip l b, lb.1 ≠ GAL_BLANK_INT32 →
      0 ≤ lb.1 ∧ lb.1.toNat < nl.length ∧ lb.2 ≤ 1) →
    (∀ j, rdI nl j = 0 ∨ rdI nl j = 1) →
    (rfi_mark l b nl).length = nl.length
    ∧ ∀ j, (rdI (rfi_mark l b nl) j = 0 ∨ rdI (rfi_mark l b nl) j = 1)
        ∧ (rdI (rfi_mark l b nl) j = 1 ↔
            (rdI nl j = 1 ∨ (0 < j ∧ overlaps l b (j : Int) = true))) := by
  induction l with
  | nil =>
      intro b nl _ h01
      simp [rfi_mark, overlaps_nil_left, h01]
  | cons x ls ih =>
      intro b nl hpix h01
      cases b with
      | nil => simp [rfi_mark, overlaps_nil_right, h01]
      | cons y bs =>
          have hx : x ≠ GAL_BLANK_INT32 → 0 ≤ x ∧ x.toNat < nl.length ∧ y ≤ 1 :=
            hpix (x, y) (by simp)
          have hrest : ∀ lb ∈ List.zip ls bs, lb.1 ≠ GAL_BLANK_INT32 →
              0 ≤ lb.1 ∧ lb.1.toNat < nl.length ∧ lb.2 ≤ 1 := by
            intro lb hlb
            exact hpix lb (by simp [hlb])
          by_cases hc : x ≠ 0 ∧ x ≠ GAL_BLANK_INT32
          · obtain ⟨hx0, hxlen, hy⟩ := hx hc.2
            have hstep : rfi_mark (x :: ls) (y :: bs) nl
                = rfi_mark ls bs
                    (nl.set x.toNat (if rdI nl x.toNat ≠ 0 then 1 else (y : Int))) := by
              rw [rfi_mark, if_pos hc]
            have hone := rfi_mark_step nl x.toNat y hxlen hy h01
            have hrest2 : ∀ lb ∈ List.zip ls bs, lb.1 ≠ GAL_BLANK_INT32 →
                0 ≤ lb.1 ∧ lb.1.toNat
                  < (nl.set x.toNat (if rdI nl x.toNat ≠ 0 then 1 else (y : Int))).length
                ∧ lb.2 ≤ 1 := by
              intro lb hlb hne
              rw [List.length_set]
              exact hrest lb hlb hne
            obtain ⟨hlen, hall⟩ := ih bs _ hrest2 (fun j => (hone j).1)
            rw [hstep]
            refine ⟨by rw [hlen, List.length_set], ?_⟩
            intro j
            refine ⟨(hall j).1, ?_⟩
            rw [(hall j).2, (hone j).2, overlaps_cons]
            have hxj : (x = (j : Int)) ↔ (x.toNat = j) := by omega
            have hpos : x.toNat = j → 0 < j := by omega
            simp only [Bool.or_eq_true, Bool.and_eq_true, decide_eq_true_eq, hxj]
            constructor
            · rintro ((h | ⟨h1, h2⟩) | ⟨h1, h2⟩)
              · exact Or.inl h
              · exact Or.inr ⟨hpos h1, Or.inl ⟨h1, h2⟩⟩
              · exact Or.inr ⟨h1, Or.inr h2⟩
            · rintro (h | ⟨h1, (⟨h2, h3⟩ | h2)⟩)
              · exact Or.inl (Or.inl h)
              · exact Or.inl (Or.inr ⟨h2, h3⟩)
              · exact Or.inr ⟨h1, h2⟩
          · have hstep : rfi_mark (x :: ls) (y :: bs) nl = rfi_mark ls bs nl := by
              rw [rfi_mark, if_neg hc]
            obtain ⟨hlen, hall⟩ := ih bs nl hrest h01
            rw [hstep]
            refine ⟨hlen, ?_⟩
            intro j
            refine ⟨(hall j).1, ?_⟩
            rw [(hall j).2, overlaps_cons]
            have hxj : 0 < j → ¬ x = (j : Int) := by
              intro hj hxj
              have : x = 0 ∨ x = GAL_BLANK_INT32 := by
                by_cases h0 : x = 0
                · exact Or.inl h0
                · right
                  by_contra hb
                  exact hc ⟨h0, hb⟩
              rcases this with h0 | hb
              · omega
              · rw [hb] at hxj
                simp only [GAL_BLANK_INT32] at hxj
                omega
            simp only [Bool.or_eq_true, Bool.and_eq_true, decide_eq_true_eq]
            constructor
            · rintro (h | ⟨h1, h2⟩)
              · exact Or.inl h
              · exact Or.inr ⟨h1, Or.inr h2⟩
            · rintro (h | ⟨h1, (⟨h2, _⟩ | h2)⟩)
              · exact Or.inl h
              · exact absurd h2 (hxj h1)
              · exact Or.inr ⟨h1, h2⟩

/-- The invariant of the renumbering loop: the counter stays positive and
every entry keeps its sign (zero stays zero, positive stays positive). -/
theorem rfi_renumber_sign (nl : List Int) (cur : Int) (hcur : 0 < cur)
    (hnl : ∀ j, 0 ≤ rdI nl j) (n : Nat) :
    0 < (rfi_renumber n nl cur).2
    ∧ ∀ j, (rdI (rfi_renumber n nl cur).1 j = 0 ∧ rdI nl j = 0)
        ∨ (0 < rdI (rfi_renumber n nl cur).1 j ∧ 0 < rdI nl j) := by
  induction n with
  | zero =>
      refine ⟨by simpa [rfi_renumber] using hcur, ?_⟩
      intro j
      have h := hnl j
      simp only [rfi_renumber, List.range_zero, List.foldl_nil]
      omega
  | succ n ih =>
      have hsucc : rfi_renumber (n + 1) nl cur
          = rfi_renumber_step (rfi_renumber n nl cur) n := by
        simp [rfi_renumber, List.range_succ, List.foldl_append]
      rw [hsucc]
      obtain ⟨hc, hall⟩ := ih
      by_cases h0 : rdI (rfi_renumber n nl cur).1 n ≠ 0
      · have hs : rfi_renumber_step (rfi_renumber n nl cur) n
            = ((rfi_renumber n nl cur).1.set n (rfi_renumber n nl cur).2,
                (rfi_renumber n nl cur).2 + 1) := by
          rw [rfi_renumber_step, if_pos h0]
        rw [hs]
        refine ⟨by simp only; omega, ?_⟩
        intro j
        simp only [rdI, getD_set_eq]
        by_cases hj : n = j ∧ n < (rfi_renumber n nl cur).1.length
        · rw [if_pos hj]
          right
          refine ⟨hc, ?_⟩
          rcases hall n with h | h
          · exact absurd h.1 h0
          · rw [← hj.1]; exact h.2
        · rw [if_neg hj]
          exact hall j
      · have hs : rfi_renumber_step (rfi_renumber n nl cur) n = rfi_renumber n nl cur := by
          rw [rfi_renumber_step, if_neg h0]
        rw [hs]
        exact ⟨hc, hall⟩

/-- The `workbin` array after `detection_remove_false_initial`, pixel by
pixel, for labels in range and binary values zero or one. -/
theorem rfi_workbin_eq (p : noisechiselparams) (workbin : List Nat)
    (hpix : ∀ lb ∈ List.zip p.olabel workbin, lb.1 ≠ GAL_BLANK_INT32 →
      0 ≤ lb.1 ∧ lb.1 ≤ p.numinitialdets ∧ lb.2 ≤ 1) :
    (detection_remove_false_initial p workbin).2.1
      = (List.zip p.olabel workbin).map (rfi_workbin_pixel p.olabel workbin) := by
  have hpix2 : ∀ lb ∈ List.zip p.olabel workbin, lb.1 ≠ GAL_BLANK_INT32 →
      0 ≤ lb.1 ∧ lb.1.toNat < (List.replicate (p.numinitialdets + 1) (0 : Int)).length
        ∧ lb.2 ≤ 1 := by
    intro lb hlb hne
    obtain ⟨h1, h2, h3⟩ := hpix lb hlb hne
    refine ⟨h1, ?_, h3⟩
    rw [List.length_replicate]
    omega
  have hzero : ∀ j, rdI (List.replicate (p.numinitialdets + 1) (0 : Int)) j = 0 := by
    intro j
    simp only [rdI, List.getD_eq_getElem?_getD, List.getElem?_replicate]
    split <;> rfl
  obtain ⟨hlen, hmark⟩ := rfi_mark_spec p.olabel workbin _ hpix2 (fun j => Or.inl (hzero j))
  -- the marks after `newlabels[0]=0`
  have hm1 : ∀ j, (rdI ((rfi_mark p.olabel workbin
        (List.replicate (p.numinitialdets + 1) 0)).set 0 0) j = 0
      ∨ rdI ((rfi_mark p.olabel workbin
        (List.replicate (p.numinitialdets + 1) 0)).set 0 0) j = 1)
      ∧ (rdI ((rfi_mark p.olabel workbin
        (List.replicate (p.numinitialdets + 1) 0)).set 0 0) j = 1
          ↔ (0 < j ∧ overlaps p.olabel workbin (j : Int) = true)) := by
    intro j
    have hval : rdI ((rfi_mark p.olabel workbin
          (List.replicate (p.numinitialdets + 1) 0)).set 0 0) j
        = if j = 0 then 0
          else rdI (rfi_mark p.olabel workbin (List.replicate (p.numinitialdets + 1) 0)) j := by
      unfold rdI
      rw [getD_set_eq]
      by_cases hj : j = 0
      · subst hj
        rw [if_pos rfl]
        split
        · rfl
        · rename_i hn
          have hl : ¬ 0 < (rfi_mark p.olabel workbin
              (List.replicate (p.numinitialdets + 1) 0)).length := fun h => hn ⟨rfl, h⟩
          rw [hlen, List.length_replicate] at hl
          omega
      · rw [if_neg hj, if_neg (fun h => hj h.1.symm)]
    rw [hval]
    by_cases hj : j = 0
    · subst hj
      simp
    · rw [if_neg hj]
      refine ⟨(hmark j).1, ?_⟩
      rw [(hmark j).2, hzero j]
      simp
  have hren := rfi_renumber_sign
    ((rfi_mark p.olabel workbin (List.replicate (p.numinitialdets + 1) 0)).set 0 0) 1
    (by decide)
    (fun j => by rcases (hm1 j).1 with h | h <;> omega) p.numinitialdets
  -- the final entries are positive exactly on the labels that overlap
  have hfinal : ∀ j, 0 < rdI (rfi_renumber p.numinitialdets
        ((rfi_mark p.olabel workbin (List.replicate (p.numinitialdets + 1) 0)).set 0 0) 1).1 j
      ↔ (0 < j ∧ overlaps p.olabel workbin (j : Int) = true) := by
    intro j
    rw [← (hm1 j).2]
    rcases hren.2 j with h | h
    · constructor
      · intro h1; omega
      · intro h1; omega
    · constructor
      · intro _
        rcases (hm1 j).1 with h1 | h1
        · omega
        · exact h1
      · intro _; exact h.1
  show ((List.zip p.olabel workbin).map (rfi_rewrite_pixel p.dilate _)).map Prod.snd = _
  rw [List.map_map]
  apply List.map_congr_left
  intro lb hlb
  simp only [Function.comp, rfi_rewrite_pixel, rfi_workbin_pixel]
  by_cases hb : lb.1 = GAL_BLANK_INT32
  · simp [hb]
  · obtain ⟨h1, _, _⟩ := hpix lb hlb hb
    have hcast : ((lb.1.toNat : Nat) : Int) = lb.1 := Int.toNat_of_nonneg h1
    have hpos : 0 < lb.1.toNat ↔ 0 < lb.1 := by omega
    have hf := hfinal lb.1.toNat
    rw [hcast, hpos] at hf
    rw [if_pos hb, if_neg hb]
    by_cases hd : p.dilate ≠ 0
    · rw [if_pos hd]
      simp only [gt_iff_lt, hf]
    · rw [if_neg hd]
      simp only [gt_iff_lt, hf]

/-- A pair is a pixel of the two grids exactly when it is read at some
offset of both. -/
theorem mem_zip_iff_index (l : List Int) (b : List Nat) (hlen : l.length = b.length)
    (lb : Int × Nat) :
    lb ∈ List.zip l b ↔ ∃ j, j < l.length ∧ rdI l j = lb.1 ∧ rdN b j = lb.2 := by
  constructor
  · intro h
    obtain ⟨j, hj, hget⟩ := List.mem_iff_getElem.1 h
    have hjl : j < l.length := by
      rw [List.length_zip] at hj
      omega
    have hjb : j < b.length := hlen ▸ hjl
    refine ⟨j, hjl, ?_, ?_⟩
    · rw [← hget]
      simp [rdI, List.getD_eq_getElem?_getD, hjl]
    · rw [← hget]
      simp [rdN, List.getD_eq_getElem?_getD, hjb]
  · rintro ⟨j, hjl, h1, h2⟩
    have hjb : j < b.length := hlen ▸ hjl
    have hj : j < (List.zip l b).length := by
      rw [List.length_zip]
      omega
    refine List.mem_iff_getElem.2 ⟨j, hj, ?_⟩
    rw [List.getElem_zip]
    apply Prod.ext
    · rw [← h1]
      simp [rdI, List.getD_eq_getElem?_getD, hjl]
    · rw [← h2]
      simp [rdN, List.getD_eq_getElem?_getD, hjb]

/-- The label `L` overlaps `workbin` exactly when some pixel labelled `L` has
the value 1 in `workbin`. -/
theorem overlaps_iff (l : List Int) (b : List Nat) (hlen : l.length = b.length) (L : Int) :
    overlaps l b L = true ↔ ∃ j, j < l.length ∧ rdI l j = L ∧ rdN b j = 1 := by
  unfold overlaps
  rw [List.any_eq_true]
  constructor
  · rintro ⟨lb, hmem, h⟩
    obtain ⟨j, hj, h1, h2⟩ := (mem_zip_iff_index l b hlen lb).1 hmem
    simp only [Bool.and_eq_true, decide_eq_true_eq] at h
    exact ⟨j, hj, h1.trans h.1, h2.trans h.2⟩
  · rintro ⟨j, hj, h1, h2⟩
    refine ⟨(L, 1), (mem_zip_iff_index l b hlen (L, 1)).2 ⟨j, hj, h1, h2⟩, ?_⟩
    simp

/-- C3: for labels that are blank or in `0..numinitialdets` and a `workbin`
grid over zero and one, after `detection_remove_false_initial` (whatever
`dilate` is) a pixel with a non-blank label has `workbin = 1` when its
initial label is positive and some pixel with that label had `workbin = 1`
before the call, and `workbin = 0` otherwise; so a non-blank pixel that ends
with 1 lies on an initial detection. -/
theorem detection_remove_false_initial_workbin (p : noisechiselparams) (workbin : List Nat)
    (i : Nat) (hlen : p.olabel.length = workbin.length)
    (hlab : ∀ j, j < p.olabel.length → rdI p.olabel j ≠ GAL_BLANK_INT32 →
      0 ≤ rdI p.olabel j ∧ rdI p.olabel j ≤ p.numinitialdets)
    (hbin : ∀ j, j < workbin.length → rdI p.olabel j ≠ GAL_BLANK_INT32 →
      rdN workbin j = 0 ∨ rdN workbin j = 1)
    (hi : i < p.olabel.length) (hnb : rdI p.olabel i ≠ GAL_BLANK_INT32) :
    (detection_remove_false_initial p workbin).2.1.length = workbin.length
    ∧ ((0 < rdI p.olabel i
          ∧ ∃ j, j < p.olabel.length ∧ rdI p.olabel j = rdI p.olabel i ∧ rdN workbin j = 1) →
        rdN (detection_remove_false_initial p workbin).2.1 i = 1)
    ∧ (¬ (0 < rdI p.olabel i
          ∧ ∃ j, j < p.olabel.length ∧ rdI p.olabel j = rdI p.olabel i ∧ rdN workbin j = 1) →
        rdN (detection_remove_false_initial p workbin).2.1 i = 0)
    ∧ (rdN (detection_remove_false_initial p workbin).2.1 i = 1 → 0 < rdI p.olabel i) := by
  have hpix : ∀ lb ∈ List.zip p.olabel workbin, lb.1 ≠ GAL_BLANK_INT32 →
      0 ≤ lb.1 ∧ lb.1 ≤ p.numinitialdets ∧ lb.2 ≤ 1 := by
    intro lb hmem hne
    obtain ⟨j, hj, h1, h2⟩ := (mem_zip_iff_index _ _ hlen lb).1 hmem
    have hl := hlab j hj (by rw [h1]; exact hne)
    have hb := hbin j (hlen ▸ hj) (by rw [h1]; exact hne)
    rw [h1] at hl
    rw [h2] at hb
    exact ⟨hl.1, hl.2, by omega⟩
  have heq := rfi_workbin_eq p workbin hpix
  have hval : rdN (detection_remove_false_initial p workbin).2.1 i
      = rfi_workbin_pixel p.olabel workbin (rdI p.olabel i, rdN workbin i) := by
    rw [heq]
    exact getD_map_zip _ _ _ i 0 0 0 hi hlen
  have hov := overlaps_iff p.olabel workbin hlen (rdI p.olabel i)
  refine ⟨?_, ?_, ?_, ?_⟩
  · rw [heq, List.length_map, List.length_zip, hlen, Nat.min_self]
  · rintro ⟨hpos, hex⟩
    rw [hval, rfi_workbin_pixel, if_neg hnb, if_pos ⟨hpos, hov.2 hex⟩]
  · intro hnot
    rw [hval, rfi_workbin_pixel, if_neg hnb, if_neg]
    rintro ⟨hpos, ho⟩
    exact hnot ⟨hpos, hov.1 ho⟩
  · rw [hval, rfi_workbin_pixel, if_neg hnb]
    intro h
    by_contra hpos
    rw [if_neg (fun hh => hpos hh.1)] at h
    exact absurd h (by decide)

/-- C3, on three initial detections of which the first overlaps no true
pseudo-detection, for a pixel of the last detection. -/
theorem detection_remove_false_initial_workbin_witness :
    ([1, 2, 0, 3, GAL_BLANK_INT32, 2] : List Int).length
      = ([0, 0, 1, 1, 255, 1] : List Nat).length
    ∧ rdI [1, 2, 0, 3, GAL_BLANK_INT32, 2] 3 ≠ GAL_BLANK_INT32
    ∧ rdN (detection_remove_false_initial
        { numinitialdets := 3, olabel := [1, 2, 0, 3, GAL_BLANK_INT32, 2] }
        [0, 0, 1, 1, 255, 1]).2.1 3 = 1 := by
  refine ⟨by decide, by decide, ?_⟩
  refine (detection_remove_false_initial_workbin
    { numinitialdets := 3, olabel := [1, 2, 0, 3, GAL_BLANK_INT32, 2] }
    [0, 0, 1, 1, 255, 1] 3 (by decide) ?_ ?_ (by decide) (by decide)).2.1 ⟨by decide, 3, by decide, by decide, by decide⟩
  · intro j hj
    have hj' : j < 6 := hj
    interval_cases j <;> decide
  · intro j hj
    have hj' : j < 6 := hj
    interval_cases j <;> decide

/-! ## C6, C7: preparing the working binary grid -/

/-- C6 (as amended): in the Sky role (`s0d1 = 0`), for every pixel, `workbin`
receives the thresholded binary value where the initial label is 0, receives
1 where the initial label is positive, and receives the blank value where
the initial label is blank. -/
theorem detection_pseudo_sky_or_det_sky (p : noisechiselparams) (i : Nat)
    (hlen : p.olabel.length = p.binary.length) (hi : i < p.olabel.length) :
    (detection_pseudo_sky_or_det p 0).length = p.olabel.length
    ∧ (rdI p.olabel i = 0 →
        rdN (detection_pseudo_sky_or_det p 0) i = rdN p.binary i)
    ∧ (0 < rdI p.olabel i → rdN (detection_pseudo_sky_or_det p 0) i = 1)
    ∧ (rdI p.olabel i = GAL_BLANK_INT32 →
        rdN (detection_pseudo_sky_or_det p 0) i = GAL_BLANK_UINT8) := by
  have hw : rdN (detection_pseudo_sky_or_det p 0) i
      = detection_pseudo_sky_or_det_pixel 0 (rdI p.olabel i, rdN p.binary i) :=
    getD_map_zip _ _ _ i 0 0 0 hi hlen
  refine ⟨by simp [detection_pseudo_sky_or_det, hlen], ?_, ?_, ?_⟩
  · intro h0
    rw [hw]; simp [detection_pseudo_sky_or_det_pixel, h0]
  · intro hpos
    have h1 : rdI p.olabel i ≠ 0 := by omega
    have h2 : rdI p.olabel i ≠ GAL_BLANK_INT32 := by
      simp only [GAL_BLANK_INT32]; omega
    rw [hw]; simp [detection_pseudo_sky_or_det_pixel, h1, h2]
  · intro hb
    rw [hw]; simp [detection_pseudo_sky_or_det_pixel, hb, GAL_BLANK_INT32]

/-- C6, at a grid of three pixels (sky, detection, blank), for the pixel on
the detection. -/
theorem detection_pseudo_sky_or_det_sky_witness :
    ([0, 3, GAL_BLANK_INT32] : List Int).length = ([1, 0, 255] : List Nat).length
    ∧ 1 < ([0, 3, GAL_BLANK_INT32] : List Int).length
    ∧ 0 < rdI [0, 3, GAL_BLANK_INT32] 1
    ∧ rdN (detection_pseudo_sky_or_det
        { olabel := [0, 3, GAL_BLANK_INT32], binary := [1, 0, 255] } 0) 1 = 1 :=
  ⟨by decide, by decide, by decide,
    (detection_pseudo_sky_or_det_sky
      { olabel := [0, 3, GAL_BLANK_INT32], binary := [1, 0, 255] } 1
      (by decide) (by decide)).2.2.1 (by decide)⟩

/-- C6 as stated fails: in the Sky role a pixel of a positive initial label
whose thresholded value is 0 receives 1, not 0. -/
theorem detection_pseudo_sky_or_det_sky_counterexample :
    ¬ (∀ i, 0 < rdI [0, 1] i →
        rdN (detection_pseudo_sky_or_det { olabel := [0, 1], binary := [1, 0] } 0) i = 0) := by
  intro h
  exact absurd (h 1 (by decide)) (by decide)

/-- C7 (as amended): in the detection role (`s0d1 = 1`), for every pixel,
`workbin` is the thresholded binary value where the initial label is
positive, is 0 where the initial label is 0, and where the initial label is
blank it is the thresholded binary value, hence blank as soon as the binary
grid is blank there. -/
theorem detection_pseudo_sky_or_det_det (p : noisechiselparams) (i : Nat)
    (hlen : p.olabel.length = p.binary.length) (hi : i < p.olabel.length) :
    (detection_pseudo_sky_or_det p 1).length = p.olabel.length
    ∧ (0 < rdI p.olabel i →
        rdN (detection_pseudo_sky_or_det p 1) i = rdN p.binary i)
    ∧ (rdI p.olabel i = 0 → rdN (detection_pseudo_sky_or_det p 1) i = 0)
    ∧ (rdI p.olabel i = GAL_BLANK_INT32 →
        rdN (detection_pseudo_sky_or_det p 1) i = rdN p.binary i)
    ∧ (rdI p.olabel i = GAL_BLANK_INT32 → rdN p.binary i = GAL_BLANK_UINT8 →
        rdN (detection_pseudo_sky_or_det p 1) i = GAL_BLANK_UINT8) := by
  have hw : rdN (detection_pseudo_sky_or_det p 1) i
      = detection_pseudo_sky_or_det_pixel 1 (rdI p.olabel i, rdN p.binary i) :=
    getD_map_zip _ _ _ i 0 0 0 hi hlen
  refine ⟨by simp [detection_pseudo_sky_or_det, hlen], ?_, ?_, ?_, ?_⟩
  · intro hpos
    have h1 : rdI p.olabel i ≠ 0 := by omega
    rw [hw]; simp [detection_pseudo_sky_or_det_pixel, h1]
  · intro h0
    rw [hw]; simp [detection_pseudo_sky_or_det_pixel, h0]
  · intro hb
    rw [hw]; simp [detection_pseudo_sky_or_det_pixel, hb, GAL_BLANK_INT32]
  · intro hb hbin
    rw [hw]; simp [detection_pseudo_sky_or_det_pixel, hb, hbin, GAL_BLANK_INT32]

/-- C7, at a grid of three pixels (sky, detection, blank), for the pixel on
the detection. -/
theorem detection_pseudo_sky_or_det_det_witness :
    ([0, 3, GAL_BLANK_INT32] : List Int).length = ([1, 0, 255] : List Nat).length
    ∧ 1 < ([0, 3, GAL_BLANK_INT32] : List Int).length
    ∧ 0 < rdI [0, 3, GAL_BLANK_INT32] 1
    ∧ rdN (detection_pseudo_sky_or_det
        { olabel := [0, 3, GAL_BLANK_INT32], binary := [1, 0, 255] } 1) 1
        = rdN [1, 0, 255] 1 :=
  ⟨by decide, by decide, by decide,
    (detection_pseudo_sky_or_det_det
      { olabel := [0, 3, GAL_BLANK_INT32], binary := [1, 0, 255] } 1
      (by decide) (by decide)).2.1 (by decide)⟩

/-- C7 as stated fails: in the detection role a pixel of a positive initial
label whose thresholded value is 0 receives 0, not 1, and a pixel of label 0
whose thresholded value is 1 receives 0, not the thresholded value. -/
theorem detection_pseudo_sky_or_det_det_counterexample :
    ¬ (∀ i, 0 < rdI [1, 0] i →
        rdN (detection_pseudo_sky_or_det { olabel := [1, 0], binary := [0, 1] } 1) i = 1)
    ∧ ¬ (∀ i, i < 2 → rdI [1, 0] i = 0 →
        rdN (detection_pseudo_sky_or_det { olabel := [1, 0], binary := [0, 1] } 1) i
          = rdN [0, 1] i) := by
  constructor
  · intro h
    exact absurd (h 0 (by decide)) (by decide)
  · intro h
    exact absurd (h 1 (by decide) (by decide)) (by decide)



/-! ## C4: the binary grid left by `detection_pseudo_remove_low_sn` -/

theorem rdN_replicate_zero (n j : Nat) : rdN (List.replicate n 0) j = 0 := by
  simp only [rdN, List.getD_eq_getElem?_getD, List.getElem?_replicate]
  split <;> rfl

/-- A comparison with not-a-number on the left fails. -/
theorem Flt.gt_nan_left (t : Flt) : Flt.gt Flt.nan t = false := by
  cases t <;> rfl

/-- The array `keep` after the first `m` passes of its loop. -/
theorem detection_pseudo_keep_upto (p : noisechiselparams) (sn : sntable) (m : Nat)
    (hm : m ≤ sn.size) (j : Nat) :
    rdN ((List.range m).foldl
        (fun keep i => if Flt.gt (rdF sn.array i) p.detsnthresh then keep.set i 1 else keep)
        (List.replicate sn.size 0)) j
      = (if j < m ∧ Flt.gt (rdF sn.array j) p.detsnthresh = true then 1 else 0)
    ∧ ((List.range m).foldl
        (fun keep i => if Flt.gt (rdF sn.array i) p.detsnthresh then keep.set i 1 else keep)
        (List.replicate sn.size 0)).length = sn.size := by
  induction m with
  | zero => simp [rdN_replicate_zero]
  | succ m ih =>
      obtain ⟨hval, hlen⟩ := ih (by omega)
      rw [List.range_succ, List.foldl_append]
      simp only [List.foldl_cons, List.foldl_nil]
      by_cases hg : Flt.gt (rdF sn.array m) p.detsnthresh = true
      · rw [if_pos hg]
        refine ⟨?_, by rw [List.length_set, hlen]⟩
        unfold rdN
        rw [getD_set_eq]
        by_cases hj : m = j
        · subst hj
          rw [if_pos ⟨rfl, by rw [hlen]; omega⟩, if_pos ⟨by omega, hg⟩]
        · rw [if_neg (fun h => hj h.1)]
          unfold rdN at hval
          rw [hval]
          by_cases hjm : j < m
          · have : j < m + 1 := by omega
            simp only [hjm, this, true_and]
          · have : ¬ j < m + 1 := by omega
            simp only [hjm, this, false_and]
      · rw [if_neg hg]
        refine ⟨?_, hlen⟩
        rw [hval]
        by_cases hj : m = j
        · subst hj
          simp [hg]
        · by_cases hjm : j < m
          · have : j < m + 1 := by omega
            simp only [hjm, this, true_and]
          · have : ¬ j < m + 1 := by omega
            simp only [hjm, this, false_and]

/-- The array `keep` of `detection_pseudo_remove_low_sn`: 1 at the indices of
the table whose S/N is above the threshold, 0 elsewhere. -/
theorem detection_pseudo_keep_spec (p : noisechiselparams) (sn : sntable) (j : Nat) :
    rdN (detection_pseudo_keep p sn) j
      = (if j < sn.size ∧ Flt.gt (rdF sn.array j) p.detsnthresh = true then 1 else 0) :=
  (detection_pseudo_keep_upto p sn sn.size (Nat.le_refl _) j).1

theorem getD_map_index {α β : Type} (f : α → β) (l : List α) (i : Nat) (d : β) (da : α)
    (hi : i < l.length) : (l.map f).getD i d = f (l.getD i da) := by
  simp [List.getD_eq_getElem?_getD, List.getElem?_map, hi]

/-- C4: for pseudo-labels that are blank or in `0..num` and a S/N table of
`num+1` entries, whether the input is flagged as having blanks or not,
`detection_pseudo_remove_low_sn` rewrites `workbin` so that a pixel with a
label `L` that is not blank is 1 exactly when `SN[L] > detsnthresh` and 0
otherwise (in particular when `SN[L]` is not-a-number, and label 0 is
treated like the others); on an input flagged as having blanks a pixel whose
label is blank gets the blank value. -/
theorem detection_pseudo_remove_low_sn_spec (p : noisechiselparams) (worklab : List Int)
    (sn : sntable) (num i : Nat)
    (hsize : sn.size = num + 1) (harr : sn.array.length = num + 1)
    (hlab : ∀ j, j < worklab.length → rdI worklab j ≠ GAL_BLANK_INT32 →
      0 ≤ rdI worklab j ∧ rdI worklab j ≤ num)
    (hi : i < worklab.length) :
    (detection_pseudo_remove_low_sn p worklab sn).length = worklab.length
    ∧ (p.hasblank = true → rdI worklab i = GAL_BLANK_INT32 →
        rdN (detection_pseudo_remove_low_sn p worklab sn) i = GAL_BLANK_UINT8)
    ∧ (rdI worklab i ≠ GAL_BLANK_INT32 →
        rdN (detection_pseudo_remove_low_sn p worklab sn) i
          = (if Flt.gt (rdF sn.array (rdI worklab i).toNat) p.detsnthresh = true then 1 else 0))
    ∧ (rdI worklab i ≠ GAL_BLANK_INT32 →
        (rdF sn.array (rdI worklab i).toNat).isnan = true →
        rdN (detection_pseudo_remove_low_sn p worklab sn) i = 0) := by
  have hval : rdN (detection_pseudo_remove_low_sn p worklab sn) i
      = (if p.hasblank = true ∧ rdI worklab i = GAL_BLANK_INT32 then GAL_BLANK_UINT8
         else if rdN (detection_pseudo_keep p sn) (rdI worklab i).toNat > 0 then 1 else 0) := by
    unfold detection_pseudo_remove_low_sn
    by_cases hflag : p.hasblank = true
    · simp only [hflag, if_true, true_and]
      exact getD_map_index _ worklab i 0 0 hi
    · simp only [hflag, if_false, false_and]
      exact getD_map_index _ worklab i 0 0 hi
  have hmain : rdI worklab i ≠ GAL_BLANK_INT32 →
      rdN (detection_pseudo_remove_low_sn p worklab sn) i
        = (if Flt.gt (rdF sn.array (rdI worklab i).toNat) p.detsnthresh = true then 1 else 0) := by
    intro hnb
    obtain ⟨h0, hn⟩ := hlab i hi hnb
    have hin : (rdI worklab i).toNat < sn.size := by omega
    rw [hval, if_neg (fun h => hnb h.2), detection_pseudo_keep_spec]
    by_cases hg : Flt.gt (rdF sn.array (rdI worklab i).toNat) p.detsnthresh = true
    · simp [hg, hin]
    · simp [hg]
  refine ⟨?_, ?_, hmain, ?_⟩
  · unfold detection_pseudo_remove_low_sn
    split <;> simp only [List.length_map]
  · intro hflag hb
    rw [hval, if_pos ⟨hflag, hb⟩]
  · intro hnb hnan
    rw [hmain hnb]
    have : rdF sn.array (rdI worklab i).toNat = Flt.nan := by
      cases h : rdF sn.array (rdI worklab i).toNat <;> simp_all [Flt.isnan]
    rw [this, Flt.gt_nan_left]
    simp

/-- C4, on three pseudo-detections of which the first is above the
threshold, the second has no S/N and the third is at the threshold: on an
input without the blank flag the pixel of the first becomes 1 and the pixel
of the second 0, and on the same labels with a blank pixel and the flag the
blank pixel gets the blank value and the pixel of the third 0. -/
theorem detection_pseudo_remove_low_sn_spec_witness :
    (rdI [1, 2, 0, 3] 0 ≠ GAL_BLANK_INT32
      ∧ rdN (detection_pseudo_remove_low_sn { detsnthresh := Flt.fin 1 } [1, 2, 0, 3]
          { array := [Flt.nan, Flt.fin 2, Flt.nan, Flt.fin 1], size := 4 }) 0 = 1)
    ∧ (rdI [1, 2, 0, 3] 1 ≠ GAL_BLANK_INT32
      ∧ rdN (detection_pseudo_remove_low_sn { detsnthresh := Flt.fin 1 } [1, 2, 0, 3]
          { array := [Flt.nan, Flt.fin 2, Flt.nan, Flt.fin 1], size := 4 }) 1 = 0)
    ∧ ((({ inputflag := 2, detsnthresh := Flt.fin 1 } : noisechiselparams).hasblank = true)
      ∧ rdI [1, 2, 0, GAL_BLANK_INT32, 3] 3 = GAL_BLANK_INT32
      ∧ rdN (detection_pseudo_remove_low_sn { inputflag := 2, detsnthresh := Flt.fin 1 }
          [1, 2, 0, GAL_BLANK_INT32, 3]
          { array := [Flt.nan, Flt.fin 2, Flt.nan, Flt.fin 1], size := 4 }) 3 = GAL_BLANK_UINT8) := by
  have h4 : ∀ j, j < ([1, 2, 0, 3] : List Int).length → rdI [1, 2, 0, 3] j ≠ GAL_BLANK_INT32 →
      0 ≤ rdI [1, 2, 0, 3] j ∧ rdI [1, 2, 0, 3] j ≤ (3 : Nat) := by
    intro j hj
    have hj' : j < 4 := hj
    interval_cases j <;> decide
  have h5 : ∀ j, j < ([1, 2, 0, GAL_BLANK_INT32, 3] : List Int).length →
      rdI [1, 2, 0, GAL_BLANK_INT32, 3] j ≠ GAL_BLANK_INT32 →
      0 ≤ rdI [1, 2, 0, GAL_BLANK_INT32, 3] j ∧ rdI [1, 2, 0, GAL_BLANK_INT32, 3] j ≤ (3 : Nat) := by
    intro j hj
    have hj' : j < 5 := hj
    interval_cases j <;> decide
  refine ⟨⟨by decide, ?_⟩, ⟨by decide, ?_⟩, by decide, by decide, ?_⟩
  · exact (detection_pseudo_remove_low_sn_spec { detsnthresh := Flt.fin 1 } [1, 2, 0, 3]
      { array := [Flt.nan, Flt.fin 2, Flt.nan, Flt.fin 1], size := 4 } 3 0
      rfl rfl h4 (by decide)).2.2.1 (by decide)
  · exact (detection_pseudo_remove_low_sn_spec { detsnthresh := Flt.fin 1 } [1, 2, 0, 3]
      { array := [Flt.nan, Flt.fin 2, Flt.nan, Flt.fin 1], size := 4 } 3 1
      rfl rfl h4 (by decide)).2.2.2 (by decide) rfl
  · exact (detection_pseudo_remove_low_sn_spec { inputflag := 2, detsnthresh := Flt.fin 1 }
      [1, 2, 0, GAL_BLANK_INT32, 3]
      { array := [Flt.nan, Flt.fin 2, Flt.nan, Flt.fin 1], size := 4 } 3 3
      rfl rfl h5 (by decide)).2.1 (by decide) (by decide)

/-! ## C5: the relabelling of `detection_final_remove_small_sn` -/

theorem kept_upto_zero (p : noisechiselparams) (snarr : List Flt) : kept_upto p snarr 0 = 0 := by
  simp [kept_upto]

theorem kept_upto_succ (p : noisechiselparams) (snarr : List Flt) (m : Nat) :
    kept_upto p snarr (m + 1)
      = kept_upto p snarr m
        + (if Flt.gt (rdF snarr (m + 1)) p.detsnthresh = true then 1 else 0) := by
  unfold kept_upto
  rw [List.range'_1_concat, List.filter_append, List.length_append, Nat.add_comm 1 m]
  by_cases h : Flt.gt (rdF snarr (m + 1)) p.detsnthresh = true
  · simp [List.filter, h]
  · simp [List.filter, h]

theorem kept_upto_mono (p : noisechiselparams) (snarr : List Flt) (m k : Nat) :
    kept_upto p snarr m ≤ kept_upto p snarr (m + k) := by
  induction k with
  | zero => exact Nat.le_refl _
  | succ k ih =>
      rw [← Nat.add_assoc, kept_upto_succ]
      omega

theorem kept_upto_le (p : noisechiselparams) (snarr : List Flt) (m n : Nat) (h : m ≤ n) :
    kept_upto p snarr m ≤ kept_upto p snarr n := by
  obtain ⟨k, rfl⟩ := Nat.exists_eq_add_of_le h
  exact kept_upto_mono p snarr m k

/-- Every rank `1..kept_upto m` is the rank of a kept label in `1..m`. -/
theorem kept_upto_surj (p : noisechiselparams) (snarr : List Flt) (m : Nat) :
    ∀ v, 1 ≤ v → v ≤ kept_upto p snarr m →
      ∃ L, 1 ≤ L ∧ L ≤ m ∧ Flt.gt (rdF snarr L) p.detsnthresh = true
        ∧ kept_upto p snarr L = v := by
  induction m with
  | zero =>
      intro v h1 h2
      rw [kept_upto_zero] at h2
      omega
  | succ m ih =>
      intro v h1 h2
      by_cases hv : v ≤ kept_upto p snarr m
      · obtain ⟨L, hL1, hL2, hg, hk⟩ := ih v h1 hv
        exact ⟨L, hL1, by omega, hg, hk⟩
      · have hs := kept_upto_succ p snarr m
        by_cases hg : Flt.gt (rdF snarr (m + 1)) p.detsnthresh = true
        · rw [if_pos hg] at hs
          exact ⟨m + 1, by omega, Nat.le_refl _, hg, by omega⟩
        · rw [if_neg hg] at hs
          omega

theorem rdI_replicate_zero (n j : Nat) : rdI (List.replicate n 0) j = 0 := by
  simp only [rdI, List.getD_eq_getElem?_getD, List.getElem?_replicate]
  split <;> rfl

/-- The state `(newlabs, curlab)` after the first `m` passes of the loop of
`detection_final_remove_small_sn`. -/
theorem detection_final_newlabs_upto (p : noisechiselparams) (num : Nat) (snarr : List Flt)
    (m : Nat) (hm : m ≤ num) :
    ((List.range' 1 m).foldl (detection_final_newlabs_step p snarr)
        (List.replicate (num + 1) 0, 1)).2 = 1 + (kept_upto p snarr m : Int)
    ∧ ((List.range' 1 m).foldl (detection_final_newlabs_step p snarr)
        (List.replicate (num + 1) 0, 1)).1.length = num + 1
    ∧ ∀ j, rdI ((List.range' 1 m).foldl (detection_final_newlabs_step p snarr)
        (List.replicate (num + 1) 0, 1)).1 j
        = (if 1 ≤ j ∧ j ≤ m ∧ Flt.gt (rdF snarr j) p.detsnthresh = true
           then (kept_upto p snarr j : Int) else 0) := by
  induction m with
  | zero =>
      refine ⟨by simp [kept_upto_zero], by simp, ?_⟩
      intro j
      have : ¬ (1 ≤ j ∧ j ≤ 0 ∧ Flt.gt (rdF snarr j) p.detsnthresh = true) := by omega
      rw [if_neg this]
      simpa using rdI_replicate_zero (num + 1) j
  | succ m ih =>
      obtain ⟨hcur, hlen, hval⟩ := ih (by omega)
      rw [List.range'_1_concat, List.foldl_append, Nat.add_comm 1 m]
      simp only [List.foldl_cons, List.foldl_nil]
      have hs := kept_upto_succ p snarr m
      by_cases hg : Flt.gt (rdF snarr (m + 1)) p.detsnthresh = true
      · rw [if_pos hg] at hs
        rw [detection_final_newlabs_step, if_pos hg]
        refine ⟨by simp only; rw [hcur, hs]; push_cast; ring,
          by simp only; rw [List.length_set, hlen], ?_⟩
        intro j
        simp only [rdI, getD_set_eq]
        by_cases hj : m + 1 = j
        · subst hj
          rw [if_pos ⟨rfl, by rw [hlen]; omega⟩, if_pos ⟨by omega, Nat.le_refl _, hg⟩, hcur, hs]
          push_cast; ring
        · rw [if_neg (fun h => hj h.1)]
          have := hval j
          unfold rdI at this
          rw [this]
          by_cases hjm : j ≤ m
          · have h2 : j ≤ m + 1 := by omega
            simp only [hjm, h2, true_and]
          · have h2 : ¬ j ≤ m + 1 := by omega
            simp only [hjm, h2, false_and, and_false]
      · rw [if_neg hg] at hs
        rw [detection_final_newlabs_step, if_neg hg]
        refine ⟨by simp only; rw [hcur, hs]; simp,
          by simp only; rw [List.length_set, hlen], ?_⟩
        intro j
        simp only [rdI, getD_set_eq]
        by_cases hj : m + 1 = j
        · subst hj
          rw [if_pos ⟨rfl, by rw [hlen]; omega⟩, if_neg (fun h => hg h.2.2)]
        · rw [if_neg (fun h => hj h.1)]
          have := hval j
          unfold rdI at this
          rw [this]
          by_cases hjm : j ≤ m
          · have h2 : j ≤ m + 1 := by omega
            simp only [hjm, h2, true_and]
          · have h2 : ¬ j ≤ m + 1 := by omega
            simp only [hjm, h2, false_and, and_false]

/-- The new labels of `detection_final_remove_small_sn` in closed form: a kept
label gets its rank among the kept labels, every other index gets 0; the
counter ends one above the number of kept labels. -/
theorem detection_final_newlabs_spec (p : noisechiselparams) (num : Nat) (snarr : List Flt) :
    (detection_final_newlabs p num snarr).2 = 1 + (kept_upto p snarr num : Int)
    ∧ ∀ j, rdI (detection_final_newlabs p num snarr).1 j
        = (if 1 ≤ j ∧ j ≤ num ∧ Flt.gt (rdF snarr j) p.detsnthresh = true
           then (kept_upto p snarr j : Int) else 0) :=
  ⟨(detection_final_newlabs_upto p num snarr num (Nat.le_refl _)).1,
    (detection_final_newlabs_upto p num snarr num (Nat.le_refl _)).2.2⟩

/-- C5: for labels that are blank or in `0..num` (blank ones only when the
input is flagged as having blanks) and any S/N table,
`detection_final_remove_small_sn` sends each label `L` of `1..num` to 0 when
`SN[L]` is not above `detsnthresh` and otherwise to a label of `1..k`, where
`k` is the returned value; the kept labels are renumbered in increasing
order of their old label and fill `1..k` without gaps; every non-blank pixel
gets the new label of its old label and `binary = 1` exactly when the new
label is positive; blank-labelled pixels keep their label and their binary
value. -/
theorem detection_final_remove_small_sn_spec (p : noisechiselparams) (num : Nat)
    (snarr : List Flt)
    (hlen : p.olabel.length = p.binary.length)
    (hlab : ∀ j, j < p.olabel.length → rdI p.olabel j ≠ GAL_BLANK_INT32 →
      0 ≤ rdI p.olabel j ∧ rdI p.olabel j ≤ num)
    (hflag : p.hasblank = true ∨ ∀ j, j < p.olabel.length → rdI p.olabel j ≠ GAL_BLANK_INT32) :
    (detection_final_remove_small_sn_from p num snarr).2 = kept_upto p snarr num
    ∧ rdI (detection_final_newlabs p num snarr).1 0 = 0
    ∧ (∀ L, 1 ≤ L → L ≤ num → Flt.gt (rdF snarr L) p.detsnthresh = false →
        rdI (detection_final_newlabs p num snarr).1 L = 0)
    ∧ (∀ L, 1 ≤ L → L ≤ num → Flt.gt (rdF snarr L) p.detsnthresh = true →
        1 ≤ rdI (detection_final_newlabs p num snarr).1 L
        ∧ rdI (detection_final_newlabs p num snarr).1 L
            ≤ ((detection_final_remove_small_sn_from p num snarr).2 : Int))
    ∧ (∀ L L', 1 ≤ L → L < L' → L' ≤ num →
        Flt.gt (rdF snarr L) p.detsnthresh = true →
        Flt.gt (rdF snarr L') p.detsnthresh = true →
        rdI (detection_final_newlabs p num snarr).1 L
          < rdI (detection_final_newlabs p num snarr).1 L')
    ∧ (∀ v : Nat, 1 ≤ v → v ≤ (detection_final_remove_small_sn_from p num snarr).2 →
        ∃ L, 1 ≤ L ∧ L ≤ num ∧ Flt.gt (rdF snarr L) p.detsnthresh = true
          ∧ rdI (detection_final_newlabs p num snarr).1 L = (v : Int))
    ∧ (∀ i, i < p.olabel.length →
        (rdI p.olabel i = GAL_BLANK_INT32 →
          rdI (detection_final_remove_small_sn_from p num snarr).1.olabel i = GAL_BLANK_INT32
          ∧ rdN (detection_final_remove_small_sn_from p num snarr).1.binary i = rdN p.binary i)
        ∧ (rdI p.olabel i ≠ GAL_BLANK_INT32 →
          rdI (detection_final_remove_small_sn_from p num snarr).1.olabel i
            = rdI (detection_final_newlabs p num snarr).1 (rdI p.olabel i).toNat
          ∧ rdN (detection_final_remove_small_sn_from p num snarr).1.binary i
            = (if 0 < rdI (detection_final_remove_small_sn_from p num snarr).1.olabel i
               then 1 else 0))) := by
  have _ := hlab
  obtain ⟨hcur, hval⟩ := detection_final_newlabs_spec p num snarr
  have hret : (detection_final_remove_small_sn_from p num snarr).2 = kept_upto p snarr num := by
    show ((detection_final_newlabs p num snarr).2 - 1).toNat = _
    rw [hcur]
    omega
  have hkept : ∀ L, 1 ≤ L → L ≤ num → Flt.gt (rdF snarr L) p.detsnthresh = true →
      rdI (detection_final_newlabs p num snarr).1 L = (kept_upto p snarr L : Int) := by
    intro L h1 h2 hg
    rw [hval, if_pos ⟨h1, h2, hg⟩]
  have hpos : ∀ L, 1 ≤ L → Flt.gt (rdF snarr L) p.detsnthresh = true →
      1 ≤ kept_upto p snarr L := by
    intro L h1 hg
    obtain ⟨m, rfl⟩ : ∃ m, L = m + 1 := ⟨L - 1, by omega⟩
    rw [kept_upto_succ, if_pos hg]
    omega
  refine ⟨hret, ?_, ?_, ?_, ?_, ?_, ?_⟩
  · rw [hval, if_neg (by omega)]
  · intro L _ _ hg
    rw [hval, if_neg]
    rintro ⟨_, _, h⟩
    rw [hg] at h
    exact absurd h (by decide)
  · intro L h1 h2 hg
    rw [hkept L h1 h2 hg, hret]
    have := hpos L h1 hg
    have := kept_upto_le p snarr L num h2
    omega
  · intro L L' h1 hlt h2 hg hg'
    rw [hkept L h1 (by omega) hg, hkept L' (by omega) h2 hg']
    obtain ⟨m, rfl⟩ : ∃ m, L' = m + 1 := ⟨L' - 1, by omega⟩
    have h3 := kept_upto_le p snarr L m (by omega)
    have h4 := kept_upto_succ p snarr m
    rw [if_pos hg'] at h4
    omega
  · intro v h1 h2
    rw [hret] at h2
    obtain ⟨L, hL1, hL2, hg, hk⟩ := kept_upto_surj p snarr num v h1 h2
    exact ⟨L, hL1, hL2, hg, by rw [hkept L hL1 hL2 hg, hk]⟩
  · intro i hi
    have hl : rdI (detection_final_remove_small_sn_from p num snarr).1.olabel i
        = (detection_final_pixel p (detection_final_newlabs p num snarr).1
            (rdI p.olabel i, rdN p.binary i)).1 := by
      show rdI (((List.zip p.olabel p.binary).map _).map Prod.fst) i = _
      rw [List.map_map]
      exact getD_map_zip _ _ _ i 0 0 0 hi hlen
    have hb : rdN (detection_final_remove_small_sn_from p num snarr).1.binary i
        = (detection_final_pixel p (detection_final_newlabs p num snarr).1
            (rdI p.olabel i, rdN p.binary i)).2 := by
      show rdN (((List.zip p.olabel p.binary).map _).map Prod.snd) i = _
      rw [List.map_map]
      exact getD_map_zip _ _ _ i 0 0 0 hi hlen
    constructor
    · intro hblank
      have hf : p.hasblank = true := by
        rcases hflag with h | h
        · exact h
        · exact absurd hblank (h i hi)
      rw [hl, hb]
      simp [detection_final_pixel, hf, hblank]
    · intro hnb
      rw [hb, hl]
      by_cases hf : p.hasblank = true
      · simp [detection_final_pixel, hf, hnb]
      · simp [detection_final_pixel, hf]

/-- C5, on three final detections of which the second is below the
threshold, with a blank pixel. -/
theorem detection_final_remove_small_sn_spec_witness :
    sample_final.hasblank = true
    ∧ (detection_final_remove_small_sn_from sample_final 3
        [Flt.nan, Flt.fin 2, Flt.fin 1, Flt.fin 5]).2
      = kept_upto sample_final [Flt.nan, Flt.fin 2, Flt.fin 1, Flt.fin 5] 3 :=
  ⟨by decide,
   (detection_final_remove_small_sn_spec sample_final 3
    [Flt.nan, Flt.fin 2, Flt.fin 1, Flt.fin 5] (by decide)
    (by
      intro j hj
      have hj' : j < 6 := hj
      interval_cases j <;> decide)
    (Or.inl (by decide))).1⟩

/-! ## The table filled by `detection_sn` -/

theorem rdF_replicate_zero (n j : Nat) : rdF (List.replicate n (Flt.fin 0)) j = Flt.fin 0 := by
  simp only [rdF, List.getD_eq_getElem?_getD, List.getElem?_replicate]
  split <;> rfl

/-- Writing entry `c` and reading the first `c+1` entries appends the
written value to the first `c` entries. -/
theorem take_succ_set {α : Type} (l : List α) (c : Nat) (v : α) (hc : c < l.length) :
    (l.set c v).take (c + 1) = l.take c ++ [v] := by
  induction l generalizing c with
  | nil => simp at hc
  | cons x xs ih =>
      cases c with
      | zero => simp
      | succ c =>
          have hc' : c < xs.length := by simpa using hc
          simp [ih c hc']

/-- The table of the roles other than Sky after the loop has handled the
labels `1..m`. -/
theorem detection_sn_fill_det_upto (p : noisechiselparams) (acc : snarrays)
    (num s0d1D2 : Nat) (hrole : s0d1D2 ≠ 0) (m : Nat) (hm : m ≤ num) :
    ((List.range' 1 m).foldl (detection_sn_fill_step p acc s0d1D2)
        (snfill.init p num s0d1D2)).snarr.length = num + 1
    ∧ ∀ j, rdF ((List.range' 1 m).foldl (detection_sn_fill_step p acc s0d1D2)
        (snfill.init p num s0d1D2)).snarr j
        = (if j = 0 then Flt.nan
           else if j ≤ m ∧ j ≤ num then
             (if detection_sn_eligible p acc j = true then detection_sn_value p acc j
              else Flt.nan)
           else Flt.fin 0) := by
  induction m with
  | zero =>
      simp only [List.range'_zero, List.foldl_nil, snfill.init, if_pos hrole]
      refine ⟨by simp, ?_⟩
      intro j
      unfold rdF
      rw [getD_set_eq]
      by_cases hj : j = 0
      · subst hj
        simp
      · rw [if_neg (fun h => hj h.1.symm), if_neg hj, if_neg (by omega)]
        exact rdF_replicate_zero _ j
  | succ m ih =>
      obtain ⟨hlen, hval⟩ := ih (by omega)
      rw [List.range'_1_concat, List.foldl_append, Nat.add_comm 1 m]
      simp only [List.foldl_cons, List.foldl_nil]
      have key : ∀ (s : snfill), s.snarr.length = num + 1 →
          (detection_sn_fill_step p acc s0d1D2 s (m + 1)).snarr
            = s.snarr.set (m + 1)
                (if detection_sn_eligible p acc (m + 1) = true
                 then detection_sn_value p acc (m + 1) else Flt.nan) := by
        intro s _
        unfold detection_sn_fill_step
        by_cases he : detection_sn_eligible p acc (m + 1) = true
        · simp only [he, if_true, if_pos hrole]
        · simp only [he, if_false, if_pos hrole]
          simp
      rw [key _ hlen]
      refine ⟨by rw [List.length_set, hlen], ?_⟩
      intro j
      unfold rdF
      rw [getD_set_eq]
      by_cases hj : m + 1 = j
      · subst hj
        rw [if_pos ⟨rfl, by rw [hlen]; omega⟩, if_neg (show ¬ (m + 1 = 0) by omega),
          if_pos (show m + 1 ≤ m + 1 ∧ m + 1 ≤ num from ⟨Nat.le_refl _, hm⟩)]
      · rw [if_neg (fun h => hj h.1)]
        have := hval j
        unfold rdF at this
        rw [this]
        by_cases hj0 : j = 0
        · rw [if_pos hj0, if_pos hj0]
        · rw [if_neg hj0, if_neg hj0]
          by_cases hjm : j ≤ m
          · have h2 : j ≤ m + 1 := by omega
            simp only [hjm, h2, true_and]
          · have h2 : ¬ j ≤ m + 1 := by omega
            simp only [hjm, h2, false_and, if_false]

theorem eligible_labels_succ (p : noisechiselparams) (acc : snarrays) (m : Nat) :
    eligible_labels p acc (m + 1)
      = eligible_labels p acc m
        ++ (if detection_sn_eligible p acc (m + 1) = true then [m + 1] else []) := by
  unfold eligible_labels
  rw [List.range'_1_concat, List.filter_append, Nat.add_comm 1 m]
  by_cases h : detection_sn_eligible p acc (m + 1) = true
  · simp [List.filter, h]
  · simp [List.filter, h]

theorem eligible_labels_length_le (p : noisechiselparams) (acc : snarrays) (m : Nat) :
    (eligible_labels p acc m).length ≤ m := by
  unfold eligible_labels
  calc ((List.range' 1 m).filter (detection_sn_eligible p acc)).length
      ≤ (List.range' 1 m).length := List.length_filter_le _ _
    _ = m := List.length_range' _ _ _

theorem mem_eligible_labels (p : noisechiselparams) (acc : snarrays) (m L : Nat) :
    L ∈ eligible_labels p acc m ↔ (1 ≤ L ∧ L ≤ m ∧ detection_sn_eligible p acc L = true) := by
  unfold eligible_labels
  rw [List.mem_filter, List.mem_range'_1]
  constructor
  · rintro ⟨⟨h1, h2⟩, h3⟩
    exact ⟨h1, by omega, h3⟩
  · rintro ⟨h1, h2, h3⟩
    exact ⟨⟨h1, by omega⟩, h3⟩

/-- The table of the Sky role after the loop has handled the labels `1..m`:
the first `counter` entries are the S/N of the eligible labels met so far,
in the order of the labels, and `indarr` holds these labels. -/
theorem detection_sn_fill_sky_upto (p : noisechiselparams) (acc : snarrays)
    (num : Nat) (m : Nat) (hm : m ≤ num) :
    ((List.range' 1 m).foldl (detection_sn_fill_step p acc 0) (snfill.init p num 0)).counter
        = (eligible_labels p acc m).length
    ∧ ((List.range' 1 m).foldl (detection_sn_fill_step p acc 0)
        (snfill.init p num 0)).snarr.length = num + 1
    ∧ ((List.range' 1 m).foldl (detection_sn_fill_step p acc 0)
        (snfill.init p num 0)).snarr.take (eligible_labels p acc m).length
        = (eligible_labels p acc m).map (detection_sn_value p acc)
    ∧ (p.checkdetsn = false →
        ((List.range' 1 m).foldl (detection_sn_fill_step p acc 0)
          (snfill.init p num 0)).indarr = none)
    ∧ (p.checkdetsn = true →
        ∃ a, ((List.range' 1 m).foldl (detection_sn_fill_step p acc 0)
            (snfill.init p num 0)).indarr = some a
          ∧ a.length = num + 1
          ∧ a.take (eligible_labels p acc m).length
              = (eligible_labels p acc m).map (fun (i : Nat) => (i : Int))) := by
  induction m with
  | zero =>
      simp only [List.range'_zero, List.foldl_nil, snfill.init]
      refine ⟨by simp [eligible_labels], by simp, by simp [eligible_labels], ?_, ?_⟩
      · intro h; simp [h]
      · intro h; simp [h, eligible_labels]
  | succ m ih =>
      obtain ⟨hcnt, hlen, htake, hnone, hsome⟩ := ih (by omega)
      have hle := eligible_labels_length_le p acc m
      rw [List.range'_1_concat, List.foldl_append, Nat.add_comm 1 m]
      simp only [List.foldl_cons, List.foldl_nil]
      rw [eligible_labels_succ]
      generalize (List.range' 1 m).foldl (detection_sn_fill_step p acc 0)
        (snfill.init p num 0) = s at hcnt hlen htake hnone hsome ⊢
      by_cases he : detection_sn_eligible p acc (m + 1) = true
      · rw [if_pos he]
        have hstep : detection_sn_fill_step p acc 0 s (m + 1)
            = { snarr := s.snarr.set s.counter (detection_sn_value p acc (m + 1))
                indarr := s.indarr.map (fun a => a.set s.counter ((m + 1 : Nat) : Int))
                counter := s.counter + 1 } := by
          unfold detection_sn_fill_step
          simp only [he, if_true, ne_eq, not_true_eq_false, if_false]
        rw [hstep]
        simp only [List.length_append, List.length_singleton, List.map_append,
          List.map_singleton]
        rw [hcnt]
        refine ⟨rfl, by rw [List.length_set, hlen], ?_, ?_, ?_⟩
        · rw [take_succ_set _ _ _ (by rw [hlen]; omega), htake]
        · intro h
          rw [hnone h]
          rfl
        · intro h
          obtain ⟨a, ha, hal, hat⟩ := hsome h
          refine ⟨a.set (eligible_labels p acc m).length ((m + 1 : Nat) : Int), ?_, ?_, ?_⟩
          · rw [ha]; rfl
          · rw [List.length_set, hal]
          · rw [take_succ_set _ _ _ (by rw [hal]; omega), hat]
      · rw [if_neg he]
        have hstep : detection_sn_fill_step p acc 0 s (m + 1) = s := by
          unfold detection_sn_fill_step
          simp only [he, if_false, ne_eq, not_true_eq_false]
          rfl
        rw [hstep]
        simp only [List.append_nil]
        exact ⟨hcnt, hlen, htake, hnone, hsome⟩

/-- The test of `detection_sn` on a label is the eligibility test as the
specification words it. -/
theorem detection_sn_eligible_eq_spec (p : noisechiselparams) (acc : snarrays) (i : Nat) :
    detection_sn_eligible p acc i = spec_sn_eligible p acc i := rfl

/-- The value that `detection_sn` stores for a label is the S/N as the
specification words it. -/
theorem detection_sn_value_eq_spec (p : noisechiselparams) (acc : snarrays) (i : Nat) :
    detection_sn_value p acc i = spec_sn p acc i := by
  unfold detection_sn_value spec_sn spec_sn_mean spec_sn_variance spec_sn_tile detection_sn_ave
  cases p.skysubtracted <;> rfl

theorem eligible_labels_eq_spec (p : noisechiselparams) (acc : snarrays) (m : Nat) :
    eligible_labels p acc m = spec_eligible_labels p acc m := rfl

theorem mem_spec_eligible_labels (p : noisechiselparams) (acc : snarrays) (m L : Nat) :
    L ∈ spec_eligible_labels p acc m ↔ (1 ≤ L ∧ L ≤ m ∧ spec_sn_eligible p acc L = true) :=
  mem_eligible_labels p acc m L

/-! ## C8: Sky pseudo-detections that touch an initial detection -/

/-- What one pass of the first loop of `detection_sn` does to `flag` and
`area` in the Sky role: either the pixel is the first of its label over an
initial detection, and the label is flagged with its area reset; or `flag`
is left as it is, `area` is left as it is or counts one more pixel of a
label that is not flagged, and a pixel over an initial detection belongs to
a label flagged already. -/
theorem detection_sn_pixel_sky (p : noisechiselparams) (acc : snarrays) (idx : Nat)
    (plab dlab : Int) (f : Flt) :
    (plab ≠ 0 ∧ plab ≠ GAL_BLANK_INT32 ∧ dlab ≠ 0
      ∧ (detection_sn_pixel p 0 acc idx plab dlab f).flag = acc.flag.set plab.toNat 1
      ∧ (detection_sn_pixel p 0 acc idx plab dlab f).area = acc.area.set plab.toNat 0)
    ∨ ((detection_sn_pixel p 0 acc idx plab dlab f).flag = acc.flag
      ∧ ((detection_sn_pixel p 0 acc idx plab dlab f).area = acc.area
          ∨ (rdN acc.flag plab.toNat = 0
              ∧ (detection_sn_pixel p 0 acc idx plab dlab f).area
                  = acc.area.set plab.toNat (rdN acc.area plab.toNat + 1)))
      ∧ (plab ≠ 0 → plab ≠ GAL_BLANK_INT32 → dlab ≠ 0 → rdN acc.flag plab.toNat ≠ 0)) := by
  have hor := lor_hasblank_ne_zero p.inputflag
  unfold detection_sn_pixel
  by_cases h1 : plab ≠ 0 ∧ ((p.inputflag ||| GAL_DATA_FLAG_HASBLANK) ≠ 0 ∧ plab ≠ GAL_BLANK_INT32)
  · rw [if_pos h1]
    by_cases h2 : rdN acc.flag plab.toNat ≠ 0
    · rw [if_pos ⟨rfl, h2⟩]
      exact Or.inr ⟨rfl, Or.inl rfl, fun _ _ _ => h2⟩
    · rw [if_neg (fun h => h2 h.2)]
      by_cases h3 : dlab ≠ 0
      · rw [if_pos ⟨rfl, h3⟩]
        exact Or.inl ⟨h1.1, h1.2.2, h3, rfl, rfl⟩
      · rw [if_neg (fun h => h3 h.2)]
        have hf0 : rdN acc.flag plab.toNat = 0 := by
          by_contra h; exact h2 h
        by_cases h4 : f.isnan = true
        · rw [if_pos h4]
          exact Or.inr ⟨rfl, Or.inl rfl, fun _ _ hd => absurd hd h3⟩
        · rw [if_neg h4]
          by_cases h5 : Flt.gt f (Flt.fin 0) = true
          · rw [if_pos h5]
            exact Or.inr ⟨rfl, Or.inr ⟨hf0, rfl⟩, fun _ _ hd => absurd hd h3⟩
          · rw [if_neg h5]
            exact Or.inr ⟨rfl, Or.inr ⟨hf0, rfl⟩, fun _ _ hd => absurd hd h3⟩
  · rw [if_neg h1]
    refine Or.inr ⟨rfl, Or.inl rfl, ?_⟩
    intro ha hb _
    exact absurd ⟨ha, hor, hb⟩ h1

theorem detection_sn_scan_succ (p : noisechiselparams) (worklab : List Int) (s0d1D2 : Nat)
    (acc : snarrays) (k : Nat) :
    detection_sn_scan p worklab s0d1D2 acc (k + 1)
      = detection_sn_pixel p s0d1D2 (detection_sn_scan p worklab s0d1D2 acc k) k
          (rdI worklab k) (if s0d1D2 = 0 then rdI p.olabel k else 0) (rdF p.input k) := by
  simp [detection_sn_scan, List.range_succ, List.foldl_append]

/-- The invariant of the first loop of `detection_sn` in the Sky role, after
`k` pixels: a flagged label has area 0, and a label with a pixel over an
initial detection among the first `k` pixels is flagged. -/
theorem detection_sn_scan_sky (p : noisechiselparams) (worklab : List Int) (num : Nat)
    (hlab : ∀ j, j < p.input.length → rdI worklab j ≠ GAL_BLANK_INT32 →
      0 ≤ rdI worklab j ∧ rdI worklab j ≤ num)
    (k : Nat) (hk : k ≤ p.input.length) :
    (detection_sn_scan p worklab 0 (snarrays.init p num) k).flag.length = num + 1
    ∧ (detection_sn_scan p worklab 0 (snarrays.init p num) k).area.length = num + 1
    ∧ (∀ L, rdN (detection_sn_scan p worklab 0 (snarrays.init p num) k).flag L ≠ 0 →
        rdN (detection_sn_scan p worklab 0 (snarrays.init p num) k).area L = 0)
    ∧ (∀ (L idx : Nat), 1 ≤ L → idx < k → rdI worklab idx = (L : Int) →
        rdI p.olabel idx ≠ 0 →
        rdN (detection_sn_scan p worklab 0 (snarrays.init p num) k).flag L ≠ 0) := by
  induction k with
  | zero =>
      refine ⟨by simp [detection_sn_scan, snarrays.init],
        by simp [detection_sn_scan, snarrays.init], ?_, ?_⟩
      · intro L _
        simpa [detection_sn_scan, snarrays.init] using rdN_replicate_zero (num + 1) L
      · intro L idx _ hidx
        omega
  | succ k ih =>
      obtain ⟨hfl, hal, hfa, hwit⟩ := ih (by omega)
      rw [detection_sn_scan_succ]
      simp only [if_true]
      generalize detection_sn_scan p worklab 0 (snarrays.init p num) k = acc
        at hfl hal hfa hwit ⊢
      have hk' : k < p.input.length := by omega
      rcases detection_sn_pixel_sky p acc k (rdI worklab k) (rdI p.olabel k) (rdF p.input k)
        with ⟨hp0, hpb, hd, hflag, harea⟩ | ⟨hflag, harea, hold⟩
      · obtain ⟨hge, hle⟩ := hlab k hk' hpb
        have hin : (rdI worklab k).toNat < num + 1 := by omega
        rw [hflag, harea]
        refine ⟨by rw [List.length_set, hfl], by rw [List.length_set, hal], ?_, ?_⟩
        · intro L hL
          unfold rdN at hL ⊢
          rw [getD_set_eq] at hL ⊢
          by_cases hj : (rdI worklab k).toNat = L ∧ (rdI worklab k).toNat < acc.flag.length
          · rw [if_pos ⟨hj.1, by rw [hal]; exact hin⟩]
          · rw [if_neg hj] at hL
            have hj' : ¬ ((rdI worklab k).toNat = L
                ∧ (rdI worklab k).toNat < acc.area.length) := by
              intro h
              exact hj ⟨h.1, by rw [hfl]; exact hin⟩
            rw [if_neg hj']
            exact hfa L hL
        · intro L idx hL hidx hw hdl
          unfold rdN
          rw [getD_set_eq]
          by_cases hj : (rdI worklab k).toNat = L ∧ (rdI worklab k).toNat < acc.flag.length
          · rw [if_pos hj]
            decide
          · rw [if_neg hj]
            have hne : idx ≠ k := by
              intro h
              subst h
              apply hj
              refine ⟨by rw [hw]; simp, by rw [hfl]; exact hin⟩
            exact hwit L idx hL (by omega) hw hdl
      · rw [hflag]
        refine ⟨hfl, ?_, ?_, ?_⟩
        · rcases harea with h | ⟨_, h⟩
          · rw [h]; exact hal
          · rw [h, List.length_set, hal]
        · intro L hL
          rcases harea with h | ⟨hf0, h⟩
          · rw [h]; exact hfa L hL
          · rw [h]
            unfold rdN
            rw [getD_set_eq]
            have hj : ¬ ((rdI worklab k).toNat = L
                ∧ (rdI worklab k).toNat < acc.area.length) := by
              rintro ⟨h1, _⟩
              rw [h1] at hf0
              exact hL hf0
            rw [if_neg hj]
            exact hfa L hL
        · intro L idx hL hidx hw hdl
          by_cases hik : idx = k
          · subst hik
            have h1 : rdI worklab idx ≠ 0 := by rw [hw]; omega
            have h2 : rdI worklab idx ≠ GAL_BLANK_INT32 := by
              rw [hw]; simp only [GAL_BLANK_INT32]; omega
            have := hold h1 h2 hdl
            rw [hw] at this
            simpa using this
          · exact hwit L idx hL (by omega) hw hdl

/-- C8: in the Sky role (`s0d1D2 = 0`), a pseudo-detection label `L` of
`1..num` with at least one pixel over a non-zero initial label ends the
first loop of `detection_sn` with `area[L] = 0`, fails the eligibility test
and is not among the labels whose S/N make up the returned list (nor in the
saved label column), wherever that pixel comes in the scan and whatever was
accumulated before it. -/
theorem detection_sn_sky_disqualified (p : noisechiselparams) (worklab : List Int)
    (num L idx : Nat) (hdim : p.ndim = 2 ∨ p.ndim = 3)
    (hlab : ∀ j, j < p.input.length → rdI worklab j ≠ GAL_BLANK_INT32 →
      0 ≤ rdI worklab j ∧ rdI worklab j ≤ num)
    (hL : 1 ≤ L) (hidx : idx < p.input.length)
    (hpix : rdI worklab idx = (L : Int)) (hdet : rdI p.olabel idx ≠ 0) :
    rdN (detection_sn_accumulate p worklab num 0).area L = 0
    ∧ detection_sn_eligible p (detection_sn_accumulate p worklab num 0) L = false
    ∧ L ∉ eligible_labels p (detection_sn_accumulate p worklab num 0) num
    ∧ ∃ r, detection_sn p worklab num 0 = Except.ok r
        ∧ r.sn.array.take r.sn.size
            = (eligible_labels p (detection_sn_accumulate p worklab num 0) num).map
                (detection_sn_value p (detection_sn_accumulate p worklab num 0))
        ∧ (p.checkdetsn = true →
            r.snind = some ((eligible_labels p (detection_sn_accumulate p worklab num 0)
              num).map (fun (i : Nat) => (i : Int)))) := by
  obtain ⟨_, _, hfa, hwit⟩ := detection_sn_scan_sky p worklab num hlab p.input.length
    (Nat.le_refl _)
  have harea : rdN (detection_sn_accumulate p worklab num 0).area L = 0 :=
    hfa L (hwit L idx hL hidx hpix hdet)
  have helig : detection_sn_eligible p (detection_sn_accumulate p worklab num 0) L = false := by
    unfold detection_sn_eligible
    rw [harea]
    simp
  have hnd : ¬ (p.ndim ≠ 2 ∧ p.ndim ≠ 3) := by omega
  have hna : ¬ (p.checkdetsn = true ∧ 0 = 2 ∧ p.continueaftercheck = false) := by
    rintro ⟨_, h2, _⟩
    exact absurd h2 (by decide)
  obtain ⟨hcnt, _, htake, _, hsome⟩ := detection_sn_fill_sky_upto p
    (detection_sn_accumulate p worklab num 0) num num (Nat.le_refl _)
  have hsize : (detection_sn_fill p (detection_sn_accumulate p worklab num 0) num 0).counter
      = (eligible_labels p (detection_sn_accumulate p worklab num 0) num).length := hcnt
  refine ⟨harea, helig, ?_, _, by rw [detection_sn, if_neg hnd, if_neg hna], ?_, ?_⟩
  · intro hmem
    have := ((mem_eligible_labels _ _ _ _).1 hmem).2.2
    rw [helig] at this
    exact absurd this (by decide)
  · simp only [if_true]
    rw [hsize]
    exact htake
  · intro hc
    obtain ⟨a, ha, _, hat⟩ := hsome hc
    simp only [if_true]
    rw [hsize]
    show Option.map _ (detection_sn_fill p _ num 0).indarr = _
    unfold detection_sn_fill
    rw [ha]
    simp only [Option.map_some']
    rw [hat]

/-- C8, in the Sky role on the sample image: the first pseudo-detection has
its third pixel over the initial detection, after two accumulated pixels. -/
theorem detection_sn_sky_disqualified_witness :
    (sample_sn.ndim = 2 ∨ sample_sn.ndim = 3)
    ∧ rdI [1, 1, 1, 0, 2, 2] 2 = ((1 : Nat) : Int)
    ∧ rdI sample_sn.olabel 2 ≠ 0
    ∧ rdN (detection_sn_accumulate sample_sn [1, 1, 1, 0, 2, 2] 2 0).area 1 = 0
    ∧ 1 ∉ eligible_labels sample_sn
        (detection_sn_accumulate sample_sn [1, 1, 1, 0, 2, 2] 2 0) 2 :=
  ⟨Or.inl rfl, by decide, by decide,
    (detection_sn_sky_disqualified sample_sn [1, 1, 1, 0, 2, 2] 2 1 2 (Or.inl rfl)
      (by
        intro j hj
        have hj' : j < 6 := hj
        interval_cases j <;> decide)
      (by decide) (by decide) (by decide) (by decide)).1,
    (detection_sn_sky_disqualified sample_sn [1, 1, 1, 0, 2, 2] 2 1 2 (Or.inl rfl)
      (by
        intro j hj
        have hj' : j < 6 := hj
        interval_cases j <;> decide)
      (by decide) (by decide) (by decide) (by decide)).2.2.1⟩

/-! ## C11: the areas accumulated by `detection_sn` -/

/-- Outside the Sky role, one pass of the first loop of `detection_sn`
leaves the arrays as they are on a pixel whose label is 0 or blank or whose
value is NaN. -/
theorem detection_sn_pixel_skip (p : noisechiselparams) (s0d1D2 : Nat) (acc : snarrays)
    (idx : Nat) (plab dlab : Int) (f : Flt) (hs : s0d1D2 ≠ 0)
    (h : plab = 0 ∨ plab = GAL_BLANK_INT32 ∨ f.isnan = true) :
    detection_sn_pixel p s0d1D2 acc idx plab dlab f = acc := by
  unfold detection_sn_pixel
  by_cases h1 : plab ≠ 0 ∧ ((p.inputflag ||| GAL_DATA_FLAG_HASBLANK) ≠ 0 ∧ plab ≠ GAL_BLANK_INT32)
  · rw [if_pos h1, if_neg (fun h => hs h.1), if_neg (fun h => hs h.1)]
    rcases h with h | h | h
    · exact absurd h h1.1
    · exact absurd h h1.2.2
    · rw [if_pos h]
  · rw [if_neg h1]

/-- Outside the Sky role, one pass of the first loop of `detection_sn`
counts the pixel in the area of its label when the label is neither 0 nor
blank and the value is not NaN. -/
theorem detection_sn_pixel_area (p : noisechiselparams) (s0d1D2 : Nat) (acc : snarrays)
    (idx : Nat) (plab dlab : Int) (f : Flt) (hs : s0d1D2 ≠ 0)
    (h0 : plab ≠ 0) (hb : plab ≠ GAL_BLANK_INT32) (hf : f.isnan = false) :
    (detection_sn_pixel p s0d1D2 acc idx plab dlab f).area
      = acc.area.set plab.toNat (rdN acc.area plab.toNat + 1) := by
  have hor := lor_hasblank_ne_zero p.inputflag
  unfold detection_sn_pixel
  rw [if_pos ⟨h0, hor, hb⟩, if_neg (fun h => hs h.1), if_neg (fun h => hs h.1),
    if_neg (by rw [hf]; decide)]
  by_cases h5 : Flt.gt f (Flt.fin 0) = true
  · rw [if_pos h5]
  · rw [if_neg h5]

theorem label_area_succ (p : noisechiselparams) (worklab : List Int) (L k : Nat) :
    label_area p worklab L (k + 1)
      = label_area p worklab L k
        + (if rdI worklab k = (L : Int) ∧ (rdF p.input k).isnan = false then 1 else 0) := by
  unfold label_area
  rw [List.range_succ, List.filter_append, List.length_append]
  congr 1
  by_cases h : rdI worklab k = (L : Int) ∧ (rdF p.input k).isnan = false
  · rw [if_pos h]
    simp [List.filter_cons, h.1, h.2]
  · rw [if_neg h]
    have : (decide (rdI worklab k = (L : Int)) && !(rdF p.input k).isnan) = false := by
      by_cases h1 : rdI worklab k = (L : Int)
      · have h2 : (rdF p.input k).isnan = true := by
          cases hh : (rdF p.input k).isnan
          · exact absurd ⟨h1, hh⟩ h
          · rfl
        simp [h2]
      · simp [h1]
    simp [List.filter_cons, this]

/-- The invariant of the first loop of `detection_sn` outside the Sky role,
after `k` pixels: the area of each label of `1..num` is the number of its
pixels that are not NaN among the first `k`. -/
theorem detection_sn_scan_area (p : noisechiselparams) (worklab : List Int) (num : Nat)
    (s0d1D2 : Nat) (hs : s0d1D2 ≠ 0)
    (hlab : ∀ j, j < p.input.length → rdI worklab j ≠ GAL_BLANK_INT32 →
      0 ≤ rdI worklab j ∧ rdI worklab j ≤ num)
    (k : Nat) (hk : k ≤ p.input.length) :
    (detection_sn_scan p worklab s0d1D2 (snarrays.init p num) k).area.length = num + 1
    ∧ ∀ L, 1 ≤ L → L ≤ num →
        rdN (detection_sn_scan p worklab s0d1D2 (snarrays.init p num) k).area L
          = label_area p worklab L k := by
  induction k with
  | zero =>
      refine ⟨by simp [detection_sn_scan, snarrays.init], ?_⟩
      intro L _ _
      simpa [detection_sn_scan, snarrays.init, label_area] using rdN_replicate_zero (num + 1) L
  | succ k ih =>
      obtain ⟨hal, harea⟩ := ih (by omega)
      rw [detection_sn_scan_succ]
      generalize detection_sn_scan p worklab s0d1D2 (snarrays.init p num) k = acc
        at hal harea ⊢
      have hk' : k < p.input.length := by omega
      by_cases hcount : rdI worklab k ≠ 0 ∧ rdI worklab k ≠ GAL_BLANK_INT32
          ∧ (rdF p.input k).isnan = false
      · obtain ⟨h0, hb, hf⟩ := hcount
        obtain ⟨hge, hle⟩ := hlab k hk' hb
        have hin : (rdI worklab k).toNat < num + 1 := by omega
        rw [detection_sn_pixel_area p s0d1D2 acc k _ _ _ hs h0 hb hf]
        refine ⟨by rw [List.length_set, hal], ?_⟩
        intro L hL1 hLn
        rw [label_area_succ, ← harea L hL1 hLn]
        unfold rdN
        rw [getD_set_eq]
        by_cases hj : (rdI worklab k).toNat = L
        · have hw : rdI worklab k = (L : Int) := by omega
          rw [if_pos ⟨hj, by rw [hal]; exact hin⟩, if_pos ⟨hw, hf⟩, hj]
        · have hw : rdI worklab k ≠ (L : Int) := by omega
          rw [if_neg (fun h => hj h.1), if_neg (fun h => hw h.1)]
          rfl
      · have hskip : rdI worklab k = 0 ∨ rdI worklab k = GAL_BLANK_INT32
            ∨ (rdF p.input k).isnan = true := by
          by_cases h0 : rdI worklab k = 0
          · exact Or.inl h0
          · by_cases hb : rdI worklab k = GAL_BLANK_INT32
            · exact Or.inr (Or.inl hb)
            · right; right
              cases hh : (rdF p.input k).isnan
              · exact absurd ⟨h0, hb, hh⟩ hcount
              · rfl
        rw [detection_sn_pixel_skip p s0d1D2 acc k _ _ _ hs hskip]
        refine ⟨hal, ?_⟩
        intro L hL1 hLn
        have hn : ¬ (rdI worklab k = (L : Int) ∧ (rdF p.input k).isnan = false) := by
          rintro ⟨hw, hf⟩
          rcases hskip with h | h | h
          · rw [hw] at h; omega
          · rw [hw] at h; simp only [GAL_BLANK_INT32] at h; omega
          · rw [hf] at h; exact absurd h (by decide)
        rw [label_area_succ, harea L hL1 hLn, if_neg hn]
        rfl

/-- C11: in the roles of the detections and of the final detections
(`s0d1D2` is 1 or 2), for labels that are blank or in `0..num`, the first
loop of `detection_sn` ends with `area[L]`, for every label `L` of `1..num`,
equal to the number of pixels whose label is `L` and whose value is not NaN;
and one pass of the loop on a pixel whose label is 0 or blank, or whose
value is NaN, leaves every accumulator as it is. -/
theorem detection_sn_area_counts (p : noisechiselparams) (worklab : List Int)
    (num s0d1D2 L : Nat) (hrole : s0d1D2 = 1 ∨ s0d1D2 = 2)
    (hlab : ∀ j, j < p.input.length → rdI worklab j ≠ GAL_BLANK_INT32 →
      0 ≤ rdI worklab j ∧ rdI worklab j ≤ num)
    (hL1 : 1 ≤ L) (hLn : L ≤ num) :
    rdN (detection_sn_accumulate p worklab num s0d1D2).area L
      = label_area p worklab L p.input.length
    ∧ ∀ (acc : snarrays) (idx : Nat) (plab dlab : Int) (f : Flt),
        (plab = 0 ∨ plab = GAL_BLANK_INT32 ∨ f.isnan = true) →
        detection_sn_pixel p s0d1D2 acc idx plab dlab f = acc := by
  have hs : s0d1D2 ≠ 0 := by omega
  exact ⟨(detection_sn_scan_area p worklab num s0d1D2 hs hlab p.input.length
      (Nat.le_refl _)).2 L hL1 hLn,
    fun acc idx plab dlab f h => detection_sn_pixel_skip p s0d1D2 acc idx plab dlab f hs h⟩

/-- C11, on the sample image in the role of the detections: label 1 has
three pixels, one of them NaN, and its area is 2. -/
theorem detection_sn_area_counts_witness :
    rdN (detection_sn_accumulate sample_sn [1, 2, 1, 1, 0, GAL_BLANK_INT32] 2 1).area 1 = 2
    ∧ label_area sample_sn [1, 2, 1, 1, 0, GAL_BLANK_INT32] 1 sample_sn.input.length = 2 :=
  ⟨((detection_sn_area_counts sample_sn [1, 2, 1, 1, 0, GAL_BLANK_INT32] 2 1 1 (Or.inl rfl)
      (by
        intro j hj
        have hj' : j < 6 := hj
        interval_cases j <;> decide)
      (by decide) (by decide)).1).trans (by decide), by decide⟩

/-! ## The sums accumulated by `detection_sn` -/

theorem spec_label_pixels_succ (p : noisechiselparams) (worklab : List Int) (L k : Nat) :
    spec_label_pixels p worklab L (k + 1)
      = spec_label_pixels p worklab L k
        ++ (if rdI worklab k = (L : Int) ∧ (rdF p.input k).isnan = false then [k] else []) := by
  unfold spec_label_pixels
  rw [List.range_succ, List.filter_append]
  congr 1
  by_cases h : rdI worklab k = (L : Int) ∧ (rdF p.input k).isnan = false
  · rw [if_pos h]
    simp [List.filter_cons, h.1, h.2]
  · rw [if_neg h]
    have : (decide (rdI worklab k = (L : Int)) && !(rdF p.input k).isnan) = false := by
      by_cases h1 : rdI worklab k = (L : Int)
      · have h2 : (rdF p.input k).isnan = true := by
          cases hh : (rdF p.input k).isnan
          · exact absurd ⟨h1, hh⟩ h
          · rfl
        simp [h2]
      · simp [h1]
    simp [List.filter_cons, this]

theorem label_area_eq_length (p : noisechiselparams) (worklab : List Int) (L k : Nat) :
    label_area p worklab L k = (spec_label_pixels p worklab L k).length := rfl

theorem spec_brightness_succ (p : noisechiselparams) (worklab : List Int) (L k : Nat) :
    spec_brightness p worklab L (k + 1)
      = (if rdI worklab k = (L : Int) ∧ (rdF p.input k).isnan = false
         then p.arith.add Prec.double (spec_brightness p worklab L k) (rdF p.input k)
         else spec_brightness p worklab L k) := by
  unfold spec_brightness
  rw [spec_label_pixels_succ, List.foldl_append]
  by_cases h : rdI worklab k = (L : Int) ∧ (rdF p.input k).isnan = false
  · rw [if_pos h, if_pos h]
    rfl
  · rw [if_neg h, if_neg h]
    rfl

theorem spec_flux_sum_succ (p : noisechiselparams) (worklab : List Int) (L k : Nat)
    (term : Nat → Flt) :
    spec_flux_sum p worklab L (k + 1) term
      = (if (rdI worklab k = (L : Int) ∧ (rdF p.input k).isnan = false)
            ∧ Flt.gt (rdF p.input k) (Flt.fin 0) = true
         then p.arith.add Prec.double (spec_flux_sum p worklab L k term) (term k)
         else spec_flux_sum p worklab L k term) := by
  unfold spec_flux_sum
  rw [spec_label_pixels_succ, List.filter_append, List.foldl_append]
  by_cases h : rdI worklab k = (L : Int) ∧ (rdF p.input k).isnan = false
  · rw [if_pos h]
    by_cases hg : Flt.gt (rdF p.input k) (Flt.fin 0) = true
    · rw [if_pos ⟨h, hg⟩]
      simp [List.filter_cons, hg]
    · rw [if_neg (fun hh => hg hh.2)]
      simp [List.filter_cons, hg]
  · rw [if_neg h, if_neg (fun hh => h hh.1)]
    rfl

theorem detection_sn_pos_length (p : noisechiselparams) (pos : List Flt) (idx L : Nat)
    (f : Flt) : (detection_sn_pos p pos idx L f).length = pos.length := by
  unfold detection_sn_pos
  simp only
  split
  · simp only [List.length_set]
  · split <;> simp only [List.length_set]

/-- The entries of `pos` of the other labels are left as they are. -/
theorem detection_sn_pos_other (p : noisechiselparams) (pos : List Flt) (idx L : Nat) (f : Flt)
    (hdim : p.ndim = 2 ∨ p.ndim = 3) (M c : Nat) (hML : M ≠ L) (hc : c ≤ p.ndim) :
    rdF (detection_sn_pos p pos idx L f) (M * (1 + p.ndim) + c) = rdF pos (M * (1 + p.ndim) + c) := by
  unfold detection_sn_pos rdF
  rcases hdim with h | h
  · simp only [h, if_true, getD_set_eq, List.length_set, true_and] at hc ⊢
    split_ifs <;> first | rfl | omega
  · have h2 : ¬ (3 = 2) := by decide
    simp only [h, h2, if_false, if_true, getD_set_eq, List.length_set, true_and] at hc ⊢
    split_ifs <;> first | rfl | omega

/-- The weight `pos[L*pcols]` of the label grows by the value of the pixel. -/
theorem detection_sn_pos_weight (p : noisechiselparams) (pos : List Flt) (idx L : Nat) (f : Flt)
    (hdim : p.ndim = 2 ∨ p.ndim = 3) (hlen : L * (1 + p.ndim) + p.ndim < pos.length) :
    rdF (detection_sn_pos p pos idx L f) (L * (1 + p.ndim))
      = p.arith.add Prec.double (rdF pos (L * (1 + p.ndim))) f := by
  unfold detection_sn_pos rdF
  rcases hdim with h | h
  · simp only [h, if_true, getD_set_eq, List.length_set, true_and] at hlen ⊢
    split_ifs <;> first | rfl | omega
  · have h2 : ¬ (3 = 2) := by decide
    simp only [h, h2, if_false, if_true, getD_set_eq, List.length_set, true_and] at hlen ⊢
    split_ifs <;> first | rfl | omega

/-- In two dimensions the sums `pos[L*pcols+1]` and `pos[L*pcols+2]` of the
label grow by the row and by the column of the pixel, weighed by its
value. -/
theorem detection_sn_pos_moments (p : noisechiselparams) (pos : List Flt) (idx L : Nat)
    (f : Flt) (hdim : p.ndim = 2) (hlen : L * (1 + p.ndim) + p.ndim < pos.length) :
    rdF (detection_sn_pos p pos idx L f) (L * (1 + p.ndim) + 1)
        = p.arith.add Prec.double (rdF pos (L * (1 + p.ndim) + 1))
            (p.arith.mul Prec.single (p.arith.ofNat Prec.single (idx / rdN p.dsize 1)) f)
    ∧ rdF (detection_sn_pos p pos idx L f) (L * (1 + p.ndim) + 2)
        = p.arith.add Prec.double (rdF pos (L * (1 + p.ndim) + 2))
            (p.arith.mul Prec.single (p.arith.ofNat Prec.single (idx % rdN p.dsize 1)) f) := by
  unfold detection_sn_pos rdF
  simp only [hdim, if_true, getD_set_eq, List.length_set, true_and] at hlen ⊢
  constructor
  · split_ifs <;> first | rfl | omega
  · split_ifs <;> first | rfl | omega

/-- What one pass of the first loop of `detection_sn` does, in every role:
it leaves the arrays as they are (label 0 or blank, label already flagged in
the Sky role, or value NaN on a pixel that is not a first pixel over a
detection), or flags the label and clears its area (Sky role, first pixel of
the label over a detection), or counts the pixel for its label. -/
theorem detection_sn_pixel_cases (p : noisechiselparams) (s0d1D2 : Nat) (acc : snarrays)
    (idx : Nat) (plab dlab : Int) (f : Flt) :
    (detection_sn_pixel p s0d1D2 acc idx plab dlab f = acc
      ∧ (plab = 0 ∨ plab = GAL_BLANK_INT32
          ∨ (s0d1D2 = 0 ∧ rdN acc.flag plab.toNat ≠ 0)
          ∨ f.isnan = true))
    ∨ (plab ≠ 0 ∧ plab ≠ GAL_BLANK_INT32 ∧ s0d1D2 = 0 ∧ dlab ≠ 0
      ∧ detection_sn_pixel p s0d1D2 acc idx plab dlab f
          = { acc with flag := acc.flag.set plab.toNat 1, area := acc.area.set plab.toNat 0 })
    ∨ (plab ≠ 0 ∧ plab ≠ GAL_BLANK_INT32 ∧ f.isnan = false
      ∧ detection_sn_pixel p s0d1D2 acc idx plab dlab f
          = { acc with
              area := acc.area.set plab.toNat (rdN acc.area plab.toNat + 1)
              brightness := acc.brightness.set plab.toNat
                (p.arith.add Prec.double (rdF acc.brightness plab.toNat) f)
              pos := if Flt.gt f (Flt.fin 0) = true
                then detection_sn_pos p acc.pos idx plab.toNat f else acc.pos }) := by
  have hor := lor_hasblank_ne_zero p.inputflag
  unfold detection_sn_pixel
  by_cases h1 : plab ≠ 0 ∧ ((p.inputflag ||| GAL_DATA_FLAG_HASBLANK) ≠ 0 ∧ plab ≠ GAL_BLANK_INT32)
  · rw [if_pos h1]
    by_cases h2 : s0d1D2 = 0 ∧ rdN acc.flag plab.toNat ≠ 0
    · rw [if_pos h2]
      exact Or.inl ⟨rfl, Or.inr (Or.inr (Or.inl h2))⟩
    · rw [if_neg h2]
      by_cases h3 : s0d1D2 = 0 ∧ dlab ≠ 0
      · rw [if_pos h3]
        exact Or.inr (Or.inl ⟨h1.1, h1.2.2, h3.1, h3.2, rfl⟩)
      · rw [if_neg h3]
        by_cases h4 : f.isnan = true
        · rw [if_pos h4]
          exact Or.inl ⟨rfl, Or.inr (Or.inr (Or.inr h4))⟩
        · rw [if_neg h4]
          have hf : f.isnan = false := by
            cases hh : f.isnan
            · rfl
            · exact absurd hh h4
          refine Or.inr (Or.inr ⟨h1.1, h1.2.2, hf, ?_⟩)
          by_cases h5 : Flt.gt f (Flt.fin 0) = true
          · rw [if_pos h5, if_pos h5]
          · rw [if_neg h5, if_neg h5]
  · rw [if_neg h1]
    refine Or.inl ⟨rfl, ?_⟩
    by_cases h0 : plab = 0
    · exact Or.inl h0
    · by_cases hb : plab = GAL_BLANK_INT32
      · exact Or.inr (Or.inl hb)
      · exact absurd ⟨h0, hor, hb⟩ h1

theorem rdF_set_at (a : List Flt) (i j : Nat) (v : Flt) :
    rdF (a.set i v) j = if i = j ∧ i < a.length then v else rdF a j :=
  getD_set_eq a i j v (Flt.fin 0)

theorem rdN_set_at (a : List Nat) (i j v : Nat) :
    rdN (a.set i v) j = if i = j ∧ i < a.length then v else rdN a j :=
  getD_set_eq a i j v 0

/-- The invariant of the first loop of `detection_sn` for one label `L` of
`1..num`, in every role, after `k` pixels: when (in the Sky role) none of
the pixels of `L` met so far lies over an initial detection, `L` is not
flagged and its area, its brightness, its flux weight and (in two
dimensions) its flux-weighted sums of rows and columns are the sums over its
pixels met so far that are not NaN. -/
theorem detection_sn_scan_sums (p : noisechiselparams) (worklab : List Int) (num : Nat)
    (s0d1D2 : Nat) (hdim : p.ndim = 2 ∨ p.ndim = 3)
    (hlab : ∀ j, j < p.input.length → rdI worklab j ≠ GAL_BLANK_INT32 →
      0 ≤ rdI worklab j ∧ rdI worklab j ≤ num)
    (L : Nat) (hL1 : 1 ≤ L) (hLn : L ≤ num)
    (k : Nat) (hk : k ≤ p.input.length)
    (hsky : s0d1D2 = 0 → ∀ idx, idx < k → rdI worklab idx = (L : Int) → rdI p.olabel idx = 0) :
    ((detection_sn_scan p worklab s0d1D2 (snarrays.init p num) k).area.length = num + 1
      ∧ (detection_sn_scan p worklab s0d1D2 (snarrays.init p num) k).brightness.length = num + 1
      ∧ (detection_sn_scan p worklab s0d1D2 (snarrays.init p num) k).pos.length
          = (1 + p.ndim) * (num + 1)
      ∧ (detection_sn_scan p worklab s0d1D2 (snarrays.init p num) k).flag.length = num + 1)
    ∧ rdN (detection_sn_scan p worklab s0d1D2 (snarrays.init p num) k).flag L = 0
    ∧ rdN (detection_sn_scan p worklab s0d1D2 (snarrays.init p num) k).area L
        = (spec_label_pixels p worklab L k).length
    ∧ rdF (detection_sn_scan p worklab s0d1D2 (snarrays.init p num) k).brightness L
        = spec_brightness p worklab L k
    ∧ rdF (detection_sn_scan p worklab s0d1D2 (snarrays.init p num) k).pos (L * (1 + p.ndim))
        = spec_flux_sum p worklab L k (fun idx => rdF p.input idx)
    ∧ (p.ndim = 2 →
        rdF (detection_sn_scan p worklab s0d1D2 (snarrays.init p num) k).pos
            (L * (1 + p.ndim) + 1)
          = spec_flux_sum p worklab L k (fun idx =>
              p.arith.mul Prec.single (p.arith.ofNat Prec.single (idx / rdN p.dsize 1))
                (rdF p.input idx))
        ∧ rdF (detection_sn_scan p worklab s0d1D2 (snarrays.init p num) k).pos
            (L * (1 + p.ndim) + 2)
          = spec_flux_sum p worklab L k (fun idx =>
              p.arith.mul Prec.single (p.arith.ofNat Prec.single (idx % rdN p.dsize 1))
                (rdF p.input idx))) := by
  induction k with
  | zero =>
      refine ⟨⟨by simp [detection_sn_scan, snarrays.init],
        by simp [detection_sn_scan, snarrays.init],
        by simp [detection_sn_scan, snarrays.init],
        by simp [detection_sn_scan, snarrays.init]⟩, ?_, ?_, ?_, ?_, ?_⟩
      · simpa [detection_sn_scan, snarrays.init] using rdN_replicate_zero (num + 1) L
      · simpa [detection_sn_scan, snarrays.init, spec_label_pixels]
          using rdN_replicate_zero (num + 1) L
      · simpa [detection_sn_scan, snarrays.init, spec_brightness, spec_label_pixels]
          using rdF_replicate_zero (num + 1) L
      · simpa [detection_sn_scan, snarrays.init, spec_flux_sum, spec_label_pixels]
          using rdF_replicate_zero ((1 + p.ndim) * (num + 1)) (L * (1 + p.ndim))
      · intro _
        constructor
        · simpa [detection_sn_scan, snarrays.init, spec_flux_sum, spec_label_pixels]
            using rdF_replicate_zero ((1 + p.ndim) * (num + 1)) (L * (1 + p.ndim) + 1)
        · simpa [detection_sn_scan, snarrays.init, spec_flux_sum, spec_label_pixels]
            using rdF_replicate_zero ((1 + p.ndim) * (num + 1)) (L * (1 + p.ndim) + 2)
  | succ k ih =>
      obtain ⟨⟨hal, hbl, hpl, hfl⟩, hflag, harea, hbri, hwei, hmom⟩ :=
        ih (by omega) (fun h idx hidx => hsky h idx (by omega))
      rw [detection_sn_scan_succ]
      generalize detection_sn_scan p worklab s0d1D2 (snarrays.init p num) k = acc
        at hal hbl hpl hfl hflag harea hbri hwei hmom ⊢
      have hk' : k < p.input.length := by omega
      rw [spec_label_pixels_succ, spec_brightness_succ, spec_flux_sum_succ,
        spec_flux_sum_succ, spec_flux_sum_succ, List.length_append]
      -- the position entries of the label lie inside `pos`
      have hposL : L * (1 + p.ndim) + p.ndim < acc.pos.length := by
        rw [hpl]
        have : (1 + p.ndim) * (num + 1) = (1 + p.ndim) * num + (1 + p.ndim) := Nat.mul_succ _ _
        have h2 : L * (1 + p.ndim) ≤ num * (1 + p.ndim) := Nat.mul_le_mul_right _ hLn
        have h3 : (1 + p.ndim) * num = num * (1 + p.ndim) := Nat.mul_comm _ _
        omega
      rcases detection_sn_pixel_cases p s0d1D2 acc k (rdI worklab k)
          (if s0d1D2 = 0 then rdI p.olabel k else 0) (rdF p.input k)
        with ⟨hsame, hwhy⟩ | ⟨h0, hb, hrole, hd, hres⟩ | ⟨h0, hb, hf, hres⟩
      · -- the arrays are left as they are
        rw [hsame]
        have hn : ¬ (rdI worklab k = (L : Int) ∧ (rdF p.input k).isnan = false) := by
          rintro ⟨hw, hf⟩
          rcases hwhy with h | h | h | h
          · rw [hw] at h; omega
          · rw [hw] at h; simp only [GAL_BLANK_INT32] at h; omega
          · rw [hw] at h
            simp only [Int.toNat_ofNat] at h
            exact h.2 hflag
          · rw [hf] at h; exact absurd h (by decide)
        have hn3 : ¬ ((rdI worklab k = (L : Int) ∧ (rdF p.input k).isnan = false)
            ∧ Flt.gt (rdF p.input k) (Flt.fin 0) = true) := fun h => hn h.1
        simp only [if_neg hn, if_neg hn3]
        exact ⟨⟨hal, hbl, hpl, hfl⟩, hflag, by simpa using harea, hbri, hwei, hmom⟩
      · -- the label of the pixel is flagged: it is not `L`
        rw [hres]
        have hne : rdI worklab k ≠ (L : Int) := by
          intro hw
          have := hsky hrole k (by omega) hw
          rw [if_pos hrole] at hd
          exact hd this
        obtain ⟨hge, hle⟩ := hlab k hk' hb
        have hjL : (rdI worklab k).toNat ≠ L := by omega
        have hn : ¬ (rdI worklab k = (L : Int) ∧ (rdF p.input k).isnan = false) :=
          fun h => hne h.1
        have hn3 : ¬ ((rdI worklab k = (L : Int) ∧ (rdF p.input k).isnan = false)
            ∧ Flt.gt (rdF p.input k) (Flt.fin 0) = true) := fun h => hn h.1
        simp only [if_neg hn, if_neg hn3]
        refine ⟨⟨by simp only [List.length_set]; exact hal, hbl, hpl,
          by simp only [List.length_set]; exact hfl⟩, ?_, ?_, hbri, hwei, hmom⟩
        · show rdN (acc.flag.set _ 1) L = 0
          rw [rdN_set_at, if_neg (fun h => hjL h.1)]
          exact hflag
        · show rdN (acc.area.set _ 0) L = _
          rw [rdN_set_at, if_neg (fun h => hjL h.1)]
          simpa using harea
      · -- the pixel is counted for its label
        rw [hres]
        obtain ⟨hge, hle⟩ := hlab k hk' hb
        have hin : (rdI worklab k).toNat < num + 1 := by omega
        have hlens : (acc.area.set (rdI worklab k).toNat
              (rdN acc.area (rdI worklab k).toNat + 1)).length = num + 1
            ∧ (acc.brightness.set (rdI worklab k).toNat
              (p.arith.add Prec.double (rdF acc.brightness (rdI worklab k).toNat)
                (rdF p.input k))).length = num + 1
            ∧ (if Flt.gt (rdF p.input k) (Flt.fin 0) = true
                then detection_sn_pos p acc.pos k (rdI worklab k).toNat (rdF p.input k)
                else acc.pos).length = (1 + p.ndim) * (num + 1)
            ∧ acc.flag.length = num + 1 := by
          refine ⟨by rw [List.length_set, hal], by rw [List.length_set, hbl], ?_, hfl⟩
          split
          · rw [detection_sn_pos_length, hpl]
          · exact hpl
        refine ⟨hlens, hflag, ?_⟩
        by_cases hw : rdI worklab k = (L : Int)
        · have hj : (rdI worklab k).toNat = L := by omega
          have hc : rdI worklab k = (L : Int) ∧ (rdF p.input k).isnan = false := ⟨hw, hf⟩
          rw [if_pos hc, if_pos hc, hj]
          refine ⟨?_, ?_, ?_⟩
          · show rdN (acc.area.set L (rdN acc.area L + 1)) L = _
            rw [rdN_set_at, if_pos ⟨rfl, by rw [hal]; omega⟩, harea]
            rfl
          · show rdF (acc.brightness.set L _) L = _
            rw [rdF_set_at, if_pos ⟨rfl, by rw [hbl]; omega⟩, hbri]
          · by_cases hg : Flt.gt (rdF p.input k) (Flt.fin 0) = true
            · have hcg : (rdI worklab k = (L : Int) ∧ (rdF p.input k).isnan = false)
                  ∧ Flt.gt (rdF p.input k) (Flt.fin 0) = true := ⟨hc, hg⟩
              simp only [if_pos hcg, if_pos hg]
              refine ⟨?_, fun h2 => ?_⟩
              · rw [detection_sn_pos_weight p acc.pos k L _ hdim hposL, hwei]
              · obtain ⟨m1, m2⟩ := detection_sn_pos_moments p acc.pos k L (rdF p.input k) h2 hposL
                obtain ⟨i1, i2⟩ := hmom h2
                rw [m1, m2, i1, i2]
                exact ⟨rfl, rfl⟩
            · have hcg : ¬ ((rdI worklab k = (L : Int) ∧ (rdF p.input k).isnan = false)
                  ∧ Flt.gt (rdF p.input k) (Flt.fin 0) = true) := fun h => hg h.2
              simp only [if_neg hcg, if_neg hg]
              exact ⟨hwei, hmom⟩
        · have hj : (rdI worklab k).toNat ≠ L := by omega
          have hn : ¬ (rdI worklab k = (L : Int) ∧ (rdF p.input k).isnan = false) :=
            fun h => hw h.1
          have hn3 : ¬ ((rdI worklab k = (L : Int) ∧ (rdF p.input k).isnan = false)
              ∧ Flt.gt (rdF p.input k) (Flt.fin 0) = true) := fun h => hn h.1
          simp only [if_neg hn, if_neg hn3]
          refine ⟨?_, ?_, ?_⟩
          · show rdN (acc.area.set _ _) L = _
            rw [rdN_set_at, if_neg (fun h => hj h.1)]
            simpa using harea
          · show rdF (acc.brightness.set _ _) L = _
            rw [rdF_set_at, if_neg (fun h => hj h.1)]
            exact hbri
          · split
            · have o0 := detection_sn_pos_other p acc.pos k (rdI worklab k).toNat
                (rdF p.input k) hdim L 0 (fun h => hj h.symm) (Nat.zero_le _)
              have o1 := detection_sn_pos_other p acc.pos k (rdI worklab k).toNat
                (rdF p.input k) hdim L 1 (fun h => hj h.symm) (by omega)
              have o2 := detection_sn_pos_other p acc.pos k (rdI worklab k).toNat
                (rdF p.input k) hdim L 2 (fun h => hj h.symm) (by omega)
              rw [Nat.add_zero] at o0
              rw [o0, o1, o2]
              exact ⟨hwei, hmom⟩
            · exact ⟨hwei, hmom⟩

/-- The sums that `detection_sn` has accumulated for a label of `1..num`
after its first loop are the sums of the specification, in the Sky role
when no pixel of the label lies over an initial detection. -/
theorem detection_sn_accumulate_sums (p : noisechiselparams) (worklab : List Int) (num : Nat)
    (s0d1D2 : Nat) (hdim : p.ndim = 2 ∨ p.ndim = 3)
    (hlab : ∀ j, j < p.input.length → rdI worklab j ≠ GAL_BLANK_INT32 →
      0 ≤ rdI worklab j ∧ rdI worklab j ≤ num)
    (L : Nat) (hL1 : 1 ≤ L) (hLn : L ≤ num)
    (hsky : s0d1D2 = 0 →
      ∀ idx, idx < p.input.length → rdI worklab idx = (L : Int) → rdI p.olabel idx = 0) :
    spec_label_sums p worklab (detection_sn_accumulate p worklab num s0d1D2) L := by
  obtain ⟨_, _, h1, h2, h3, h4⟩ := detection_sn_scan_sums p worklab num s0d1D2 hdim hlab L hL1
    hLn p.input.length (Nat.le_refl _) hsky
  exact ⟨h1, h2, h3, h4⟩

/-- In the Sky role a label that passes the eligibility test has no pixel
over an initial detection. -/
theorem eligible_sky_off_detections (p : noisechiselparams) (worklab : List Int) (num : Nat)
    (hlab : ∀ j, j < p.input.length → rdI worklab j ≠ GAL_BLANK_INT32 →
      0 ≤ rdI worklab j ∧ rdI worklab j ≤ num)
    (L : Nat) (hL1 : 1 ≤ L)
    (he : spec_sn_eligible p (detection_sn_accumulate p worklab num 0) L = true)
    (idx : Nat) (hidx : idx < p.input.length) (hpix : rdI worklab idx = (L : Int)) :
    rdI p.olabel idx = 0 := by
  by_contra hdet
  obtain ⟨_, _, hfa, hwit⟩ := detection_sn_scan_sky p worklab num hlab p.input.length
    (Nat.le_refl _)
  have harea : rdN (detection_sn_accumulate p worklab num 0).area L = 0 :=
    hfa L (hwit L idx hL1 hidx hpix hdet)
  unfold spec_sn_eligible at he
  rw [harea] at he
  simp at he

/-! ## C9, C10: the S/N table of `detection_sn` -/

/-- C9: in the roles other than Sky (`s0d1D2` 1 or 2), for every label grid,
`detection_sn` returns (unless it is to stop after saving the table of the
final detections) and the table it returns has `num+1` entries, entry 0 is
not-a-number, and for every `L` in `1..num` entry `L` is the S/N of label
`L`, `sqrt(area/cpscorr) * mean / sqrt(mean + variance)` on the sums
accumulated for `L` (`spec_sn`), when `L` passes the eligibility test (area
above `detsnminarea`, positive mean, positive flux weight: `spec_sn_eligible`)
and not-a-number otherwise: each S/N sits at the index of its own label.
When the labels are blank or in `0..num`, the sums accumulated for `L` are
those over the pixels of `L` that are not NaN (`spec_label_sums`). -/
theorem detection_sn_table_by_label (p : noisechiselparams) (worklab : List Int)
    (num s0d1D2 : Nat) (hrole : s0d1D2 = 1 ∨ s0d1D2 = 2) (hdim : p.ndim = 2 ∨ p.ndim = 3)
    (hgo : s0d1D2 = 2 → p.checkdetsn = true → p.continueaftercheck = true) :
    ∃ r, detection_sn p worklab num s0d1D2 = Except.ok r
      ∧ r.sn.size = num + 1
      ∧ r.sn.array.length = num + 1
      ∧ rdF r.sn.array 0 = Flt.nan
      ∧ (∀ L, 1 ≤ L → L ≤ num →
          rdF r.sn.array L
            = (if spec_sn_eligible p (detection_sn_accumulate p worklab num s0d1D2) L = true
               then spec_sn p (detection_sn_accumulate p worklab num s0d1D2) L
               else Flt.nan))
      ∧ ((∀ j, j < p.input.length → rdI worklab j ≠ GAL_BLANK_INT32 →
            0 ≤ rdI worklab j ∧ rdI worklab j ≤ num) →
          ∀ L, 1 ≤ L → L ≤ num →
            spec_label_sums p worklab (detection_sn_accumulate p worklab num s0d1D2) L) := by
  have hr : s0d1D2 ≠ 0 := by omega
  have hnd : ¬ (p.ndim ≠ 2 ∧ p.ndim ≠ 3) := by omega
  obtain ⟨hlen, hval⟩ := detection_sn_fill_det_upto p
    (detection_sn_accumulate p worklab num s0d1D2) num s0d1D2 hr num (Nat.le_refl _)
  have hna : ¬ (p.checkdetsn = true ∧ s0d1D2 = 2 ∧ p.continueaftercheck = false) := by
    rintro ⟨h1, h2, h3⟩
    rw [hgo h2 h1] at h3
    exact absurd h3 (by decide)
  refine ⟨_, by rw [detection_sn, if_neg hnd, if_neg hna], ?_, ?_, ?_, ?_, ?_⟩
  · simp only [if_neg hr]
  · exact hlen
  · show rdF (detection_sn_fill p _ num s0d1D2).snarr 0 = _
    unfold detection_sn_fill
    rw [hval 0, if_pos rfl]
  · intro L h1 h2
    show rdF (detection_sn_fill p _ num s0d1D2).snarr L = _
    unfold detection_sn_fill
    rw [hval L, if_neg (by omega), if_pos ⟨h2, h2⟩, detection_sn_eligible_eq_spec,
      detection_sn_value_eq_spec]
  · intro hlab L h1 h2
    exact detection_sn_accumulate_sums p worklab num s0d1D2 hdim hlab L h1 h2
      (fun h => absurd h hr)

/-- C9, in the detection role on the sample image `sample_sn_square` with
two pseudo-detections: the first has four pixels of value 3, area 4 and
brightness 12, and its S/N `sqrt(4/1) * 3 / sqrt(3 + 1) = 3` sits at
index 1; the second has one counted pixel of value -1, and index 2 holds
not-a-number. -/
theorem detection_sn_table_by_label_witness :
    (sample_sn_square.ndim = 2 ∨ sample_sn_square.ndim = 3)
    ∧ (∃ r, detection_sn sample_sn_square [1, 1, 1, 1, 2, 2] 2 1 = Except.ok r
      ∧ r.sn.size = 2 + 1
      ∧ r.sn.array.length = 2 + 1
      ∧ rdF r.sn.array 0 = Flt.nan
      ∧ (∀ L, 1 ≤ L → L ≤ 2 →
          rdF r.sn.array L
            = (if spec_sn_eligible sample_sn_square
                  (detection_sn_accumulate sample_sn_square [1, 1, 1, 1, 2, 2] 2 1) L = true
               then spec_sn sample_sn_square
                  (detection_sn_accumulate sample_sn_square [1, 1, 1, 1, 2, 2] 2 1) L
               else Flt.nan))
      ∧ ((∀ j, j < sample_sn_square.input.length →
            rdI [1, 1, 1, 1, 2, 2] j ≠ GAL_BLANK_INT32 →
            0 ≤ rdI [1, 1, 1, 1, 2, 2] j ∧ rdI [1, 1, 1, 1, 2, 2] j ≤ (2 : Nat)) →
          ∀ L, 1 ≤ L → L ≤ 2 →
            spec_label_sums sample_sn_square [1, 1, 1, 1, 2, 2]
              (detection_sn_accumulate sample_sn_square [1, 1, 1, 1, 2, 2] 2 1) L))
    ∧ spec_sn_eligible sample_sn_square
        (detection_sn_accumulate sample_sn_square [1, 1, 1, 1, 2, 2] 2 1) 1 = true
    ∧ spec_sn sample_sn_square
        (detection_sn_accumulate sample_sn_square [1, 1, 1, 1, 2, 2] 2 1) 1 = Flt.fin 3
    ∧ spec_sn_eligible sample_sn_square
        (detection_sn_accumulate sample_sn_square [1, 1, 1, 1, 2, 2] 2 1) 2 = false
    ∧ (spec_label_pixels sample_sn_square [1, 1, 1, 1, 2, 2] 1 6).length = 4
    ∧ spec_brightness sample_sn_square [1, 1, 1, 1, 2, 2] 1 6 = Flt.fin 12
    ∧ spec_flux_sum sample_sn_square [1, 1, 1, 1, 2, 2] 1 6
        (fun idx => rdF sample_sn_square.input idx) = Flt.fin 12 :=
  ⟨Or.inl rfl,
    detection_sn_table_by_label sample_sn_square [1, 1, 1, 1, 2, 2] 2 1 (Or.inl rfl)
      (Or.inl rfl) (fun h => absurd h (by decide)),
    by decide!, by decide!, by decide!, by decide!, by decide!, by decide!⟩

/-- C10: in the Sky role (`s0d1D2 = 0`) `detection_sn` returns, and the list
it returns has as many entries as there are eligible labels in `1..num`
(area above `detsnminarea`, positive mean, positive flux weight:
`spec_sn_eligible`), this number is its recorded size (0 when no label is
eligible), and its entries are the S/N of the eligible labels,
`sqrt(area/cpscorr) * mean / sqrt(mean + variance)` on the sums accumulated
for each label (`spec_sn`), in ascending order of the labels.  When the
labels are blank or in `0..num`, an eligible label has no pixel over an
initial detection and the sums accumulated for it are those over its pixels
that are not NaN (`spec_label_sums`). -/
theorem detection_sn_list_sky (p : noisechiselparams) (worklab : List Int) (num : Nat)
    (hdim : p.ndim = 2 ∨ p.ndim = 3) :
    ∃ r, detection_sn p worklab num 0 = Except.ok r
      ∧ r.sn.size
          = (spec_eligible_labels p (detection_sn_accumulate p worklab num 0) num).length
      ∧ r.sn.array.take r.sn.size
          = (spec_eligible_labels p (detection_sn_accumulate p worklab num 0) num).map
              (spec_sn p (detection_sn_accumulate p worklab num 0))
      ∧ (∀ k L, (spec_eligible_labels p (detection_sn_accumulate p worklab num 0) num)[k]? = some L →
          rdF r.sn.array k = spec_sn p (detection_sn_accumulate p worklab num 0) L)
      ∧ ((∀ L, 1 ≤ L → L ≤ num →
            spec_sn_eligible p (detection_sn_accumulate p worklab num 0) L = false) →
          r.sn.size = 0)
      ∧ ((∀ j, j < p.input.length → rdI worklab j ≠ GAL_BLANK_INT32 →
            0 ≤ rdI worklab j ∧ rdI worklab j ≤ num) →
          ∀ L, L ∈ spec_eligible_labels p (detection_sn_accumulate p worklab num 0) num →
            (∀ idx, idx < p.input.length → rdI worklab idx = (L : Int) → rdI p.olabel idx = 0)
            ∧ spec_label_sums p worklab (detection_sn_accumulate p worklab num 0) L) := by
  have hnd : ¬ (p.ndim ≠ 2 ∧ p.ndim ≠ 3) := by omega
  obtain ⟨hcnt, _, htake, _, _⟩ := detection_sn_fill_sky_upto p
    (detection_sn_accumulate p worklab num 0) num num (Nat.le_refl _)
  have hsize : (detection_sn_fill p (detection_sn_accumulate p worklab num 0) num 0).counter
      = (eligible_labels p (detection_sn_accumulate p worklab num 0) num).length := hcnt
  have hfun : detection_sn_value p (detection_sn_accumulate p worklab num 0)
      = spec_sn p (detection_sn_accumulate p worklab num 0) :=
    funext (detection_sn_value_eq_spec p _)
  rw [hfun] at htake
  have htake' : (detection_sn_fill p (detection_sn_accumulate p worklab num 0) num 0).snarr.take
        (spec_eligible_labels p (detection_sn_accumulate p worklab num 0) num).length
      = (spec_eligible_labels p (detection_sn_accumulate p worklab num 0) num).map
          (spec_sn p (detection_sn_accumulate p worklab num 0)) := htake
  have hna : ¬ (p.checkdetsn = true ∧ 0 = 2 ∧ p.continueaftercheck = false) := by
    rintro ⟨_, h2, _⟩
    exact absurd h2 (by decide)
  refine ⟨_, by rw [detection_sn, if_neg hnd, if_neg hna], ?_, ?_, ?_, ?_, ?_⟩
  · simp only [if_true]
    exact hsize
  · simp only [if_true]
    rw [hsize]
    exact htake'
  · intro k L hk
    show rdF (detection_sn_fill p _ num 0).snarr k = _
    have hklt : k < (spec_eligible_labels p (detection_sn_accumulate p worklab num 0) num).length := by
      by_contra hge
      rw [List.getElem?_eq_none (by omega)] at hk
      exact absurd hk (by simp)
    have h1 : ((detection_sn_fill p (detection_sn_accumulate p worklab num 0) num 0).snarr.take
        (spec_eligible_labels p (detection_sn_accumulate p worklab num 0) num).length)[k]?
        = some (spec_sn p (detection_sn_accumulate p worklab num 0) L) := by
      rw [htake', List.getElem?_map, hk]
      rfl
    rw [List.getElem?_take_of_lt hklt] at h1
    unfold rdF
    rw [List.getD_eq_getElem?_getD, h1]
    rfl
  · intro hnone
    simp only [if_true]
    rw [hsize, List.length_eq_zero, List.eq_nil_iff_forall_not_mem]
    intro L hL
    obtain ⟨h1, h2, h3⟩ := (mem_eligible_labels _ _ _ _).1 hL
    rw [detection_sn_eligible_eq_spec, hnone L h1 h2] at h3
    exact absurd h3 (by decide)
  · intro hlab L hL
    obtain ⟨h1, h2, h3⟩ := (mem_spec_eligible_labels _ _ _ _).1 hL
    have hoff := eligible_sky_off_detections p worklab num hlab L h1 h3
    exact ⟨hoff, detection_sn_accumulate_sums p worklab num 0 hdim hlab L h1 h2
      (fun _ => hoff)⟩

/-- C10, in the Sky role on the sample image `sample_sn_square` with two
pseudo-detections, none over a detection: the list has one entry, the S/N of
the first pseudo-detection, which is 3. -/
theorem detection_sn_list_sky_witness :
    (sample_sn_square.ndim = 2 ∨ sample_sn_square.ndim = 3)
    ∧ (∃ r, detection_sn sample_sn_square [1, 1, 1, 1, 2, 2] 2 0 = Except.ok r
      ∧ r.sn.size
          = (spec_eligible_labels sample_sn_square
              (detection_sn_accumulate sample_sn_square [1, 1, 1, 1, 2, 2] 2 0) 2).length
      ∧ r.sn.array.take r.sn.size
          = (spec_eligible_labels sample_sn_square
              (detection_sn_accumulate sample_sn_square [1, 1, 1, 1, 2, 2] 2 0) 2).map
              (spec_sn sample_sn_square
                (detection_sn_accumulate sample_sn_square [1, 1, 1, 1, 2, 2] 2 0))
      ∧ (∀ k L, (spec_eligible_labels sample_sn_square
            (detection_sn_accumulate sample_sn_square [1, 1, 1, 1, 2, 2] 2 0) 2)[k]? = some L →
          rdF r.sn.array k = spec_sn sample_sn_square
            (detection_sn_accumulate sample_sn_square [1, 1, 1, 1, 2, 2] 2 0) L)
      ∧ ((∀ L, 1 ≤ L → L ≤ 2 →
            spec_sn_eligible sample_sn_square
              (detection_sn_accumulate sample_sn_square [1, 1, 1, 1, 2, 2] 2 0) L = false) →
          r.sn.size = 0)
      ∧ ((∀ j, j < sample_sn_square.input.length →
            rdI [1, 1, 1, 1, 2, 2] j ≠ GAL_BLANK_INT32 →
            0 ≤ rdI [1, 1, 1, 1, 2, 2] j ∧ rdI [1, 1, 1, 1, 2, 2] j ≤ (2 : Nat)) →
          ∀ L, L ∈ spec_eligible_labels sample_sn_square
              (detection_sn_accumulate sample_sn_square [1, 1, 1, 1, 2, 2] 2 0) 2 →
            (∀ idx, idx < sample_sn_square.input.length →
              rdI [1, 1, 1, 1, 2, 2] idx = (L : Int) → rdI sample_sn_square.olabel idx = 0)
            ∧ spec_label_sums sample_sn_square [1, 1, 1, 1, 2, 2]
                (detection_sn_accumulate sample_sn_square [1, 1, 1, 1, 2, 2] 2 0) L))
    ∧ spec_eligible_labels sample_sn_square
        (detection_sn_accumulate sample_sn_square [1, 1, 1, 1, 2, 2] 2 0) 2 = [1]
    ∧ (spec_eligible_labels sample_sn_square
        (detection_sn_accumulate sample_sn_square [1, 1, 1, 1, 2, 2] 2 0) 2).map
          (spec_sn sample_sn_square
            (detection_sn_accumulate sample_sn_square [1, 1, 1, 1, 2, 2] 2 0)) = [Flt.fin 3] :=
  ⟨Or.inl rfl, detection_sn_list_sky sample_sn_square [1, 1, 1, 1, 2, 2] 2 (Or.inl rfl),
    by decide!, by decide!⟩

/-! ## The passes of `binary.c` in closed form -/

theorem rdN_set (a : List Nat) (i j v : Nat) :
    rdN (a.set i v) j = if i = j ∧ i < a.length then v else rdN a j :=
  getD_set_eq a i j v 0

theorem rdN_of_le (a : List Nat) (k : Nat) (h : a.length ≤ k) : rdN a k = 0 := by
  unfold rdN
  rw [List.getD_eq_getElem?_getD, List.getElem?_eq_none h]
  rfl

theorem fires_nil (byt : List Nat) (f k : Nat) : fires byt f [] k = false := rfl

theorem fires_append_singleton (byt : List Nat) (f k : Nat) (P : List (Nat × List Nat))
    (c : Nat × List Nat) :
    fires byt f (P ++ [c]) k
      = (fires byt f P k
          || (decide (c.1 = k) && c.2.any (fun n => decide (rdN byt n = f)))) := by
  simp [fires, List.any_append]

theorem mark_step_length (f b : Nat) (byt : List Nat) (c : Nat × List Nat) :
    (mark_step f b byt c).length = byt.length := by
  unfold mark_step
  split
  · rw [List.length_set]
  · rfl

theorem foldl_mark_step_length (f b : Nat) (checks : List (Nat × List Nat)) :
    ∀ byt : List Nat, (checks.foldl (mark_step f b) byt).length = byt.length := by
  induction checks with
  | nil => intro byt; rfl
  | cons c cs ih =>
      intro byt
      rw [List.foldl_cons, ih, mark_step_length]

/-- The array after the tests of `checks`: a pixel holds 2 when it held `b`
and one of its tests read a neighbour holding `f` in the array as it was
before the first test; every other pixel is as it was. -/
theorem foldl_mark_step_closed (f b : Nat) (hf : f ≠ 2) (hb : b ≠ 2) (hfb : f ≠ b)
    (byt : List Nat) (checks : List (Nat × List Nat)) :
    ∀ k, rdN (checks.foldl (mark_step f b) byt) k
      = (if rdN byt k = b ∧ fires byt f checks k = true ∧ k < byt.length then 2
         else rdN byt k) := by
  induction checks using List.reverseRecOn with
  | nil =>
      intro k
      simp [fires_nil]
  | append_singleton P c ih =>
      intro k
      rw [List.foldl_append, List.foldl_cons, List.foldl_nil, fires_append_singleton]
      have hlen := foldl_mark_step_length f b P byt
      generalize P.foldl (mark_step f b) byt = cur at ih hlen ⊢
      -- reading a neighbour in the current array is reading it in the first one
      have hnb : ∀ n, (rdN cur n = f) ↔ (rdN byt n = f) := by
        intro n
        rw [ih n]
        by_cases h : rdN byt n = b ∧ fires byt f P n = true ∧ n < byt.length
        · rw [if_pos h]
          constructor
          · intro h2; exact absurd h2.symm hf
          · intro h2; rw [h.1] at h2; exact absurd h2.symm hfb
        · rw [if_neg h]
      have hany : c.2.any (fun n => decide (rdN cur n = f))
          = c.2.any (fun n => decide (rdN byt n = f)) := by
        rw [Bool.eq_iff_iff]
        simp only [List.any_eq_true, decide_eq_true_eq, hnb]
      have hself : (rdN cur c.1 = b)
          ↔ (rdN byt c.1 = b ∧ ¬ (fires byt f P c.1 = true ∧ c.1 < byt.length)) := by
        rw [ih c.1]
        by_cases h1 : rdN byt c.1 = b
        · by_cases h2 : fires byt f P c.1 = true ∧ c.1 < byt.length
          · rw [if_pos ⟨h1, h2⟩]
            constructor
            · intro h; exact absurd h.symm hb
            · intro h; exact absurd h2 h.2
          · rw [if_neg (fun h => h2 h.2)]
            exact ⟨fun h => ⟨h, h2⟩, fun h => h.1⟩
        · rw [if_neg (fun h => h1 h.1)]
          exact ⟨fun h => absurd h h1, fun h => h.1⟩
      unfold mark_step
      rw [hany]
      by_cases hcond : rdN cur c.1 = b ∧ c.2.any (fun n => decide (rdN byt n = f)) = true
      · rw [if_pos hcond]
        obtain ⟨hc1, hA⟩ := hcond
        obtain ⟨hbc, hnot⟩ := hself.1 hc1
        rw [rdN_set]
        by_cases hk : c.1 = k
        · subst hk
          by_cases hin : c.1 < byt.length
          · rw [if_pos ⟨rfl, by rw [hlen]; exact hin⟩, if_pos]
            refine ⟨hbc, ?_, hin⟩
            rw [hA]
            simp
          · rw [if_neg (fun h => hin (by rw [← hlen]; exact h.2))]
            rw [ih c.1, if_neg (fun h => hin h.2.2), if_neg (fun h => hin h.2.2)]
        · rw [if_neg (fun h => hk h.1)]
          rw [ih k]
          simp [hk]
      · rw [if_neg hcond]
        rw [ih k]
        by_cases hk : c.1 = k
        · subst hk
          by_cases hA : c.2.any (fun n => decide (rdN byt n = f)) = true
          · have hn : ¬ rdN cur c.1 = b := fun h => hcond ⟨h, hA⟩
            rw [hself] at hn
            by_cases h1 : rdN byt c.1 = b
            · have h2 : fires byt f P c.1 = true ∧ c.1 < byt.length := by
                by_contra h2
                exact hn ⟨h1, h2⟩
              rw [if_pos ⟨h1, h2⟩, if_pos]
              exact ⟨h1, by rw [h2.1]; rfl, h2.2⟩
            · rw [if_neg (fun h => h1 h.1), if_neg (fun h => h1 h.1)]
          · simp [hA]
        · simp [hk]

/-- The array after one pass: a pixel holds `f` when it held the scratch
value 2, or when it held `b` and one of its tests read a neighbour holding
`f` before the pass; every other pixel is as it was. -/
theorem morph_pass_closed (checks : List (Nat × List Nat)) (f b : Nat)
    (hf : f ≠ 2) (hb : b ≠ 2) (hfb : f ≠ b) (byt : List Nat) (k : Nat) :
    rdN (morph_pass checks f b byt) k
      = (if rdN byt k = 2 ∨ (rdN byt k = b ∧ fires byt f checks k = true ∧ k < byt.length)
         then f else rdN byt k) := by
  have hcl := foldl_mark_step_closed f b hf hb hfb byt checks k
  have hlen := foldl_mark_step_length f b checks byt
  unfold morph_pass set_changed
  by_cases hk : k < byt.length
  · have h1 : rdN ((checks.foldl (mark_step f b) byt).map (fun x => if x = 2 then f else x)) k
        = (fun x => if x = 2 then f else x) (rdN (checks.foldl (mark_step f b) byt) k) :=
      getD_map_index _ _ k 0 0 (by rw [hlen]; exact hk)
    rw [h1, hcl]
    by_cases h2 : rdN byt k = 2
    · have : ¬ rdN byt k = b := fun h => hb (h ▸ h2)
      simp [h2, this]
    · by_cases h3 : rdN byt k = b ∧ fires byt f checks k = true ∧ k < byt.length
      · simp [h3]
      · simp only [h3, if_false, h2, false_or]
  · have h0 : rdN byt k = 0 := rdN_of_le byt k (Nat.le_of_not_lt hk)
    have h1 : rdN ((checks.foldl (mark_step f b) byt).map (fun x => if x = 2 then f else x)) k
        = 0 :=
      rdN_of_le _ k (by rw [List.length_map, hlen]; exact Nat.le_of_not_lt hk)
    rw [h1, h0]
    simp [hk]

theorem morph_pass_length (checks : List (Nat × List Nat)) (f b : Nat) (byt : List Nat) :
    (morph_pass checks f b byt).length = byt.length := by
  unfold morph_pass set_changed
  rw [List.length_map, foldl_mark_step_length]

section

set_option linter.unusedVariables false

/-! ## The neighbours read by `dilate0_erode1_4con` -/

/-- The tests of `dilate0_erode1_4con` by region: the four corners, the
first and the last row, the first and the last column, the body. -/
theorem mem_checks_4con (nr nc : Nat) (c : Nat × List Nat) :
    c ∈ checks_4con nr nc ↔
      ((((((c = (0, [1, nc])
        ∨ c = (nc - 1, [nc - 2, 2 * nc - 1])
        ∨ c = ((nr - 1) * nc,
            [(nr - 2) * nc, (nr - 1) * nc + 1])
        ∨ c = (nr * nc - 1, [nr * nc - 2, nr * nc - 1 - nc]))
        ∨ (∃ a, (1 ≤ a ∧ a < 1 + (nc - 2))
          ∧ (a, [a + 1, a - 1, a + nc]) = c))
        ∨ (∃ a, (1 ≤ a ∧ a < 1 + (nc - 2))
          ∧ ((nr - 1) * nc + a,
             [(nr - 1) * nc + a + 1, (nr - 1) * nc + a - 1, (nr - 1) * nc + a - nc]) = c))
        ∨ (∃ a, (1 ≤ a ∧ a < 1 + (nr - 2))
          ∧ (a * nc,
             [a * nc + 1, a * nc + nc, a * nc - nc]) = c))
        ∨ (∃ a, (1 ≤ a ∧ a < 1 + (nr - 2))
          ∧ ((a + 1) * nc - 1,
             [(a + 1) * nc - 1 - 1, (a + 1) * nc - 1 + nc, (a + 1) * nc - 1 - nc]) = c))
        ∨ (∃ a, (1 ≤ a ∧ a < 1 + (nr - 2)) ∧ ∃ b, (1 ≤ b ∧ b < 1 + (nc - 2))
          ∧ (a * nc + b,
             [a * nc + b - 1, a * nc + b + 1, a * nc + b + nc, a * nc + b - nc]) = c)) := by
  simp only [checks_4con, List.mem_append, List.mem_cons, List.mem_map, List.mem_flatMap,
    List.mem_range'_1, List.mem_singleton, List.not_mem_nil, or_false]

theorem tested_4con_corner1 (nr nc k n : Nat)
    (hk : k = 0)
    (hn : n = 1 ∨ n = nc) :
    tested (checks_4con nr nc) k n := by
  refine ⟨(0,
     [1, nc]),
    (mem_checks_4con nr nc _).2 ?_, hk.symm, ?_⟩
  · exact Or.inl (Or.inl (Or.inl (Or.inl (Or.inl (Or.inl rfl)))))
  · simp only [List.mem_cons, List.mem_singleton, List.not_mem_nil, or_false]
    exact hn

theorem tested_4con_corner2 (nr nc k n : Nat)
    (hk : k = nc - 1)
    (hn : n = nc - 2 ∨ n = 2 * nc - 1) :
    tested (checks_4con nr nc) k n := by
  refine ⟨(nc - 1,
     [nc - 2, 2 * nc - 1]),
    (mem_checks_4con nr nc _).2 ?_, hk.symm, ?_⟩
  · exact Or.inl (Or.inl (Or.inl (Or.inl (Or.inl (Or.inr (Or.inl rfl))))))
  · simp only [List.mem_cons, List.mem_singleton, List.not_mem_nil, or_false]
    exact hn

theorem tested_4con_corner3 (nr nc k n : Nat)
    (hk : k = (nr - 1) * nc)
    (hn : n = (nr - 2) * nc ∨ n = (nr - 1) * nc + 1) :
    tested (checks_4con nr nc) k n := by
  refine ⟨((nr - 1) * nc,
     [(nr - 2) * nc, (nr - 1) * nc + 1]),
    (mem_checks_4con nr nc _).2 ?_, hk.symm, ?_⟩
  · exact Or.inl (Or.inl (Or.inl (Or.inl (Or.inl (Or.inr (Or.inr (Or.inl rfl)))))))
  · simp only [List.mem_cons, List.mem_singleton, List.not_mem_nil, or_false]
    exact hn

theorem tested_4con_corner4 (nr nc k n : Nat)
    (hk : k = nr * nc - 1)
    (hn : n = nr * nc - 2 ∨ n = nr * nc - 1 - nc) :
    tested (checks_4con nr nc) k n := by
  refine ⟨(nr * nc - 1,
     [nr * nc - 2, nr * nc - 1 - nc]),
    (mem_checks_4con nr nc _).2 ?_, hk.symm, ?_⟩
  · exact Or.inl (Or.inl (Or.inl (Or.inl (Or.inl (Or.inr (Or.inr (Or.inr rfl)))))))
  · simp only [List.mem_cons, List.mem_singleton, List.not_mem_nil, or_false]
    exact hn

theorem tested_4con_top (nr nc j k n : Nat) (h1 : 1 ≤ j) (h2 : j + 1 < nc)
    (hk : k = j)
    (hn : n = j + 1 ∨ n = j - 1 ∨ n = j + nc) :
    tested (checks_4con nr nc) k n := by
  refine ⟨(j,
     [j + 1, j - 1, j + nc]),
    (mem_checks_4con nr nc _).2 ?_, hk.symm, ?_⟩
  · exact Or.inl (Or.inl (Or.inl (Or.inl (Or.inr ⟨j, ⟨h1, by omega⟩, rfl⟩))))
  · simp only [List.mem_cons, List.mem_singleton, List.not_mem_nil, or_false]
    exact hn

theorem tested_4con_bottom (nr nc j k n : Nat) (h1 : 1 ≤ j) (h2 : j + 1 < nc)
    (hk : k = (nr - 1) * nc + j)
    (hn : n = (nr - 1) * nc + j + 1 ∨ n = (nr - 1) * nc + j - 1 ∨ n = (nr - 1) * nc + j - nc) :
    tested (checks_4con nr nc) k n := by
  refine ⟨((nr - 1) * nc + j,
     [(nr - 1) * nc + j + 1, (nr - 1) * nc + j - 1, (nr - 1) * nc + j - nc]),
    (mem_checks_4con nr nc _).2 ?_, hk.symm, ?_⟩
  · exact Or.inl (Or.inl (Or.inl (Or.inr ⟨j, ⟨h1, by omega⟩, rfl⟩)))
  · simp only [List.mem_cons, List.mem_singleton, List.not_mem_nil, or_false]
    exact hn

theorem tested_4con_left (nr nc i k n : Nat) (h1 : 1 ≤ i) (h2 : i + 1 < nr)
    (hk : k = i * nc)
    (hn : n = i * nc + 1 ∨ n = i * nc + nc ∨ n = i * nc - nc) :
    tested (checks_4con nr nc) k n := by
  refine ⟨(i * nc,
     [i * nc + 1, i * nc + nc, i * nc - nc]),
    (mem_checks_4con nr nc _).2 ?_, hk.symm, ?_⟩
  · exact Or.inl (Or.inl (Or.inr ⟨i, ⟨h1, by omega⟩, rfl⟩))
  · simp only [List.mem_cons, List.mem_singleton, List.not_mem_nil, or_false]
    exact hn

theorem tested_4con_right (nr nc i k n : Nat) (h1 : 1 ≤ i) (h2 : i + 1 < nr)
    (hk : k = (i + 1) * nc - 1)
    (hn : n = (i + 1) * nc - 1 - 1 ∨ n = (i + 1) * nc - 1 + nc ∨ n = (i + 1) * nc - 1 - nc) :
    tested (checks_4con nr nc) k n := by
  refine ⟨((i + 1) * nc - 1,
     [(i + 1) * nc - 1 - 1, (i + 1) * nc - 1 + nc, (i + 1) * nc - 1 - nc]),
    (mem_checks_4con nr nc _).2 ?_, hk.symm, ?_⟩
  · exact Or.inl (Or.inr ⟨i, ⟨h1, by omega⟩, rfl⟩)
  · simp only [List.mem_cons, List.mem_singleton, List.not_mem_nil, or_false]
    exact hn

theorem tested_4con_body (nr nc i j k n : Nat) (h1 : 1 ≤ i) (h2 : i + 1 < nr) (h3 : 1 ≤ j)
    (h4 : j + 1 < nc)
    (hk : k = i * nc + j)
    (hn : n = i * nc + j - 1 ∨ n = i * nc + j + 1 ∨ n = i * nc + j + nc ∨ n = i * nc + j - nc) :
    tested (checks_4con nr nc) k n := by
  refine ⟨(i * nc + j,
     [i * nc + j - 1, i * nc + j + 1, i * nc + j + nc, i * nc + j - nc]),
    (mem_checks_4con nr nc _).2 ?_, hk.symm, ?_⟩
  · exact Or.inr ⟨i, ⟨h1, by omega⟩, j, ⟨h3, by omega⟩, rfl⟩
  · simp only [List.mem_cons, List.mem_singleton, List.not_mem_nil, or_false]
    exact hn

/-- Every in-grid orthogonal neighbour of a pixel is read by the test of
that pixel in `dilate0_erode1_4con`. -/
theorem tested_checks_4con_complete (nr nc k n : Nat) (hr : 2 ≤ nr) (hc : 2 ≤ nc)
    (h : adj4 nr nc k n) : tested (checks_4con nr nc) k n := by
  obtain ⟨i, j, i', j', rfl, rfl, hi, hj, hi', hj', hadj⟩ := h
  have e1 : (nr - 1) * nc = (nr - 2) * nc + nc := by
    have : nr - 1 = (nr - 2) + 1 := by omega
    rw [this, Nat.succ_mul]
  have e2 : nr * nc = (nr - 1) * nc + nc := by
    have : nr = (nr - 1) + 1 := by omega
    conv_lhs => rw [this]
    rw [Nat.succ_mul]
  have s1 : (i + 1) * nc = i * nc + nc := Nat.succ_mul _ _
  have s2 : (i' + 1) * nc = i' * nc + nc := Nat.succ_mul _ _
  have hd : (i' * nc = i * nc ∧ j' = j + 1) ∨ (i' * nc = i * nc ∧ j = j' + 1)
      ∨ (i' = i + 1 ∧ i' * nc = i * nc + nc ∧ j' = j)
      ∨ (i = i' + 1 ∧ i * nc = i' * nc + nc ∧ j' = j) := by
    rcases hadj with ⟨h, h' | h'⟩ | ⟨h, h' | h'⟩
    · exact Or.inl ⟨by rw [h], h'⟩
    · exact Or.inr (Or.inl ⟨by rw [h], h'⟩)
    · exact Or.inr (Or.inr (Or.inl ⟨h', by rw [h']; exact s1, h⟩))
    · exact Or.inr (Or.inr (Or.inr ⟨h', by rw [h']; exact s2, h⟩))
  clear hadj
  by_cases hi0 : i = 0
  · have f0 : i * nc = 0 := by rw [hi0]; simp
    by_cases hj0 : j = 0
    · have hk : i * nc + j = 0 := by omega
      rcases hd with hd | hd | hd | hd
      · exact tested_4con_corner1 nr nc _ _ hk (Or.inl (by omega))
      · exfalso; omega
      · exact tested_4con_corner1 nr nc _ _ hk (Or.inr (by omega))
      · exfalso; omega
    · have h1 : 1 ≤ j := by omega
      clear hj0
      by_cases hj1 : j + 1 = nc
      · have hk : i * nc + j = nc - 1 := by omega
        rcases hd with hd | hd | hd | hd
        · exfalso; omega
        · exact tested_4con_corner2 nr nc _ _ hk (Or.inl (by omega))
        · exact tested_4con_corner2 nr nc _ _ hk (Or.inr (by omega))
        · exfalso; omega
      · have h2 : j + 1 < nc := by omega
        clear hj1
        have hk : i * nc + j = j := by omega
        rcases hd with hd | hd | hd | hd
        · exact tested_4con_top nr nc j _ _ h1 h2 hk (Or.inl (by omega))
        · exact tested_4con_top nr nc j _ _ h1 h2 hk (Or.inr (Or.inl (by omega)))
        · exact tested_4con_top nr nc j _ _ h1 h2 hk (Or.inr (Or.inr (by omega)))
        · exfalso; omega
  · have h1 : 1 ≤ i := by omega
    clear hi0
    by_cases hi1 : i + 1 = nr
    · have f1 : (nr - 1) * nc = i * nc := by
        have : nr - 1 = i := by omega
        rw [this]
      by_cases hj0 : j = 0
      · have hk : i * nc + j = (nr - 1) * nc := by omega
        rcases hd with hd | hd | hd | hd
        · exact tested_4con_corner3 nr nc _ _ hk (Or.inr (by omega))
        · exfalso; omega
        · exfalso; omega
        · exact tested_4con_corner3 nr nc _ _ hk (Or.inl (by omega))
      · have h3 : 1 ≤ j := by omega
        clear hj0
        by_cases hj1 : j + 1 = nc
        · have hk : i * nc + j = nr * nc - 1 := by omega
          rcases hd with hd | hd | hd | hd
          · exfalso; omega
          · exact tested_4con_corner4 nr nc _ _ hk (Or.inl (by omega))
          · exfalso; omega
          · exact tested_4con_corner4 nr nc _ _ hk (Or.inr (by omega))
        · have h4 : j + 1 < nc := by omega
          clear hj1
          have hk : i * nc + j = (nr - 1) * nc + j := by omega
          rcases hd with hd | hd | hd | hd
          · exact tested_4con_bottom nr nc j _ _ h3 h4 hk (Or.inl (by omega))
          · exact tested_4con_bottom nr nc j _ _ h3 h4 hk (Or.inr (Or.inl (by omega)))
          · exfalso; omega
          · exact tested_4con_bottom nr nc j _ _ h3 h4 hk (Or.inr (Or.inr (by omega)))
    · have h2 : i + 1 < nr := by omega
      clear hi1
      by_cases hj0 : j = 0
      · have hk : i * nc + j = i * nc := by omega
        rcases hd with hd | hd | hd | hd
        · exact tested_4con_left nr nc i _ _ h1 h2 hk (Or.inl (by omega))
        · exfalso; omega
        · exact tested_4con_left nr nc i _ _ h1 h2 hk (Or.inr (Or.inl (by omega)))
        · exact tested_4con_left nr nc i _ _ h1 h2 hk (Or.inr (Or.inr (by omega)))
      · have h3 : 1 ≤ j := by omega
        clear hj0
        by_cases hj1 : j + 1 = nc
        · have hk : i * nc + j = (i + 1) * nc - 1 := by omega
          rcases hd with hd | hd | hd | hd
          · exfalso; omega
          · exact tested_4con_right nr nc i _ _ h1 h2 hk (Or.inl (by omega))
          · exact tested_4con_right nr nc i _ _ h1 h2 hk (Or.inr (Or.inl (by omega)))
          · exact tested_4con_right nr nc i _ _ h1 h2 hk (Or.inr (Or.inr (by omega)))
        · have h4 : j + 1 < nc := by omega
          clear hj1
          rcases hd with hd | hd | hd | hd
          · exact tested_4con_body nr nc i j _ _ h1 h2 h3 h4 rfl (Or.inr (Or.inl (by omega)))
          · exact tested_4con_body nr nc i j _ _ h1 h2 h3 h4 rfl (Or.inl (by omega))
          · exact tested_4con_body nr nc i j _ _ h1 h2 h3 h4 rfl (Or.inr (Or.inr (Or.inl (by omega))))
          · exact tested_4con_body nr nc i j _ _ h1 h2 h3 h4 rfl (Or.inr (Or.inr (Or.inr (by omega))))

theorem pred_mul_add (r nc : Nat) : (r - 1) * nc + nc = r * nc ∨ r = 0 := by
  cases r with
  | zero => exact Or.inr rfl
  | succ m => left; simp [Nat.succ_mul]

/-- The four in-grid orthogonal neighbours of the pixel of row `r` and
column `c`, by their flat indices as the source writes them. -/
theorem adj4_of_coords (nr nc r c k n : Nat) (hr : r < nr) (hc : c < nc)
    (hk : k = r * nc + c)
    (hn : (c + 1 < nc ∧ n = r * nc + c + 1) ∨ (1 ≤ c ∧ n = r * nc + c - 1)
      ∨ (r + 1 < nr ∧ n = r * nc + c + nc) ∨ (1 ≤ r ∧ n = r * nc + c - nc)) :
    adj4 nr nc k n := by
  have s1 : (r + 1) * nc = r * nc + nc := Nat.succ_mul _ _
  have s2 := pred_mul_add r nc
  rcases hn with ⟨h1, h2⟩ | ⟨h1, h2⟩ | ⟨h1, h2⟩ | ⟨h1, h2⟩
  · exact ⟨r, c, r, c + 1, hk, by omega, hr, hc, hr, h1, by omega⟩
  · exact ⟨r, c, r, c - 1, hk, by omega, hr, hc, hr, by omega, by omega⟩
  · exact ⟨r, c, r + 1, c, hk, by omega, hr, hc, h1, hc, by omega⟩
  · exact ⟨r, c, r - 1, c, hk, by omega, hr, hc, by omega, hc, by omega⟩

/-- Every index read by a test of `dilate0_erode1_4con` is that of an in-grid
orthogonal neighbour of the tested pixel. -/
theorem tested_checks_4con_sound (nr nc k n : Nat) (hr : 2 ≤ nr) (hc : 2 ≤ nc)
    (h : tested (checks_4con nr nc) k n) : adj4 nr nc k n := by
  obtain ⟨c, hmem, hk, hn⟩ := h
  have e1 : (nr - 1) * nc = (nr - 2) * nc + nc := by
    have : nr - 1 = (nr - 2) + 1 := by omega
    rw [this, Nat.succ_mul]
  have e2 : nr * nc = (nr - 1) * nc + nc := by
    have : nr = (nr - 1) + 1 := by omega
    conv_lhs => rw [this]
    rw [Nat.succ_mul]
  rw [mem_checks_4con] at hmem
  rcases hmem with ((((( rfl | rfl | rfl | rfl) | ⟨a, ha, rfl⟩) | ⟨a, ha, rfl⟩)
    | ⟨a, ha, rfl⟩) | ⟨a, ha, rfl⟩) | ⟨a, ha, a', ha', rfl⟩
  all_goals simp only [List.mem_cons, List.mem_singleton, List.not_mem_nil, or_false] at hn
  all_goals simp only at hk
  all_goals subst hk
  · rcases hn with hn | hn
    · exact adj4_of_coords nr nc 0 0 _ _ (by omega) (by omega) (by omega)
        (Or.inl ⟨by omega, by omega⟩)
    · exact adj4_of_coords nr nc 0 0 _ _ (by omega) (by omega) (by omega)
        (Or.inr (Or.inr (Or.inl ⟨by omega, by omega⟩)))
  · rcases hn with hn | hn
    · exact adj4_of_coords nr nc 0 (nc - 1) _ _ (by omega) (by omega) (by omega)
        (Or.inr (Or.inl ⟨by omega, by omega⟩))
    · exact adj4_of_coords nr nc 0 (nc - 1) _ _ (by omega) (by omega) (by omega)
        (Or.inr (Or.inr (Or.inl ⟨by omega, by omega⟩)))
  · rcases hn with hn | hn
    · exact adj4_of_coords nr nc (nr - 1) 0 _ _ (by omega) (by omega) (by omega)
        (Or.inr (Or.inr (Or.inr ⟨by omega, by omega⟩)))
    · exact adj4_of_coords nr nc (nr - 1) 0 _ _ (by omega) (by omega) (by omega)
        (Or.inl ⟨by omega, by omega⟩)
  · rcases hn with hn | hn
    · exact adj4_of_coords nr nc (nr - 1) (nc - 1) _ _ (by omega) (by omega) (by omega)
        (Or.inr (Or.inl ⟨by omega, by omega⟩))
    · exact adj4_of_coords nr nc (nr - 1) (nc - 1) _ _ (by omega) (by omega) (by omega)
        (Or.inr (Or.inr (Or.inr ⟨by omega, by omega⟩)))
  · rcases hn with hn | hn | hn
    · exact adj4_of_coords nr nc 0 a _ _ (by omega) (by omega) (by omega)
        (Or.inl ⟨by omega, by omega⟩)
    · exact adj4_of_coords nr nc 0 a _ _ (by omega) (by omega) (by omega)
        (Or.inr (Or.inl ⟨by omega, by omega⟩))
    · exact adj4_of_coords nr nc 0 a _ _ (by omega) (by omega) (by omega)
        (Or.inr (Or.inr (Or.inl ⟨by omega, by omega⟩)))
  · rcases hn with hn | hn | hn
    · exact adj4_of_coords nr nc (nr - 1) a _ _ (by omega) (by omega) (by omega)
        (Or.inl ⟨by omega, by omega⟩)
    · exact adj4_of_coords nr nc (nr - 1) a _ _ (by omega) (by omega) (by omega)
        (Or.inr (Or.inl ⟨by omega, by omega⟩))
    · exact adj4_of_coords nr nc (nr - 1) a _ _ (by omega) (by omega) (by omega)
        (Or.inr (Or.inr (Or.inr ⟨by omega, by omega⟩)))
  · rcases hn with hn | hn | hn
    · exact adj4_of_coords nr nc a 0 _ _ (by omega) (by omega) (by omega)
        (Or.inl ⟨by omega, by omega⟩)
    · exact adj4_of_coords nr nc a 0 _ _ (by omega) (by omega) (by omega)
        (Or.inr (Or.inr (Or.inl ⟨by omega, by omega⟩)))
    · exact adj4_of_coords nr nc a 0 _ _ (by omega) (by omega) (by omega)
        (Or.inr (Or.inr (Or.inr ⟨by omega, by omega⟩)))
  · have s1 : (a + 1) * nc = a * nc + nc := Nat.succ_mul _ _
    rcases hn with hn | hn | hn
    · exact adj4_of_coords nr nc a (nc - 1) _ _ (by omega) (by omega) (by omega)
        (Or.inr (Or.inl ⟨by omega, by omega⟩))
    · exact adj4_of_coords nr nc a (nc - 1) _ _ (by omega) (by omega) (by omega)
        (Or.inr (Or.inr (Or.inl ⟨by omega, by omega⟩)))
    · exact adj4_of_coords nr nc a (nc - 1) _ _ (by omega) (by omega) (by omega)
        (Or.inr (Or.inr (Or.inr ⟨by omega, by omega⟩)))
  · rcases hn with hn | hn | hn | hn
    · exact adj4_of_coords nr nc a a' _ _ (by omega) (by omega) (by omega)
        (Or.inr (Or.inl ⟨by omega, by omega⟩))
    · exact adj4_of_coords nr nc a a' _ _ (by omega) (by omega) (by omega)
        (Or.inl ⟨by omega, by omega⟩)
    · exact adj4_of_coords nr nc a a' _ _ (by omega) (by omega) (by omega)
        (Or.inr (Or.inr (Or.inl ⟨by omega, by omega⟩)))
    · exact adj4_of_coords nr nc a a' _ _ (by omega) (by omega) (by omega)
        (Or.inr (Or.inr (Or.inr ⟨by omega, by omega⟩)))

theorem adj4_symm (nr nc k n : Nat) (h : adj4 nr nc k n) : adj4 nr nc n k := by
  obtain ⟨i, j, i', j', hk, hn, hi, hj, hi', hj', hadj⟩ := h
  exact ⟨i', j', i, j, hn, hk, hi', hj', hi, hj, by omega⟩

theorem adj4_lt (nr nc k n : Nat) (h : adj4 nr nc k n) : k < nr * nc ∧ n < nr * nc := by
  obtain ⟨i, j, i', j', rfl, rfl, hi, hj, hi', hj', _⟩ := h
  have h1 : i * nc + nc ≤ nr * nc := by
    calc i * nc + nc = (i + 1) * nc := (Nat.succ_mul _ _).symm
      _ ≤ nr * nc := Nat.mul_le_mul_right _ hi
  have h2 : i' * nc + nc ≤ nr * nc := by
    calc i' * nc + nc = (i' + 1) * nc := (Nat.succ_mul _ _).symm
      _ ≤ nr * nc := Nat.mul_le_mul_right _ hi'
  omega

/-- The neighbours read by `dilate0_erode1_4con` are exactly the in-grid
orthogonal neighbours. -/
theorem tested_checks_4con_iff (nr nc k n : Nat) (hr : 2 ≤ nr) (hc : 2 ≤ nc) :
    tested (checks_4con nr nc) k n ↔ adj4 nr nc k n :=
  ⟨tested_checks_4con_sound nr nc k n hr hc, tested_checks_4con_complete nr nc k n hr hc⟩

/-- A test fires on `k` exactly when a neighbour read for `k` holds `f`. -/
theorem fires_iff_tested (byt : List Nat) (f : Nat) (checks : List (Nat × List Nat)) (k : Nat) :
    fires byt f checks k = true ↔ ∃ n, tested checks k n ∧ rdN byt n = f := by
  unfold fires tested
  simp only [List.any_eq_true, Bool.and_eq_true, decide_eq_true_eq]
  constructor
  · rintro ⟨c, hc, hk, n, hn, hv⟩
    exact ⟨n, ⟨c, hc, hk, hn⟩, hv⟩
  · rintro ⟨n, ⟨c, hc, hk, hn⟩, hv⟩
    exact ⟨c, hc, hk, n, hn, hv⟩

/-! ## The neighbours read by `dilate0_erode1_8con` -/

/-- The tests of `dilate0_erode1_8con` by region: the four corners, the
first and the last row, the first and the last column, the body. -/
theorem mem_checks_8con (nr nc : Nat) (c : Nat × List Nat) :
    c ∈ checks_8con nr nc ↔
      ((((((c = (0, [1, nc, nc + 1])
        ∨ c = (nc - 1, [nc - 2, 2 * nc - 1, 2 * nc - 2])
        ∨ c = ((nr - 1) * nc,
            [(nr - 2) * nc, (nr - 1) * nc + 1, (nr - 2) * nc + 1])
        ∨ c = (nr * nc - 1, [nr * nc - 2, nr * nc - 1 - nc, nr * nc - 2 - nc]))
        ∨ (∃ a, (1 ≤ a ∧ a < 1 + (nc - 2))
          ∧ (a, [a + 1, a - 1, a + nc, a - 1 + nc, a + 1 + nc]) = c))
        ∨ (∃ a, (1 ≤ a ∧ a < 1 + (nc - 2))
          ∧ ((nr - 1) * nc + a,
             [(nr - 1) * nc + a + 1, (nr - 1) * nc + a - 1, (nr - 1) * nc + a - nc,
              (nr - 1) * nc + a - 1 - nc, (nr - 1) * nc + a + 1 - nc]) = c))
        ∨ (∃ a, (1 ≤ a ∧ a < 1 + (nr - 2))
          ∧ (a * nc,
             [a * nc + 1, a * nc + nc, a * nc - nc, a * nc + 1 - nc, a * nc + 1 + nc]) = c))
        ∨ (∃ a, (1 ≤ a ∧ a < 1 + (nr - 2))
          ∧ ((a + 1) * nc - 1,
             [(a + 1) * nc - 1 - 1, (a + 1) * nc - 1 + nc, (a + 1) * nc - 1 - nc,
              (a + 1) * nc - 1 - 1 - nc, (a + 1) * nc - 1 - 1 + nc]) = c))
        ∨ (∃ a, (1 ≤ a ∧ a < 1 + (nr - 2)) ∧ ∃ b, (1 ≤ b ∧ b < 1 + (nc - 2))
          ∧ (a * nc + b,
             [a * nc + b - 1, a * nc + b + 1, a * nc + b + nc, a * nc + b - nc,
              a * nc + b - 1 - nc, a * nc + b + 1 + nc, a * nc + b - 1 + nc, a * nc + b + 1 + nc]) = c)) := by
  simp only [checks_8con, List.mem_append, List.mem_cons, List.mem_map, List.mem_flatMap,
    List.mem_range'_1, List.mem_singleton, List.not_mem_nil, or_false]

theorem tested_8con_corner1 (nr nc k n : Nat)
    (hk : k = 0)
    (hn : n = 1 ∨ n = nc ∨ n = nc + 1) :
    tested (checks_8con nr nc) k n := by
  refine ⟨(0,
     [1, nc, nc + 1]),
    (mem_checks_8con nr nc _).2 ?_, hk.symm, ?_⟩
  · exact Or.inl (Or.inl (Or.inl (Or.inl (Or.inl (Or.inl rfl)))))
  · simp only [List.mem_cons, List.mem_singleton, List.not_mem_nil, or_false]
    exact hn

theorem tested_8con_corner2 (nr nc k n : Nat)
    (hk : k = nc - 1)
    (hn : n = nc - 2 ∨ n = 2 * nc - 1 ∨ n = 2 * nc - 2) :
    tested (checks_8con nr nc) k n := by
  refine ⟨(nc - 1,
     [nc - 2, 2 * nc - 1, 2 * nc - 2]),
    (mem_checks_8con nr nc _).2 ?_, hk.symm, ?_⟩
  · exact Or.inl (Or.inl (Or.inl (Or.inl (Or.inl (Or.inr (Or.inl rfl))))))
  · simp only [List.mem_cons, List.mem_singleton, List.not_mem_nil, or_false]
    exact hn

theorem tested_8con_corner3 (nr nc k n : Nat)
    (hk : k = (nr - 1) * nc)
    (hn : n = (nr - 2) * nc ∨ n = (nr - 1) * nc + 1 ∨ n = (nr - 2) * nc + 1) :
    tested (checks_8con nr nc) k n := by
  refine ⟨((nr - 1) * nc,
     [(nr - 2) * nc, (nr - 1) * nc + 1, (nr - 2) * nc + 1]),
    (mem_checks_8con nr nc _).2 ?_, hk.symm, ?_⟩
  · exact Or.inl (Or.inl (Or.inl (Or.inl (Or.inl (Or.inr (Or.inr (Or.inl rfl)))))))
  · simp only [List.mem_cons, List.mem_singleton, List.not_mem_nil, or_false]
    exact hn

theorem tested_8con_corner4 (nr nc k n : Nat)
    (hk : k = nr * nc - 1)
    (hn : n = nr * nc - 2 ∨ n = nr * nc - 1 - nc ∨ n = nr * nc - 2 - nc) :
    tested (checks_8con nr nc) k n := by
  refine ⟨(nr * nc - 1,
     [nr * nc - 2, nr * nc - 1 - nc, nr * nc - 2 - nc]),
    (mem_checks_8con nr nc _).2 ?_, hk.symm, ?_⟩
  · exact Or.inl (Or.inl (Or.inl (Or.inl (Or.inl (Or.inr (Or.inr (Or.inr rfl)))))))
  · simp only [List.mem_cons, List.mem_singleton, List.not_mem_nil, or_false]
    exact hn

theorem tested_8con_top (nr nc j k n : Nat) (h1 : 1 ≤ j) (h2 : j + 1 < nc)
    (hk : k = j)
    (hn : n = j + 1 ∨ n = j - 1 ∨ n = j + nc ∨ n = j - 1 + nc ∨ n = j + 1 + nc) :
    tested (checks_8con nr nc) k n := by
  refine ⟨(j,
     [j + 1, j - 1, j + nc, j - 1 + nc, j + 1 + nc]),
    (mem_checks_8con nr nc _).2 ?_, hk.symm, ?_⟩
  · exact Or.inl (Or.inl (Or.inl (Or.inl (Or.inr ⟨j, ⟨h1, by omega⟩, rfl⟩))))
  · simp only [List.mem_cons, List.mem_singleton, List.not_mem_nil, or_false]
    exact hn

theorem tested_8con_bottom (nr nc j k n : Nat) (h1 : 1 ≤ j) (h2 : j + 1 < nc)
    (hk : k = (nr - 1) * nc + j)
    (hn : n = (nr - 1) * nc + j + 1 ∨ n = (nr - 1) * nc + j - 1 ∨ n = (nr - 1) * nc + j - nc
      ∨ n = (nr - 1) * nc + j - 1 - nc ∨ n = (nr - 1) * nc + j + 1 - nc) :
    tested (checks_8con nr nc) k n := by
  refine ⟨((nr - 1) * nc + j,
     [(nr - 1) * nc + j + 1, (nr - 1) * nc + j - 1, (nr - 1) * nc + j - nc,
      (nr - 1) * nc + j - 1 - nc, (nr - 1) * nc + j + 1 - nc]),
    (mem_checks_8con nr nc _).2 ?_, hk.symm, ?_⟩
  · exact Or.inl (Or.inl (Or.inl (Or.inr ⟨j, ⟨h1, by omega⟩, rfl⟩)))
  · simp only [List.mem_cons, List.mem_singleton, List.not_mem_nil, or_false]
    exact hn

theorem tested_8con_left (nr nc i k n : Nat) (h1 : 1 ≤ i) (h2 : i + 1 < nr)
    (hk : k = i * nc)
    (hn : n = i * nc + 1 ∨ n = i * nc + nc ∨ n = i * nc - nc ∨ n = i * nc + 1 - nc
      ∨ n = i * nc + 1 + nc) :
    tested (checks_8con nr nc) k n := by
  refine ⟨(i * nc,
     [i * nc + 1, i * nc + nc, i * nc - nc, i * nc + 1 - nc, i * nc + 1 + nc]),
    (mem_checks_8con nr nc _).2 ?_, hk.symm, ?_⟩
  · exact Or.inl (Or.inl (Or.inr ⟨i, ⟨h1, by omega⟩, rfl⟩))
  · simp only [List.mem_cons, List.mem_singleton, List.not_mem_nil, or_false]
    exact hn

theorem tested_8con_right (nr nc i k n : Nat) (h1 : 1 ≤ i) (h2 : i + 1 < nr)
    (hk : k = (i + 1) * nc - 1)
    (hn : n = (i + 1) * nc - 1 - 1 ∨ n = (i + 1) * nc - 1 + nc ∨ n = (i + 1) * nc - 1 - nc
      ∨ n = (i + 1) * nc - 1 - 1 - nc ∨ n = (i + 1) * nc - 1 - 1 + nc) :
    tested (checks_8con nr nc) k n := by
  refine ⟨((i + 1) * nc - 1,
     [(i + 1) * nc - 1 - 1, (i + 1) * nc - 1 + nc, (i + 1) * nc - 1 - nc,
      (i + 1) * nc - 1 - 1 - nc, (i + 1) * nc - 1 - 1 + nc]),
    (mem_checks_8con nr nc _).2 ?_, hk.symm, ?_⟩
  · exact Or.inl (Or.inr ⟨i, ⟨h1, by omega⟩, rfl⟩)
  · simp only [List.mem_cons, List.mem_singleton, List.not_mem_nil, or_false]
    exact hn

theorem tested_8con_body (nr nc i j k n : Nat) (h1 : 1 ≤ i) (h2 : i + 1 < nr) (h3 : 1 ≤ j)
    (h4 : j + 1 < nc)
    (hk : k = i * nc + j)
    (hn : n = i * nc + j - 1 ∨ n = i * nc + j + 1 ∨ n = i * nc + j + nc ∨ n = i * nc + j - nc
      ∨ n = i * nc + j - 1 - nc ∨ n = i * nc + j + 1 + nc ∨ n = i * nc + j - 1 + nc
      ∨ n = i * nc + j + 1 + nc) :
    tested (checks_8con nr nc) k n := by
  refine ⟨(i * nc + j,
     [i * nc + j - 1, i * nc + j + 1, i * nc + j + nc, i * nc + j - nc, i * nc + j - 1 - nc,
      i * nc + j + 1 + nc, i * nc + j - 1 + nc, i * nc + j + 1 + nc]),
    (mem_checks_8con nr nc _).2 ?_, hk.symm, ?_⟩
  · exact Or.inr ⟨i, ⟨h1, by omega⟩, j, ⟨h3, by omega⟩, rfl⟩
  · simp only [List.mem_cons, List.mem_singleton, List.not_mem_nil, or_false]
    exact hn

/-- The in-grid neighbours of the pixel of row `r` and column `c` that
`dilate0_erode1_8con` reads, by their flat indices as the source writes
them. -/
theorem read8_of_coords (nr nc r c k n : Nat) (hr : r < nr) (hc : c < nc)
    (hk : k = r * nc + c)
    (hn : (c + 1 < nc ∧ n = r * nc + c + 1)
      ∨ (1 ≤ c ∧ n = r * nc + c - 1)
      ∨ (r + 1 < nr ∧ n = r * nc + c + nc)
      ∨ (1 ≤ r ∧ n = r * nc + c - nc)
      ∨ (1 ≤ r ∧ 1 ≤ c ∧ n = r * nc + c - 1 - nc)
      ∨ (r + 1 < nr ∧ c + 1 < nc ∧ n = r * nc + c + 1 + nc)
      ∨ (r + 1 < nr ∧ 1 ≤ c ∧ n = r * nc + c - 1 + nc)
      ∨ (1 ≤ r ∧ c + 1 < nc ∧ (r + 1 = nr ∨ c = 0) ∧ n = r * nc + c + 1 - nc)) :
    read8 nr nc k n := by
  have s1 : (r + 1) * nc = r * nc + nc := Nat.succ_mul _ _
  have s2 := pred_mul_add r nc
  rcases hn with h | h | h | h | h | h | h | h
  · exact ⟨r, c, r, c + 1, hk, by omega, hr, hc, by omega, by omega, by omega, by omega,
      by omega, by omega, by omega, by omega⟩
  · exact ⟨r, c, r, c - 1, hk, by omega, hr, hc, by omega, by omega, by omega, by omega,
      by omega, by omega, by omega, by omega⟩
  · exact ⟨r, c, r + 1, c, hk, by omega, hr, hc, by omega, by omega, by omega, by omega,
      by omega, by omega, by omega, by omega⟩
  · exact ⟨r, c, r - 1, c, hk, by omega, hr, hc, by omega, by omega, by omega, by omega,
      by omega, by omega, by omega, by omega⟩
  · exact ⟨r, c, r - 1, c - 1, hk, by omega, hr, hc, by omega, by omega, by omega, by omega,
      by omega, by omega, by omega, by omega⟩
  · exact ⟨r, c, r + 1, c + 1, hk, by omega, hr, hc, by omega, by omega, by omega, by omega,
      by omega, by omega, by omega, by omega⟩
  · exact ⟨r, c, r + 1, c - 1, hk, by omega, hr, hc, by omega, by omega, by omega, by omega,
      by omega, by omega, by omega, by omega⟩
  · exact ⟨r, c, r - 1, c + 1, hk, by omega, hr, hc, by omega, by omega, by omega, by omega,
      by omega, by omega, by omega, by omega⟩

/-- Every index read by a test of `dilate0_erode1_8con` is that of one of the
eight in-grid neighbours of the tested pixel, and never that of the
neighbour above and to the right of a pixel of the body. -/
theorem tested_checks_8con_sound (nr nc k n : Nat) (hr : 2 ≤ nr) (hc : 2 ≤ nc)
    (h : tested (checks_8con nr nc) k n) : read8 nr nc k n := by
  obtain ⟨c, hmem, hk, hn⟩ := h
  have e1 : (nr - 1) * nc = (nr - 2) * nc + nc := by
    have : nr - 1 = (nr - 2) + 1 := by omega
    rw [this, Nat.succ_mul]
  have e2 : nr * nc = (nr - 1) * nc + nc := by
    have : nr = (nr - 1) + 1 := by omega
    conv_lhs => rw [this]
    rw [Nat.succ_mul]
  rw [mem_checks_8con] at hmem
  rcases hmem with ((((( rfl | rfl | rfl | rfl) | ⟨a, ha, rfl⟩) | ⟨a, ha, rfl⟩)
    | ⟨a, ha, rfl⟩) | ⟨a, ha, rfl⟩) | ⟨a, ha, a', ha', rfl⟩
  all_goals simp only [List.mem_cons, List.mem_singleton, List.not_mem_nil, or_false] at hn
  all_goals simp only at hk
  all_goals subst hk
  · rcases hn with hn | hn | hn
    · exact read8_of_coords nr nc 0 0 _ _ (by omega) (by omega) (by omega)
        (Or.inl (by omega))
    · exact read8_of_coords nr nc 0 0 _ _ (by omega) (by omega) (by omega)
        (Or.inr (Or.inr (Or.inl (by omega))))
    · exact read8_of_coords nr nc 0 0 _ _ (by omega) (by omega) (by omega)
        (Or.inr (Or.inr (Or.inr (Or.inr (Or.inr (Or.inl (by omega)))))))
  · rcases hn with hn | hn | hn
    · exact read8_of_coords nr nc 0 (nc - 1) _ _ (by omega) (by omega) (by omega)
        (Or.inr (Or.inl (by omega)))
    · exact read8_of_coords nr nc 0 (nc - 1) _ _ (by omega) (by omega) (by omega)
        (Or.inr (Or.inr (Or.inl (by omega))))
    · exact read8_of_coords nr nc 0 (nc - 1) _ _ (by omega) (by omega) (by omega)
        (Or.inr (Or.inr (Or.inr (Or.inr (Or.inr (Or.inr (Or.inl (by omega))))))))
  · rcases hn with hn | hn | hn
    · exact read8_of_coords nr nc (nr - 1) 0 _ _ (by omega) (by omega) (by omega)
        (Or.inr (Or.inr (Or.inr (Or.inl (by omega)))))
    · exact read8_of_coords nr nc (nr - 1) 0 _ _ (by omega) (by omega) (by omega)
        (Or.inl (by omega))
    · exact read8_of_coords nr nc (nr - 1) 0 _ _ (by omega) (by omega) (by omega)
        (Or.inr (Or.inr (Or.inr (Or.inr (Or.inr (Or.inr (Or.inr (by omega))))))))
  · rcases hn with hn | hn | hn
    · exact read8_of_coords nr nc (nr - 1) (nc - 1) _ _ (by omega) (by omega) (by omega)
        (Or.inr (Or.inl (by omega)))
    · exact read8_of_coords nr nc (nr - 1) (nc - 1) _ _ (by omega) (by omega) (by omega)
        (Or.inr (Or.inr (Or.inr (Or.inl (by omega)))))
    · exact read8_of_coords nr nc (nr - 1) (nc - 1) _ _ (by omega) (by omega) (by omega)
        (Or.inr (Or.inr (Or.inr (Or.inr (Or.inl (by omega))))))
  · rcases hn with hn | hn | hn | hn | hn
    · exact read8_of_coords nr nc 0 a _ _ (by omega) (by omega) (by omega)
        (Or.inl (by omega))
    · exact read8_of_coords nr nc 0 a _ _ (by omega) (by omega) (by omega)
        (Or.inr (Or.inl (by omega)))
    · exact read8_of_coords nr nc 0 a _ _ (by omega) (by omega) (by omega)
        (Or.inr (Or.inr (Or.inl (by omega))))
    · exact read8_of_coords nr nc 0 a _ _ (by omega) (by omega) (by omega)
        (Or.inr (Or.inr (Or.inr (Or.inr (Or.inr (Or.inr (Or.inl (by omega))))))))
    · exact read8_of_coords nr nc 0 a _ _ (by omega) (by omega) (by omega)
        (Or.inr (Or.inr (Or.inr (Or.inr (Or.inr (Or.inl (by omega)))))))
  · rcases hn with hn | hn | hn | hn | hn
    · exact read8_of_coords nr nc (nr - 1) a _ _ (by omega) (by omega) (by omega)
        (Or.inl (by omega))
    · exact read8_of_coords nr nc (nr - 1) a _ _ (by omega) (by omega) (by omega)
        (Or.inr (Or.inl (by omega)))
    · exact read8_of_coords nr nc (nr - 1) a _ _ (by omega) (by omega) (by omega)
        (Or.inr (Or.inr (Or.inr (Or.inl (by omega)))))
    · exact read8_of_coords nr nc (nr - 1) a _ _ (by omega) (by omega) (by omega)
        (Or.inr (Or.inr (Or.inr (Or.inr (Or.inl (by omega))))))
    · exact read8_of_coords nr nc (nr - 1) a _ _ (by omega) (by omega) (by omega)
        (Or.inr (Or.inr (Or.inr (Or.inr (Or.inr (Or.inr (Or.inr (by omega))))))))
  · rcases hn with hn | hn | hn | hn | hn
    · exact read8_of_coords nr nc a 0 _ _ (by omega) (by omega) (by omega)
        (Or.inl (by omega))
    · exact read8_of_coords nr nc a 0 _ _ (by omega) (by omega) (by omega)
        (Or.inr (Or.inr (Or.inl (by omega))))
    · exact read8_of_coords nr nc a 0 _ _ (by omega) (by omega) (by omega)
        (Or.inr (Or.inr (Or.inr (Or.inl (by omega)))))
    · exact read8_of_coords nr nc a 0 _ _ (by omega) (by omega) (by omega)
        (Or.inr (Or.inr (Or.inr (Or.inr (Or.inr (Or.inr (Or.inr (by omega))))))))
    · exact read8_of_coords nr nc a 0 _ _ (by omega) (by omega) (by omega)
        (Or.inr (Or.inr (Or.inr (Or.inr (Or.inr (Or.inl (by omega)))))))
  · have s1 : (a + 1) * nc = a * nc + nc := Nat.succ_mul _ _
    rcases hn with hn | hn | hn | hn | hn
    · exact read8_of_coords nr nc a (nc - 1) _ _ (by omega) (by omega) (by omega)
        (Or.inr (Or.inl (by omega)))
    · exact read8_of_coords nr nc a (nc - 1) _ _ (by omega) (by omega) (by omega)
        (Or.inr (Or.inr (Or.inl (by omega))))
    · exact read8_of_coords nr nc a (nc - 1) _ _ (by omega) (by omega) (by omega)
        (Or.inr (Or.inr (Or.inr (Or.inl (by omega)))))
    · exact read8_of_coords nr nc a (nc - 1) _ _ (by omega) (by omega) (by omega)
        (Or.inr (Or.inr (Or.inr (Or.inr (Or.inl (by omega))))))
    · exact read8_of_coords nr nc a (nc - 1) _ _ (by omega) (by omega) (by omega)
        (Or.inr (Or.inr (Or.inr (Or.inr (Or.inr (Or.inr (Or.inl (by omega))))))))
  · rcases hn with hn | hn | hn | hn | hn | hn | hn | hn
    · exact read8_of_coords nr nc a a' _ _ (by omega) (by omega) (by omega)
        (Or.inr (Or.inl (by omega)))
    · exact read8_of_coords nr nc a a' _ _ (by omega) (by omega) (by omega)
        (Or.inl (by omega))
    · exact read8_of_coords nr nc a a' _ _ (by omega) (by omega) (by omega)
        (Or.inr (Or.inr (Or.inl (by omega))))
    · exact read8_of_coords nr nc a a' _ _ (by omega) (by omega) (by omega)
        (Or.inr (Or.inr (Or.inr (Or.inl (by omega)))))
    · exact read8_of_coords nr nc a a' _ _ (by omega) (by omega) (by omega)
        (Or.inr (Or.inr (Or.inr (Or.inr (Or.inl (by omega))))))
    · exact read8_of_coords nr nc a a' _ _ (by omega) (by omega) (by omega)
        (Or.inr (Or.inr (Or.inr (Or.inr (Or.inr (Or.inl (by omega)))))))
    · exact read8_of_coords nr nc a a' _ _ (by omega) (by omega) (by omega)
        (Or.inr (Or.inr (Or.inr (Or.inr (Or.inr (Or.inr (Or.inl (by omega))))))))
    · exact read8_of_coords nr nc a a' _ _ (by omega) (by omega) (by omega)
        (Or.inr (Or.inr (Or.inr (Or.inr (Or.inr (Or.inl (by omega)))))))

/-- Every in-grid neighbour of a pixel, orthogonal or diagonal, is read by
the test of that pixel in `dilate0_erode1_8con`, except the neighbour above
and to the right of a pixel of the body. -/
theorem tested_checks_8con_complete (nr nc i j i' j' : Nat) (hr : 2 ≤ nr) (hc : 2 ≤ nc)
    (hi : i < nr) (hj : j < nc) (hi' : i' < nr) (hj' : j' < nc)
    (hadj : i' ≤ i + 1 ∧ i ≤ i' + 1 ∧ j' ≤ j + 1 ∧ j ≤ j' + 1 ∧ (i' ≠ i ∨ j' ≠ j))
    (hnot : ¬ (1 ≤ i ∧ i + 1 < nr ∧ 1 ≤ j ∧ j + 1 < nc ∧ i = i' + 1 ∧ j' = j + 1)) :
    tested (checks_8con nr nc) (i * nc + j) (i' * nc + j') := by
  have e1 : (nr - 1) * nc = (nr - 2) * nc + nc := by
    have : nr - 1 = (nr - 2) + 1 := by omega
    rw [this, Nat.succ_mul]
  have e2 : nr * nc = (nr - 1) * nc + nc := by
    have : nr = (nr - 1) + 1 := by omega
    conv_lhs => rw [this]
    rw [Nat.succ_mul]
  have s1 : (i + 1) * nc = i * nc + nc := Nat.succ_mul _ _
  have s2 : (i' + 1) * nc = i' * nc + nc := Nat.succ_mul _ _
  have hdi : (i' = i ∧ i' * nc = i * nc) ∨ (i' = i + 1 ∧ i' * nc = i * nc + nc)
      ∨ (i = i' + 1 ∧ i * nc = i' * nc + nc) := by
    have h : i' = i ∨ i' = i + 1 ∨ i = i' + 1 := by omega
    rcases h with h | h | h
    · exact Or.inl ⟨h, by rw [h]⟩
    · exact Or.inr (Or.inl ⟨h, by rw [h]; exact s1⟩)
    · exact Or.inr (Or.inr ⟨h, by rw [h]; exact s2⟩)
  have hdj : j' = j ∨ j' = j + 1 ∨ j = j' + 1 := by omega
  have hd : (i' * nc = i * nc ∧ j' = j + 1) ∨ (i' * nc = i * nc ∧ j = j' + 1)
      ∨ (i' = i + 1 ∧ i' * nc = i * nc + nc ∧ j' = j)
      ∨ (i = i' + 1 ∧ i * nc = i' * nc + nc ∧ j' = j)
      ∨ (i = i' + 1 ∧ i * nc = i' * nc + nc ∧ j = j' + 1)
      ∨ (i' = i + 1 ∧ i' * nc = i * nc + nc ∧ j' = j + 1)
      ∨ (i' = i + 1 ∧ i' * nc = i * nc + nc ∧ j = j' + 1)
      ∨ (i = i' + 1 ∧ i * nc = i' * nc + nc ∧ j' = j + 1) := by
    rcases hdi with ⟨ha, hb⟩ | ⟨ha, hb⟩ | ⟨ha, hb⟩ <;> rcases hdj with hj | hj | hj
    · exact (hadj.2.2.2.2.elim (fun h => h ha) (fun h => h hj)).elim
    · exact Or.inl ⟨hb, hj⟩
    · exact Or.inr (Or.inl ⟨hb, hj⟩)
    · exact Or.inr (Or.inr (Or.inl ⟨ha, hb, hj⟩))
    · exact Or.inr (Or.inr (Or.inr (Or.inr (Or.inr (Or.inl ⟨ha, hb, hj⟩)))))
    · exact Or.inr (Or.inr (Or.inr (Or.inr (Or.inr (Or.inr (Or.inl ⟨ha, hb, hj⟩))))))
    · exact Or.inr (Or.inr (Or.inr (Or.inl ⟨ha, hb, hj⟩)))
    · exact Or.inr (Or.inr (Or.inr (Or.inr (Or.inr (Or.inr (Or.inr ⟨ha, hb, hj⟩))))))
    · exact Or.inr (Or.inr (Or.inr (Or.inr (Or.inl ⟨ha, hb, hj⟩))))
  clear hdi hdj
  clear hadj
  by_cases hi0 : i = 0
  · have f0 : i * nc = 0 := by rw [hi0]; simp
    by_cases hj0 : j = 0
    · clear hnot
      have hk : i * nc + j = 0 := by omega
      rcases hd with hd | hd | hd | hd | hd | hd | hd | hd
      · exact tested_8con_corner1 nr nc _ _ hk (Or.inl (by omega))
      · exfalso; omega
      · exact tested_8con_corner1 nr nc _ _ hk (Or.inr (Or.inl (by omega)))
      · exfalso; omega
      · exfalso; omega
      · exact tested_8con_corner1 nr nc _ _ hk (Or.inr (Or.inr (by omega)))
      · exfalso; omega
      · exfalso; omega
    · have h1 : 1 ≤ j := by omega
      clear hj0
      by_cases hj1 : j + 1 = nc
      · clear hnot
        have hk : i * nc + j = nc - 1 := by omega
        rcases hd with hd | hd | hd | hd | hd | hd | hd | hd
        · exfalso; omega
        · exact tested_8con_corner2 nr nc _ _ hk (Or.inl (by omega))
        · exact tested_8con_corner2 nr nc _ _ hk (Or.inr (Or.inl (by omega)))
        · exfalso; omega
        · exfalso; omega
        · exfalso; omega
        · exact tested_8con_corner2 nr nc _ _ hk (Or.inr (Or.inr (by omega)))
        · exfalso; omega
      · clear hnot
        have h2 : j + 1 < nc := by omega
        clear hj1
        have hk : i * nc + j = j := by omega
        rcases hd with hd | hd | hd | hd | hd | hd | hd | hd
        · exact tested_8con_top nr nc j _ _ h1 h2 hk (Or.inl (by omega))
        · exact tested_8con_top nr nc j _ _ h1 h2 hk (Or.inr (Or.inl (by omega)))
        · exact tested_8con_top nr nc j _ _ h1 h2 hk (Or.inr (Or.inr (Or.inl (by omega))))
        · exfalso; omega
        · exfalso; omega
        · exact tested_8con_top nr nc j _ _ h1 h2 hk (Or.inr (Or.inr (Or.inr (Or.inr (by omega)))))
        · exact tested_8con_top nr nc j _ _ h1 h2 hk (Or.inr (Or.inr (Or.inr (Or.inl (by omega)))))
        · exfalso; omega
  · have h1 : 1 ≤ i := by omega
    clear hi0
    by_cases hi1 : i + 1 = nr
    · have f1 : (nr - 1) * nc = i * nc := by
        have : nr - 1 = i := by omega
        rw [this]
      by_cases hj0 : j = 0
      · clear hnot
        have hk : i * nc + j = (nr - 1) * nc := by omega
        rcases hd with hd | hd | hd | hd | hd | hd | hd | hd
        · exact tested_8con_corner3 nr nc _ _ hk (Or.inr (Or.inl (by omega)))
        · exfalso; omega
        · exfalso; omega
        · exact tested_8con_corner3 nr nc _ _ hk (Or.inl (by omega))
        · exfalso; omega
        · exfalso; omega
        · exfalso; omega
        · exact tested_8con_corner3 nr nc _ _ hk (Or.inr (Or.inr (by omega)))
      · have h3 : 1 ≤ j := by omega
        clear hj0
        by_cases hj1 : j + 1 = nc
        · clear hnot
          have hk : i * nc + j = nr * nc - 1 := by omega
          rcases hd with hd | hd | hd | hd | hd | hd | hd | hd
          · exfalso; omega
          · exact tested_8con_corner4 nr nc _ _ hk (Or.inl (by omega))
          · exfalso; omega
          · exact tested_8con_corner4 nr nc _ _ hk (Or.inr (Or.inl (by omega)))
          · exact tested_8con_corner4 nr nc _ _ hk (Or.inr (Or.inr (by omega)))
          · exfalso; omega
          · exfalso; omega
          · exfalso; omega
        · clear hnot
          have h4 : j + 1 < nc := by omega
          clear hj1
          have hk : i * nc + j = (nr - 1) * nc + j := by omega
          rcases hd with hd | hd | hd | hd | hd | hd | hd | hd
          · exact tested_8con_bottom nr nc j _ _ h3 h4 hk (Or.inl (by omega))
          · exact tested_8con_bottom nr nc j _ _ h3 h4 hk (Or.inr (Or.inl (by omega)))
          · exfalso; omega
          · exact tested_8con_bottom nr nc j _ _ h3 h4 hk (Or.inr (Or.inr (Or.inl (by omega))))
          · exact tested_8con_bottom nr nc j _ _ h3 h4 hk (Or.inr (Or.inr (Or.inr (Or.inl (by omega)))))
          · exfalso; omega
          · exfalso; omega
          · exact tested_8con_bottom nr nc j _ _ h3 h4 hk (Or.inr (Or.inr (Or.inr (Or.inr (by omega)))))
    · have h2 : i + 1 < nr := by omega
      clear hi1
      by_cases hj0 : j = 0
      · clear hnot
        have hk : i * nc + j = i * nc := by omega
        rcases hd with hd | hd | hd | hd | hd | hd | hd | hd
        · exact tested_8con_left nr nc i _ _ h1 h2 hk (Or.inl (by omega))
        · exfalso; omega
        · exact tested_8con_left nr nc i _ _ h1 h2 hk (Or.inr (Or.inl (by omega)))
        · exact tested_8con_left nr nc i _ _ h1 h2 hk (Or.inr (Or.inr (Or.inl (by omega))))
        · exfalso; omega
        · exact tested_8con_left nr nc i _ _ h1 h2 hk (Or.inr (Or.inr (Or.inr (Or.inr (by omega)))))
        · exfalso; omega
        · exact tested_8con_left nr nc i _ _ h1 h2 hk (Or.inr (Or.inr (Or.inr (Or.inl (by omega)))))
      · have h3 : 1 ≤ j := by omega
        clear hj0
        by_cases hj1 : j + 1 = nc
        · clear hnot
          have hk : i * nc + j = (i + 1) * nc - 1 := by omega
          rcases hd with hd | hd | hd | hd | hd | hd | hd | hd
          · exfalso; omega
          · exact tested_8con_right nr nc i _ _ h1 h2 hk (Or.inl (by omega))
          · exact tested_8con_right nr nc i _ _ h1 h2 hk (Or.inr (Or.inl (by omega)))
          · exact tested_8con_right nr nc i _ _ h1 h2 hk (Or.inr (Or.inr (Or.inl (by omega))))
          · exact tested_8con_right nr nc i _ _ h1 h2 hk (Or.inr (Or.inr (Or.inr (Or.inl (by omega)))))
          · exfalso; omega
          · exact tested_8con_right nr nc i _ _ h1 h2 hk (Or.inr (Or.inr (Or.inr (Or.inr (by omega)))))
          · exfalso; omega
        · have h4 : j + 1 < nc := by omega
          clear hj1
          rcases hd with hd | hd | hd | hd | hd | hd | hd | hd
          · exact tested_8con_body nr nc i j _ _ h1 h2 h3 h4 rfl (Or.inr (Or.inl (by omega)))
          · exact tested_8con_body nr nc i j _ _ h1 h2 h3 h4 rfl (Or.inl (by omega))
          · exact tested_8con_body nr nc i j _ _ h1 h2 h3 h4 rfl (Or.inr (Or.inr (Or.inl (by omega))))
          · exact tested_8con_body nr nc i j _ _ h1 h2 h3 h4 rfl (Or.inr (Or.inr (Or.inr (Or.inl (by omega)))))
          · exact tested_8con_body nr nc i j _ _ h1 h2 h3 h4 rfl (Or.inr (Or.inr (Or.inr (Or.inr (Or.inl (by omega))))))
          · exact tested_8con_body nr nc i j _ _ h1 h2 h3 h4 rfl (Or.inr (Or.inr (Or.inr (Or.inr (Or.inr (Or.inl (by omega)))))))
          · exact tested_8con_body nr nc i j _ _ h1 h2 h3 h4 rfl (Or.inr (Or.inr (Or.inr (Or.inr (Or.inr (Or.inr (Or.inl (by omega))))))))
          · exfalso; omega

end

/-! ## C12: one pass of `dilate0_erode1_4con` -/

theorem coords_unique (nc i j i' j' : Nat) (hj : j < nc) (hj' : j' < nc)
    (h : i * nc + j = i' * nc + j') : i = i' ∧ j = j' := by
  rcases Nat.lt_trichotomy i i' with hlt | heq | hgt
  · have h1 : (i + 1) * nc ≤ i' * nc := Nat.mul_le_mul_right _ hlt
    have h2 : (i + 1) * nc = i * nc + nc := Nat.succ_mul _ _
    omega
  · subst heq
    exact ⟨rfl, by omega⟩
  · have h1 : (i' + 1) * nc ≤ i * nc := Nat.mul_le_mul_right _ hgt
    have h2 : (i' + 1) * nc = i' * nc + nc := Nat.succ_mul _ _
    omega

/-- In coordinates: a neighbour read by `dilate0_erode1_4con` for the pixel
of row `i` and column `j` holds `v` exactly when one of its in-grid
orthogonal neighbours does. -/
theorem fires_checks_4con (byt : List Nat) (nr nc i j v : Nat) (hr : 2 ≤ nr) (hc : 2 ≤ nc)
    (hi : i < nr) (hj : j < nc) :
    fires byt v (checks_4con nr nc) (i * nc + j) = has_nbr4 byt nr nc i j v := by
  rw [Bool.eq_iff_iff, fires_iff_tested]
  simp only [tested_checks_4con_iff nr nc _ _ hr hc, has_nbr4, Bool.or_eq_true,
    Bool.and_eq_true, decide_eq_true_eq]
  constructor
  · rintro ⟨n, ⟨i0, j0, i', j', hk, rfl, _, hj0, hi', hj', hadj⟩, hv⟩
    obtain ⟨rfl, rfl⟩ := coords_unique nc i j i0 j0 hj hj0 hk
    rcases hadj with ⟨rfl, rfl | h⟩ | ⟨rfl, rfl | h⟩
    · exact Or.inr ⟨hj', hv⟩
    · subst h
      exact Or.inl (Or.inr ⟨by omega, by simpa using hv⟩)
    · exact Or.inl (Or.inl (Or.inr ⟨hi', hv⟩))
    · subst h
      exact Or.inl (Or.inl (Or.inl ⟨by omega, by simpa using hv⟩))
  · rintro (((⟨h1, h2⟩ | ⟨h1, h2⟩) | ⟨h1, h2⟩) | ⟨h1, h2⟩)
    · exact ⟨_, ⟨i, j, i - 1, j, rfl, rfl, hi, hj, by omega, hj, by omega⟩, h2⟩
    · exact ⟨_, ⟨i, j, i + 1, j, rfl, rfl, hi, hj, h1, hj, by omega⟩, h2⟩
    · exact ⟨_, ⟨i, j, i, j - 1, rfl, rfl, hi, hj, hi, by omega, by omega⟩, h2⟩
    · exact ⟨_, ⟨i, j, i, j + 1, rfl, rfl, hi, hj, hi, h1, by omega⟩, h2⟩

theorem index_lt (nr nc i j : Nat) (hi : i < nr) (hj : j < nc) : i * nc + j < nr * nc := by
  have h1 : (i + 1) * nc ≤ nr * nc := Nat.mul_le_mul_right _ hi
  have h2 : (i + 1) * nc = i * nc + nc := Nat.succ_mul _ _
  omega

theorem dilate0_erode1_4con_ok (byt : List Nat) (nr nc b0_f1 : Nat) (h : b0_f1 = 0 ∨ b0_f1 = 1) :
    dilate0_erode1_4con byt nr nc b0_f1
      = Except.ok (morph_pass (checks_4con nr nc) (1 - b0_f1) b0_f1 byt) := by
  rcases h with rfl | rfl <;> rfl

theorem dilate0_erode1_8con_ok (byt : List Nat) (nr nc b0_f1 : Nat) (h : b0_f1 = 0 ∨ b0_f1 = 1) :
    dilate0_erode1_8con byt nr nc b0_f1
      = Except.ok (morph_pass (checks_8con nr nc) (1 - b0_f1) b0_f1 byt) := by
  rcases h with rfl | rfl <;> rfl

/-- C12: for a grid over zero and one with at least two rows and two
columns, one erosion call of `dilate0_erode1_4con` (`b0_f1 = 1`) returns the
grid in which a pixel is 0 exactly when it was 0 or one of its in-grid
orthogonal neighbours was 0 before the call, and one dilation call
(`b0_f1 = 0`) the grid in which a pixel is 1 exactly when it was 1 or one of
its in-grid orthogonal neighbours was 1 before the call; the result is again
over zero and one, and only the grid before the call is consulted. -/
theorem dilate0_erode1_4con_spec (byt : List Nat) (nr nc i j : Nat)
    (hr : 2 ≤ nr) (hc : 2 ≤ nc) (hlen : byt.length = nr * nc)
    (h01 : ∀ k, k < nr * nc → rdN byt k = 0 ∨ rdN byt k = 1)
    (hi : i < nr) (hj : j < nc) :
    (∃ e, dilate0_erode1_4con byt nr nc 1 = Except.ok e
      ∧ e.length = nr * nc
      ∧ (rdN e (i * nc + j) = 0 ∨ rdN e (i * nc + j) = 1)
      ∧ (rdN e (i * nc + j) = 0
          ↔ (rdN byt (i * nc + j) = 0 ∨ has_nbr4 byt nr nc i j 0 = true)))
    ∧ (∃ d, dilate0_erode1_4con byt nr nc 0 = Except.ok d
      ∧ d.length = nr * nc
      ∧ (rdN d (i * nc + j) = 0 ∨ rdN d (i * nc + j) = 1)
      ∧ (rdN d (i * nc + j) = 1
          ↔ (rdN byt (i * nc + j) = 1 ∨ has_nbr4 byt nr nc i j 1 = true))) := by
  have hk := index_lt nr nc i j hi hj
  have hv := h01 _ hk
  have hk' : i * nc + j < byt.length := by rw [hlen]; exact hk
  constructor
  · refine ⟨_, dilate0_erode1_4con_ok byt nr nc 1 (Or.inr rfl), ?_, ?_, ?_⟩
    · rw [morph_pass_length, hlen]
    · rw [morph_pass_closed _ _ _ (by decide) (by decide) (by decide)]
      split
      · exact Or.inl rfl
      · exact hv
    · rw [morph_pass_closed _ _ _ (by decide) (by decide) (by decide),
        fires_checks_4con byt nr nc i j _ hr hc hi hj]
      rcases hv with h0 | h1
      · simp [h0]
      · simp [h1, hk']
  · refine ⟨_, dilate0_erode1_4con_ok byt nr nc 0 (Or.inl rfl), ?_, ?_, ?_⟩
    · rw [morph_pass_length, hlen]
    · rw [morph_pass_closed _ _ _ (by decide) (by decide) (by decide)]
      split
      · exact Or.inr rfl
      · exact hv
    · rw [morph_pass_closed _ _ _ (by decide) (by decide) (by decide),
        fires_checks_4con byt nr nc i j _ hr hc hi hj]
      rcases hv with h0 | h1
      · simp [h0, hk']
      · simp [h1]

theorem read8_lt (nr nc k n : Nat) (h : read8 nr nc k n) : k < nr * nc ∧ n < nr * nc := by
  obtain ⟨i, j, i', j', rfl, rfl, hi, hj, hi', hj', _⟩ := h
  exact ⟨index_lt nr nc i j hi hj, index_lt nr nc i' j' hi' hj'⟩

/-- In coordinates: a neighbour read by `dilate0_erode1_8con` for the pixel
of row `i` and column `j` holds `v` exactly when one of its in-grid
neighbours other than the one the body test leaves out does. -/
theorem fires_checks_8con (byt : List Nat) (nr nc i j v : Nat) (hr : 2 ≤ nr) (hc : 2 ≤ nc)
    (hi : i < nr) (hj : j < nc) :
    fires byt v (checks_8con nr nc) (i * nc + j) = reads_nbr8 byt nr nc i j v := by
  rw [Bool.eq_iff_iff, fires_iff_tested]
  simp only [reads_nbr8, has_nbr4, Bool.or_eq_true, Bool.and_eq_true, decide_eq_true_eq]
  constructor
  · rintro ⟨n, ht, hv⟩
    obtain ⟨i0, j0, i', j', hk, rfl, _, hj0, hi', hj', h1, h2, h3, h4, h5, h6⟩ :=
      tested_checks_8con_sound nr nc _ _ hr hc ht
    obtain ⟨rfl, rfl⟩ := coords_unique nc i j i0 j0 hj hj0 hk
    clear ht hk
    have hdi : i' = i ∨ i' = i + 1 ∨ (i' = i - 1 ∧ 0 < i) := by omega
    have hdj : j' = j ∨ j' = j + 1 ∨ (j' = j - 1 ∧ 0 < j) := by omega
    rcases hdi with hdi | hdi | ⟨hdi, hi0⟩ <;> rcases hdj with hdj | hdj | ⟨hdj, hj0⟩
      <;> subst hdi <;> subst hdj
    · rcases h5 with h | h <;> exact (h rfl).elim
    · exact Or.inl (Or.inl (Or.inl (Or.inl (Or.inr ⟨hj', hv⟩))))
    · exact Or.inl (Or.inl (Or.inl (Or.inl (Or.inl (Or.inr ⟨hj0, hv⟩)))))
    · exact Or.inl (Or.inl (Or.inl (Or.inl (Or.inl (Or.inl (Or.inr ⟨hi', hv⟩))))))
    · exact Or.inr ⟨⟨hi', hj'⟩, hv⟩
    · exact Or.inl (Or.inr ⟨⟨hi', hj0⟩, hv⟩)
    · exact Or.inl (Or.inl (Or.inl (Or.inl (Or.inl (Or.inl (Or.inl ⟨hi0, hv⟩))))))
    · exact Or.inl (Or.inl (Or.inr ⟨⟨hi0, hj', by clear hv; omega⟩, hv⟩))
    · exact Or.inl (Or.inl (Or.inl (Or.inr ⟨⟨hi0, hj0⟩, hv⟩)))
  · have key : ∀ i' j', i' < nr → j' < nc →
        (i' ≤ i + 1 ∧ i ≤ i' + 1 ∧ j' ≤ j + 1 ∧ j ≤ j' + 1 ∧ (i' ≠ i ∨ j' ≠ j)) →
        ¬ (1 ≤ i ∧ i + 1 < nr ∧ 1 ≤ j ∧ j + 1 < nc ∧ i = i' + 1 ∧ j' = j + 1) →
        rdN byt (i' * nc + j') = v →
        ∃ n, tested (checks_8con nr nc) (i * nc + j) n ∧ rdN byt n = v := by
      intro i' j' hi' hj' hadj hnot hv
      exact ⟨_, tested_checks_8con_complete nr nc i j i' j' hr hc hi hj hi' hj' hadj hnot, hv⟩
    rintro (((((((⟨h1, h2⟩ | ⟨h1, h2⟩) | ⟨h1, h2⟩) | ⟨h1, h2⟩) | ⟨h1, h2⟩) | ⟨h1, h2⟩)
      | ⟨h1, h2⟩) | ⟨h1, h2⟩)
    · exact key (i - 1) j (by omega) hj (by omega) (by omega) h2
    · exact key (i + 1) j h1 hj (by omega) (by omega) h2
    · exact key i (j - 1) hi (by omega) (by omega) (by omega) h2
    · exact key i (j + 1) hi h1 (by omega) (by omega) h2
    · exact key (i - 1) (j - 1) (by omega) (by omega) (by omega) (by omega) h2
    · exact key (i - 1) (j + 1) (by omega) (by omega) (by omega) (by omega) h2
    · exact key (i + 1) (j - 1) (by omega) (by omega) (by omega) (by omega) h2
    · exact key (i + 1) (j + 1) (by omega) (by omega) (by omega) (by omega) h2

/-- On the border of the grid `dilate0_erode1_8con` reads all the in-grid
neighbours. -/
theorem reads_nbr8_border (byt : List Nat) (nr nc i j v : Nat)
    (hb : i = 0 ∨ i + 1 = nr ∨ j = 0 ∨ j + 1 = nc) :
    reads_nbr8 byt nr nc i j v = has_nbr8 byt nr nc i j v := by
  rw [Bool.eq_iff_iff]
  simp only [reads_nbr8, has_nbr8, Bool.or_eq_true, Bool.and_eq_true, decide_eq_true_eq]
  constructor
  · rintro ((((h | h) | ⟨h1, h2⟩) | h) | h)
    · exact Or.inl (Or.inl (Or.inl (Or.inl h)))
    · exact Or.inl (Or.inl (Or.inl (Or.inr h)))
    · exact Or.inl (Or.inl (Or.inr ⟨⟨h1.1, h1.2.1⟩, h2⟩))
    · exact Or.inl (Or.inr h)
    · exact Or.inr h
  · rintro ((((h | h) | ⟨h1, h2⟩) | h) | h)
    · exact Or.inl (Or.inl (Or.inl (Or.inl h)))
    · exact Or.inl (Or.inl (Or.inl (Or.inr h)))
    · exact Or.inl (Or.inl (Or.inr ⟨⟨h1.1, h1.2, by omega⟩, h2⟩))
    · exact Or.inl (Or.inr h)
    · exact Or.inr h

/-- What `dilate0_erode1_8con` reads is among the in-grid neighbours. -/
theorem reads_nbr8_sub (byt : List Nat) (nr nc i j v : Nat)
    (h : reads_nbr8 byt nr nc i j v = true) : has_nbr8 byt nr nc i j v = true := by
  simp only [reads_nbr8, has_nbr8, Bool.or_eq_true, Bool.and_eq_true, decide_eq_true_eq] at h ⊢
  rcases h with (((h | h) | ⟨h1, h2⟩) | h) | h
  · exact Or.inl (Or.inl (Or.inl (Or.inl h)))
  · exact Or.inl (Or.inl (Or.inl (Or.inr h)))
  · exact Or.inl (Or.inl (Or.inr ⟨⟨h1.1, h1.2.1⟩, h2⟩))
  · exact Or.inl (Or.inr h)
  · exact Or.inr h

/-! ## Erosion and dilation as a pair: opening is idempotent -/

theorem list_eq_of_rdN (a b : List Nat) (hlen : a.length = b.length)
    (h : ∀ k, k < a.length → rdN a k = rdN b k) : a = b := by
  apply List.ext_getElem hlen
  intro k h1 h2
  have := h k h1
  simpa [rdN, List.getD_eq_getElem?_getD, h1, h2] using this

theorem is_grid01_eq (N : Nat) (x y : List Nat) (hx : is_grid01 N x) (hy : is_grid01 N y)
    (hxy : sub01 N x y) (hyx : sub01 N y x) : x = y := by
  apply list_eq_of_rdN x y (hx.1.trans hy.1.symm)
  intro k hk
  rw [hx.1] at hk
  rcases hx.2 k hk with h0 | h1
  · rcases hy.2 k hk with h0' | h1'
    · rw [h0, h0']
    · have := hyx k hk h1'
      omega
  · rw [h1, hxy k hk h1]

theorem sub01_refl (N : Nat) (x : List Nat) : sub01 N x x := fun _ _ h => h

theorem sub01_trans (N : Nat) (x y z : List Nat) (h1 : sub01 N x y) (h2 : sub01 N y z) :
    sub01 N x z := fun k hk h => h2 k hk (h1 k hk h)

theorem morph_pair.erode_mono {N : Nat} {R : Nat → Nat → Prop} {E D : List Nat → List Nat}
    (m : morph_pair N R E D) (x y : List Nat) (hx : is_grid01 N x) (hy : is_grid01 N y)
    (h : sub01 N x y) : sub01 N (E x) (E y) := by
  intro k hk h1
  obtain ⟨h2, h3⟩ := (m.erode_one x hx k hk).1 h1
  exact (m.erode_one y hy k hk).2 ⟨h k hk h2, fun n hn => h n (m.lt k n hn) (h3 n hn)⟩

theorem morph_pair.dilate_mono {N : Nat} {R : Nat → Nat → Prop} {E D : List Nat → List Nat}
    (m : morph_pair N R E D) (x y : List Nat) (hx : is_grid01 N x) (hy : is_grid01 N y)
    (h : sub01 N x y) : sub01 N (D x) (D y) := by
  intro k hk h1
  rcases (m.dilate_one x hx k hk).1 h1 with h2 | ⟨n, hn, h2⟩
  · exact (m.dilate_one y hy k hk).2 (Or.inl (h k hk h2))
  · exact (m.dilate_one y hy k hk).2 (Or.inr ⟨n, hn, h n (m.lt k n hn) h2⟩)

/-- Dilating an eroded grid gives back no more than the grid. -/
theorem morph_pair.dilate_erode_sub {N : Nat} {R : Nat → Nat → Prop}
    {E D : List Nat → List Nat} (m : morph_pair N R E D) (y : List Nat)
    (hy : is_grid01 N y) : sub01 N (D (E y)) y := by
  intro k hk h1
  rcases (m.dilate_one (E y) (m.erode_grid y hy) k hk).1 h1 with h2 | ⟨n, hn, h2⟩
  · exact ((m.erode_one y hy k hk).1 h2).1
  · exact ((m.erode_one y hy n (m.lt k n hn)).1 h2).2 k (m.symm k n hn)

/-- Eroding a dilated grid gives back no less than the grid. -/
theorem morph_pair.sub_erode_dilate {N : Nat} {R : Nat → Nat → Prop}
    {E D : List Nat → List Nat} (m : morph_pair N R E D) (x : List Nat)
    (hx : is_grid01 N x) : sub01 N x (E (D x)) := by
  intro k hk h1
  refine (m.erode_one (D x) (m.dilate_grid x hx) k hk).2 ⟨?_, ?_⟩
  · exact (m.dilate_one x hx k hk).2 (Or.inl h1)
  · intro n hn
    exact (m.dilate_one x hx n (m.lt k n hn)).2 (Or.inr ⟨k, m.symm k n hn, h1⟩)

theorem morph_pair.iterate_erode_grid {N : Nat} {R : Nat → Nat → Prop}
    {E D : List Nat → List Nat} (m : morph_pair N R E D) (d : Nat) :
    ∀ x, is_grid01 N x → is_grid01 N (E^[d] x) := by
  induction d with
  | zero => intro x hx; exact hx
  | succ d ih =>
      intro x hx
      rw [Function.iterate_succ_apply]
      exact ih (E x) (m.erode_grid x hx)

theorem morph_pair.iterate_dilate_grid {N : Nat} {R : Nat → Nat → Prop}
    {E D : List Nat → List Nat} (m : morph_pair N R E D) (d : Nat) :
    ∀ x, is_grid01 N x → is_grid01 N (D^[d] x) := by
  induction d with
  | zero => intro x hx; exact hx
  | succ d ih =>
      intro x hx
      rw [Function.iterate_succ_apply]
      exact ih (D x) (m.dilate_grid x hx)

theorem morph_pair.iterate_erode_mono {N : Nat} {R : Nat → Nat → Prop}
    {E D : List Nat → List Nat} (m : morph_pair N R E D) (d : Nat) :
    ∀ x y, is_grid01 N x → is_grid01 N y → sub01 N x y → sub01 N (E^[d] x) (E^[d] y) := by
  induction d with
  | zero => intro x y _ _ h; exact h
  | succ d ih =>
      intro x y hx hy h
      rw [Function.iterate_succ_apply, Function.iterate_succ_apply]
      exact ih (E x) (E y) (m.erode_grid x hx) (m.erode_grid y hy) (m.erode_mono x y hx hy h)

theorem morph_pair.iterate_dilate_mono {N : Nat} {R : Nat → Nat → Prop}
    {E D : List Nat → List Nat} (m : morph_pair N R E D) (d : Nat) :
    ∀ x y, is_grid01 N x → is_grid01 N y → sub01 N x y → sub01 N (D^[d] x) (D^[d] y) := by
  induction d with
  | zero => intro x y _ _ h; exact h
  | succ d ih =>
      intro x y hx hy h
      rw [Function.iterate_succ_apply, Function.iterate_succ_apply]
      exact ih (D x) (D y) (m.dilate_grid x hx) (m.dilate_grid y hy) (m.dilate_mono x y hx hy h)

/-- Dilating `d` times a grid eroded `d` times gives back no more than the
grid. -/
theorem morph_pair.iterate_dilate_erode_sub {N : Nat} {R : Nat → Nat → Prop}
    {E D : List Nat → List Nat} (m : morph_pair N R E D) (d : Nat) :
    ∀ y, is_grid01 N y → sub01 N (D^[d] (E^[d] y)) y := by
  induction d with
  | zero => intro y _; exact sub01_refl N y
  | succ d ih =>
      intro y hy
      -- D^[d+1] (E^[d+1] y) = D (D^[d] (E^[d] (E y)))
      rw [Function.iterate_succ_apply' D, Function.iterate_succ_apply E]
      have h1 : sub01 N (D^[d] (E^[d] (E y))) (E y) := ih (E y) (m.erode_grid y hy)
      have g1 : is_grid01 N (D^[d] (E^[d] (E y))) :=
        m.iterate_dilate_grid d _ (m.iterate_erode_grid d _ (m.erode_grid y hy))
      exact sub01_trans N _ _ _
        (m.dilate_mono _ _ g1 (m.erode_grid y hy) h1) (m.dilate_erode_sub y hy)

/-- Eroding `d` times a grid dilated `d` times gives back no less than the
grid. -/
theorem morph_pair.sub_iterate_erode_dilate {N : Nat} {R : Nat → Nat → Prop}
    {E D : List Nat → List Nat} (m : morph_pair N R E D) (d : Nat) :
    ∀ x, is_grid01 N x → sub01 N x (E^[d] (D^[d] x)) := by
  induction d with
  | zero => intro x _; exact sub01_refl N x
  | succ d ih =>
      intro x hx
      rw [Function.iterate_succ_apply' E, Function.iterate_succ_apply D]
      have h1 : sub01 N (D x) (E^[d] (D^[d] (D x))) := ih (D x) (m.dilate_grid x hx)
      have g1 : is_grid01 N (E^[d] (D^[d] (D x))) :=
        m.iterate_erode_grid d _ (m.iterate_dilate_grid d _ (m.dilate_grid x hx))
      exact sub01_trans N _ _ _ (m.sub_erode_dilate x hx)
        (m.erode_mono _ _ (m.dilate_grid x hx) g1 h1)

/-- The opening of depth `d` made of such a pair is idempotent. -/
theorem morph_pair.opening_idem {N : Nat} {R : Nat → Nat → Prop}
    {E D : List Nat → List Nat} (m : morph_pair N R E D) (d : Nat) (x : List Nat)
    (hx : is_grid01 N x) :
    D^[d] (E^[d] (D^[d] (E^[d] x))) = D^[d] (E^[d] x) := by
  have ge : is_grid01 N (E^[d] x) := m.iterate_erode_grid d x hx
  have go : is_grid01 N (D^[d] (E^[d] x)) := m.iterate_dilate_grid d _ ge
  have geo : is_grid01 N (E^[d] (D^[d] (E^[d] x))) := m.iterate_erode_grid d _ go
  have goo : is_grid01 N (D^[d] (E^[d] (D^[d] (E^[d] x)))) := m.iterate_dilate_grid d _ geo
  apply is_grid01_eq N _ _ goo go
  · exact m.iterate_dilate_erode_sub d _ go
  · exact m.iterate_dilate_mono d _ _ ge geo (m.sub_iterate_erode_dilate d _ ge)

/-! ## Passes on grids over zero and one -/

theorem repeat_pass_ok (func : List Nat → Except halt (List Nat)) (g : List Nat → List Nat)
    (h : ∀ a, func a = Except.ok (g a)) :
    ∀ (n : Nat) (byt : List Nat), repeat_pass func n byt = Except.ok (g^[n] byt) := by
  intro n
  induction n with
  | zero => intro byt; rfl
  | succ n ih =>
      intro byt
      show (func byt).bind (repeat_pass func n) = _
      rw [h byt, Function.iterate_succ_apply]
      exact ih (g byt)

theorem erode_pass_grid (checks : List (Nat × List Nat)) (N : Nat) (x : List Nat)
    (hx : is_grid01 N x) : is_grid01 N (morph_pass checks 0 1 x) := by
  refine ⟨by rw [morph_pass_length]; exact hx.1, ?_⟩
  intro k hk
  rw [morph_pass_closed checks 0 1 (by decide) (by decide) (by decide)]
  split
  · exact Or.inl rfl
  · exact hx.2 k hk

theorem dilate_pass_grid (checks : List (Nat × List Nat)) (N : Nat) (x : List Nat)
    (hx : is_grid01 N x) : is_grid01 N (morph_pass checks 1 0 x) := by
  refine ⟨by rw [morph_pass_length]; exact hx.1, ?_⟩
  intro k hk
  rw [morph_pass_closed checks 1 0 (by decide) (by decide) (by decide)]
  split
  · exact Or.inr rfl
  · exact hx.2 k hk

theorem erode_pass_one (checks : List (Nat × List Nat)) (N : Nat) (x : List Nat)
    (hx : is_grid01 N x) (hlt : ∀ k n, tested checks k n → n < N) (k : Nat) (hk : k < N) :
    rdN (morph_pass checks 0 1 x) k = 1
      ↔ rdN x k = 1 ∧ ∀ n, tested checks k n → rdN x n = 1 := by
  rw [morph_pass_closed checks 0 1 (by decide) (by decide) (by decide)]
  have hkl : k < x.length := by rw [hx.1]; exact hk
  constructor
  · intro h
    split at h
    · exact absurd h (by decide)
    · rename_i hn
      refine ⟨h, fun n ht => ?_⟩
      rcases hx.2 n (hlt k n ht) with h0 | h1
      · exact absurd (Or.inr ⟨h, (fires_iff_tested x 0 checks k).2 ⟨n, ht, h0⟩, hkl⟩) hn
      · exact h1
  · rintro ⟨h1, hall⟩
    rw [if_neg]
    · exact h1
    · rintro (h2 | ⟨_, hf, _⟩)
      · rw [h1] at h2; exact absurd h2 (by decide)
      · obtain ⟨n, ht, h0⟩ := (fires_iff_tested x 0 checks k).1 hf
        rw [hall n ht] at h0
        exact absurd h0 (by decide)

theorem dilate_pass_one (checks : List (Nat × List Nat)) (N : Nat) (x : List Nat)
    (hx : is_grid01 N x) (k : Nat) (hk : k < N) :
    rdN (morph_pass checks 1 0 x) k = 1
      ↔ rdN x k = 1 ∨ ∃ n, tested checks k n ∧ rdN x n = 1 := by
  rw [morph_pass_closed checks 1 0 (by decide) (by decide) (by decide)]
  have hkl : k < x.length := by rw [hx.1]; exact hk
  constructor
  · intro h
    split at h
    · rename_i hc
      rcases hc with h2 | ⟨_, hf, _⟩
      · rcases hx.2 k hk with h0 | h1
        · rw [h0] at h2; exact absurd h2 (by decide)
        · exact Or.inl h1
      · exact Or.inr ((fires_iff_tested x 1 checks k).1 hf)
    · exact Or.inl h
  · rintro (h1 | hex)
    · split
      · rfl
      · exact h1
    · rcases hx.2 k hk with h0 | h1
      · rw [if_pos (Or.inr ⟨h0, (fires_iff_tested x 1 checks k).2 hex, hkl⟩)]
      · split
        · rfl
        · exact h1

/-- The erosion and the dilation of `dilate0_erode1_4con` on a grid of at
least two rows and two columns look at the same, mutual, neighbours. -/
theorem morph_pair_4con (nr nc : Nat) (hr : 2 ≤ nr) (hc : 2 ≤ nc) :
    morph_pair (nr * nc) (adj4 nr nc) (morph_pass (checks_4con nr nc) 0 1)
      (morph_pass (checks_4con nr nc) 1 0) where
  symm := adj4_symm nr nc
  lt := fun k n h => (adj4_lt nr nc k n h).2
  erode_grid := erode_pass_grid _ _
  dilate_grid := dilate_pass_grid _ _
  erode_one := by
    intro x hx k hk
    rw [erode_pass_one (checks_4con nr nc) (nr * nc) x hx
      (fun k n h => (adj4_lt nr nc k n ((tested_checks_4con_iff nr nc k n hr hc).1 h)).2) k hk]
    simp only [tested_checks_4con_iff nr nc _ _ hr hc]
  dilate_one := by
    intro x hx k hk
    rw [dilate_pass_one (checks_4con nr nc) (nr * nc) x hx k hk]
    simp only [tested_checks_4con_iff nr nc _ _ hr hc]

theorem opening_4con_ok (byt : List Nat) (nr nc d : Nat) :
    opening byt nr nc d 4
      = Except.ok ((morph_pass (checks_4con nr nc) 1 0)^[d]
          ((morph_pass (checks_4con nr nc) 0 1)^[d] byt)) := by
  unfold opening
  rw [if_neg (by decide)]
  simp only [if_true]
  rw [repeat_pass_ok (fun a => dilate0_erode1_4con a nr nc 1)
      (morph_pass (checks_4con nr nc) 0 1) (fun a => rfl) d byt]
  show repeat_pass (fun a => dilate0_erode1_4con a nr nc 0) d _ = _
  rw [repeat_pass_ok (fun a => dilate0_erode1_4con a nr nc 0)
      (morph_pass (checks_4con nr nc) 1 0) (fun a => rfl) d _]

theorem opening_8con_ok (byt : List Nat) (nr nc d : Nat) :
    opening byt nr nc d 8
      = Except.ok ((morph_pass (checks_8con nr nc) 1 0)^[d]
          ((morph_pass (checks_8con nr nc) 0 1)^[d] byt)) := by
  unfold opening
  rw [if_neg (by decide)]
  simp only [show ((8 : Int) = 4) = False from by decide, if_false]
  rw [repeat_pass_ok (fun a => dilate0_erode1_8con a nr nc 1)
      (morph_pass (checks_8con nr nc) 0 1) (fun a => rfl) d byt]
  show repeat_pass (fun a => dilate0_erode1_8con a nr nc 0) d _ = _
  rw [repeat_pass_ok (fun a => dilate0_erode1_8con a nr nc 0)
      (morph_pass (checks_8con nr nc) 1 0) (fun a => rfl) d _]

/-! ## C17: opening with 4-connectivity is idempotent -/

/-- C17: for a grid `byt` over zero and one with at least two rows and two
columns and any depth `d`, `opening` with connectivity 4 returns a grid `o`,
and `opening` of `o` with the same depth and connectivity returns `o`
again. -/
theorem opening_4con_idempotent (byt : List Nat) (nr nc d : Nat)
    (hr : 2 ≤ nr) (hc : 2 ≤ nc) (hlen : byt.length = nr * nc)
    (h01 : ∀ k, k < nr * nc → rdN byt k = 0 ∨ rdN byt k = 1) :
    ∃ o, opening byt nr nc d 4 = Except.ok o ∧ opening o nr nc d 4 = Except.ok o := by
  refine ⟨_, opening_4con_ok byt nr nc d, ?_⟩
  rw [opening_4con_ok]
  exact congrArg Except.ok ((morph_pair_4con nr nc hr hc).opening_idem d byt ⟨hlen, h01⟩)

theorem opening_4con_idempotent_witness :
    ∃ o, opening [1, 0, 0, 0, 1, 1, 0, 1, 1] 3 3 1 4 = Except.ok o
      ∧ opening o 3 3 1 4 = Except.ok o :=
  opening_4con_idempotent [1, 0, 0, 0, 1, 1, 0, 1, 1] 3 3 1 (by decide) (by decide) rfl
    (by decide)

/-! ## One pass on any grid -/

theorem rdN_complement (y : List Nat) (k : Nat) (hk : k < y.length) :
    rdN (complement y) k
      = (if rdN y k = 0 then 1 else if rdN y k = 1 then 0 else rdN y k) := by
  unfold complement rdN
  exact getD_map_index _ y k 0 0 hk

theorem complement_length (y : List Nat) : (complement y).length = y.length := by
  unfold complement
  rw [List.length_map]

theorem complement_grid (N : Nat) (x : List Nat) (hx : is_grid01 N x) :
    is_grid01 N (complement x) := by
  refine ⟨by rw [complement_length]; exact hx.1, ?_⟩
  intro k hk
  rw [rdN_complement x k (by rw [hx.1]; exact hk)]
  rcases hx.2 k hk with h | h <;> simp [h]

/-- Dilation by a list of tests is erosion by the same tests between two
complements, on grids over zero and one. -/
theorem pass_dual (checks : List (Nat × List Nat)) (N : Nat) (x : List Nat)
    (hx : is_grid01 N x) (hlt : ∀ k n, tested checks k n → n < N) :
    morph_pass checks 1 0 x = complement (morph_pass checks 0 1 (complement x)) := by
  have hc := complement_grid N x hx
  have he := erode_pass_grid checks N _ hc
  apply list_eq_of_rdN
  · rw [complement_length, morph_pass_length, morph_pass_length, complement_length]
  · intro k hk
    rw [morph_pass_length, hx.1] at hk
    have h1 := dilate_pass_one checks N x hx k hk
    have h2 := erode_pass_one checks N _ hc hlt k hk
    have hd := (dilate_pass_grid checks N x hx).2 k hk
    have hek := he.2 k hk
    have hxk := hx.2 k hk
    have hck : rdN (complement x) k = 1 ↔ rdN x k = 0 := by
      rw [rdN_complement x k (by rw [hx.1]; exact hk)]
      rcases hxk with h | h <;> simp [h]
    have hcn : ∀ n, tested checks k n → (rdN (complement x) n = 1 ↔ rdN x n = 0) := by
      intro n ht
      have hn := hlt k n ht
      rw [rdN_complement x n (by rw [hx.1]; exact hn)]
      rcases hx.2 n hn with h | h <;> simp [h]
    rw [rdN_complement _ k (by rw [he.1]; exact hk)]
    -- the eroded complement is 1 at k exactly when the dilation is 0 at k
    have key : rdN (morph_pass checks 0 1 (complement x)) k = 1
        ↔ ¬ rdN (morph_pass checks 1 0 x) k = 1 := by
      rw [h1, h2, hck]
      constructor
      · rintro ⟨h0, hall⟩ (h | ⟨n, ht, hn⟩)
        · rw [h0] at h; exact absurd h (by decide)
        · have := (hcn n ht).1 (hall n ht)
          rw [this] at hn; exact absurd hn (by decide)
      · intro hnot
        refine ⟨?_, fun n ht => ?_⟩
        · rcases hxk with h | h
          · exact h
          · exact absurd (Or.inl h) hnot
        · refine (hcn n ht).2 ?_
          rcases hx.2 n (hlt k n ht) with h | h
          · exact h
          · exact absurd (Or.inr ⟨n, ht, h⟩) hnot
    rcases hd with d0 | d1
    · have e1 : rdN (morph_pass checks 0 1 (complement x)) k = 1 :=
        key.2 (by rw [d0]; decide)
      rw [d0, e1]
      rfl
    · have e0 : rdN (morph_pass checks 0 1 (complement x)) k = 0 := by
        rcases hek with h | h
        · exact h
        · exact absurd d1 (key.1 h)
      rw [d1, e0]
      rfl

theorem erode_pass_sub (checks : List (Nat × List Nat)) (byt : List Nat) (k : Nat)
    (h : rdN (morph_pass checks 0 1 byt) k = 1) : rdN byt k = 1 := by
  rw [morph_pass_closed checks 0 1 (by decide) (by decide) (by decide)] at h
  split at h
  · exact absurd h (by decide)
  · exact h

theorem erode_iterate_sub (checks : List (Nat × List Nat)) (n : Nat) :
    ∀ (byt : List Nat) (k : Nat),
      rdN ((morph_pass checks 0 1)^[n] byt) k = 1 → rdN byt k = 1 := by
  induction n with
  | zero => intro byt k h; exact h
  | succ n ih =>
      intro byt k h
      rw [Function.iterate_succ_apply] at h
      exact erode_pass_sub checks byt k (ih _ k h)

/-- A pass keeps every value other than 0, 1 and 2. -/
theorem pass_keeps (checks : List (Nat × List Nat)) (f b v : Nat)
    (hfb : (f = 0 ∧ b = 1) ∨ (f = 1 ∧ b = 0)) (hv0 : v ≠ 0) (hv1 : v ≠ 1) (hv2 : v ≠ 2)
    (byt : List Nat) (k : Nat) :
    rdN (morph_pass checks f b byt) k = v ↔ rdN byt k = v := by
  rw [morph_pass_closed checks f b (by omega) (by omega) (by omega)]
  constructor
  · intro h
    split at h
    · omega
    · exact h
  · intro h
    rw [if_neg (by rw [h]; omega)]
    exact h

theorem iterate_keeps (checks : List (Nat × List Nat)) (f b v : Nat)
    (hfb : (f = 0 ∧ b = 1) ∨ (f = 1 ∧ b = 0)) (hv0 : v ≠ 0) (hv1 : v ≠ 1) (hv2 : v ≠ 2)
    (n : Nat) :
    ∀ (byt : List Nat) (k : Nat),
      rdN ((morph_pass checks f b)^[n] byt) k = v ↔ rdN byt k = v := by
  induction n with
  | zero => intro byt k; exact Iff.rfl
  | succ n ih =>
      intro byt k
      rw [Function.iterate_succ_apply, ih, pass_keeps checks f b v hfb hv0 hv1 hv2]

/-- A pixel that a pass changes held the background value, holds the
foreground value afterwards, and a test on it read the foreground value. -/
theorem pass_changed (checks : List (Nat × List Nat)) (f b : Nat)
    (hfb : (f = 0 ∧ b = 1) ∨ (f = 1 ∧ b = 0)) (byt : List Nat) (k : Nat)
    (h2 : rdN byt k ≠ 2) (hne : rdN (morph_pass checks f b byt) k ≠ rdN byt k) :
    rdN byt k = b ∧ rdN (morph_pass checks f b byt) k = f ∧ fires byt f checks k = true := by
  rw [morph_pass_closed checks f b (by omega) (by omega) (by omega)] at hne ⊢
  split at hne
  · rename_i hc
    rw [if_pos hc]
    rcases hc with h | ⟨hb, hf, _⟩
    · exact absurd h h2
    · exact ⟨hb, rfl, hf⟩
  · exact absurd rfl hne

theorem erode_pass_zero (checks : List (Nat × List Nat)) (byt : List Nat) (k : Nat)
    (hk : k < byt.length) (hv : rdN byt k = 0 ∨ rdN byt k = 1) :
    rdN (morph_pass checks 0 1 byt) k = 0 ↔ (rdN byt k = 0 ∨ fires byt 0 checks k = true) := by
  rw [morph_pass_closed _ _ _ (by decide) (by decide) (by decide)]
  rcases hv with h0 | h1
  · simp [h0]
  · simp [h1, hk]

theorem dilate_pass_zero (checks : List (Nat × List Nat)) (byt : List Nat) (k : Nat)
    (hk : k < byt.length) (hv : rdN byt k = 0 ∨ rdN byt k = 1) :
    rdN (morph_pass checks 1 0 byt) k = 1 ↔ (rdN byt k = 1 ∨ fires byt 1 checks k = true) := by
  rw [morph_pass_closed _ _ _ (by decide) (by decide) (by decide)]
  rcases hv with h0 | h1
  · simp [h0, hk]
  · simp [h1]

theorem erode_4con_eq (byt : List Nat) (nr nc : Nat) :
    dilate0_erode1_4con byt nr nc 1 = Except.ok (morph_pass (checks_4con nr nc) 0 1 byt) := rfl

theorem dilate_4con_eq (byt : List Nat) (nr nc : Nat) :
    dilate0_erode1_4con byt nr nc 0 = Except.ok (morph_pass (checks_4con nr nc) 1 0 byt) := rfl

theorem erode_8con_eq (byt : List Nat) (nr nc : Nat) :
    dilate0_erode1_8con byt nr nc 1 = Except.ok (morph_pass (checks_8con nr nc) 0 1 byt) := rfl

theorem dilate_8con_eq (byt : List Nat) (nr nc : Nat) :
    dilate0_erode1_8con byt nr nc 0 = Except.ok (morph_pass (checks_8con nr nc) 1 0 byt) := rfl


theorem dilate0_erode1_4con_spec_witness :
    (∃ e, dilate0_erode1_4con sample_block 3 3 1 = Except.ok e
      ∧ e.length = 3 * 3
      ∧ (rdN e (1 * 3 + 1) = 0 ∨ rdN e (1 * 3 + 1) = 1)
      ∧ (rdN e (1 * 3 + 1) = 0
          ↔ (rdN sample_block (1 * 3 + 1) = 0 ∨ has_nbr4 sample_block 3 3 1 1 0 = true)))
    ∧ (∃ d, dilate0_erode1_4con sample_block 3 3 0 = Except.ok d
      ∧ d.length = 3 * 3
      ∧ (rdN d (1 * 3 + 1) = 0 ∨ rdN d (1 * 3 + 1) = 1)
      ∧ (rdN d (1 * 3 + 1) = 1
          ↔ (rdN sample_block (1 * 3 + 1) = 1 ∨ has_nbr4 sample_block 3 3 1 1 1 = true))) :=
  dilate0_erode1_4con_spec sample_block 3 3 1 1 (by decide) (by decide) rfl (by decide)
    (by decide) (by decide)

/-! ## C13: one pass of `dilate0_erode1_8con` -/

/-- C13: on the grid of three rows and columns whose only 0 is the upper
right corner, one erosion call of `dilate0_erode1_8con` leaves the centre
pixel 1 although its upper right neighbour is 0: the test of the body reads
`ind+1+nc` twice and never `ind+1-nc`. Dually, one dilation call leaves the
centre of the complemented grid 0 although its upper right neighbour is 1. -/
theorem dilate0_erode1_8con_skips_upper_right :
    has_nbr8 sample_upper_right 3 3 1 1 0 = true
    ∧ rdN sample_upper_right (1 * 3 + 1) = 1
    ∧ dilate0_erode1_8con sample_upper_right 3 3 1 = Except.ok [1, 0, 0, 1, 1, 0, 1, 1, 1]
    ∧ has_nbr8 (complement sample_upper_right) 3 3 1 1 1 = true
    ∧ rdN (complement sample_upper_right) (1 * 3 + 1) = 0
    ∧ dilate0_erode1_8con (complement sample_upper_right) 3 3 0
        = Except.ok [0, 1, 1, 0, 0, 1, 0, 0, 0] :=
  ⟨by decide, by decide, rfl, by decide, by decide, rfl⟩

/-! ## C14: the border of the grid -/

/-- C14, the claim as worded fails: on the grid of two rows and two columns
that is all 1, every pixel is on the border and one erosion pass of either
function leaves every pixel 1; on the grid that is all 0 one dilation pass
of either function leaves every pixel 0. -/
theorem border_outside_counterexample :
    dilate0_erode1_4con [1, 1, 1, 1] 2 2 1 = Except.ok [1, 1, 1, 1]
    ∧ dilate0_erode1_8con [1, 1, 1, 1] 2 2 1 = Except.ok [1, 1, 1, 1]
    ∧ dilate0_erode1_4con [0, 0, 0, 0] 2 2 0 = Except.ok [0, 0, 0, 0]
    ∧ dilate0_erode1_8con [0, 0, 0, 0] 2 2 0 = Except.ok [0, 0, 0, 0] :=
  ⟨rfl, rfl, rfl, rfl⟩

/-- C14, amended: for a grid over zero and one with at least two rows and
two columns, the passes consult only pixels inside the grid. A pixel of the
border is 0 after one erosion pass exactly when it was 0 or one of its
in-grid neighbours was 0 (orthogonal neighbours for `dilate0_erode1_4con`,
orthogonal and diagonal ones for `dilate0_erode1_8con`), and is 1 after one
dilation pass exactly when it was 1 or one of its in-grid neighbours was
1. -/
theorem border_pass_spec (byt : List Nat) (nr nc i j : Nat)
    (hr : 2 ≤ nr) (hc : 2 ≤ nc) (hlen : byt.length = nr * nc)
    (h01 : ∀ k, k < nr * nc → rdN byt k = 0 ∨ rdN byt k = 1)
    (hi : i < nr) (hj : j < nc) (hb : i = 0 ∨ i + 1 = nr ∨ j = 0 ∨ j + 1 = nc) :
    (∃ e, dilate0_erode1_4con byt nr nc 1 = Except.ok e
      ∧ (rdN e (i * nc + j) = 0
          ↔ (rdN byt (i * nc + j) = 0 ∨ has_nbr4 byt nr nc i j 0 = true)))
    ∧ (∃ e, dilate0_erode1_8con byt nr nc 1 = Except.ok e
      ∧ (rdN e (i * nc + j) = 0
          ↔ (rdN byt (i * nc + j) = 0 ∨ has_nbr8 byt nr nc i j 0 = true)))
    ∧ (∃ d, dilate0_erode1_4con byt nr nc 0 = Except.ok d
      ∧ (rdN d (i * nc + j) = 1
          ↔ (rdN byt (i * nc + j) = 1 ∨ has_nbr4 byt nr nc i j 1 = true)))
    ∧ (∃ d, dilate0_erode1_8con byt nr nc 0 = Except.ok d
      ∧ (rdN d (i * nc + j) = 1
          ↔ (rdN byt (i * nc + j) = 1 ∨ has_nbr8 byt nr nc i j 1 = true))) := by
  have hk := index_lt nr nc i j hi hj
  have hv := h01 _ hk
  have hk' : i * nc + j < byt.length := by rw [hlen]; exact hk
  refine ⟨⟨_, erode_4con_eq byt nr nc, ?_⟩, ⟨_, erode_8con_eq byt nr nc, ?_⟩,
    ⟨_, dilate_4con_eq byt nr nc, ?_⟩, ⟨_, dilate_8con_eq byt nr nc, ?_⟩⟩
  · rw [erode_pass_zero _ byt _ hk' hv, fires_checks_4con byt nr nc i j _ hr hc hi hj]
  · rw [erode_pass_zero _ byt _ hk' hv, fires_checks_8con byt nr nc i j _ hr hc hi hj,
      reads_nbr8_border byt nr nc i j _ hb]
  · rw [dilate_pass_zero _ byt _ hk' hv, fires_checks_4con byt nr nc i j _ hr hc hi hj]
  · rw [dilate_pass_zero _ byt _ hk' hv, fires_checks_8con byt nr nc i j _ hr hc hi hj,
      reads_nbr8_border byt nr nc i j _ hb]

theorem border_pass_spec_witness :
    (∃ e, dilate0_erode1_4con sample_block 3 3 1 = Except.ok e
      ∧ (rdN e (0 * 3 + 2) = 0
          ↔ (rdN sample_block (0 * 3 + 2) = 0 ∨ has_nbr4 sample_block 3 3 0 2 0 = true)))
    ∧ (∃ e, dilate0_erode1_8con sample_block 3 3 1 = Except.ok e
      ∧ (rdN e (0 * 3 + 2) = 0
          ↔ (rdN sample_block (0 * 3 + 2) = 0 ∨ has_nbr8 sample_block 3 3 0 2 0 = true)))
    ∧ (∃ d, dilate0_erode1_4con sample_block 3 3 0 = Except.ok d
      ∧ (rdN d (0 * 3 + 2) = 1
          ↔ (rdN sample_block (0 * 3 + 2) = 1 ∨ has_nbr4 sample_block 3 3 0 2 1 = true)))
    ∧ (∃ d, dilate0_erode1_8con sample_block 3 3 0 = Except.ok d
      ∧ (rdN d (0 * 3 + 2) = 1
          ↔ (rdN sample_block (0 * 3 + 2) = 1 ∨ has_nbr8 sample_block 3 3 0 2 1 = true))) :=
  border_pass_spec sample_block 3 3 0 2 (by decide) (by decide) rfl (by decide)
    (by decide) (by decide) (by decide)

/-! ## C15: erosion only removes -/

/-- C15: for any grid, any number `n` of erosion passes of
`dilate0_erode1_4con` or of `dilate0_erode1_8con` returns a grid in which
every pixel that is 1 was 1 before the passes. -/
theorem erosion_passes_subset (byt : List Nat) (nr nc n : Nat) :
    (∃ e, repeat_pass (fun a => dilate0_erode1_4con a nr nc 1) n byt = Except.ok e
      ∧ ∀ k, rdN e k = 1 → rdN byt k = 1)
    ∧ (∃ e, repeat_pass (fun a => dilate0_erode1_8con a nr nc 1) n byt = Except.ok e
      ∧ ∀ k, rdN e k = 1 → rdN byt k = 1) :=
  ⟨⟨_, repeat_pass_ok _ (morph_pass (checks_4con nr nc) 0 1) (fun _ => rfl) n byt,
      erode_iterate_sub _ n byt⟩,
   ⟨_, repeat_pass_ok _ (morph_pass (checks_8con nr nc) 0 1) (fun _ => rfl) n byt,
      erode_iterate_sub _ n byt⟩⟩

/-! ## C16: dilation is the dual of erosion -/

/-- C16: for a grid `byt` over zero and one with at least two rows and two
columns, and for each of `dilate0_erode1_4con` and `dilate0_erode1_8con`,
the dilation of `byt` is the complement of the erosion of the complement of
`byt`. -/
theorem dilation_dual_of_erosion (byt : List Nat) (nr nc : Nat)
    (hr : 2 ≤ nr) (hc : 2 ≤ nc) (hlen : byt.length = nr * nc)
    (h01 : ∀ k, k < nr * nc → rdN byt k = 0 ∨ rdN byt k = 1) :
    (∃ d e, dilate0_erode1_4con byt nr nc 0 = Except.ok d
      ∧ dilate0_erode1_4con (complement byt) nr nc 1 = Except.ok e ∧ d = complement e)
    ∧ (∃ d e, dilate0_erode1_8con byt nr nc 0 = Except.ok d
      ∧ dilate0_erode1_8con (complement byt) nr nc 1 = Except.ok e ∧ d = complement e) := by
  refine ⟨⟨_, _, dilate_4con_eq byt nr nc, erode_4con_eq _ nr nc, ?_⟩,
    ⟨_, _, dilate_8con_eq byt nr nc, erode_8con_eq _ nr nc, ?_⟩⟩
  · exact pass_dual _ (nr * nc) byt ⟨hlen, h01⟩
      (fun k n h => (adj4_lt nr nc k n (tested_checks_4con_sound nr nc k n hr hc h)).2)
  · exact pass_dual _ (nr * nc) byt ⟨hlen, h01⟩
      (fun k n h => (read8_lt nr nc k n (tested_checks_8con_sound nr nc k n hr hc h)).2)

theorem dilation_dual_of_erosion_witness :
    (∃ d e, dilate0_erode1_4con sample_block 3 3 0 = Except.ok d
      ∧ dilate0_erode1_4con (complement sample_block) 3 3 1 = Except.ok e
      ∧ d = complement e)
    ∧ (∃ d e, dilate0_erode1_8con sample_block 3 3 0 = Except.ok d
      ∧ dilate0_erode1_8con (complement sample_block) 3 3 1 = Except.ok e
      ∧ d = complement e) :=
  dilation_dual_of_erosion sample_block 3 3 (by decide) (by decide) rfl (by decide)

/-! ## C18: opening with 8-connectivity -/

/-- C18: on the grid of three rows and columns with a block of two by two
pixels in its upper right corner, `opening` of depth 1 with connectivity 8
returns a grid that `opening` of depth 1 with connectivity 8 changes again:
the first result holds three pixels, the second none. The dilation does not
restore the pixel of the body, whose upper right neighbour is not read. -/
theorem opening_8con_not_idempotent :
    opening sample_block 3 3 1 8 = Except.ok [0, 1, 1, 0, 0, 1, 0, 0, 0]
    ∧ opening [0, 1, 1, 0, 0, 1, 0, 0, 0] 3 3 1 8 = Except.ok [0, 0, 0, 0, 0, 0, 0, 0, 0] :=
  ⟨rfl, rfl⟩

/-! ## C19: blank pixels -/

set_option maxRecDepth 100000 in
/-- C19, the claim as worded fails for `opening`: on the square of three by
three pixels in a grid of five rows and columns, `opening` of depth 2 with
connectivity 4 returns the grid that is all 0, so the centre pixel has
changed, although none of its in-grid neighbours, orthogonal or diagonal,
held 0 in the grid given to `opening`. -/
theorem blank_inert_counterexample :
    rdN sample_square (2 * 5 + 2) = 1
    ∧ has_nbr8 sample_square 5 5 2 2 0 = false
    ∧ opening sample_square 5 5 2 4 = Except.ok (List.replicate 25 0) :=
  ⟨by decide, by decide, rfl⟩

/-- C19, amended: for a grid of at least two rows and two columns whose
pixels are 0, 1 or the blank value 255, one pass of `dilate0_erode1_4con` or
of `dilate0_erode1_8con` (erosion or dilation) and `opening` of any depth
with connectivity 4 or 8 return a grid that is blank exactly where the given
grid is blank; and a pixel that one pass changes held the background value
of the pass, holds its foreground value afterwards, and had before the pass
an in-grid neighbour (orthogonal for `dilate0_erode1_4con`, orthogonal or
diagonal for `dilate0_erode1_8con`) holding that foreground value. -/
theorem blank_inert (byt : List Nat) (nr nc b0_f1 d i j : Nat) (con : Int)
    (hr : 2 ≤ nr) (hc : 2 ≤ nc)
    (hval : ∀ k, k < nr * nc → rdN byt k = 0 ∨ rdN byt k = 1 ∨ rdN byt k = GAL_BLANK_UINT8)
    (hb : b0_f1 = 0 ∨ b0_f1 = 1) (hcon : con = 4 ∨ con = 8) (hi : i < nr) (hj : j < nc) :
    (∃ e, dilate0_erode1_4con byt nr nc b0_f1 = Except.ok e
      ∧ (∀ k, rdN e k = GAL_BLANK_UINT8 ↔ rdN byt k = GAL_BLANK_UINT8)
      ∧ (rdN e (i * nc + j) ≠ rdN byt (i * nc + j) →
          rdN byt (i * nc + j) = b0_f1 ∧ rdN e (i * nc + j) = 1 - b0_f1
          ∧ has_nbr4 byt nr nc i j (1 - b0_f1) = true))
    ∧ (∃ e, dilate0_erode1_8con byt nr nc b0_f1 = Except.ok e
      ∧ (∀ k, rdN e k = GAL_BLANK_UINT8 ↔ rdN byt k = GAL_BLANK_UINT8)
      ∧ (rdN e (i * nc + j) ≠ rdN byt (i * nc + j) →
          rdN byt (i * nc + j) = b0_f1 ∧ rdN e (i * nc + j) = 1 - b0_f1
          ∧ has_nbr8 byt nr nc i j (1 - b0_f1) = true))
    ∧ (∃ o, opening byt nr nc d con = Except.ok o
      ∧ ∀ k, rdN o k = GAL_BLANK_UINT8 ↔ rdN byt k = GAL_BLANK_UINT8) := by
  have hk := index_lt nr nc i j hi hj
  have h2 : rdN byt (i * nc + j) ≠ 2 := by
    rcases hval _ hk with h | h | h <;> rw [h] <;> decide
  have hfb : (1 - b0_f1 = 0 ∧ b0_f1 = 1) ∨ (1 - b0_f1 = 1 ∧ b0_f1 = 0) := by omega
  have hB0 : GAL_BLANK_UINT8 ≠ 0 := by decide
  have hB1 : GAL_BLANK_UINT8 ≠ 1 := by decide
  have hB2 : GAL_BLANK_UINT8 ≠ 2 := by decide
  refine ⟨⟨_, dilate0_erode1_4con_ok byt nr nc b0_f1 hb, ?_, ?_⟩,
    ⟨_, dilate0_erode1_8con_ok byt nr nc b0_f1 hb, ?_, ?_⟩, ?_⟩
  · exact fun k => pass_keeps _ _ _ _ hfb hB0 hB1 hB2 byt k
  · intro hne
    obtain ⟨h1, h3, h4⟩ := pass_changed _ _ _ hfb byt _ h2 hne
    rw [fires_checks_4con byt nr nc i j _ hr hc hi hj] at h4
    exact ⟨h1, h3, h4⟩
  · exact fun k => pass_keeps _ _ _ _ hfb hB0 hB1 hB2 byt k
  · intro hne
    obtain ⟨h1, h3, h4⟩ := pass_changed _ _ _ hfb byt _ h2 hne
    rw [fires_checks_8con byt nr nc i j _ hr hc hi hj] at h4
    exact ⟨h1, h3, reads_nbr8_sub byt nr nc i j _ h4⟩
  · rcases hcon with rfl | rfl
    · refine ⟨_, opening_4con_ok byt nr nc d, fun k => ?_⟩
      rw [iterate_keeps _ 1 0 _ (Or.inr ⟨rfl, rfl⟩) hB0 hB1 hB2,
        iterate_keeps _ 0 1 _ (Or.inl ⟨rfl, rfl⟩) hB0 hB1 hB2]
    · refine ⟨_, opening_8con_ok byt nr nc d, fun k => ?_⟩
      rw [iterate_keeps _ 1 0 _ (Or.inr ⟨rfl, rfl⟩) hB0 hB1 hB2,
        iterate_keeps _ 0 1 _ (Or.inl ⟨rfl, rfl⟩) hB0 hB1 hB2]

theorem blank_inert_witness :
    (∃ e, dilate0_erode1_4con sample_blank 3 3 1 = Except.ok e
      ∧ (∀ k, rdN e k = GAL_BLANK_UINT8 ↔ rdN sample_blank k = GAL_BLANK_UINT8)
      ∧ (rdN e (1 * 3 + 1) ≠ rdN sample_blank (1 * 3 + 1) →
          rdN sample_blank (1 * 3 + 1) = 1 ∧ rdN e (1 * 3 + 1) = 1 - 1
          ∧ has_nbr4 sample_blank 3 3 1 1 (1 - 1) = true))
    ∧ (∃ e, dilate0_erode1_8con sample_blank 3 3 1 = Except.ok e
      ∧ (∀ k, rdN e k = GAL_BLANK_UINT8 ↔ rdN sample_blank k = GAL_BLANK_UINT8)
      ∧ (rdN e (1 * 3 + 1) ≠ rdN sample_blank (1 * 3 + 1) →
          rdN sample_blank (1 * 3 + 1) = 1 ∧ rdN e (1 * 3 + 1) = 1 - 1
          ∧ has_nbr8 sample_blank 3 3 1 1 (1 - 1) = true))
    ∧ (∃ o, opening sample_blank 3 3 2 4 = Except.ok o
      ∧ ∀ k, rdN o k = GAL_BLANK_UINT8 ↔ rdN sample_blank k = GAL_BLANK_UINT8) :=
  blank_inert sample_blank 3 3 1 2 1 1 4 (by decide) (by decide) (by decide)
    (Or.inr rfl) (Or.inl rfl) (by decide) (by decide)

/-! ## C20: marker values and erosion -/

theorem rfi_rewrite_pixel_blank (dilate : Nat) (newlabels : List Int) (b : Nat) :
    rfi_rewrite_pixel dilate newlabels (GAL_BLANK_INT32, b) = (GAL_BLANK_INT32, b) := by
  unfold rfi_rewrite_pixel
  rw [if_neg (fun h => h rfl)]

theorem detection_final_pixel_blank (p : noisechiselparams) (newlabs : List Int) (b : Nat)
    (hflag : p.hasblank = true) :
    detection_final_pixel p newlabs (GAL_BLANK_INT32, b) = (GAL_BLANK_INT32, b) := by
  unfold detection_final_pixel
  rw [if_pos hflag, if_neg (fun h => h rfl)]

/-- After the part of `detection_final_remove_small_sn` that follows its call
of `detection_sn`, a blank-labelled pixel of an input flagged as having
blanks has its label and its binary value as before. -/
theorem detection_final_from_blank (p : noisechiselparams) (num : Nat) (snarr : List Flt)
    (i : Nat) (hlen : p.olabel.length = p.binary.length) (hi : i < p.olabel.length)
    (hblank : rdI p.olabel i = GAL_BLANK_INT32) (hflag : p.hasblank = true) :
    rdI (detection_final_remove_small_sn_from p num snarr).1.olabel i = GAL_BLANK_INT32
    ∧ rdN (detection_final_remove_small_sn_from p num snarr).1.binary i = rdN p.binary i := by
  have hpix : ((List.zip p.olabel p.binary).map
      (detection_final_pixel p (detection_final_newlabs p num snarr).1)).getD i (0, 0)
      = (GAL_BLANK_INT32, rdN p.binary i) := by
    rw [getD_map_zip _ p.olabel p.binary i (0, 0) 0 0 hi hlen]
    have : p.olabel.getD i 0 = GAL_BLANK_INT32 := hblank
    rw [this]
    exact detection_final_pixel_blank p _ _ hflag
  have hl : i < ((List.zip p.olabel p.binary).map
      (detection_final_pixel p (detection_final_newlabs p num snarr).1)).length := by
    rw [List.length_map, List.length_zip, ← hlen, Nat.min_self]
    exact hi
  constructor
  · show (List.map Prod.fst _).getD i 0 = _
    rw [getD_map_index Prod.fst _ i 0 (0, 0) hl, hpix]
  · show (List.map Prod.snd _).getD i 0 = _
    rw [getD_map_index Prod.snd _ i 0 (0, 0) hl, hpix]

/-- C24: a pixel whose label is blank before `detection_remove_false_initial`
still has the blank label after it, and its value in `workbin` (the binary
grid that the function rewrites) and in `p->binary` is unchanged; with an
input flagged as having blanks, the same holds for the label and the binary
value after `detection_final_remove_small_sn`, for any S/N table, and the
function returns for an input of two or three dimensions unless NoiseChisel
is to stop after saving the S/N table. -/
theorem relabelling_keeps_blank (p : noisechiselparams) (workbin : List Nat) (num : Nat)
    (snarr : List Flt) (i : Nat)
    (hlenw : p.olabel.length = workbin.length) (hlenb : p.olabel.length = p.binary.length)
    (hi : i < p.olabel.length) (hblank : rdI p.olabel i = GAL_BLANK_INT32) :
    (rdI (detection_remove_false_initial p workbin).1.olabel i = GAL_BLANK_INT32
      ∧ rdN (detection_remove_false_initial p workbin).2.1 i = rdN workbin i
      ∧ (detection_remove_false_initial p workbin).1.binary = p.binary)
    ∧ (p.hasblank = true →
        rdI (detection_final_remove_small_sn_from p num snarr).1.olabel i = GAL_BLANK_INT32
        ∧ rdN (detection_final_remove_small_sn_from p num snarr).1.binary i = rdN p.binary i)
    ∧ (p.hasblank = true → (p.ndim = 2 ∨ p.ndim = 3) →
        ¬ (p.checkdetsn = true ∧ p.continueaftercheck = false) →
        ∃ r, detection_final_remove_small_sn p num = Except.ok r
          ∧ rdI r.1.olabel i = GAL_BLANK_INT32 ∧ rdN r.1.binary i = rdN p.binary i) := by
  refine ⟨?_, ?_, ?_⟩
  · have hpix : ((List.zip p.olabel workbin).map (rfi_rewrite_pixel p.dilate
        (rfi_renumber p.numinitialdets
          ((rfi_mark p.olabel workbin (List.replicate (p.numinitialdets + 1) 0)).set 0 0)
          1).1)).getD i (0, 0) = (GAL_BLANK_INT32, rdN workbin i) := by
      rw [getD_map_zip _ p.olabel workbin i (0, 0) 0 0 hi hlenw]
      have : p.olabel.getD i 0 = GAL_BLANK_INT32 := hblank
      rw [this]
      exact rfi_rewrite_pixel_blank _ _ _
    have hl : i < ((List.zip p.olabel workbin).map (rfi_rewrite_pixel p.dilate
        (rfi_renumber p.numinitialdets
          ((rfi_mark p.olabel workbin (List.replicate (p.numinitialdets + 1) 0)).set 0 0)
          1).1)).length := by
      rw [List.length_map, List.length_zip, ← hlenw, Nat.min_self]
      exact hi
    refine ⟨?_, ?_, rfl⟩
    · show (List.map Prod.fst _).getD i 0 = _
      rw [getD_map_index Prod.fst _ i 0 (0, 0) hl, hpix]
    · show (List.map Prod.snd _).getD i 0 = _
      rw [getD_map_index Prod.snd _ i 0 (0, 0) hl, hpix]
  · intro hflag
    exact detection_final_from_blank p num snarr i hlenb hi hblank hflag
  · intro hflag hdim hcheck
    have hnd : ¬ (p.ndim ≠ 2 ∧ p.ndim ≠ 3) := by omega
    have hna : ¬ (p.checkdetsn = true ∧ 2 = 2 ∧ p.continueaftercheck = false) :=
      fun h => hcheck ⟨h.1, h.2.2⟩
    have hret : detection_final_remove_small_sn p num
        = Except.ok (detection_final_remove_small_sn_from p num
            (detection_sn_fill p (detection_sn_accumulate p p.olabel num 2) num 2).snarr) := by
      unfold detection_final_remove_small_sn
      rw [detection_sn, if_neg hnd, if_neg hna]
      rfl
    exact ⟨_, hret, detection_final_from_blank p num _ i hlenb hi hblank hflag⟩

/-- C24, on a sample with one blank pixel (the fourth). -/
theorem relabelling_keeps_blank_witness :
    (rdI (detection_remove_false_initial sample_final [1, 0, 0, 255, 1, 1]).1.olabel 3
        = GAL_BLANK_INT32
      ∧ rdN (detection_remove_false_initial sample_final [1, 0, 0, 255, 1, 1]).2.1 3
        = rdN [1, 0, 0, 255, 1, 1] 3
      ∧ (detection_remove_false_initial sample_final [1, 0, 0, 255, 1, 1]).1.binary
        = sample_final.binary)
    ∧ (sample_final.hasblank = true →
        rdI (detection_final_remove_small_sn_from sample_final 3
            [Flt.fin 0, Flt.fin 2, Flt.fin 0, Flt.fin 3]).1.olabel 3 = GAL_BLANK_INT32
        ∧ rdN (detection_final_remove_small_sn_from sample_final 3
            [Flt.fin 0, Flt.fin 2, Flt.fin 0, Flt.fin 3]).1.binary 3
          = rdN sample_final.binary 3)
    ∧ (sample_final.hasblank = true → (sample_final.ndim = 2 ∨ sample_final.ndim = 3) →
        ¬ (sample_final.checkdetsn = true ∧ sample_final.continueaftercheck = false) →
        ∃ r, detection_final_remove_small_sn sample_final 3 = Except.ok r
          ∧ rdI r.1.olabel 3 = GAL_BLANK_INT32
          ∧ rdN r.1.binary 3 = rdN sample_final.binary 3) :=
  relabelling_keeps_blank sample_final [1, 0, 0, 255, 1, 1] 3
    [Flt.fin 0, Flt.fin 2, Flt.fin 0, Flt.fin 3] 3 rfl rfl (by decide) rfl

/-! ## C25: the connectivities of `detection_initial` -/

/-- C25, the claim as worded fails: on a two-dimensional input with
`erodengb = 5` and `openingngb = 7`, neither of them 4 or 8,
`detection_initial` returns, having eroded with connectivity 2 (the sample
erosion clears the grid exactly then). -/
theorem detection_initial_counterexample :
    ∃ r, detection_initial sample_lib
        { binary := [1, 1, 0, 1], binaryndim := 2, erodengb := 5, openingngb := 7, erode := 1 }
        = Except.ok r
      ∧ r.binary = [0, 0, 0, 0] :=
  ⟨_, rfl, rfl⟩

/-- C25, amended: `detection_initial` does not test the connectivities.  On
a two-dimensional binary grid it erodes with connectivity 1 when `erodengb`
is 4 and with connectivity 2 for every other value; on a three-dimensional
grid with connectivity 1 when `erodengb` is 6, 2 when it is 18 and 3 for
every other value; it opens with connectivity 1 when `openingngb` is 4 and 2
for every other value, and returns.  Only a binary grid that has neither two
nor three dimensions is a fatal error, before the erosion. -/
theorem detection_initial_spec (lib : detection_lib) (p : noisechiselparams) :
    ((lib.threshold_quantile_find_apply p).binaryndim = 2 →
      ∃ r, detection_initial lib p = Except.ok r
        ∧ r.binary = lib.gal_binary_open
            (correct_no_erode lib.THRESHOLD_NO_ERODE_VALUE
              (lib.gal_binary_erode (lib.threshold_quantile_find_apply p).binary
                (lib.threshold_quantile_find_apply p).erode
                (if (lib.threshold_quantile_find_apply p).erodengb = 4 then 1 else 2)))
            (lib.threshold_quantile_find_apply p).opening
            (if (lib.threshold_quantile_find_apply p).openingngb = 4 then 1 else 2))
    ∧ ((lib.threshold_quantile_find_apply p).binaryndim = 3 →
      ∃ r, detection_initial lib p = Except.ok r
        ∧ r.binary = lib.gal_binary_open
            (correct_no_erode lib.THRESHOLD_NO_ERODE_VALUE
              (lib.gal_binary_erode (lib.threshold_quantile_find_apply p).binary
                (lib.threshold_quantile_find_apply p).erode
                (if (lib.threshold_quantile_find_apply p).erodengb = 6 then 1
                 else if (lib.threshold_quantile_find_apply p).erodengb = 18 then 2 else 3)))
            (lib.threshold_quantile_find_apply p).opening
            (if (lib.threshold_quantile_find_apply p).openingngb = 4 then 1 else 2))
    ∧ ((lib.threshold_quantile_find_apply p).binaryndim ≠ 2 →
        (lib.threshold_quantile_find_apply p).binaryndim ≠ 3 →
        detection_initial lib p = Except.error halt.fatal) := by
  refine ⟨fun h2 => ?_, fun h3 => ?_, fun h2 h3 => ?_⟩
  · have hc : detection_initial_connectivity (lib.threshold_quantile_find_apply p)
        = Except.ok (if (lib.threshold_quantile_find_apply p).erodengb = 4 then 1 else 2) := by
      unfold detection_initial_connectivity
      rw [if_pos h2]
    unfold detection_initial
    simp only [hc]
    exact ⟨_, rfl, rfl⟩
  · have h2 : (lib.threshold_quantile_find_apply p).binaryndim ≠ 2 := by rw [h3]; decide
    have hc : detection_initial_connectivity (lib.threshold_quantile_find_apply p)
        = Except.ok (if (lib.threshold_quantile_find_apply p).erodengb = 6 then 1
            else if (lib.threshold_quantile_find_apply p).erodengb = 18 then 2 else 3) := by
      unfold detection_initial_connectivity
      rw [if_neg h2, if_pos h3]
    unfold detection_initial
    simp only [hc]
    exact ⟨_, rfl, rfl⟩
  · have hc : detection_initial_connectivity (lib.threshold_quantile_find_apply p)
        = Except.error halt.fatal := by
      unfold detection_initial_connectivity
      rw [if_neg h2, if_neg h3]
    unfold detection_initial
    simp only [hc]
    rfl

/-- C25, amended, on a two-dimensional input with `erodengb = 8`. -/
theorem detection_initial_spec_witness :
    ∃ r, detection_initial sample_lib { binary := [1, 1, 0, 1], erodengb := 8 } = Except.ok r
      ∧ r.binary = [0, 0, 0, 0] :=
  (detection_initial_spec sample_lib { binary := [1, 1, 0, 1], erodengb := 8 }).1 rfl

/-! ## C26: when `opening` fails -/

theorem repeat_run_ok (func : List Nat → List Nat × Option halt) (g : List Nat → List Nat)
    (h : ∀ a, func a = (g a, none)) :
    ∀ (n : Nat) (byt : List Nat), repeat_run func n byt = (g^[n] byt, none) := by
  intro n
  induction n with
  | zero => intro byt; rfl
  | succ n ih =>
      intro byt
      show (match func byt with
        | (a, none) => repeat_run func n a
        | (a, some h) => (a, some h)) = _
      rw [h byt, Function.iterate_succ_apply]
      exact ih (g byt)

theorem opening_run_4con (byt : List Nat) (s0 s1 depth : Nat) :
    opening_run byt s0 s1 depth 4
      = ((morph_pass (checks_4con s0 s1) 1 0)^[depth]
          ((morph_pass (checks_4con s0 s1) 0 1)^[depth] byt), none) := by
  unfold opening_run
  rw [if_neg (by decide)]
  simp only [if_true]
  rw [repeat_run_ok (fun a => dilate0_erode1_4con_run a s0 s1 1)
      (morph_pass (checks_4con s0 s1) 0 1) (fun a => rfl) depth byt]
  exact repeat_run_ok (fun a => dilate0_erode1_4con_run a s0 s1 0)
      (morph_pass (checks_4con s0 s1) 1 0) (fun a => rfl) depth _

theorem opening_run_8con (byt : List Nat) (s0 s1 depth : Nat) :
    opening_run byt s0 s1 depth 8
      = ((morph_pass (checks_8con s0 s1) 1 0)^[depth]
          ((morph_pass (checks_8con s0 s1) 0 1)^[depth] byt), none) := by
  unfold opening_run
  rw [if_neg (by decide)]
  simp only [show ((8 : Int) = 4) = False from by decide, if_false]
  rw [repeat_run_ok (fun a => dilate0_erode1_8con_run a s0 s1 1)
      (morph_pass (checks_8con s0 s1) 0 1) (fun a => rfl) depth byt]
  exact repeat_run_ok (fun a => dilate0_erode1_8con_run a s0 s1 0)
      (morph_pass (checks_8con s0 s1) 1 0) (fun a => rfl) depth _

/-- C26: `opening` stops with a fatal error exactly when `con_type` is
neither 4 nor 8, and the array is then as it was given; for `con_type` 4 or
8 it returns the array after `depth` erosion passes followed by `depth`
dilation passes of `dilate0_erode1_4con`, respectively
`dilate0_erode1_8con`. -/
theorem opening_fails_iff (byt : List Nat) (s0 s1 depth : Nat) (con_type : Int) :
    ((opening_run byt s0 s1 depth con_type).2 = some halt.fatal
        ↔ (con_type ≠ 4 ∧ con_type ≠ 8))
    ∧ (opening byt s0 s1 depth con_type = Except.error halt.fatal
        ↔ (con_type ≠ 4 ∧ con_type ≠ 8))
    ∧ ((con_type ≠ 4 ∧ con_type ≠ 8) → (opening_run byt s0 s1 depth con_type).1 = byt)
    ∧ (con_type = 4 →
        opening_run byt s0 s1 depth con_type
          = ((morph_pass (checks_4con s0 s1) 1 0)^[depth]
              ((morph_pass (checks_4con s0 s1) 0 1)^[depth] byt), none)
        ∧ opening byt s0 s1 depth con_type
          = Except.ok ((morph_pass (checks_4con s0 s1) 1 0)^[depth]
              ((morph_pass (checks_4con s0 s1) 0 1)^[depth] byt))
        ∧ (∀ a, dilate0_erode1_4con a s0 s1 1
            = Except.ok (morph_pass (checks_4con s0 s1) 0 1 a))
        ∧ (∀ a, dilate0_erode1_4con a s0 s1 0
            = Except.ok (morph_pass (checks_4con s0 s1) 1 0 a)))
    ∧ (con_type = 8 →
        opening_run byt s0 s1 depth con_type
          = ((morph_pass (checks_8con s0 s1) 1 0)^[depth]
              ((morph_pass (checks_8con s0 s1) 0 1)^[depth] byt), none)
        ∧ opening byt s0 s1 depth con_type
          = Except.ok ((morph_pass (checks_8con s0 s1) 1 0)^[depth]
              ((morph_pass (checks_8con s0 s1) 0 1)^[depth] byt))
        ∧ (∀ a, dilate0_erode1_8con a s0 s1 1
            = Except.ok (morph_pass (checks_8con s0 s1) 0 1 a))
        ∧ (∀ a, dilate0_erode1_8con a s0 s1 0
            = Except.ok (morph_pass (checks_8con s0 s1) 1 0 a))) := by
  have hbad : (con_type ≠ 4 ∧ con_type ≠ 8) →
      opening_run byt s0 s1 depth con_type = (byt, some halt.fatal)
      ∧ opening byt s0 s1 depth con_type = Except.error halt.fatal := by
    intro h
    constructor
    · unfold opening_run
      rw [if_pos h]
    · unfold opening
      rw [if_pos h]
  refine ⟨⟨fun h => ?_, fun h => by rw [(hbad h).1]⟩,
    ⟨fun h => ?_, fun h => (hbad h).2⟩, fun h => by rw [(hbad h).1], ?_, ?_⟩
  · by_contra hn
    have h48 : con_type = 4 ∨ con_type = 8 := by omega
    rcases h48 with rfl | rfl
    · rw [opening_run_4con] at h
      exact absurd h (by intro h'; cases h')
    · rw [opening_run_8con] at h
      exact absurd h (by intro h'; cases h')
  · by_contra hn
    have h48 : con_type = 4 ∨ con_type = 8 := by omega
    rcases h48 with rfl | rfl
    · rw [opening_4con_ok] at h
      exact absurd h (by intro h'; cases h')
    · rw [opening_8con_ok] at h
      exact absurd h (by intro h'; cases h')
  · rintro rfl
    exact ⟨opening_run_4con byt s0 s1 depth, opening_4con_ok byt s0 s1 depth,
      fun a => rfl, fun a => rfl⟩
  · rintro rfl
    exact ⟨opening_run_8con byt s0 s1 depth, opening_8con_ok byt s0 s1 depth,
      fun a => rfl, fun a => rfl⟩

/-! ## C27, C28, C29: blank values in a dataset -/

/-- With the increment left out, the loop never ends on an array whose
first element is not blank. -/
theorem has_blank_loop_stuck (c : data_consts) (t : gal_type) (w S : Nat)
    (arr : List gal_value) (h0 : is_blank_elem c t (rdV arr 0) = false) (hS : 0 * w < S) :
    ∀ fuel, has_blank_loop c t false w S arr fuel 0 = none := by
  intro fuel
  induction fuel with
  | zero => rfl
  | succ n ih =>
      unfold has_blank_loop
      rw [h0]
      simp only [Bool.false_eq_true, if_false]
      rw [if_pos hS]
      exact ih

/-- With the increment, the loop ends within `S + 1` passes from the
start. -/
theorem has_blank_loop_returns (c : data_consts) (t : gal_type) (w S : Nat)
    (arr : List gal_value) (hw : 1 ≤ w) :
    ∀ (n k : Nat), S ≤ k + n + 1 →
      ∃ r, has_blank_loop c t true w S arr (n + 1) k = some r := by
  intro n
  induction n with
  | zero =>
      intro k hk
      unfold has_blank_loop
      by_cases hb : is_blank_elem c t (rdV arr k) = true
      · rw [if_pos hb]
        exact ⟨1, rfl⟩
      · rw [if_neg hb]
        simp only [if_true]
        have hge : k + 1 ≤ (k + 1) * w := Nat.le_mul_of_pos_right _ hw
        rw [if_neg (by omega)]
        exact ⟨0, rfl⟩
  | succ n ih =>
      intro k hk
      unfold has_blank_loop
      by_cases hb : is_blank_elem c t (rdV arr k) = true
      · rw [if_pos hb]
        exact ⟨1, rfl⟩
      · rw [if_neg hb]
        simp only [if_true]
        by_cases hlt : (k + 1) * w < S
        · rw [if_pos hlt]
          exact ih (k + 1) (by omega)
        · rw [if_neg hlt]
          exact ⟨0, rfl⟩

/-- C27: on the dataset of one `unsigned char` element 0, which is not the
blank value, `gal_data_has_blank` never returns, whatever the number of
passes allowed: the loop of the `unsigned char` case, `do
if(*uc==GAL_DATA_BLANK_UCHAR) return 1; while(uc<ucf);`, does not move its
pointer.  On the dataset of two `unsigned short` elements whose second
element is blank it returns 0: the end pointer `A+S` is two bytes, one
element, past the start. -/
theorem gal_data_has_blank_uchar_loops :
    (∀ fuel, gal_data_has_blank sample_consts fuel sample_uchar = none)
    ∧ is_blank_elem sample_consts gal_type.ushort (rdV sample_ushort.array 1) = true
    ∧ gal_data_has_blank sample_consts 3 sample_ushort = some (Except.ok 0) := by
  refine ⟨fun fuel => ?_, by decide, rfl⟩
  show (has_blank_loop sample_consts gal_type.uchar false 1 1 [gal_value.int 0] fuel 0).map
    Except.ok = none
  rw [has_blank_loop_stuck sample_consts gal_type.uchar 1 1 [gal_value.int 0] (by decide)
    (by decide) fuel]
  rfl

/-- When an element that is not blank is reached before the end, the loop of
`gal_data_blank_to_value` never ends for the types whose pointer moves on
only past a blank element. -/
theorem blank_to_value_loop_stuck (c : data_consts) (t : gal_type) (w S : Nat)
    (v : gal_value) (arr : List gal_value) (k : Nat)
    (hk : is_blank_elem c t (rdV arr k) = false) (hS : k * w < S) :
    ∀ fuel, blank_to_value_loop c t false w S v fuel k arr = none := by
  intro fuel
  induction fuel with
  | zero => rfl
  | succ n ih =>
      unfold blank_to_value_loop
      rw [hk]
      simp only [Bool.false_eq_true, if_false]
      rw [if_pos hS]
      exact ih

/-- C28: on the dataset of one `unsigned char` element 0, which is not
blank, `gal_data_blank_to_value` never returns, whatever the replacement
value and the number of passes allowed: in `do
if(*uc==GAL_DATA_BLANK_UCHAR) *uc++=ucv; while(uc<ucf);` the pointer moves
on only past a blank element.  The same holds on the dataset of two `int`
elements 5 and 6. -/
theorem gal_data_blank_to_value_loops (value : gal_value) :
    (∀ fuel, gal_data_blank_to_value sample_consts fuel sample_uchar value = none)
    ∧ (∀ fuel, gal_data_blank_to_value sample_consts fuel sample_int value = none) := by
  constructor
  · intro fuel
    show (blank_to_value_loop sample_consts gal_type.uchar false 1 1 value fuel 0
      [gal_value.int 0]).map Except.ok = none
    rw [blank_to_value_loop_stuck sample_consts gal_type.uchar 1 1 value [gal_value.int 0] 0
      (by decide) (by decide) fuel]
    rfl
  · intro fuel
    show (blank_to_value_loop sample_consts gal_type.int false 4 2 value fuel 0
      [gal_value.int 5, gal_value.int 6]).map Except.ok = none
    rw [blank_to_value_loop_stuck sample_consts gal_type.int 4 2 value
      [gal_value.int 5, gal_value.int 6] 0 (by decide) (by decide) fuel]
    rfl

/-- For the integer, string and floating point types `gal_data_apply_mask`
does what its comment says, element by element. -/
theorem apply_mask_elem_real (c : data_consts) (t : gal_type) (m : Flt) (x : gal_value)
    (ht : t ≠ gal_type.complex) (ht' : t ≠ gal_type.dcomplex) :
    (Flt.ceq m (Flt.fin 0) = true → apply_mask_elem c t m x = x)
    ∧ (Flt.ceq m (Flt.fin 0) = false →
        apply_mask_elem c t m x
          = (if t = gal_type.float then gal_value.flt c.GAL_DATA_BLANK_FLOAT
             else if t = gal_type.double then gal_value.flt c.GAL_DATA_BLANK_DOUBLE
             else c.blank t)) := by
  constructor
  · intro h
    cases t <;> simp [apply_mask_elem, h] at ht ht' ⊢
  · intro h
    cases t <;> simp [apply_mask_elem, h] at ht ht' ⊢

/-- C29: on the dataset of the two complex elements `1+2i` and `3+4i` with
the mask `0, 1`, `gal_data_apply_mask` returns the blank complex value in
the first element, whose mask element is 0, and leaves the second element,
whose mask element is not 0, as it was: the complex cases test `*mpt++ ==
0.0f` where the others keep the element on that test.  On the two `int`
elements 5 and 6 the same mask gives 5 and the blank value; a mask of
another shape is a fatal error. -/
theorem gal_data_apply_mask_complex_inverted :
    (∃ r, gal_data_apply_mask sample_consts sample_complex sample_mask = Except.ok r
      ∧ r.array = [gal_value.cplx Flt.nan Flt.nan, gal_value.cplx (Flt.fin 3) (Flt.fin 4)])
    ∧ (∃ r, gal_data_apply_mask sample_consts sample_int sample_mask = Except.ok r
      ∧ r.array = [gal_value.int 5, gal_value.int (-2147483648)])
    ∧ gal_data_apply_mask sample_consts sample_int { sample_mask with dsize := [3] }
        = Except.error halt.fatal := by
  refine ⟨⟨_, rfl, ?_⟩, ⟨_, rfl, ?_⟩, rfl⟩
  · decide
  · decide

/-! ## C30: the coordinates in the flux-weighted position -/

/-- In two dimensions the coordinates that `detection_sn` weighs by the
pixel value are the row-major ones: the entries `L*3+1` and `L*3+2` of `pos`
grow by `(idx / d1) * f` and `(idx mod d1) * f`. -/
theorem detection_sn_pos_2d (p : noisechiselparams) (pos : List Flt) (idx L : Nat) (f : Flt)
    (hdim : p.ndim = 2) (hlen : L * 3 + 2 < pos.length) :
    rdF (detection_sn_pos p pos idx L f) (L * 3 + 1)
      = p.arith.add Prec.double (rdF pos (L * 3 + 1))
          (p.arith.mul Prec.single
            (p.arith.ofNat Prec.single (rdN (row_major_coords p.dsize 2 idx) 0)) f)
    ∧ rdF (detection_sn_pos p pos idx L f) (L * 3 + 2)
      = p.arith.add Prec.double (rdF pos (L * 3 + 2))
          (p.arith.mul Prec.single
            (p.arith.ofNat Prec.single (rdN (row_major_coords p.dsize 2 idx) 1)) f) := by
  unfold detection_sn_pos
  simp only [hdim, if_true]
  have e : 1 + 2 = 3 := rfl
  simp only [e]
  unfold rdF
  simp only [getD_set_eq, List.length_set]
  have hl1 : L * 3 + 1 < pos.length := by omega
  have hc0 : rdN (row_major_coords p.dsize 2 idx) 0 = idx / rdN p.dsize 1 := rfl
  have hc1 : rdN (row_major_coords p.dsize 2 idx) 1 = idx % rdN p.dsize 1 := rfl
  simp only [hc0, hc1, hl1, hlen, true_and, and_true, if_true, Nat.succ_ne_self,
    Nat.add_right_cancel_iff, OfNat.ofNat_ne_one, false_and, if_false,
    Nat.add_left_cancel_iff]
  constructor <;> simp

/-- C30: on a cube of shape `(2, 2, 2)`, for the pixel of flat index 5 with
label 1 and any value `f`, whatever the arithmetic, `detection_sn` adds
`f` weighed by 2, 2 and 1 to the three coordinate entries of `pos`, while
the row-major coordinates of the pixel are `(1, 0, 1)`: the first axis takes
`(idx mod d1) * d2` instead of `idx / (d1*d2)`, the second `idx / d2`
without the reduction modulo `d1`. -/
theorem detection_sn_pos_3d_not_row_major (a : FloatArith) (f : Flt) :
    detection_sn_pos { arith := a, ndim := 3, dsize := [2, 2, 2] }
        (List.replicate 8 (Flt.fin 0)) 5 1 f
      = [Flt.fin 0, Flt.fin 0, Flt.fin 0, Flt.fin 0,
         a.add Prec.double (Flt.fin 0) f,
         a.add Prec.double (Flt.fin 0) (a.mul Prec.single (a.ofNat Prec.single 2) f),
         a.add Prec.double (Flt.fin 0) (a.mul Prec.single (a.ofNat Prec.single 2) f),
         a.add Prec.double (Flt.fin 0) (a.mul Prec.single (a.ofNat Prec.single 1) f)]
    ∧ row_major_coords [2, 2, 2] 3 5 = [1, 0, 1] :=
  ⟨by
    simp only [detection_sn_pos, rdF, rdN]
    norm_num [List.replicate, List.set, List.getD], by decide⟩

/-! ## Hole filling: the arrays in closed form -/

/-- A loop that writes the value `v` at the index `tgt w` for the items `w`
of a list that pass a test. -/
theorem rdN_foldl_cond_set {α : Type} (cond : α → Prop) [DecidablePred cond] (tgt : α → Nat)
    (v : Nat) (W : List α) :
    ∀ (init : List Nat) (k : Nat),
      rdN (W.foldl (fun a w => if cond w then a.set (tgt w) v else a) init) k
        = (if (∃ w ∈ W, cond w ∧ tgt w = k) ∧ k < init.length then v else rdN init k) := by
  induction W with
  | nil =>
      intro init k
      simp
  | cons w ws ih =>
      intro init k
      rw [List.foldl_cons, ih]
      by_cases hw : cond w
      · rw [if_pos hw, List.length_set, rdN_set]
        by_cases h1 : (∃ w' ∈ ws, cond w' ∧ tgt w' = k) ∧ k < init.length
        · rw [if_pos h1, if_pos]
          obtain ⟨⟨w', hm, hc, ht⟩, hk⟩ := h1
          exact ⟨⟨w', List.mem_cons_of_mem _ hm, hc, ht⟩, hk⟩
        · rw [if_neg h1]
          by_cases h2 : tgt w = k ∧ tgt w < init.length
          · rw [if_pos h2, if_pos]
            exact ⟨⟨w, List.mem_cons_self _ _, hw, h2.1⟩, by rw [← h2.1]; exact h2.2⟩
          · rw [if_neg h2, if_neg]
            rintro ⟨⟨w', hm, hc, ht⟩, hk⟩
            rcases List.mem_cons.1 hm with rfl | hm'
            · exact h2 ⟨ht, by rw [ht]; exact hk⟩
            · exact h1 ⟨⟨w', hm', hc, ht⟩, hk⟩
      · rw [if_neg hw]
        by_cases h1 : (∃ w' ∈ ws, cond w' ∧ tgt w' = k) ∧ k < init.length
        · rw [if_pos h1, if_pos]
          obtain ⟨⟨w', hm, hc, ht⟩, hk⟩ := h1
          exact ⟨⟨w', List.mem_cons_of_mem _ hm, hc, ht⟩, hk⟩
        · rw [if_neg h1, if_neg]
          rintro ⟨⟨w', hm, hc, ht⟩, hk⟩
          rcases List.mem_cons.1 hm with rfl | hm'
          · exact hw hc
          · exact h1 ⟨⟨w', hm', hc, ht⟩, hk⟩

theorem length_foldl_cond_set {α : Type} (cond : α → Prop) [DecidablePred cond]
    (tgt : α → Nat) (v : Nat) (W : List α) :
    ∀ (init : List Nat),
      (W.foldl (fun a w => if cond w then a.set (tgt w) v else a) init).length
        = init.length := by
  induction W with
  | nil => intro init; rfl
  | cons w ws ih =>
      intro init
      rw [List.foldl_cons, ih]
      split
      · rw [List.length_set]
      · rfl

theorem mem_grid_pixels (s0 s1 : Nat) (ij : Nat × Nat) :
    ij ∈ grid_pixels s0 s1 ↔ ij.1 < s0 ∧ ij.2 < s1 := by
  unfold grid_pixels
  simp only [List.mem_flatMap, List.mem_map, List.mem_range]
  constructor
  · rintro ⟨i, hi, j, hj, rfl⟩
    exact ⟨hi, hj⟩
  · rintro ⟨hi, hj⟩
    exact ⟨ij.1, hi, ij.2, hj, rfl⟩

theorem rdN_replicate_one (n k : Nat) (hk : k < n) : rdN (List.replicate n 1) k = 1 := by
  simp [rdN, List.getD_eq_getElem?_getD, List.getElem?_replicate, hk]

/-- The inverse array that `fillboundedholes` asks of `fh_makeinv`. -/
theorem fh_makeinv_zero (byt : List Nat) (s0 s1 : Nat) :
    (fh_makeinv byt s0 s1 0 0 0 0).2 = (s0 + 4, s1 + 4)
    ∧ (fh_makeinv byt s0 s1 0 0 0 0).1.length = (s0 + 4) * (s1 + 4)
    ∧ ∀ k, k < (s0 + 4) * (s1 + 4) →
        (rdN (fh_makeinv byt s0 s1 0 0 0 0).1 k = 0 ∨ rdN (fh_makeinv byt s0 s1 0 0 0 0).1 k = 1)
        ∧ (rdN (fh_makeinv byt s0 s1 0 0 0 0).1 k = 0
            ↔ ∃ a b, a < s0 ∧ b < s1 ∧ rdN byt (a * s1 + b) = 1 ∧ pad s1 a b = k) := by
  have hdef : (fh_makeinv byt s0 s1 0 0 0 0).1
      = (grid_pixels s0 s1).foldl
          (fun a ij => if rdN byt (ij.1 * s1 + ij.2) = 1
            then a.set ((ij.1 + 2) * (s1 + 2 * 2) + ij.2 + 2) 0 else a)
          (List.replicate ((s0 + 2 * 2) * (s1 + 2 * 2)) 1) := rfl
  refine ⟨rfl, ?_, ?_⟩
  · rw [hdef, length_foldl_cond_set (fun ij : Nat × Nat => rdN byt (ij.1 * s1 + ij.2) = 1)
      (fun ij => (ij.1 + 2) * (s1 + 2 * 2) + ij.2 + 2) 0, List.length_replicate]
  · intro k hk
    rw [hdef, rdN_foldl_cond_set (fun ij : Nat × Nat => rdN byt (ij.1 * s1 + ij.2) = 1)
      (fun ij => (ij.1 + 2) * (s1 + 2 * 2) + ij.2 + 2) 0, List.length_replicate,
      rdN_replicate_one _ _ hk]
    by_cases h : (∃ w ∈ grid_pixels s0 s1, rdN byt (w.1 * s1 + w.2) = 1
        ∧ (w.1 + 2) * (s1 + 2 * 2) + w.2 + 2 = k) ∧ k < (s0 + 2 * 2) * (s1 + 2 * 2)
    · rw [if_pos h]
      obtain ⟨⟨ij, hm, hv, hp⟩, _⟩ := h
      obtain ⟨ha, hb⟩ := (mem_grid_pixels s0 s1 ij).1 hm
      exact ⟨Or.inl rfl, fun _ => ⟨ij.1, ij.2, ha, hb, hv, hp⟩, fun _ => rfl⟩
    · rw [if_neg h]
      refine ⟨Or.inr rfl, fun h1 => absurd h1 (by decide), ?_⟩
      rintro ⟨a, b, ha, hb, hv, hp⟩
      exact absurd ⟨⟨(a, b), (mem_grid_pixels s0 s1 (a, b)).2 ⟨ha, hb⟩, hv, hp⟩, hk⟩ h

/-- The array that `fillboundedholes` leaves, pixel by pixel: the pixel of
row `a` and column `b` is 1 when its label in the inverse array is above 1,
and as before otherwise. -/
theorem fillboundedholes_pixel (inp : List Nat) (s0 s1 a b : Nat)
    (hlen : inp.length = s0 * s1) (ha : a < s0) (hb : b < s1) :
    (fillboundedholes inp s0 s1).length = s0 * s1
    ∧ rdN (fillboundedholes inp s0 s1) (a * s1 + b)
      = (if rdI (BF_concmp (fh_makeinv inp s0 s1 0 0 0 0).1 (s0 + 4) (s1 + 4) 8).1 (pad s1 a b) > 1
         then 1 else rdN inp (a * s1 + b)) := by
  have hd : (s0 + 2 * 2 - s0) / 2 = 2 := by omega
  have hx : s0 + 2 * 2 - 2 - 2 = s0 := by omega
  have hy : s1 + 2 * 2 - 2 - 2 = s1 := by omega
  have hdef : fillboundedholes inp s0 s1
      = ((List.range' 2 s0).flatMap (fun i => (List.range' 2 s1).map (fun j => (i, j)))).foldl
          (fun a ij =>
            if rdI (BF_concmp (fh_makeinv inp s0 s1 0 0 0 0).1 (s0 + 4) (s1 + 4) 8).1
                (ij.1 * (s1 + 4) + ij.2) > 1
            then a.set ((ij.1 - 2) * s1 + ij.2 - 2) 1 else a) inp := by
    unfold fillboundedholes
    simp only [(fh_makeinv_zero inp s0 s1).1, hd, hx, hy]
  constructor
  · rw [hdef, length_foldl_cond_set (fun ij : Nat × Nat =>
        rdI (BF_concmp (fh_makeinv inp s0 s1 0 0 0 0).1 (s0 + 4) (s1 + 4) 8).1
          (ij.1 * (s1 + 4) + ij.2) > 1) (fun ij => (ij.1 - 2) * s1 + ij.2 - 2) 1, hlen]
  · have hin : a * s1 + b < inp.length := by rw [hlen]; exact index_lt s0 s1 a b ha hb
    rw [hdef, rdN_foldl_cond_set (fun ij : Nat × Nat =>
        rdI (BF_concmp (fh_makeinv inp s0 s1 0 0 0 0).1 (s0 + 4) (s1 + 4) 8).1
          (ij.1 * (s1 + 4) + ij.2) > 1) (fun ij => (ij.1 - 2) * s1 + ij.2 - 2) 1]
    by_cases h : rdI (BF_concmp (fh_makeinv inp s0 s1 0 0 0 0).1 (s0 + 4) (s1 + 4) 8).1
        (pad s1 a b) > 1
    · rw [if_pos h, if_pos]
      refine ⟨⟨(a + 2, b + 2), ?_, h, ?_⟩, hin⟩
      · simp only [List.mem_flatMap, List.mem_map, List.mem_range'_1]
        exact ⟨a + 2, ⟨by omega, by omega⟩, b + 2, ⟨by omega, by omega⟩, rfl⟩
      · show (a + 2 - 2) * s1 + (b + 2) - 2 = a * s1 + b
        have : a + 2 - 2 = a := by omega
        rw [this]
        omega
    · rw [if_neg h, if_neg]
      rintro ⟨⟨ij, hm, hv, hp⟩, _⟩
      simp only [List.mem_flatMap, List.mem_map, List.mem_range'_1] at hm
      obtain ⟨i, ⟨hi1, hi2⟩, j, ⟨hj1, hj2⟩, rfl⟩ := hm
      have hp' : (i - 2) * s1 + (j - 2) = a * s1 + b := by
        have hp2 : (i - 2) * s1 + j - 2 = a * s1 + b := hp
        omega
      obtain ⟨e1, e2⟩ := coords_unique s1 (i - 2) (j - 2) a b (by omega) hb hp'
      apply h
      have ei : i = a + 2 := by omega
      have ej : j = b + 2 := by omega
      rw [ei, ej] at hv
      exact hv

/-! ## Hole filling: the connected component of a pixel -/

theorem getD_map_range {β : Type} (f : Nat → β) (n k : Nat) (d : β) (hk : k < n) :
    ((List.range n).map f).getD k d = f k := by
  simp [List.getD_eq_getElem?_getD, List.getElem?_map, List.getElem?_range hk]

theorem getD_false_of_le (S : List Bool) (k : Nat) (hk : S.length ≤ k) :
    S.getD k false = false := by
  rw [List.getD_eq_getElem?_getD, List.getElem?_eq_none hk]
  rfl

theorem grow_length (byt : List Nat) (c s0 s1 : Nat) (S : List Bool) :
    (grow byt c s0 s1 S).length = s0 * s1 := by
  unfold grow
  rw [List.length_map, List.length_range]

theorem grow_getD (byt : List Nat) (c s0 s1 : Nat) (S : List Bool) (k : Nat)
    (hk : k < s0 * s1) :
    (grow byt c s0 s1 S).getD k false
      = (S.getD k false
          || (decide (rdN byt k ≠ 0) && (nbrs c s0 s1 k).any (fun n => S.getD n false))) := by
  unfold grow
  rw [getD_map_range _ _ _ _ hk]

theorem iterate_grow_length (byt : List Nat) (c s0 s1 : Nat) (S : List Bool)
    (hS : S.length = s0 * s1) (n : Nat) : ((grow byt c s0 s1)^[n] S).length = s0 * s1 := by
  cases n with
  | zero => exact hS
  | succ n =>
      rw [Function.iterate_succ_apply']
      exact grow_length _ _ _ _ _

/-- Growing keeps the pixels of the set. -/
theorem grow_keeps (byt : List Nat) (c s0 s1 : Nat) (S : List Bool) (hS : S.length = s0 * s1)
    (k : Nat) (h : S.getD k false = true) : (grow byt c s0 s1 S).getD k false = true := by
  have hk : k < s0 * s1 := by
    by_contra hge
    rw [getD_false_of_le S k (by rw [hS]; exact Nat.le_of_not_lt hge)] at h
    exact absurd h (by decide)
  rw [grow_getD _ _ _ _ _ _ hk, h]
  rfl

theorem iterate_grow_keeps (byt : List Nat) (c s0 s1 : Nat) (S : List Bool)
    (hS : S.length = s0 * s1) (k : Nat) (h : S.getD k false = true) (n : Nat) :
    ((grow byt c s0 s1)^[n] S).getD k false = true := by
  induction n with
  | zero => exact h
  | succ n ih =>
      rw [Function.iterate_succ_apply']
      exact grow_keeps _ _ _ _ _ (iterate_grow_length _ _ _ _ _ hS n) k ih

/-- Two sets of pixels, one inside the other, with the same number of
pixels, are the same set. -/
theorem count_true_le : ∀ (S T : List Bool), S.length = T.length →
    (∀ k, S.getD k false = true → T.getD k false = true) →
    S.count true ≤ T.count true ∧ (S.count true = T.count true → S = T) := by
  intro S
  induction S with
  | nil =>
      intro T hlen _
      have : T = [] := List.length_eq_zero.1 hlen.symm
      subst this
      exact ⟨Nat.le_refl _, fun _ => rfl⟩
  | cons x xs ih =>
      intro T hlen hsub
      cases T with
      | nil => exact absurd hlen (by simp)
      | cons y ys =>
          have hlen' : xs.length = ys.length := by simpa using hlen
          have hsub' : ∀ k, xs.getD k false = true → ys.getD k false = true := by
            intro k hk
            have := hsub (k + 1)
            simpa using this hk
          obtain ⟨hle, heq⟩ := ih ys hlen' hsub'
          have h0 : x = true → y = true := by
            intro hx
            have := hsub 0
            simpa using this hx
          have hcx : (x :: xs).count true = xs.count true + (if x = true then 1 else 0) := by
            cases x <;> simp
          have hcy : (y :: ys).count true = ys.count true + (if y = true then 1 else 0) := by
            cases y <;> simp
          rw [hcx, hcy]
          cases x <;> cases y
          · refine ⟨by simpa using hle, fun h => ?_⟩
            rw [heq (by simpa using h)]
          · refine ⟨by simp; omega, fun h => ?_⟩
            simp at h
            omega
          · exact absurd (h0 rfl) (by decide)
          · refine ⟨by simpa using hle, fun h => ?_⟩
            rw [heq (by simpa using h)]

theorem count_true_pos (S : List Bool) (k : Nat) (h : S.getD k false = true) :
    1 ≤ S.count true := by
  have hk : k < S.length := by
    by_contra hge
    rw [getD_false_of_le S k (Nat.le_of_not_lt hge)] at h
    exact absurd h (by decide)
  have hm : true ∈ S := by
    rw [List.getD_eq_getElem?_getD, List.getElem?_eq_getElem hk] at h
    simp only [Option.getD_some] at h
    rw [← h]
    exact List.getElem_mem hk
  exact List.count_pos_iff.2 hm

/-- Among the first `n` sets grown from a set there is one that growing
leaves as it is, or the `n`-th has at least `n` pixels more than the
first. -/
theorem grow_fixed_or_count (byt : List Nat) (c s0 s1 : Nat) (S : List Bool)
    (hS : S.length = s0 * s1) (n : Nat) :
    (∃ m, m ≤ n ∧ grow byt c s0 s1 ((grow byt c s0 s1)^[m] S) = (grow byt c s0 s1)^[m] S)
    ∨ S.count true + n ≤ ((grow byt c s0 s1)^[n] S).count true := by
  induction n with
  | zero => exact Or.inr (Nat.le_refl _)
  | succ n ih =>
      rcases ih with ⟨m, hm, hfix⟩ | hcount
      · exact Or.inl ⟨m, by omega, hfix⟩
      · by_cases hfix : grow byt c s0 s1 ((grow byt c s0 s1)^[n] S) = (grow byt c s0 s1)^[n] S
        · exact Or.inl ⟨n, by omega, hfix⟩
        · right
          rw [Function.iterate_succ_apply']
          have hl := iterate_grow_length byt c s0 s1 S hS n
          obtain ⟨hle, heq⟩ := count_true_le ((grow byt c s0 s1)^[n] S)
            (grow byt c s0 s1 ((grow byt c s0 s1)^[n] S))
            (by rw [hl, grow_length]) (grow_keeps byt c s0 s1 _ hl)
          have hne : ((grow byt c s0 s1)^[n] S).count true
              ≠ (grow byt c s0 s1 ((grow byt c s0 s1)^[n] S)).count true :=
            fun h => hfix (heq h).symm
          omega

/-- Growing leaves the component computed by `flood` as it is. -/
theorem grow_flood (byt : List Nat) (c s0 s1 seed : Nat) (hseed : seed < s0 * s1) :
    grow byt c s0 s1 (flood byt c s0 s1 seed) = flood byt c s0 s1 seed := by
  have hS : ((List.range (s0 * s1)).map (fun k => decide (k = seed))).length = s0 * s1 := by
    rw [List.length_map, List.length_range]
  have h0 : ((List.range (s0 * s1)).map (fun k => decide (k = seed))).getD seed false = true := by
    rw [getD_map_range _ _ _ _ hseed]
    simp
  rcases grow_fixed_or_count byt c s0 s1 _ hS (s0 * s1) with ⟨m, hm, hfix⟩ | hcount
  · -- once fixed, fixed for ever
    have hstay : ∀ j, (grow byt c s0 s1)^[j] ((grow byt c s0 s1)^[m]
        ((List.range (s0 * s1)).map (fun k => decide (k = seed))))
        = (grow byt c s0 s1)^[m] ((List.range (s0 * s1)).map (fun k => decide (k = seed))) :=
      fun j => Function.iterate_fixed hfix j
    have hsplit : flood byt c s0 s1 seed
        = (grow byt c s0 s1)^[m] ((List.range (s0 * s1)).map (fun k => decide (k = seed))) := by
      unfold flood
      have : s0 * s1 = (s0 * s1 - m) + m := by omega
      rw [this, Function.iterate_add_apply]
      have hm' : s0 * s1 - m + m = s0 * s1 := by omega
      rw [hm']
      exact hstay _
    rw [hsplit]
    exact hfix
  · exfalso
    have h1 := count_true_pos _ seed h0
    have h2 : ((grow byt c s0 s1)^[s0 * s1]
        ((List.range (s0 * s1)).map (fun k => decide (k = seed)))).count true ≤ s0 * s1 := by
      have := List.count_le_length true ((grow byt c s0 s1)^[s0 * s1]
        ((List.range (s0 * s1)).map (fun k => decide (k = seed))))
      rw [iterate_grow_length byt c s0 s1 _ hS] at this
      exact this
    omega

theorem flood_length (byt : List Nat) (c s0 s1 seed : Nat) :
    (flood byt c s0 s1 seed).length = s0 * s1 := by
  unfold flood
  exact iterate_grow_length _ _ _ _ _ (by rw [List.length_map, List.length_range]) _

theorem flood_seed (byt : List Nat) (c s0 s1 seed : Nat) (hseed : seed < s0 * s1) :
    (flood byt c s0 s1 seed).getD seed false = true := by
  unfold flood
  apply iterate_grow_keeps _ _ _ _ _ (by rw [List.length_map, List.length_range])
  rw [getD_map_range _ _ _ _ hseed]
  simp

/-- Every pixel of the component computed by `flood` can be reached from
the seed. -/
theorem flood_sound (byt : List Nat) (c s0 s1 seed : Nat) (n : Nat) :
    ∀ k, ((grow byt c s0 s1)^[n]
        ((List.range (s0 * s1)).map (fun k => decide (k = seed)))).getD k false = true →
      connected byt c s0 s1 seed k := by
  induction n with
  | zero =>
      intro k h
      have hk : k < s0 * s1 := by
        by_contra hge
        rw [getD_false_of_le _ k (by
          rw [Function.iterate_zero, id, List.length_map, List.length_range]
          exact Nat.le_of_not_lt hge)] at h
        exact absurd h (by decide)
      rw [Function.iterate_zero, id, getD_map_range _ _ _ _ hk] at h
      have : k = seed := by simpa using h
      rw [this]
      exact Relation.ReflTransGen.refl
  | succ n ih =>
      intro k h
      rw [Function.iterate_succ_apply'] at h
      have hk : k < s0 * s1 := by
        by_contra hge
        rw [getD_false_of_le _ k (by rw [grow_length]; exact Nat.le_of_not_lt hge)] at h
        exact absurd h (by decide)
      rw [grow_getD _ _ _ _ _ _ hk] at h
      simp only [Bool.or_eq_true, Bool.and_eq_true, decide_eq_true_eq, List.any_eq_true] at h
      rcases h with h | ⟨hb, m, hm, hS⟩
      · exact ih k h
      · exact Relation.ReflTransGen.tail (ih m hS) ⟨hm, hb⟩

/-- The component computed by `flood` is the set of the pixels that can be
reached from the seed. -/
theorem flood_iff (byt : List Nat) (c s0 s1 seed : Nat) (hlen : byt.length = s0 * s1)
    (hseed : seed < s0 * s1) (k : Nat) :
    (flood byt c s0 s1 seed).getD k false = true ↔ connected byt c s0 s1 seed k := by
  constructor
  · exact flood_sound byt c s0 s1 seed (s0 * s1) k
  · intro h
    induction h with
    | refl => exact flood_seed byt c s0 s1 seed hseed
    | @tail a b _ hj ih =>
        obtain ⟨hm, hb⟩ := hj
        have hbl : b < s0 * s1 := by
          by_contra hge
          exact hb (rdN_of_le byt b (by rw [hlen]; exact Nat.le_of_not_lt hge))
        rw [← grow_flood byt c s0 s1 seed hseed, grow_getD _ _ _ _ _ _ hbl]
        simp only [Bool.or_eq_true, Bool.and_eq_true, decide_eq_true_eq, List.any_eq_true]
        exact Or.inr ⟨hb, a, hm, ih⟩

/-! ## Hole filling: the labels of `BF_concmp` -/

theorem connected_nonzero (byt : List Nat) (c s0 s1 a b : Nat)
    (h : connected byt c s0 s1 a b) : b = a ∨ rdN byt b ≠ 0 := by
  cases h with
  | refl => exact Or.inl rfl
  | tail _ hj => exact Or.inr hj.2

theorem rdI_map_range (f : Nat → Int) (n k : Nat) (hk : k < n) :
    rdI ((List.range n).map f) k = f k := by
  unfold rdI
  exact getD_map_range f n k 0 hk

/-- The state of the scan of `BF_concmp` after the pixels before `m`, on a
grid whose first pixel is not 0: the label 1 is on the component of the
first pixel and nowhere else, every non-zero pixel before `m` has a label,
and the pixels that are 0 have none. -/
theorem BF_concmp_scan (byt : List Nat) (c s0 s1 : Nat) (hlen : byt.length = s0 * s1)
    (h0 : rdN byt 0 ≠ 0) (m : Nat) (hm : m + 1 ≤ s0 * s1) :
    1 ≤ ((List.range (m + 1)).foldl (BF_concmp_step byt c s0 s1)
        (List.replicate (s0 * s1) 0, 0)).2
    ∧ ∀ k, k < s0 * s1 →
      (rdI ((List.range (m + 1)).foldl (BF_concmp_step byt c s0 s1)
          (List.replicate (s0 * s1) 0, 0)).1 k = 1 ↔ connected byt c s0 s1 0 k)
      ∧ 0 ≤ rdI ((List.range (m + 1)).foldl (BF_concmp_step byt c s0 s1)
          (List.replicate (s0 * s1) 0, 0)).1 k
      ∧ (k < m + 1 → rdN byt k ≠ 0 → rdI ((List.range (m + 1)).foldl
          (BF_concmp_step byt c s0 s1) (List.replicate (s0 * s1) 0, 0)).1 k ≠ 0)
      ∧ (rdN byt k = 0 → rdI ((List.range (m + 1)).foldl (BF_concmp_step byt c s0 s1)
          (List.replicate (s0 * s1) 0, 0)).1 k = 0) := by
  have hpos : 0 < s0 * s1 := by omega
  induction m with
  | zero =>
      have hstep : (List.range (0 + 1)).foldl (BF_concmp_step byt c s0 s1)
          (List.replicate (s0 * s1) 0, 0)
          = ((List.range (s0 * s1)).map (fun n =>
              if (flood byt c s0 s1 0).getD n false = true then (1 : Int) else 0), 1) := by
        have hr : List.range (0 + 1) = [0] := rfl
        rw [hr, List.foldl_cons, List.foldl_nil]
        unfold BF_concmp_step
        simp only [rdI_replicate_zero, and_true, Int.zero_add]
        rw [if_pos h0]
      rw [hstep]
      refine ⟨Int.le_refl _, fun k hk => ?_⟩
      simp only [rdI_map_range _ _ _ hk]
      have hf := flood_iff byt c s0 s1 0 hlen hpos k
      by_cases hfk : (flood byt c s0 s1 0).getD k false = true
      · rw [if_pos hfk]
        refine ⟨⟨fun _ => hf.1 hfk, fun _ => rfl⟩, by decide, fun _ _ => by decide, fun hz => ?_⟩
        rcases connected_nonzero byt c s0 s1 0 k (hf.1 hfk) with h | h
        · rw [h] at hz
          exact absurd hz h0
        · exact absurd hz h
      · rw [if_neg hfk]
        refine ⟨⟨fun h => absurd h (by decide), fun h => absurd (hf.2 h) hfk⟩, by decide,
          fun hk0 _ => ?_, fun _ => rfl⟩
        have hk00 : k = 0 := by omega
        rw [hk00] at hfk
        exact absurd (flood_seed byt c s0 s1 0 hpos) hfk
  | succ m ih =>
      obtain ⟨hcur, hinv⟩ := ih (by omega)
      rw [List.range_succ, List.foldl_append, List.foldl_cons, List.foldl_nil]
      generalize (List.range (m + 1)).foldl (BF_concmp_step byt c s0 s1)
        (List.replicate (s0 * s1) 0, 0) = st at hcur hinv
      unfold BF_concmp_step
      by_cases hfire : rdN byt (m + 1) ≠ 0 ∧ rdI st.1 (m + 1) = 0
      · rw [if_pos hfire]
        refine ⟨by simp only; omega, fun k hk => ?_⟩
        obtain ⟨h1, h2, h3, h4⟩ := hinv k hk
        simp only [rdI_map_range _ _ _ hk]
        by_cases hre : (flood byt c s0 s1 (m + 1)).getD k false = true ∧ rdI st.1 k = 0
        · rw [if_pos hre]
          refine ⟨⟨fun h => by omega, fun h => ?_⟩, by omega, fun _ _ => by omega, fun hz => ?_⟩
          · have := h1.2 h
            omega
          · rcases connected_nonzero byt c s0 s1 (m + 1) k
              ((flood_iff byt c s0 s1 (m + 1) hlen (by omega) k).1 hre.1) with h | h
            · rw [h] at hz
              exact absurd hz hfire.1
            · exact absurd hz h
        · rw [if_neg hre]
          refine ⟨h1, h2, fun hk1 hb => ?_, h4⟩
          by_cases hkm : k < m + 1
          · exact h3 hkm hb
          · have hkeq : k = m + 1 := by omega
            intro hzero
            apply hre
            rw [hkeq]
            exact ⟨flood_seed byt c s0 s1 (m + 1) (by omega), hfire.2⟩
      · rw [if_neg hfire]
        refine ⟨hcur, fun k hk => ?_⟩
        obtain ⟨h1, h2, h3, h4⟩ := hinv k hk
        refine ⟨h1, h2, fun hk1 hb => ?_, h4⟩
        by_cases hkm : k < m + 1
        · exact h3 hkm hb
        · have hkeq : k = m + 1 := by omega
          intro hzero
          apply hfire
          rw [← hkeq]
          exact ⟨hb, hzero⟩

/-- On a grid whose first pixel is not 0, the labels above 1 of `BF_concmp`
are on the non-zero pixels that cannot be reached from the first pixel. -/
theorem BF_concmp_above_one (byt : List Nat) (s0 s1 c : Nat) (hlen : byt.length = s0 * s1)
    (h0 : rdN byt 0 ≠ 0) (k : Nat) (hk : k < s0 * s1) :
    rdI (BF_concmp byt s0 s1 c).1 k > 1 ↔ rdN byt k ≠ 0 ∧ ¬ connected byt c s0 s1 0 k := by
  have hpos : 0 < s0 * s1 := by omega
  obtain ⟨n, hn⟩ : ∃ n, s0 * s1 = n + 1 := ⟨s0 * s1 - 1, by omega⟩
  have hscan := BF_concmp_scan byt c s0 s1 hlen h0 n (by omega)
  obtain ⟨_, hinv⟩ := hscan
  obtain ⟨h1, h2, h3, h4⟩ := hinv k hk
  have hr : (BF_concmp byt s0 s1 c).1
      = ((List.range (n + 1)).foldl (BF_concmp_step byt c s0 s1)
          (List.replicate (s0 * s1) 0, 0)).1 := by
    unfold BF_concmp
    simp only
    rw [hn]
  rw [hr]
  constructor
  · intro hgt
    refine ⟨fun hz => ?_, fun hc => ?_⟩
    · have := h4 hz
      omega
    · have := h1.2 hc
      omega
  · rintro ⟨hb, hc⟩
    have hne := h3 (by omega) hb
    have hne1 : rdI ((List.range (n + 1)).foldl (BF_concmp_step byt c s0 s1)
          (List.replicate (s0 * s1) 0, 0)).1 k ≠ 1 := fun h => hc (h1.1 h)
    omega

/-! ## Hole filling: which pixels are filled -/

theorem pad_lt (s0 s1 a b : Nat) (ha : a < s0) (hb : b < s1) :
    pad s1 a b < (s0 + 4) * (s1 + 4) := by
  unfold pad
  have h1 : (a + 2) * (s1 + 4) + (s1 + 4) ≤ (s0 + 4) * (s1 + 4) := by
    have : (a + 2 + 1) * (s1 + 4) ≤ (s0 + 4) * (s1 + 4) :=
      Nat.mul_le_mul_right _ (by omega)
    rw [Nat.add_mul (a + 2) 1, Nat.one_mul] at this
    exact this
  omega

theorem pad_inj (s1 a b a' b' : Nat) (hb : b < s1) (hb' : b' < s1)
    (h : pad s1 a b = pad s1 a' b') : a = a' ∧ b = b' := by
  unfold pad at h
  have hlt : b + 2 < s1 + 4 := by omega
  have hlt' : b' + 2 < s1 + 4 := by omega
  have hd : ((a + 2) * (s1 + 4) + (b + 2)) / (s1 + 4) = a + 2 := by
    rw [Nat.add_comm, Nat.add_mul_div_right _ _ (by omega), Nat.div_eq_of_lt hlt]
    omega
  have hd' : ((a' + 2) * (s1 + 4) + (b' + 2)) / (s1 + 4) = a' + 2 := by
    rw [Nat.add_comm, Nat.add_mul_div_right _ _ (by omega), Nat.div_eq_of_lt hlt']
    omega
  have ha : a = a' := by
    rw [h] at hd
    omega
  subst ha
  exact ⟨rfl, by omega⟩

/-- The inverse array is not 0 at an in-grid pixel exactly when the grid is
not 1 there. -/
theorem fh_makeinv_pad (inp : List Nat) (s0 s1 a b : Nat) (ha : a < s0) (hb : b < s1) :
    rdN (fh_makeinv inp s0 s1 0 0 0 0).1 (pad s1 a b) ≠ 0 ↔ rdN inp (a * s1 + b) ≠ 1 := by
  obtain ⟨_, _, hz⟩ := fh_makeinv_zero inp s0 s1
  obtain ⟨_, hiff⟩ := hz (pad s1 a b) (pad_lt s0 s1 a b ha hb)
  constructor
  · intro h h1
    exact h (hiff.2 ⟨a, b, ha, hb, h1, rfl⟩)
  · intro h h0
    obtain ⟨a', b', _, hb', h1, hp⟩ := hiff.1 h0
    obtain ⟨rfl, rfl⟩ := pad_inj s1 a' b' a b hb' hb hp
    exact h h1

theorem fh_makeinv_first (inp : List Nat) (s0 s1 : Nat) :
    rdN (fh_makeinv inp s0 s1 0 0 0 0).1 0 ≠ 0 := by
  obtain ⟨_, _, hz⟩ := fh_makeinv_zero inp s0 s1
  have hpos : 0 < (s0 + 4) * (s1 + 4) := Nat.mul_pos (by omega) (by omega)
  obtain ⟨_, hiff⟩ := hz 0 hpos
  intro h0
  obtain ⟨a, b, _, _, _, hp⟩ := hiff.1 h0
  unfold pad at hp
  omega

/-- The pixels that `fillboundedholes` sets to 1 are those that are not 1
and that cannot be reached, in the inverse array, from its first pixel; the
other pixels keep their value. -/
theorem fillboundedholes_reach (inp : List Nat) (s0 s1 a b : Nat)
    (hlen : inp.length = s0 * s1) (ha : a < s0) (hb : b < s1) :
    (rdN (fillboundedholes inp s0 s1) (a * s1 + b) = 1
        ↔ rdN inp (a * s1 + b) = 1
          ∨ ¬ connected (fh_makeinv inp s0 s1 0 0 0 0).1 8 (s0 + 4) (s1 + 4) 0 (pad s1 a b))
    ∧ (rdN (fillboundedholes inp s0 s1) (a * s1 + b) ≠ 1 →
        rdN (fillboundedholes inp s0 s1) (a * s1 + b) = rdN inp (a * s1 + b)) := by
  obtain ⟨_, hpix⟩ := fillboundedholes_pixel inp s0 s1 a b hlen ha hb
  obtain ⟨_, hl, _⟩ := fh_makeinv_zero inp s0 s1
  have hlab := BF_concmp_above_one (fh_makeinv inp s0 s1 0 0 0 0).1 (s0 + 4) (s1 + 4) 8 hl
    (fh_makeinv_first inp s0 s1) (pad s1 a b) (pad_lt s0 s1 a b ha hb)
  have hpad := fh_makeinv_pad inp s0 s1 a b ha hb
  rw [hpix]
  by_cases hgt : rdI (BF_concmp (fh_makeinv inp s0 s1 0 0 0 0).1 (s0 + 4) (s1 + 4) 8).1
      (pad s1 a b) > 1
  · rw [if_pos hgt]
    exact ⟨⟨fun _ => Or.inr (hlab.1 hgt).2, fun _ => rfl⟩, fun h => absurd rfl h⟩
  · rw [if_neg hgt]
    refine ⟨⟨fun h => Or.inl h, fun h => ?_⟩, fun _ => rfl⟩
    rcases h with h | h
    · exact h
    · by_contra h1
      exact hgt (hlab.2 ⟨hpad.2 h1, h⟩)

theorem fillboundedholes_length (inp : List Nat) (s0 s1 : Nat) :
    (fillboundedholes inp s0 s1).length = inp.length := by
  unfold fillboundedholes
  exact length_foldl_cond_set (fun ij : Nat × Nat =>
    rdI (BF_concmp (fh_makeinv inp s0 s1 0 0 0 0).1 (fh_makeinv inp s0 s1 0 0 0 0).2.1
      (fh_makeinv inp s0 s1 0 0 0 0).2.2 8).1
      (ij.1 * (fh_makeinv inp s0 s1 0 0 0 0).2.2 + ij.2) > 1)
    (fun ij => (ij.1 - ((fh_makeinv inp s0 s1 0 0 0 0).2.1 - s0) / 2) * s1 + ij.2
      - ((fh_makeinv inp s0 s1 0 0 0 0).2.1 - s0) / 2) 1 _ inp

/-- A pixel of the inverse array that can be reached from its first pixel
can still be reached from there in the inverse array of the filled grid. -/
theorem reach_after_fill (inp : List Nat) (s0 s1 : Nat) (hlen : inp.length = s0 * s1) (q : Nat)
    (h : connected (fh_makeinv inp s0 s1 0 0 0 0).1 8 (s0 + 4) (s1 + 4) 0 q) :
    connected (fh_makeinv (fillboundedholes inp s0 s1) s0 s1 0 0 0 0).1 8 (s0 + 4) (s1 + 4) 0 q := by
  induction h with
  | refl => exact Relation.ReflTransGen.refl
  | @tail p q hp hj ih =>
      refine Relation.ReflTransGen.tail ih ⟨hj.1, ?_⟩
      obtain ⟨_, hl, hz⟩ := fh_makeinv_zero (fillboundedholes inp s0 s1) s0 s1
      obtain ⟨_, hl0, _⟩ := fh_makeinv_zero inp s0 s1
      have hq : q < (s0 + 4) * (s1 + 4) := by
        by_contra hge
        exact hj.2 (rdN_of_le _ q (by rw [hl0]; exact Nat.le_of_not_lt hge))
      obtain ⟨_, hiff⟩ := hz q hq
      intro h0
      obtain ⟨a, b, ha, hb, h1, hpq⟩ := hiff.1 h0
      rcases (fillboundedholes_reach inp s0 s1 a b hlen ha hb).1.1 h1 with h | h
      · have := (fh_makeinv_pad inp s0 s1 a b ha hb).1 (by rw [hpq]; exact hj.2)
        exact this h
      · apply h
        rw [hpq]
        exact Relation.ReflTransGen.tail hp hj

/-- Claim C22: hole filling is idempotent.  For every grid of `s0` rows and `s1`
columns, with `BF_concmp` labelling the 8-connected components of the
non-zero pixels from 1 upward in scan order, `fillboundedholes` applied to
the result of `fillboundedholes` changes no pixel. -/
theorem fillboundedholes_idempotent (inp : List Nat) (s0 s1 : Nat)
    (hlen : inp.length = s0 * s1) :
    fillboundedholes (fillboundedholes inp s0 s1) s0 s1 = fillboundedholes inp s0 s1 := by
  have hl1 : (fillboundedholes inp s0 s1).length = s0 * s1 := by
    rw [fillboundedholes_length, hlen]
  have hl2 : (fillboundedholes (fillboundedholes inp s0 s1) s0 s1).length = s0 * s1 := by
    rw [fillboundedholes_length, hl1]
  apply list_eq_of_rdN _ _ (by rw [hl1, hl2])
  intro k hk
  rw [hl2] at hk
  have hs1 : 0 < s1 := by
    rcases Nat.eq_zero_or_pos s1 with h | h
    · rw [h, Nat.mul_zero] at hk
      exact absurd hk (Nat.not_lt_zero _)
    · exact h
  have hb : k % s1 < s1 := Nat.mod_lt _ hs1
  have ha : k / s1 < s0 := by
    rw [Nat.div_lt_iff_lt_mul hs1]
    exact hk
  have hkk : k / s1 * s1 + k % s1 = k := by
    rw [Nat.mul_comm]
    exact Nat.div_add_mod k s1
  have h2 := fillboundedholes_reach (fillboundedholes inp s0 s1) s0 s1 (k / s1) (k % s1) hl1 ha hb
  have h1 := fillboundedholes_reach inp s0 s1 (k / s1) (k % s1) hlen ha hb
  rw [hkk] at h1 h2
  by_cases hone : rdN (fillboundedholes (fillboundedholes inp s0 s1) s0 s1) k = 1
  · rcases h2.1.1 hone with h | h
    · rw [hone, h]
    · have : rdN (fillboundedholes inp s0 s1) k = 1 := by
        apply h1.1.2
        by_cases hi : rdN inp k = 1
        · exact Or.inl hi
        · exact Or.inr (fun hc => h (reach_after_fill inp s0 s1 hlen _ hc))
      rw [hone, this]
  · exact h2.2 hone

/-- Hole filling is idempotent on the grid `sample_hole`. -/
theorem fillboundedholes_idempotent_witness :
    sample_hole.length = 3 * 3
    ∧ fillboundedholes (fillboundedholes sample_hole 3 3) 3 3 = fillboundedholes sample_hole 3 3 :=
  ⟨rfl, fillboundedholes_idempotent sample_hole 3 3 rfl⟩

/-! ## Hole filling: neighbours in coordinates -/

theorem mem_ite_single (p : Prop) [Decidable p] (x n : Nat) :
    n ∈ (if p then [x] else []) ↔ p ∧ n = x := by
  by_cases h : p
  · rw [if_pos h]
    simp [h]
  · rw [if_neg h]
    simp [h]

theorem index_div (s1 i j : Nat) (hj : j < s1) : (i * s1 + j) / s1 = i := by
  rw [Nat.add_comm, Nat.add_mul_div_right _ _ (by omega), Nat.div_eq_of_lt hj, Nat.zero_add]

theorem index_mod (s1 i j : Nat) (hj : j < s1) : (i * s1 + j) % s1 = j := by
  rw [Nat.add_comm, Nat.add_mul_mod_self_right, Nat.mod_eq_of_lt hj]

/-- The neighbours of `nbrs` with connectivity 8, for a pixel given by its
row and column. -/
theorem mem_nbrs8 (s0 s1 i j n : Nat) (hj : j < s1) :
    n ∈ nbrs 8 s0 s1 (i * s1 + j) ↔
      (1 ≤ i ∧ n = i * s1 + j - s1) ∨ (i + 1 < s0 ∧ n = i * s1 + j + s1)
      ∨ (1 ≤ j ∧ n = i * s1 + j - 1) ∨ (j + 1 < s1 ∧ n = i * s1 + j + 1)
      ∨ ((1 ≤ i ∧ 1 ≤ j) ∧ n = i * s1 + j - s1 - 1)
      ∨ ((1 ≤ i ∧ j + 1 < s1) ∧ n = i * s1 + j - s1 + 1)
      ∨ ((i + 1 < s0 ∧ 1 ≤ j) ∧ n = i * s1 + j + s1 - 1)
      ∨ ((i + 1 < s0 ∧ j + 1 < s1) ∧ n = i * s1 + j + s1 + 1) := by
  unfold nbrs
  simp only [index_div s1 i j hj, index_mod s1 i j hj, if_true, List.mem_append,
    mem_ite_single, or_assoc]

theorem nbrs8_adj (s0 s1 i j n : Nat) (hi : i < s0) (hj : j < s1)
    (h : n ∈ nbrs 8 s0 s1 (i * s1 + j)) : adj8 s0 s1 (i * s1 + j) n := by
  rw [mem_nbrs8 s0 s1 i j n hj] at h
  unfold adj8
  rcases h with ⟨h1, rfl⟩ | ⟨h1, rfl⟩ | ⟨h1, rfl⟩ | ⟨h1, rfl⟩ | ⟨⟨h1, h2⟩, rfl⟩ | ⟨⟨h1, h2⟩, rfl⟩
    | ⟨⟨h1, h2⟩, rfl⟩ | ⟨⟨h1, h2⟩, rfl⟩
  · obtain ⟨i0, rfl⟩ : ∃ i0, i = i0 + 1 := ⟨i - 1, by omega⟩
    have : (i0 + 1) * s1 = i0 * s1 + s1 := Nat.succ_mul i0 s1
    exact ⟨i0 + 1, j, i0, j, rfl, by omega, hi, hj, by omega, hj, by omega⟩
  · have : (i + 1) * s1 = i * s1 + s1 := Nat.succ_mul i s1
    exact ⟨i, j, i + 1, j, rfl, by omega, hi, hj, by omega, hj, by omega⟩
  · exact ⟨i, j, i, j - 1, rfl, by omega, hi, hj, hi, by omega, by omega⟩
  · exact ⟨i, j, i, j + 1, rfl, by omega, hi, hj, hi, by omega, by omega⟩
  · obtain ⟨i0, rfl⟩ : ∃ i0, i = i0 + 1 := ⟨i - 1, by omega⟩
    have : (i0 + 1) * s1 = i0 * s1 + s1 := Nat.succ_mul i0 s1
    exact ⟨i0 + 1, j, i0, j - 1, rfl, by omega, hi, hj, by omega, by omega, by omega⟩
  · obtain ⟨i0, rfl⟩ : ∃ i0, i = i0 + 1 := ⟨i - 1, by omega⟩
    have : (i0 + 1) * s1 = i0 * s1 + s1 := Nat.succ_mul i0 s1
    exact ⟨i0 + 1, j, i0, j + 1, rfl, by omega, hi, hj, by omega, by omega, by omega⟩
  · have : (i + 1) * s1 = i * s1 + s1 := Nat.succ_mul i s1
    exact ⟨i, j, i + 1, j - 1, rfl, by omega, hi, hj, by omega, by omega, by omega⟩
  · have : (i + 1) * s1 = i * s1 + s1 := Nat.succ_mul i s1
    exact ⟨i, j, i + 1, j + 1, rfl, by omega, hi, hj, by omega, by omega, by omega⟩

/-- A pixel one row and one column away at most, and not the pixel itself,
is in the list of `nbrs` with connectivity 8. -/
theorem adj_nbrs8 (s0 s1 i j a b : Nat) (hi : i < s0) (hj : j < s1) (ha : a < s0) (hb : b < s1)
    (h1 : a ≤ i + 1) (h2 : i ≤ a + 1) (h3 : b ≤ j + 1) (h4 : j ≤ b + 1) (hne : a ≠ i ∨ b ≠ j) :
    a * s1 + b ∈ nbrs 8 s0 s1 (i * s1 + j) := by
  rw [mem_nbrs8 s0 s1 i j _ hj]
  rcases Nat.lt_trichotomy a i with hlt | heq | hgt
  · obtain rfl : i = a + 1 := by omega
    have : (a + 1) * s1 = a * s1 + s1 := Nat.succ_mul a s1
    rcases Nat.lt_trichotomy b j with hlt' | heq' | hgt'
    · right; right; right; right; left
      exact ⟨⟨by omega, by omega⟩, by omega⟩
    · left
      exact ⟨by omega, by omega⟩
    · right; right; right; right; right; left
      exact ⟨⟨by omega, by omega⟩, by omega⟩
  · subst heq
    rcases Nat.lt_trichotomy b j with hlt' | heq' | hgt'
    · right; right; left
      exact ⟨by omega, by omega⟩
    · exfalso
      omega
    · right; right; right; left
      exact ⟨by omega, by omega⟩
  · obtain rfl : a = i + 1 := by omega
    have : (i + 1) * s1 = i * s1 + s1 := Nat.succ_mul i s1
    rcases Nat.lt_trichotomy b j with hlt' | heq' | hgt'
    · right; right; right; right; right; right; left
      exact ⟨⟨by omega, by omega⟩, by omega⟩
    · right; left
      exact ⟨by omega, by omega⟩
    · right; right; right; right; right; right; right
      exact ⟨⟨by omega, by omega⟩, by omega⟩

theorem mem_nbrs8_adj (s0 s1 k n : Nat) (hk : k < s0 * s1) :
    n ∈ nbrs 8 s0 s1 k ↔ adj8 s0 s1 k n := by
  have hs1 : 0 < s1 := by
    rcases Nat.eq_zero_or_pos s1 with h | h
    · rw [h, Nat.mul_zero] at hk
      exact absurd hk (Nat.not_lt_zero _)
    · exact h
  have hj : k % s1 < s1 := Nat.mod_lt _ hs1
  have hi : k / s1 < s0 := by
    rw [Nat.div_lt_iff_lt_mul hs1]
    exact hk
  have hkk : k / s1 * s1 + k % s1 = k := by
    rw [Nat.mul_comm]
    exact Nat.div_add_mod k s1
  generalize k / s1 = i at hi hkk
  generalize k % s1 = j at hj hkk
  subst hkk
  constructor
  · exact nbrs8_adj s0 s1 i j n hi hj
  · rintro ⟨a, b, a', b', hk, rfl, ha, hb, ha', hb', h1, h2, h3, h4, hne⟩
    obtain ⟨rfl, rfl⟩ := coords_unique s1 i j a b hj hb hk
    exact adj_nbrs8 s0 s1 i j a' b' hi hj ha' hb' h1 h2 h3 h4 hne

theorem adj8_symm (s0 s1 k n : Nat) (h : adj8 s0 s1 k n) : adj8 s0 s1 n k := by
  obtain ⟨i, j, i', j', hk, hn, hi, hj, hi', hj', h1, h2, h3, h4, hne⟩ := h
  exact ⟨i', j', i, j, hn, hk, hi', hj', hi, hj, h2, h1, h4, h3, by omega⟩

theorem adj4_adj8 (s0 s1 k n : Nat) (h : adj4 s0 s1 k n) : adj8 s0 s1 k n := by
  obtain ⟨i, j, i', j', hk, hn, hi, hj, hi', hj', hadj⟩ := h
  exact ⟨i, j, i', j', hk, hn, hi, hj, hi', hj', by omega, by omega, by omega, by omega, by omega⟩

/-! ## Hole filling: the inverse array and the regions of the grid -/

/-- The inverse array is not 0 on its margin of two pixels. -/
theorem fh_makeinv_margin (inp : List Nat) (s0 s1 I J : Nat) (hI : I < s0 + 4) (hJ : J < s1 + 4)
    (hm : ¬ (2 ≤ I ∧ I < s0 + 2 ∧ 2 ≤ J ∧ J < s1 + 2)) :
    rdN (fh_makeinv inp s0 s1 0 0 0 0).1 (I * (s1 + 4) + J) ≠ 0 := by
  obtain ⟨_, _, hz⟩ := fh_makeinv_zero inp s0 s1
  obtain ⟨_, hiff⟩ := hz (I * (s1 + 4) + J) (index_lt (s0 + 4) (s1 + 4) I J hI hJ)
  intro h0
  obtain ⟨a, b, ha, hb, _, hp⟩ := hiff.1 h0
  unfold pad at hp
  obtain ⟨h1, h2⟩ := coords_unique (s1 + 4) (a + 2) (b + 2) I J (by omega) hJ hp
  omega

/-- A step, in the inverse array, from a pixel reached from the first
pixel to one of the eight pixels around it that is not 0. -/
theorem reach_step (inv : List Nat) (S0 S1 I J I' J' : Nat)
    (h : connected inv 8 S0 S1 0 (I * S1 + J))
    (hI : I < S0) (hJ : J < S1) (hI' : I' < S0) (hJ' : J' < S1)
    (h1 : I ≤ I' + 1) (h2 : I' ≤ I + 1) (h3 : J ≤ J' + 1) (h4 : J' ≤ J + 1)
    (hne : I ≠ I' ∨ J ≠ J') (hv : rdN inv (I' * S1 + J') ≠ 0) :
    connected inv 8 S0 S1 0 (I' * S1 + J') :=
  Relation.ReflTransGen.tail h
    ⟨adj_nbrs8 S0 S1 I' J' I J hI' hJ' hI hJ h1 h2 h3 h4 hne, hv⟩

theorem reach_row_zero (inp : List Nat) (s0 s1 J : Nat) (hJ : J < s1 + 4) :
    connected (fh_makeinv inp s0 s1 0 0 0 0).1 8 (s0 + 4) (s1 + 4) 0 (0 * (s1 + 4) + J) := by
  induction J with
  | zero =>
      rw [Nat.zero_mul]
      exact Relation.ReflTransGen.refl
  | succ J ih =>
      exact reach_step _ (s0 + 4) (s1 + 4) 0 J 0 (J + 1) (ih (by omega)) (by omega) (by omega)
        (by omega) hJ (by omega) (by omega) (by omega) (by omega) (by omega)
        (fh_makeinv_margin inp s0 s1 0 (J + 1) (by omega) hJ (by omega))

theorem reach_column_zero (inp : List Nat) (s0 s1 I : Nat) (hI : I < s0 + 4) :
    connected (fh_makeinv inp s0 s1 0 0 0 0).1 8 (s0 + 4) (s1 + 4) 0 (I * (s1 + 4) + 0) := by
  induction I with
  | zero =>
      rw [Nat.zero_mul]
      exact Relation.ReflTransGen.refl
  | succ I ih =>
      exact reach_step _ (s0 + 4) (s1 + 4) I 0 (I + 1) 0 (ih (by omega)) (by omega) (by omega)
        hI (by omega) (by omega) (by omega) (by omega) (by omega) (by omega)
        (fh_makeinv_margin inp s0 s1 (I + 1) 0 hI (by omega) (by omega))

/-- Every pixel of the margin of the inverse array can be reached from its
first pixel. -/
theorem reach_margin (inp : List Nat) (s0 s1 I J : Nat) (hI : I < s0 + 4) (hJ : J < s1 + 4)
    (hm : ¬ (2 ≤ I ∧ I < s0 + 2 ∧ 2 ≤ J ∧ J < s1 + 2)) :
    connected (fh_makeinv inp s0 s1 0 0 0 0).1 8 (s0 + 4) (s1 + 4) 0 (I * (s1 + 4) + J) := by
  by_cases hrow : I < 2 ∨ s0 + 2 ≤ I
  · -- along the row `I`, from its first pixel
    clear hm
    induction J with
    | zero => exact reach_column_zero inp s0 s1 I hI
    | succ J ih =>
        exact reach_step _ (s0 + 4) (s1 + 4) I J I (J + 1) (ih (by omega)) hI (by omega)
          hI hJ (by omega) (by omega) (by omega) (by omega) (by omega)
          (fh_makeinv_margin inp s0 s1 I (J + 1) hI hJ (by omega))
  · -- along the column `J`, from its first pixel
    have hcol : J < 2 ∨ s1 + 2 ≤ J := by omega
    clear hm hrow
    induction I with
    | zero => exact reach_row_zero inp s0 s1 J hJ
    | succ I ih =>
        exact reach_step _ (s0 + 4) (s1 + 4) I J (I + 1) J (ih (by omega)) (by omega) hJ
          hI hJ (by omega) (by omega) (by omega) (by omega) (by omega)
          (fh_makeinv_margin inp s0 s1 (I + 1) J hI hJ (by omega))

/-- A pixel of the border of the grid that is not 1 can be reached, in the
inverse array, from its first pixel. -/
theorem reach_border (inp : List Nat) (s0 s1 a b : Nat) (ha : a < s0) (hb : b < s1)
    (hbor : a = 0 ∨ a + 1 = s0 ∨ b = 0 ∨ b + 1 = s1) (hv : rdN inp (a * s1 + b) ≠ 1) :
    connected (fh_makeinv inp s0 s1 0 0 0 0).1 8 (s0 + 4) (s1 + 4) 0 (pad s1 a b) := by
  have hpv := (fh_makeinv_pad inp s0 s1 a b ha hb).2 hv
  unfold pad at hpv ⊢
  rcases hbor with h | h | h | h
  · exact reach_step _ (s0 + 4) (s1 + 4) (a + 1) (b + 2) (a + 2) (b + 2)
      (reach_margin inp s0 s1 (a + 1) (b + 2) (by omega) (by omega) (by omega))
      (by omega) (by omega) (by omega) (by omega) (by omega) (by omega) (by omega) (by omega)
      (by omega) hpv
  · exact reach_step _ (s0 + 4) (s1 + 4) (a + 3) (b + 2) (a + 2) (b + 2)
      (reach_margin inp s0 s1 (a + 3) (b + 2) (by omega) (by omega) (by omega))
      (by omega) (by omega) (by omega) (by omega) (by omega) (by omega) (by omega) (by omega)
      (by omega) hpv
  · exact reach_step _ (s0 + 4) (s1 + 4) (a + 2) (b + 1) (a + 2) (b + 2)
      (reach_margin inp s0 s1 (a + 2) (b + 1) (by omega) (by omega) (by omega))
      (by omega) (by omega) (by omega) (by omega) (by omega) (by omega) (by omega) (by omega)
      (by omega) hpv
  · exact reach_step _ (s0 + 4) (s1 + 4) (a + 2) (b + 3) (a + 2) (b + 2)
      (reach_margin inp s0 s1 (a + 2) (b + 3) (by omega) (by omega) (by omega))
      (by omega) (by omega) (by omega) (by omega) (by omega) (by omega) (by omega) (by omega)
      (by omega) hpv

/-- A pixel that is not 1 and whose 8-connected region of pixels that are
not 1 has a pixel on the border of the grid can be reached, in the inverse
array, from its first pixel. -/
theorem reach_of_region (inp : List Nat) (s0 s1 k n : Nat)
    (hreg : hole_region8 inp s0 s1 k n) (hbor : on_border s0 s1 n) :
    ∀ a b, a < s0 → b < s1 → k = a * s1 + b → rdN inp k ≠ 1 →
      connected (fh_makeinv inp s0 s1 0 0 0 0).1 8 (s0 + 4) (s1 + 4) 0 (pad s1 a b) := by
  unfold hole_region8 at hreg
  induction hreg using Relation.ReflTransGen.head_induction_on with
  | refl =>
      intro a b ha hb hk hv
      obtain ⟨i, j, hn, hi, hj, hedge⟩ := hbor
      obtain ⟨rfl, rfl⟩ := coords_unique s1 a b i j hb hj (by rw [← hk, ← hn])
      rw [hk] at hv
      exact reach_border inp s0 s1 a b ha hb hedge hv
  | @head x c hstep _ ih =>
      intro a b ha hb hk hv
      obtain ⟨⟨i, j, i', j', hx, hc, hi, hj, hi', hj', h1, h2, h3, h4, hne⟩, hcv⟩ := hstep
      obtain ⟨rfl, rfl⟩ := coords_unique s1 a b i j hb hj (by rw [← hk, ← hx])
      have hreach := ih i' j' hi' hj' hc hcv
      have hpv := (fh_makeinv_pad inp s0 s1 a b ha hb).2 (by rw [← hk]; exact hv)
      unfold pad at hreach hpv ⊢
      exact reach_step _ (s0 + 4) (s1 + 4) (i' + 2) (j' + 2) (a + 2) (b + 2) hreach
        (by omega) (by omega) (by omega) (by omega) (by omega) (by omega) (by omega) (by omega)
        (by omega) hpv

/-- A pixel of the grid that can be reached, in the inverse array, from its
first pixel has in its 8-connected region of pixels that are not 1 a pixel on
the border of the grid. -/
theorem region_of_reach (inp : List Nat) (s0 s1 q : Nat)
    (h : connected (fh_makeinv inp s0 s1 0 0 0 0).1 8 (s0 + 4) (s1 + 4) 0 q) :
    ∀ a b, a < s0 → b < s1 → q = pad s1 a b →
      ∃ n, hole_region8 inp s0 s1 (a * s1 + b) n ∧ on_border s0 s1 n := by
  induction h with
  | refl =>
      intro a b _ _ hq
      unfold pad at hq
      omega
  | @tail p q hp hj ih =>
      intro a b ha hb hq
      have hql : q < (s0 + 4) * (s1 + 4) := by
        rw [hq]
        exact pad_lt s0 s1 a b ha hb
      have hadj : adj8 (s0 + 4) (s1 + 4) q p := (mem_nbrs8_adj (s0 + 4) (s1 + 4) q p hql).1 hj.1
      obtain ⟨I, J, I', J', hqc, hpc, hI, hJ, hI', hJ', h1, h2, h3, h4, hne⟩ := hadj
      have hqp : (a + 2) * (s1 + 4) + (b + 2) = I * (s1 + 4) + J := by
        rw [← hqc, hq]
        rfl
      obtain ⟨hIa, hJb⟩ := coords_unique (s1 + 4) (a + 2) (b + 2) I J (by omega) hJ hqp
      by_cases hin : 2 ≤ I' ∧ I' < s0 + 2 ∧ 2 ≤ J' ∧ J' < s1 + 2
      · -- the step comes from a pixel of the grid
        have hpp : p = pad s1 (I' - 2) (J' - 2) := by
          rw [hpc]
          unfold pad
          have e1 : I' - 2 + 2 = I' := by omega
          have e2 : J' - 2 + 2 = J' := by omega
          rw [e1, e2]
        obtain ⟨n, hreg, hbor⟩ := ih (I' - 2) (J' - 2) (by omega) (by omega) hpp
        have hpv : rdN inp ((I' - 2) * s1 + (J' - 2)) ≠ 1 := by
          apply (fh_makeinv_pad inp s0 s1 (I' - 2) (J' - 2) (by omega) (by omega)).1
          rw [← hpp]
          rcases connected_nonzero _ _ _ _ _ _ hp with h0 | h0
          · exfalso
            rw [hpp] at h0
            unfold pad at h0
            omega
          · exact h0
        refine ⟨n, Relation.ReflTransGen.head ⟨?_, hpv⟩ hreg, hbor⟩
        exact ⟨a, b, I' - 2, J' - 2, rfl, rfl, ha, hb, by omega, by omega, by omega, by omega,
          by omega, by omega, by omega⟩
      · -- the step comes from the margin: the pixel is on the border
        exact ⟨a * s1 + b, Relation.ReflTransGen.refl, a, b, rfl, ha, hb, by omega⟩

/-- The pixels that `fillboundedholes` sets to 1 are those that are not 1
and whose 8-connected region of pixels that are not 1 has no pixel on the
border of the grid; the other pixels keep their value. -/
theorem fillboundedholes_region (inp : List Nat) (s0 s1 a b : Nat)
    (hlen : inp.length = s0 * s1) (ha : a < s0) (hb : b < s1)
    (hv : rdN inp (a * s1 + b) ≠ 1) :
    ((∃ n, hole_region8 inp s0 s1 (a * s1 + b) n ∧ on_border s0 s1 n) →
        rdN (fillboundedholes inp s0 s1) (a * s1 + b) = rdN inp (a * s1 + b))
    ∧ ((¬ ∃ n, hole_region8 inp s0 s1 (a * s1 + b) n ∧ on_border s0 s1 n) →
        rdN (fillboundedholes inp s0 s1) (a * s1 + b) = 1) := by
  obtain ⟨hone, hkeep⟩ := fillboundedholes_reach inp s0 s1 a b hlen ha hb
  constructor
  · rintro ⟨n, hreg, hbor⟩
    apply hkeep
    intro h1
    rcases hone.1 h1 with h | h
    · exact hv h
    · exact h (reach_of_region inp s0 s1 _ n hreg hbor a b ha hb rfl hv)
  · intro hno
    apply hone.2
    right
    intro hc
    exact hno (region_of_reach inp s0 s1 _ hc a b ha hb rfl)

/-! ## Hole filling: the regions of the sample grids -/

theorem adj8_lt_ne (s0 s1 k c : Nat) (h : adj8 s0 s1 k c) : c < s0 * s1 ∧ c ≠ k := by
  obtain ⟨i, j, i', j', hk, hc, hi, hj, hi', hj', _, _, _, _, hne⟩ := h
  refine ⟨by rw [hc]; exact index_lt s0 s1 i' j' hi' hj', fun he => ?_⟩
  obtain ⟨h1, h2⟩ := coords_unique s1 i' j' i j hj' hj (by rw [← hc, ← hk, he])
  omega

/-- A region that no step can leave is its first pixel alone. -/
theorem region_stuck (R : Nat → Nat → Prop) (k n : Nat) (hno : ∀ c, ¬ R k c)
    (h : Relation.ReflTransGen R k n) : n = k := by
  rcases Relation.ReflTransGen.cases_head h with h | ⟨c, hc, _⟩
  · exact h.symm
  · exact absurd hc (hno c)

theorem adj4_centre (c : Nat) (h : adj4 3 3 (1 * 3 + 1) c) : c = 1 ∨ c = 3 ∨ c = 5 ∨ c = 7 := by
  obtain ⟨i, j, i', j', hk, hc, hi, hj, hi', hj', hor⟩ := h
  omega

theorem not_border_centre : ¬ on_border 3 3 (1 * 3 + 1) := by
  rintro ⟨i, j, hn, hi, hj, hedge⟩
  omega

/-- In a grid of three rows and columns whose pixels around the centre are
all 1, the 8-connected region of the centre among the pixels that are not 1
has no pixel on the border. -/
theorem enclosed_centre (inp : List Nat) (h : ∀ n, n < 9 → n ≠ 4 → rdN inp n = 1) :
    ¬ ∃ n, hole_region8 inp 3 3 (1 * 3 + 1) n ∧ on_border 3 3 n := by
  rintro ⟨n, hreg, hbor⟩
  have hstuck : n = 1 * 3 + 1 := by
    apply region_stuck _ _ _ _ hreg
    rintro c ⟨hadj, hc⟩
    obtain ⟨hlt, hne⟩ := adj8_lt_ne 3 3 _ c hadj
    exact hc (h c hlt hne)
  rw [hstuck] at hbor
  exact not_border_centre hbor

/-! ## C21: which holes are filled -/

/-- C21, the claim as worded fails: in the grid `sample_leak` of three
rows and columns the centre is 0 and its four orthogonal neighbours are 1,
so its 4-connected region of 0-pixels is the centre alone and has no pixel
on the border of the grid; the centre is still 0 after `fillboundedholes`,
because it touches the corner pixel, which is 0, by a diagonal. -/
theorem fill_four_connected_counterexample :
    is_grid01 (3 * 3) sample_leak
    ∧ rdN sample_leak (1 * 3 + 1) = 0
    ∧ (¬ ∃ n, zero_region4 sample_leak 3 3 (1 * 3 + 1) n ∧ on_border 3 3 n)
    ∧ rdN (fillboundedholes sample_leak 3 3) (1 * 3 + 1) = 0 := by
  refine ⟨⟨rfl, by decide⟩, rfl, ?_, ?_⟩
  · rintro ⟨n, hreg, hbor⟩
    have hstuck : n = 1 * 3 + 1 := by
      apply region_stuck _ _ _ _ hreg
      rintro c ⟨hadj, hc⟩
      rcases adj4_centre c hadj with rfl | rfl | rfl | rfl <;> exact absurd hc (by decide)
    rw [hstuck] at hbor
    exact not_border_centre hbor
  · have h := (fillboundedholes_region sample_leak 3 3 1 1 rfl (by decide) (by decide)
      (by decide)).1 ⟨0, Relation.ReflTransGen.single
        ⟨⟨1, 1, 0, 0, rfl, rfl, by decide, by decide, by decide, by decide, by decide, by decide,
          by decide, by decide, by decide⟩, by decide⟩,
        0, 0, rfl, by decide, by decide, Or.inl rfl⟩
    rw [h]
    rfl

/-- C21, amended: for every grid over {0,1} of `s0` rows and `s1` columns,
with `BF_concmp` labelling the 8-connected components of the non-zero pixels
from 1 upward in scan order, after `fillboundedholes` every pixel that was 0
and belonged to an 8-connected region of 0-pixels with no pixel on the border
of the grid is 1, and every 0-pixel whose 4-connected region of 0-pixels has
a pixel on the border is still 0. -/
theorem fillboundedholes_fills (inp : List Nat) (s0 s1 a b : Nat)
    (hgrid : is_grid01 (s0 * s1) inp) (ha : a < s0) (hb : b < s1)
    (hz : rdN inp (a * s1 + b) = 0) :
    ((¬ ∃ n, zero_region8 inp s0 s1 (a * s1 + b) n ∧ on_border s0 s1 n) →
        rdN (fillboundedholes inp s0 s1) (a * s1 + b) = 1)
    ∧ ((∃ n, zero_region4 inp s0 s1 (a * s1 + b) n ∧ on_border s0 s1 n) →
        rdN (fillboundedholes inp s0 s1) (a * s1 + b) = 0) := by
  have hv : rdN inp (a * s1 + b) ≠ 1 := by
    rw [hz]
    decide
  obtain ⟨hkeep, hfill⟩ := fillboundedholes_region inp s0 s1 a b hgrid.1 ha hb hv
  constructor
  · intro hno
    apply hfill
    rintro ⟨n, hreg, hbor⟩
    refine hno ⟨n, ?_, hbor⟩
    refine Relation.ReflTransGen.mono ?_ hreg
    rintro x y ⟨hadj, hy⟩
    refine ⟨hadj, ?_⟩
    rcases hgrid.2 y (adj8_lt_ne s0 s1 x y hadj).1 with h | h
    · exact h
    · exact absurd h hy
  · rintro ⟨n, hreg, hbor⟩
    rw [hkeep ⟨n, ?_, hbor⟩, hz]
    refine Relation.ReflTransGen.mono ?_ hreg
    rintro x y ⟨hadj, hy⟩
    refine ⟨adj4_adj8 s0 s1 x y hadj, ?_⟩
    rw [hy]
    decide

/-- The centre of the grid `sample_hole`, which is 0 and enclosed by
1-pixels, is 1 after `fillboundedholes`. -/
theorem fillboundedholes_fills_witness :
    is_grid01 (3 * 3) sample_hole
    ∧ rdN sample_hole (1 * 3 + 1) = 0
    ∧ rdN (fillboundedholes sample_hole 3 3) (1 * 3 + 1) = 1 :=
  ⟨⟨rfl, by decide⟩, rfl,
    (fillboundedholes_fills sample_hole 3 3 1 1 ⟨rfl, by decide⟩ (by decide) (by decide) rfl).1
      (fun ⟨n, hreg, hbor⟩ => enclosed_centre sample_hole (by decide)
        ⟨n, Relation.ReflTransGen.mono
          (fun _ y hxy => ⟨hxy.1, by rw [hxy.2]; decide⟩) hreg, hbor⟩)⟩

/-! ## C23: blank pixels and hole filling -/

/-- C23, the claim as worded fails: in the grid `sample_blank_hole` of
three rows and columns the centre is blank and enclosed by 1-pixels, and
after `fillboundedholes` the centre is 1. -/
theorem blank_hole_counterexample :
    (∀ k, k < 3 * 3 → rdN sample_blank_hole k = 0 ∨ rdN sample_blank_hole k = 1
      ∨ rdN sample_blank_hole k = GAL_BLANK_UINT8)
    ∧ rdN sample_blank_hole (1 * 3 + 1) = GAL_BLANK_UINT8
    ∧ rdN (fillboundedholes sample_blank_hole 3 3) (1 * 3 + 1) = 1 :=
  ⟨by decide, rfl,
    (fillboundedholes_region sample_blank_hole 3 3 1 1 rfl (by decide) (by decide) (by decide)).2
      (enclosed_centre sample_blank_hole (by decide))⟩

/-- C23, amended: for every grid of `s0` rows and `s1` columns, among
them those whose pixels are 0, 1 or the blank value 255, a pixel that is
blank before `fillboundedholes` is still blank after it when its
8-connected region of pixels that are not 1 has a pixel on the border of
the grid; a blank pixel whose region has no pixel on the border, as one
enclosed by 1-pixels, is 1 after it. -/
theorem blank_kept_unless_enclosed (inp : List Nat) (s0 s1 a b : Nat)
    (hlen : inp.length = s0 * s1) (ha : a < s0) (hb : b < s1)
    (hblank : rdN inp (a * s1 + b) = GAL_BLANK_UINT8) :
    ((∃ n, hole_region8 inp s0 s1 (a * s1 + b) n ∧ on_border s0 s1 n) →
        rdN (fillboundedholes inp s0 s1) (a * s1 + b) = GAL_BLANK_UINT8)
    ∧ ((¬ ∃ n, hole_region8 inp s0 s1 (a * s1 + b) n ∧ on_border s0 s1 n) →
        rdN (fillboundedholes inp s0 s1) (a * s1 + b) = 1) := by
  have hv : rdN inp (a * s1 + b) ≠ 1 := by
    rw [hblank]
    decide
  obtain ⟨hkeep, hfill⟩ := fillboundedholes_region inp s0 s1 a b hlen ha hb hv
  exact ⟨fun h => by rw [hkeep h, hblank], hfill⟩

/-- The blank pixel of the first row of the grid `sample_blank` is still
blank after `fillboundedholes`. -/
theorem blank_kept_unless_enclosed_witness :
    sample_blank.length = 3 * 3
    ∧ rdN sample_blank (0 * 3 + 2) = GAL_BLANK_UINT8
    ∧ rdN (fillboundedholes sample_blank 3 3) (0 * 3 + 2) = GAL_BLANK_UINT8 :=
  ⟨rfl, rfl,
    (blank_kept_unless_enclosed sample_blank 3 3 0 2 rfl (by decide) (by decide) rfl).1
      ⟨0 * 3 + 2, Relation.ReflTransGen.refl, 0, 2, rfl, by decide, by decide, Or.inl rfl⟩⟩

/-! ## C31: the divisors of `detection_sn` -/

/-- A value greater than zero is not zero. -/
theorem Flt.ne_zero_of_gt {x : Flt} (h : Flt.gt x (Flt.fin 0) = true) : x ≠ Flt.fin 0 := by
  intro h0
  rw [h0] at h
  exact absurd h (by decide)

theorem div_checked_of_zero (a : FloatArith) (prec : Prec) (x : Flt) {y : Flt}
    (h : y = Flt.fin 0) : div_checked a prec x y = none := by
  unfold div_checked
  rw [if_pos h]

theorem div_checked_of_ne (a : FloatArith) (prec : Prec) (x : Flt) {y : Flt}
    (h : y ≠ Flt.fin 0) : div_checked a prec x y = some (a.div prec x y) := by
  unfold div_checked
  rw [if_neg h]

theorem all_checked_some (g : Nat → Flt) (l : List Nat) :
    all_checked (l.map (fun j => some (g j))) = some (l.map g) := by
  induction l with
  | nil => rfl
  | cons x xs ih =>
      simp only [List.map_cons, all_checked, ih]
      rfl

/-- Watched divisions by one divisor that is not zero all have a result. -/
theorem all_checked_map (a : FloatArith) (w : Flt) (hw : w ≠ Flt.fin 0) (f : Nat → Flt)
    (l : List Nat) :
    all_checked (l.map (fun j => div_checked a Prec.double (f j) w))
      = some (l.map (fun j => a.div Prec.double (f j) w)) := by
  have hd : (fun j => div_checked a Prec.double (f j) w)
      = (fun j => some (a.div Prec.double (f j) w)) :=
    funext (fun j => div_checked_of_ne a Prec.double (f j) hw)
  rw [hd]
  exact all_checked_some _ l

/-- One watched pass of the S/N loop: it divides by zero when `area[i]` is
zero as a floating-point value, or when the label passes the test and
`p->cpscorr` or `sqrt(ave+err)` is zero; otherwise it is the pass of
`detection_sn`. -/
theorem detection_sn_fill_step_checked_eq (p : noisechiselparams) (acc : snarrays)
    (s0d1D2 : Nat) (s : snfill) (i : Nat) :
    detection_sn_fill_step_checked p acc s0d1D2 s i
      = (if p.arith.ofNat Prec.double (rdN acc.area i) = Flt.fin 0
            ∨ (detection_sn_eligible p acc i = true
                ∧ (p.cpscorr = Flt.fin 0 ∨ detection_sn_noise p acc i = Flt.fin 0))
         then none else some (detection_sn_fill_step p acc s0d1D2 s i)) := by
  by_cases hA : p.arith.ofNat Prec.double (rdN acc.area i) = Flt.fin 0
  · have hb : p.arith.ofNat Prec.double (rdN acc.area i) = Flt.fin 0
        ∨ (detection_sn_eligible p acc i = true
            ∧ (p.cpscorr = Flt.fin 0 ∨ detection_sn_noise p acc i = Flt.fin 0)) := Or.inl hA
    rw [if_pos hb]
    unfold detection_sn_fill_step_checked div_checked
    simp only [hA, if_true]
    rfl
  · have hstart : detection_sn_fill_step_checked p acc s0d1D2 s i
        = (if detection_sn_eligible p acc i = true then
            (all_checked ((List.range p.ndim).map (fun j =>
                div_checked p.arith Prec.double (rdF acc.pos (i * (1 + p.ndim) + j + 1))
                  (rdF acc.pos (i * (1 + p.ndim)))))).bind (fun q =>
              (div_checked p.arith Prec.single (p.arith.ofNat Prec.single (rdN acc.area i))
                  p.cpscorr).bind
                (fun r =>
                  (div_checked p.arith Prec.double
                      (p.arith.mul Prec.double (p.arith.sqrt Prec.double r)
                        (p.arith.sub Prec.double (detection_sn_ave p acc i)
                          (rdF p.sky (p.gal_tile_full_id_from_coord
                            (q.map p.GAL_DIMENSION_FLT_TO_INT)))))
                      (p.arith.sqrt Prec.double (p.arith.add Prec.double
                        (p.arith.sub Prec.double (detection_sn_ave p acc i)
                          (rdF p.sky (p.gal_tile_full_id_from_coord
                            (q.map p.GAL_DIMENSION_FLT_TO_INT))))
                        (p.arith.mul Prec.double
                          (rdF p.std (p.gal_tile_full_id_from_coord
                            (q.map p.GAL_DIMENSION_FLT_TO_INT)))
                          (if p.skysubtracted then
                              rdF p.std (p.gal_tile_full_id_from_coord
                                (q.map p.GAL_DIMENSION_FLT_TO_INT))
                            else p.arith.mul Prec.double (Flt.fin 2)
                              (rdF p.std (p.gal_tile_full_id_from_coord
                                (q.map p.GAL_DIMENSION_FLT_TO_INT)))))))).map (fun v =>
                    { snarr := s.snarr.set (if s0d1D2 ≠ 0 then i else s.counter)
                        (p.arith.cvt Prec.single v)
                      indarr := s.indarr.map (fun x =>
                        x.set (if s0d1D2 ≠ 0 then i else s.counter) (i : Int))
                      counter := if s0d1D2 ≠ 0 then s.counter else s.counter + 1 })))
          else if s0d1D2 ≠ 0 then
            some { s with
              snarr := s.snarr.set i Flt.nan
              indarr := s.indarr.map (fun x => x.set i GAL_BLANK_INT32) }
          else some s) := by
      unfold detection_sn_fill_step_checked div_checked
      simp only [if_neg hA]
      rfl
    rw [hstart]
    by_cases he : detection_sn_eligible p acc i = true
    · rw [if_pos he]
      have hw : rdF acc.pos (i * (1 + p.ndim)) ≠ Flt.fin 0 := by
        apply Flt.ne_zero_of_gt
        unfold detection_sn_eligible at he
        simp only [Bool.and_eq_true] at he
        exact he.2
      rw [all_checked_map p.arith _ hw (fun j => rdF acc.pos (i * (1 + p.ndim) + j + 1))]
      simp only [Option.some_bind, List.map_map]
      by_cases hc : p.cpscorr = Flt.fin 0
      · have hb : p.arith.ofNat Prec.double (rdN acc.area i) = Flt.fin 0
            ∨ (detection_sn_eligible p acc i = true
                ∧ (p.cpscorr = Flt.fin 0 ∨ detection_sn_noise p acc i = Flt.fin 0)) :=
          Or.inr ⟨he, Or.inl hc⟩
        rw [if_pos hb, div_checked_of_zero _ _ _ hc]
        rfl
      · have hcd : div_checked p.arith Prec.single (p.arith.ofNat Prec.single (rdN acc.area i))
            p.cpscorr = some (p.arith.div Prec.single
              (p.arith.ofNat Prec.single (rdN acc.area i)) p.cpscorr) := by
          unfold div_checked
          rw [if_neg hc]
        rw [hcd]
        simp only [Option.some_bind]
        show Option.map _ (div_checked p.arith Prec.double (detection_sn_signal p acc i)
          (detection_sn_noise p acc i)) = _
        by_cases hn : detection_sn_noise p acc i = Flt.fin 0
        · have hb : p.arith.ofNat Prec.double (rdN acc.area i) = Flt.fin 0
              ∨ (detection_sn_eligible p acc i = true
                  ∧ (p.cpscorr = Flt.fin 0 ∨ detection_sn_noise p acc i = Flt.fin 0)) :=
            Or.inr ⟨he, Or.inr hn⟩
          rw [if_pos hb, div_checked_of_zero _ _ _ hn]
          rfl
        · have hnb : ¬ (p.arith.ofNat Prec.double (rdN acc.area i) = Flt.fin 0
              ∨ (detection_sn_eligible p acc i = true
                  ∧ (p.cpscorr = Flt.fin 0 ∨ detection_sn_noise p acc i = Flt.fin 0))) := by
            rintro (h | ⟨_, h | h⟩)
            · exact hA h
            · exact hc h
            · exact hn h
          rw [if_neg hnb, div_checked_of_ne _ _ _ hn]
          unfold detection_sn_fill_step
          rw [if_pos he]
          rfl
    · have hnb : ¬ (p.arith.ofNat Prec.double (rdN acc.area i) = Flt.fin 0
          ∨ (detection_sn_eligible p acc i = true
              ∧ (p.cpscorr = Flt.fin 0 ∨ detection_sn_noise p acc i = Flt.fin 0))) := by
        rintro (h | ⟨h, _⟩)
        · exact hA h
        · exact he h
      rw [if_neg he, if_neg hnb]
      unfold detection_sn_fill_step
      rw [if_neg he]
      split <;> rfl

/-- The watched S/N loop over the labels of `l`: it has no result when one of
its passes divides by zero, and otherwise gives what the loop of
`detection_sn` gives. -/
theorem detection_sn_fill_checked_from_eq (p : noisechiselparams) (acc : snarrays)
    (s0d1D2 : Nat) (l : List Nat) (s : snfill) :
    (detection_sn_fill_checked_from p acc s0d1D2 s l = none ↔
        ∃ i ∈ l, p.arith.ofNat Prec.double (rdN acc.area i) = Flt.fin 0
          ∨ (detection_sn_eligible p acc i = true
              ∧ (p.cpscorr = Flt.fin 0 ∨ detection_sn_noise p acc i = Flt.fin 0)))
    ∧ ∀ s1, detection_sn_fill_checked_from p acc s0d1D2 s l = some s1 →
        s1 = l.foldl (detection_sn_fill_step p acc s0d1D2) s := by
  induction l generalizing s with
  | nil =>
      refine ⟨⟨fun h => absurd h (by simp [detection_sn_fill_checked_from]), ?_⟩, ?_⟩
      · rintro ⟨i, hi, _⟩
        exact absurd hi (List.not_mem_nil i)
      · intro s1 h
        simp only [detection_sn_fill_checked_from, Option.some.injEq] at h
        exact h.symm
  | cons x xs ih =>
      unfold detection_sn_fill_checked_from
      rw [detection_sn_fill_step_checked_eq]
      by_cases hb : p.arith.ofNat Prec.double (rdN acc.area x) = Flt.fin 0
          ∨ (detection_sn_eligible p acc x = true
              ∧ (p.cpscorr = Flt.fin 0 ∨ detection_sn_noise p acc x = Flt.fin 0))
      · rw [if_pos hb]
        refine ⟨⟨fun _ => ⟨x, List.mem_cons_self _ _, hb⟩, fun _ => rfl⟩, ?_⟩
        intro s1 h
        exact absurd h (by simp)
      · rw [if_neg hb]
        simp only [Option.some_bind, List.foldl_cons]
        obtain ⟨h1, h2⟩ := ih (detection_sn_fill_step p acc s0d1D2 s x)
        refine ⟨⟨fun h => ?_, ?_⟩, h2⟩
        · obtain ⟨i, hi, hbi⟩ := h1.1 h
          exact ⟨i, List.mem_cons_of_mem _ hi, hbi⟩
        · rintro ⟨i, hi, hbi⟩
          rcases List.mem_cons.1 hi with rfl | hi
          · exact absurd hbi hb
          · exact h1.2 ⟨i, hi, hbi⟩

/-- C31, the claim as worded fails: divisions by zero are evaluated.  For
the label 1 of a pseudo-detection whose only pixel is blank, `area[1]` is 0
where `detection_sn` evaluates `brightness[1]/area[1]`; and for the label 1
of one pixel of value 1 on a tile whose Sky is 1 and whose Sky standard
deviation is 0, `area[1]` is 1, the label passes the test, the dividend and
the divisor `sqrt(ave+err)` of the S/N are 0 and the S/N that `detection_sn`
stores at index 1 is not-a-number.  On both inputs `detection_sn` with its
divisions watched has no result. -/
theorem detection_sn_divisor_counterexample :
    (detection_sn_checked sample_blank_pseudo [1] 1 1 = none
      ∧ sample_blank_pseudo.arith.ofNat Prec.double
          (rdN (detection_sn_accumulate sample_blank_pseudo [1] 1 1).area 1) = Flt.fin 0)
    ∧ (detection_sn_checked sample_flat [1] 1 1 = none
      ∧ sample_flat.arith.ofNat Prec.double
          (rdN (detection_sn_accumulate sample_flat [1] 1 1).area 1) = Flt.fin 1
      ∧ detection_sn_eligible sample_flat (detection_sn_accumulate sample_flat [1] 1 1) 1 = true
      ∧ detection_sn_signal sample_flat (detection_sn_accumulate sample_flat [1] 1 1) 1
          = Flt.fin 0
      ∧ detection_sn_noise sample_flat (detection_sn_accumulate sample_flat [1] 1 1) 1
          = Flt.fin 0
      ∧ detection_sn_value sample_flat (detection_sn_accumulate sample_flat [1] 1 1) 1
          = Flt.nan
      ∧ (detection_sn sample_flat [1] 1 1).toOption.map (fun r => r.sn.array)
          = some [Flt.nan, Flt.nan]) := by
  refine ⟨⟨?_, by decide!⟩, ⟨?_, by decide!, by decide!, by decide!, by decide!, by decide!,
    by decide!⟩⟩
  · exact Option.isNone_iff_eq_none.1 (by decide!)
  · exact Option.isNone_iff_eq_none.1 (by decide!)

/-- C31, amended: `detection_sn` with every division of its S/N loop
watched is `detection_sn` when no division by zero is evaluated, and a
division by zero is evaluated exactly when, for some label `i` of `1..num`,
the divisor `area[i]` of `brightness[i]/area[i]` (evaluated for every label,
before the test) is zero, or the label passes the test and `p->cpscorr` or
the divisor `sqrt(ave+err)` of the S/N is zero: never because of the
divisor `pos[i*pcols]` of the flux-weighted centre, which is greater than
zero for every label that passes the test, as its area is above
`detsnminarea`.  The S/N stored for a label is the quotient of
`detection_sn_signal` by `detection_sn_noise`. -/
theorem detection_sn_divisions_guarded (p : noisechiselparams) (worklab : List Int)
    (num s0d1D2 : Nat) :
    (∀ r, detection_sn_checked p worklab num s0d1D2 = some r →
        r = detection_sn p worklab num s0d1D2)
    ∧ (detection_sn_checked p worklab num s0d1D2 = none ↔
        (p.ndim = 2 ∨ p.ndim = 3)
        ∧ ∃ i, 1 ≤ i ∧ i ≤ num
          ∧ (p.arith.ofNat Prec.double
                (rdN (detection_sn_accumulate p worklab num s0d1D2).area i) = Flt.fin 0
            ∨ (detection_sn_eligible p (detection_sn_accumulate p worklab num s0d1D2) i = true
                ∧ (p.cpscorr = Flt.fin 0
                    ∨ detection_sn_noise p (detection_sn_accumulate p worklab num s0d1D2) i
                        = Flt.fin 0))))
    ∧ (∀ i, detection_sn_eligible p (detection_sn_accumulate p worklab num s0d1D2) i = true →
        Flt.gt (rdF (detection_sn_accumulate p worklab num s0d1D2).pos (i * (1 + p.ndim)))
            (Flt.fin 0) = true
        ∧ rdF (detection_sn_accumulate p worklab num s0d1D2).pos (i * (1 + p.ndim)) ≠ Flt.fin 0
        ∧ rdN (detection_sn_accumulate p worklab num s0d1D2).area i > p.detsnminarea)
    ∧ (∀ i, detection_sn_value p (detection_sn_accumulate p worklab num s0d1D2) i
        = p.arith.cvt Prec.single (p.arith.div Prec.double
            (detection_sn_signal p (detection_sn_accumulate p worklab num s0d1D2) i)
            (detection_sn_noise p (detection_sn_accumulate p worklab num s0d1D2) i))) := by
  obtain ⟨hnone, hsome⟩ := detection_sn_fill_checked_from_eq p
    (detection_sn_accumulate p worklab num s0d1D2) s0d1D2 (List.range' 1 num)
    (snfill.init p num s0d1D2)
  refine ⟨?_, ?_, ?_, fun i => rfl⟩
  · intro r hr
    unfold detection_sn_checked at hr
    unfold detection_sn
    by_cases hnd : p.ndim ≠ 2 ∧ p.ndim ≠ 3
    · rw [if_pos hnd] at hr ⊢
      exact (Option.some.inj hr).symm
    · rw [if_neg hnd] at hr ⊢
      cases hf : detection_sn_fill_checked_from p (detection_sn_accumulate p worklab num s0d1D2)
          s0d1D2 (snfill.init p num s0d1D2) (List.range' 1 num) with
      | none =>
          simp only [hf, Option.map_none'] at hr
          exact absurd hr (by simp)
      | some s1 =>
          simp only [hf, Option.map_some', Option.some.injEq] at hr
          have := hsome s1 hf
          rw [← hr, this]
          rfl
  · unfold detection_sn_checked
    by_cases hnd : p.ndim ≠ 2 ∧ p.ndim ≠ 3
    · rw [if_pos hnd]
      constructor
      · intro h
        exact absurd h (by simp)
      · rintro ⟨h, _⟩
        omega
    · rw [if_neg hnd]
      simp only [Option.map_eq_none']
      rw [hnone]
      constructor
      · rintro ⟨i, hi, hb⟩
        rw [List.mem_range'_1] at hi
        exact ⟨by omega, i, hi.1, by omega, hb⟩
      · rintro ⟨_, i, h1, h2, hb⟩
        exact ⟨i, List.mem_range'_1.2 ⟨h1, by omega⟩, hb⟩
  · intro i he
    unfold detection_sn_eligible at he
    simp only [Bool.and_eq_true, decide_eq_true_eq] at he
    exact ⟨he.2, Flt.ne_zero_of_gt he.2, he.1.1⟩

/-! ## C33: the check image and the detection result -/

theorem eligible_of_small (p : noisechiselparams) (acc : snarrays) (j : Nat)
    (harith : ∀ (b : Flt) (n : Nat), Flt.lt b (Flt.fin 0) = true →
      Flt.gt (p.arith.div Prec.double b (p.arith.ofNat Prec.double n)) (Flt.fin 0) = false)
    (h : rdN acc.area j < p.detsnminarea ∨ Flt.lt (rdF acc.brightness j) (Flt.fin 0) = true) :
    detection_sn_eligible p acc j = false := by
  unfold detection_sn_eligible
  rcases h with h | h
  · have : decide (rdN acc.area j > p.detsnminarea) = false := by
      rw [decide_eq_false_iff_not]
      omega
    rw [this]
    rfl
  · have : Flt.gt (detection_sn_ave p acc j) (Flt.fin 0) = false := harith _ _ h
    rw [this, Bool.and_false, Bool.false_and]

/-- In the role of the detections, the array `keep` is 0 at the label 0 and
at every label that the check-image step of `detection_sn` sets to zero. -/
theorem keep_of_small (p : noisechiselparams) (worklab : List Int) (num j : Nat)
    (harith : ∀ (b : Flt) (n : Nat), Flt.lt b (Flt.fin 0) = true →
      Flt.gt (p.arith.div Prec.double b (p.arith.ofNat Prec.double n)) (Flt.fin 0) = false)
    (h : j = 0 ∨ rdN (detection_sn_accumulate p worklab num 1).area j < p.detsnminarea
      ∨ Flt.lt (rdF (detection_sn_accumulate p worklab num 1).brightness j) (Flt.fin 0) = true) :
    rdN (detection_pseudo_keep p
      { array := (detection_sn_fill p (detection_sn_accumulate p worklab num 1) num 1).snarr,
        size := num + 1 }) j = 0 := by
  have hval := (detection_sn_fill_det_upto p (detection_sn_accumulate p worklab num 1) num 1
    (by decide) num (Nat.le_refl _)).2 j
  have hfill : (List.range' 1 num).foldl
      (detection_sn_fill_step p (detection_sn_accumulate p worklab num 1) 1)
      (snfill.init p num 1)
      = detection_sn_fill p (detection_sn_accumulate p worklab num 1) num 1 := rfl
  rw [hfill] at hval
  have hsn : ¬ (j < num + 1
      ∧ Flt.gt (rdF (detection_sn_fill p (detection_sn_accumulate p worklab num 1) num 1).snarr j)
          p.detsnthresh = true) := by
    rintro ⟨hj, hg⟩
    rw [hval] at hg
    by_cases hj0 : j = 0
    · rw [if_pos hj0, Flt.gt_nan_left] at hg
      exact absurd hg (by decide)
    · rw [if_neg hj0, if_pos ⟨by omega, by omega⟩] at hg
      have hs : rdN (detection_sn_accumulate p worklab num 1).area j < p.detsnminarea
          ∨ Flt.lt (rdF (detection_sn_accumulate p worklab num 1).brightness j) (Flt.fin 0)
            = true := by
        rcases h with h | h
        · exact absurd h hj0
        · exact h
      rw [eligible_of_small p _ j harith hs] at hg
      simp only [Bool.false_eq_true, if_false, Flt.gt_nan_left] at hg
  rw [detection_pseudo_keep_spec]
  exact if_neg hsn

/-- C33: in the role of the detections, for every image of two or three
dimensions, pseudo-label grid, number of labels and threshold, on a machine
where a negative value divided by a count is not greater than zero,
`detection_sn` returns the same S/N table with and without
`p->detectionname`, and `detection_pseudo_remove_low_sn` on the label grid
that `detection_sn` leaves gives the same `workbin` in both cases. -/
theorem check_image_keeps_workbin (p : noisechiselparams) (worklab : List Int) (num : Nat)
    (hdim : p.ndim = 2 ∨ p.ndim = 3)
    (harith : ∀ (b : Flt) (n : Nat), Flt.lt b (Flt.fin 0) = true →
      Flt.gt (p.arith.div Prec.double b (p.arith.ofNat Prec.double n)) (Flt.fin 0) = false) :
    ∃ r0 r1, detection_sn { p with detectionname := false } worklab num 1 = Except.ok r0
      ∧ detection_sn { p with detectionname := true } worklab num 1 = Except.ok r1
      ∧ r1.sn = r0.sn
      ∧ detection_pseudo_remove_low_sn { p with detectionname := true } r1.worklab r1.sn
        = detection_pseudo_remove_low_sn { p with detectionname := false } r0.worklab r0.sn := by
  have hnd : ¬ (p.ndim ≠ 2 ∧ p.ndim ≠ 3) := by omega
  have hna : ∀ b : Bool, ¬ (b = true ∧ 1 = 2 ∧ p.continueaftercheck = false) := by
    rintro b ⟨_, h2, _⟩
    exact absurd h2 (by decide)
  have e : ∀ b : Bool, detection_sn { p with detectionname := b } worklab num 1
      = Except.ok
          { sn := { array := (detection_sn_fill p (detection_sn_accumulate p worklab num 1)
                      num 1).snarr,
                    size := num + 1 }
            snind := (detection_sn_fill p (detection_sn_accumulate p worklab num 1)
                      num 1).indarr.map (fun a => a.take (num + 1))
            worklab := detection_sn_check { p with detectionname := b }
              (detection_sn_accumulate p worklab num 1) 1 worklab } := by
    intro b
    rw [detection_sn, if_neg hnd, if_neg (hna _)]
    rfl
  refine ⟨_, _, e false, e true, rfl, ?_⟩
  have hk := keep_of_small p worklab num
  show detection_pseudo_remove_low_sn p
      (detection_sn_check { p with detectionname := true }
        (detection_sn_accumulate p worklab num 1) 1 worklab)
      { array := (detection_sn_fill p (detection_sn_accumulate p worklab num 1) num 1).snarr,
        size := num + 1 }
    = detection_pseudo_remove_low_sn p
      (detection_sn_check { p with detectionname := false }
        (detection_sn_accumulate p worklab num 1) 1 worklab)
      { array := (detection_sn_fill p (detection_sn_accumulate p worklab num 1) num 1).snarr,
        size := num + 1 }
  have h0 : detection_sn_check { p with detectionname := false }
      (detection_sn_accumulate p worklab num 1) 1 worklab = worklab := rfl
  have h1 : detection_sn_check { p with detectionname := true }
      (detection_sn_accumulate p worklab num 1) 1 worklab
      = worklab.map (fun plab =>
          if plab ≠ GAL_BLANK_INT32
              ∧ (rdN (detection_sn_accumulate p worklab num 1).area plab.toNat < p.detsnminarea
                ∨ Flt.lt (rdF (detection_sn_accumulate p worklab num 1).brightness plab.toNat)
                    (Flt.fin 0) = true) then 0
          else plab) := rfl
  rw [h0, h1]
  have hb0 : ¬ ((0 : Int) = GAL_BLANK_INT32) := by decide
  have hk0 := hk 0 harith (Or.inl rfl)
  unfold detection_pseudo_remove_low_sn
  simp only
  split
  · rw [List.map_map]
    apply List.map_congr_left
    intro l _
    simp only [Function.comp_apply]
    by_cases hz : l ≠ GAL_BLANK_INT32
        ∧ (rdN (detection_sn_accumulate p worklab num 1).area l.toNat < p.detsnminarea
          ∨ Flt.lt (rdF (detection_sn_accumulate p worklab num 1).brightness l.toNat)
              (Flt.fin 0) = true)
    · rw [if_pos hz, if_neg hb0, if_neg hz.1, Int.toNat_zero, hk0,
        hk l.toNat harith (Or.inr hz.2)]
    · rw [if_neg hz]
  · rw [List.map_map]
    apply List.map_congr_left
    intro l _
    simp only [Function.comp_apply]
    by_cases hz : l ≠ GAL_BLANK_INT32
        ∧ (rdN (detection_sn_accumulate p worklab num 1).area l.toNat < p.detsnminarea
          ∨ Flt.lt (rdF (detection_sn_accumulate p worklab num 1).brightness l.toNat)
              (Flt.fin 0) = true)
    · rw [if_pos hz, Int.toNat_zero, hk0, hk l.toNat harith (Or.inr hz.2)]
    · rw [if_neg hz]

/-- In exact arithmetic a negative value divided by a count is not greater
than zero. -/
theorem exact_div_sign (b : Flt) (n : Nat) (h : Flt.lt b (Flt.fin 0) = true) :
    Flt.gt (Flt.divExact b (Flt.fin n)) (Flt.fin 0) = false := by
  cases b with
  | nan => exact absurd h (by decide)
  | pinf => exact absurd h (by decide)
  | ninf =>
      have hn : ¬ ((n : ℚ) < 0) := not_lt.2 (Nat.cast_nonneg n)
      simp [Flt.divExact, hn, Flt.gt]
  | fin q =>
      have hq : q < 0 := by simpa [Flt.lt, Flt.gt] using h
      by_cases hn : (n : ℚ) = 0
      · simp [Flt.divExact, hn, Flt.sgn, hq, Flt.ofSgn, Flt.gt]
      · have hpos : (0 : ℚ) < n := lt_of_le_of_ne (Nat.cast_nonneg n) (Ne.symm hn)
        have : ¬ (0 < q / n) := not_lt.2 (le_of_lt (div_neg_of_neg_of_pos hq hpos))
        simp [Flt.divExact, hn, Flt.gt, this]

/-- C33, on the sample image with two pseudo-detections. -/
theorem check_image_keeps_workbin_witness :
    (sample_sn.ndim = 2 ∨ sample_sn.ndim = 3)
    ∧ ∃ r0 r1, detection_sn { sample_sn with detectionname := false } [1, 1, 0, 0, 2, 2] 2 1
          = Except.ok r0
      ∧ detection_sn { sample_sn with detectionname := true } [1, 1, 0, 0, 2, 2] 2 1
          = Except.ok r1
      ∧ r1.sn = r0.sn
      ∧ detection_pseudo_remove_low_sn { sample_sn with detectionname := true } r1.worklab r1.sn
        = detection_pseudo_remove_low_sn { sample_sn with detectionname := false } r0.worklab
            r0.sn :=
  ⟨Or.inl rfl, check_image_keeps_workbin sample_sn [1, 1, 0, 0, 2, 2] 2 (Or.inl rfl)
    (fun b n h => exact_div_sign b n h)⟩

/-! ## C34: opening and the foreground -/

/-- C34: on the grid `sample_upper_right` of three rows and columns, whose
upper right corner is the only pixel that is 0, `opening` of depth 1 with
connectivity 8 returns the grid that is all 1: the corner was 0 and is 1.
The erosion keeps the centre, which does not read its upper right neighbour,
and the dilation then sets the corner, which reads the centre.  With
connectivity 4, on every grid over zero and one with at least two rows and
two columns and for every depth, a pixel that is 1 after `opening` was 1
before. -/
theorem opening_8con_adds_foreground :
    is_grid01 (3 * 3) sample_upper_right
    ∧ rdN sample_upper_right (0 * 3 + 2) = 0
    ∧ opening sample_upper_right 3 3 1 8 = Except.ok [1, 1, 1, 1, 1, 1, 1, 1, 1]
    ∧ ∀ (byt : List Nat) (nr nc d : Nat), 2 ≤ nr → 2 ≤ nc → is_grid01 (nr * nc) byt →
        ∃ o, opening byt nr nc d 4 = Except.ok o
          ∧ ∀ k, k < nr * nc → rdN o k = 1 → rdN byt k = 1 :=
  ⟨⟨rfl, by decide⟩, rfl, rfl, fun byt nr nc d hr hc hg =>
    ⟨_, opening_4con_ok byt nr nc d,
      (morph_pair_4con nr nc hr hc).iterate_dilate_erode_sub d byt hg⟩⟩

/-! ## C35: hole filling only writes 1 -/

/-- C35: for every array of labels `hlab` that `BF_concmp` may leave, every
grid and every pixel `k`, the loop of `fillboundedholes` after the labelling
keeps a pixel that is 1 and leaves the value 1 in every pixel that it
changes; `fillboundedholes` is that loop on the labels of `BF_concmp`. -/
theorem fillboundedholes_only_writes_one (hlab : List Int) (inp : List Nat) (s0 s1 k : Nat) :
    (rdN inp k = 1 → rdN (fillboundedholes_from hlab inp s0 s1) k = 1)
    ∧ (rdN (fillboundedholes_from hlab inp s0 s1) k ≠ rdN inp k →
        rdN (fillboundedholes_from hlab inp s0 s1) k = 1)
    ∧ fillboundedholes inp s0 s1
      = fillboundedholes_from
          (BF_concmp (fh_makeinv inp s0 s1 0 0 0 0).1 (fh_makeinv inp s0 s1 0 0 0 0).2.1
            (fh_makeinv inp s0 s1 0 0 0 0).2.2 8).1 inp s0 s1 := by
  have hval : rdN (fillboundedholes_from hlab inp s0 s1) k = 1
      ∨ rdN (fillboundedholes_from hlab inp s0 s1) k = rdN inp k := by
    unfold fillboundedholes_from
    simp only
    rw [rdN_foldl_cond_set (fun ij : Nat × Nat =>
        rdI hlab (ij.1 * (fh_makeinv inp s0 s1 0 0 0 0).2.2 + ij.2) > 1)
      (fun ij => (ij.1 - ((fh_makeinv inp s0 s1 0 0 0 0).2.1 - s0) / 2) * s1 + ij.2
        - ((fh_makeinv inp s0 s1 0 0 0 0).2.1 - s0) / 2) 1]
    split
    · exact Or.inl rfl
    · exact Or.inr rfl
  refine ⟨fun h1 => ?_, fun hne => ?_, rfl⟩
  · rcases hval with h | h
    · exact h
    · rw [h, h1]
  · rcases hval with h | h
    · exact h
    · exact absurd h hne

/-! ## C38: the bins left behind by `cumulativefp` -/

/-- C38: with one bin from 0 to 1 and the single datum 0, which falls in
the first bin, `cumulativefp` reads outside the array `bins`: its last loop
reads `bins[(cfprow-1)*2+1]` with `cfprow` 0.  With three bins of width 1
from 0 and the data 0, 1, 1, the first two bins are filled with the values 0
and `3/2`, the last filled bin is the second one, and after the last loop
the second and the third bin hold 0, the value of the first bin: the loop
starts at the last filled bin and copies the value of the bin before it. -/
theorem cumulativefp_overwrites_last_bin :
    cumulativefp FloatArith.exact [Flt.fin 0] 1 [Flt.fin 0, Flt.fin 0, Flt.fin 1, Flt.fin 0] 1
        false = none
    ∧ cumulativefp_filled FloatArith.exact [Flt.fin 0, Flt.fin 1, Flt.fin 1] 3
        [Flt.fin 0, Flt.fin 0, Flt.fin 1, Flt.fin 0, Flt.fin 2, Flt.fin 0, Flt.fin 3, Flt.fin 0]
        3 false
      = some ([Flt.fin 0, Flt.fin 0, Flt.fin 1, Flt.fin (3 / 2), Flt.fin 2, Flt.fin 0, Flt.fin 3,
          Flt.fin 0], 1)
    ∧ cumulativefp FloatArith.exact [Flt.fin 0, Flt.fin 1, Flt.fin 1] 3
        [Flt.fin 0, Flt.fin 0, Flt.fin 1, Flt.fin 0, Flt.fin 2, Flt.fin 0, Flt.fin 3, Flt.fin 0]
        3 false
      = some [Flt.fin 0, Flt.fin 0, Flt.fin 1, Flt.fin 0, Flt.fin 2, Flt.fin 0, Flt.fin 3,
          Flt.fin 0] := by
  refine ⟨?_, ?_, ?_⟩ <;> decide!

/-! ## C39: the index of a quantile -/

/-- C39: in exact arithmetic, `indexfromquantile(1, 0.75)` returns 1, the
integer nearest to `0.75`, which is not smaller than the size 1; and
`setbins` on a sorted array of one element with `min==max` and the quantile
`0.25` reads `sorted[indexfromquantile(1, 1-0.25)]`, outside the array. -/
theorem indexfromquantile_reaches_size :
    indexfromquantile FloatArith.exact 1 (Flt.fin (3 / 4)) = Except.ok 1
    ∧ setbins_range FloatArith.exact [Flt.fin 7] 1 (Flt.fin 0) (Flt.fin 0) (Flt.fin (1 / 4))
      = Except.ok none := by
  constructor <;> with_unfolding_all rfl

/-! ## C32: the binary grid and the labels left by `detection` -/

/-- A grid of two rows has no hole to fill: every pixel is on the border,
and `fillboundedholes` leaves the grid as it is. -/
theorem fillboundedholes_two_rows (inp : List Nat) (s1 : Nat) (hlen : inp.length = 2 * s1) :
    fillboundedholes inp 2 s1 = inp := by
  apply List.ext_getElem (by rw [fillboundedholes_length])
  intro n h1 h2
  have hn : n < 2 * s1 := by omega
  have hs : 0 < s1 := by omega
  have ha : n / s1 < 2 := by
    rw [Nat.div_lt_iff_lt_mul hs]
    exact hn
  have hb : n % s1 < s1 := Nat.mod_lt _ hs
  have hk : n / s1 * s1 + n % s1 = n := by
    rw [Nat.mul_comm]
    exact Nat.div_add_mod n s1
  have key : rdN (fillboundedholes inp 2 s1) n = rdN inp n := by
    rw [← hk]
    by_cases hv : rdN inp (n / s1 * s1 + n % s1) = 1
    · rw [hv]
      exact (fillboundedholes_reach inp 2 s1 _ _ hlen ha hb).1.2 (Or.inl hv)
    · refine (fillboundedholes_region inp 2 s1 _ _ hlen ha hb hv).1
        ⟨_, Relation.ReflTransGen.refl, n / s1, n % s1, rfl, ha, hb, ?_⟩
      generalize n / s1 = q at ha
      omega
  unfold rdN at key
  rw [List.getD_eq_getElem _ _ h1, List.getD_eq_getElem _ _ h2] at key
  exact key

theorem toOption_map_eq_some {ε α β : Type} (x : Except ε α) (f : α → β) (v : β)
    (h : x.toOption.map f = some v) : ∃ r, x = Except.ok r ∧ f r = v := by
  cases x with
  | error e => simp [Except.toOption] at h
  | ok r =>
      refine ⟨r, rfl, ?_⟩
      simpa [Except.toOption] using h

set_option maxRecDepth 100000 in
set_option synthInstance.maxSize 1024 in
set_option synthInstance.maxHeartbeats 200000 in
/-- The run of `detection_pseudo_real` on the sample image: the threshold,
the returned grid, the table of the pseudo-detections over the detections,
what `detection_remove_false_initial` makes of the labels and of the grid,
and the table of the final detections. -/
theorem sample_image_pseudo_real :
    (detection_pseudo_real sample_pseudo_lib sample_label_lib
        (sample_pseudo_lib.threshold_apply (sample_pseudo_lib.sky_and_std sample_image))).toOption.map
      (fun r => (r.1.detsnthresh, r.2,
        (detection_sn r.1 (detection_pseudo_find sample_pseudo_lib sample_label_lib r.1 1).2.1
          (detection_pseudo_find sample_pseudo_lib sample_label_lib r.1 1).2.2 1).toOption.map
            (fun f => f.sn.array),
        (detection_remove_false_initial r.1 r.2).1.olabel,
        (detection_remove_false_initial r.1 r.2).2,
        (detection_sn (detection_remove_false_initial r.1 r.2).1
          (detection_remove_false_initial r.1 r.2).1.olabel 1 2).toOption.map
            (fun f => f.sn.array)))
    = some (Flt.fin (2568476 / 522117),
        [1, 1, 0, 0, 0, 0, 0, 0, 0, 0, 0, 0, 0, 0, 0, 0,
         1, 1, 0, 0, 0, 0, 0, 0, 0, 0, 0, 0, 0, 0, 0, 0],
        some [Flt.nan, Flt.fin (1048576 / 207243)],
        [1, 1, 1, 0, 0, 0, 0, 0, 0, 0, 0, 0, 0, 0, 0, 0,
         1, 1, 1, 0, 0, 0, 0, 0, 0, 0, 0, 0, 0, 0, 0, 0],
        ([1, 1, 1, 0, 0, 0, 0, 0, 0, 0, 0, 0, 0, 0, 0, 0,
          1, 1, 1, 0, 0, 0, 0, 0, 0, 0, 0, 0, 0, 0, 0, 0], 1),
        some [Flt.nan, Flt.fin (41095616 / 8518671)]) := by
  decide!

set_option maxRecDepth 100000 in
/-- The run of `detection` on the sample image. -/
theorem sample_image_detection :
    (detection sample_pseudo_lib sample_label_lib sample_image).toOption.map
      (fun r => (r.olabel, r.binary, r.numdetections))
    = some (List.replicate 32 0,
        [1, 1, 1, 0, 0, 0, 0, 0, 0, 0, 0, 0, 0, 0, 0, 0,
         1, 1, 1, 0, 0, 0, 0, 0, 0, 0, 0, 0, 0, 0, 0, 0], 0) := by
  decide!

/-- Whatever the libraries, the image and the detections that
`detection_final_remove_small_sn` removes: when `detection` returns, the
grid it leaves in `p->binary` is `workbin` as
`detection_remove_false_initial` left it (dilated when `p->dilate` is set),
and not the grid that `detection_final_remove_small_sn` rewrote. -/
theorem detection_binary_is_workbin (lib : pseudo_lib) (dl : dilate_lib)
    (p r : noisechiselparams) (h : detection lib dl p = Except.ok r) :
    ∃ q, detection_pseudo_real lib dl (lib.threshold_apply (lib.sky_and_std p)) = Except.ok q
      ∧ (q.1.dilate = 0 → r.binary = (detection_remove_false_initial q.1 q.2).2.1)
      ∧ (q.1.dilate ≠ 0 →
          r.binary = dl.gal_binary_dilate (detection_remove_false_initial q.1 q.2).2.1
            q.1.dilate q.1.ndim 1) := by
  unfold detection at h
  simp only at h
  cases hq : detection_pseudo_real lib dl (lib.threshold_apply (lib.sky_and_std p)) with
  | error e =>
      rw [hq] at h
      exact absurd h (by simp [Except.bind])
  | ok q =>
      rw [hq] at h
      refine ⟨q, rfl, ?_⟩
      have hb : r.binary
          = (if (detection_remove_false_initial q.1 q.2).1.dilate ≠ 0 then
              dl.gal_binary_dilate (detection_remove_false_initial q.1 q.2).2.1
                (detection_remove_false_initial q.1 q.2).1.dilate
                (detection_remove_false_initial q.1 q.2).1.ndim 1
             else (detection_remove_false_initial q.1 q.2).2.1) := by
        simp only [Except.bind, detection_from] at h
        split at h
        · exact absurd h (by simp)
        · split at h
          · exact absurd h (by simp)
          · simp only [Except.ok.injEq] at h
            rw [← h]
      have hd : (detection_remove_false_initial q.1 q.2).1.dilate = q.1.dilate := rfl
      have hn : (detection_remove_false_initial q.1 q.2).1.ndim = q.1.ndim := rfl
      rw [hd, hn] at hb
      constructor
      · intro h0
        rw [hb, if_neg (by simp [h0])]
      · intro h0
        rw [hb, if_pos h0]

/-- C32: whatever the libraries and the image, when `detection` returns
without dilation the grid it leaves in `p->binary` is `workbin` as
`detection_remove_false_initial` left it; and on the sample image
`detection` runs to its end and the grid it leaves in `p->binary` does not
agree with the labels it leaves in `p->olabel`.  Over the Sky there is one
pseudo-detection off the detections, so the S/N table is not empty and
`detection_pseudo_real` returns, with the S/N of that pseudo-detection as
the threshold; the pseudo-detection of the
first detection has a higher S/N, so `detection_remove_false_initial` keeps
that detection (label 1, `workbin` 1 on its six pixels) and removes the
second one; the S/N of the whole first detection is below the threshold, so
`detection_final_remove_small_sn` removes it, and `detection` returns with
the label 0 on every pixel and the binary value 1 on the six pixels of the
first detection. -/
theorem detection_binary_keeps_removed :
    (∀ (lib : pseudo_lib) (dl : dilate_lib) (p r : noisechiselparams),
        detection lib dl p = Except.ok r →
        ∃ q, detection_pseudo_real lib dl (lib.threshold_apply (lib.sky_and_std p)) = Except.ok q
          ∧ (q.1.dilate = 0 → r.binary = (detection_remove_false_initial q.1 q.2).2.1))
    ∧ (∃ r, detection_pseudo_real sample_pseudo_lib sample_label_lib
          (sample_pseudo_lib.threshold_apply (sample_pseudo_lib.sky_and_std sample_image))
        = Except.ok r
      ∧ r.1.detsnthresh = Flt.fin (2568476 / 522117)
      ∧ r.2 = [1, 1, 0, 0, 0, 0, 0, 0, 0, 0, 0, 0, 0, 0, 0, 0,
               1, 1, 0, 0, 0, 0, 0, 0, 0, 0, 0, 0, 0, 0, 0, 0]
      ∧ (detection_sn r.1 (detection_pseudo_find sample_pseudo_lib sample_label_lib r.1 1).2.1
          (detection_pseudo_find sample_pseudo_lib sample_label_lib r.1 1).2.2 1).toOption.map
            (fun f => f.sn.array) = some [Flt.nan, Flt.fin (1048576 / 207243)]
      ∧ (detection_remove_false_initial r.1 r.2).1.olabel
          = [1, 1, 1, 0, 0, 0, 0, 0, 0, 0, 0, 0, 0, 0, 0, 0,
             1, 1, 1, 0, 0, 0, 0, 0, 0, 0, 0, 0, 0, 0, 0, 0]
      ∧ (detection_remove_false_initial r.1 r.2).2
          = ([1, 1, 1, 0, 0, 0, 0, 0, 0, 0, 0, 0, 0, 0, 0, 0,
              1, 1, 1, 0, 0, 0, 0, 0, 0, 0, 0, 0, 0, 0, 0, 0], 1)
      ∧ (detection_sn (detection_remove_false_initial r.1 r.2).1
          (detection_remove_false_initial r.1 r.2).1.olabel 1 2).toOption.map
            (fun f => f.sn.array) = some [Flt.nan, Flt.fin (41095616 / 8518671)])
    ∧ ∃ r, detection sample_pseudo_lib sample_label_lib sample_image = Except.ok r
      ∧ r.olabel = List.replicate 32 0
      ∧ r.binary = [1, 1, 1, 0, 0, 0, 0, 0, 0, 0, 0, 0, 0, 0, 0, 0,
                    1, 1, 1, 0, 0, 0, 0, 0, 0, 0, 0, 0, 0, 0, 0, 0]
      ∧ r.numdetections = 0
      ∧ rdI r.olabel 0 ≠ GAL_BLANK_INT32 ∧ rdN r.binary 0 = 1 ∧ ¬ 0 < rdI r.olabel 0 := by
  refine ⟨fun lib dl p r h => ?_, ?_, ?_⟩
  · obtain ⟨q, hq, h0, _⟩ := detection_binary_is_workbin lib dl p r h
    exact ⟨q, hq, h0⟩
  · obtain ⟨r, hr, hv⟩ := toOption_map_eq_some _ _ _ sample_image_pseudo_real
    simp only [Prod.mk.injEq] at hv
    exact ⟨r, hr, hv.1, hv.2.1, hv.2.2.1, hv.2.2.2.1,
      hv.2.2.2.2.1, hv.2.2.2.2.2⟩
  · obtain ⟨r, hr, hv⟩ := toOption_map_eq_some _ _ _ sample_image_detection
    simp only [Prod.mk.injEq] at hv
    refine ⟨r, hr, hv.1, hv.2.1, hv.2.2, ?_, ?_, ?_⟩
    · rw [hv.1]; decide
    · rw [hv.2.1]; rfl
    · rw [hv.1]; decide

/-! ## C37: the final indices of the columns -/

theorem colmatch_count_eq (colmatch : List Nat) (start n : Nat) :
    colmatch_count colmatch start n = colmatch_total colmatch start n := by
  unfold colmatch_count colmatch_total
  induction n with
  | zero => rfl
  | succ n ih =>
      rw [List.range_succ, List.foldl_append, List.map_append, List.sum_append, ih]
      simp

/-- A loop whose passes all succeed rewrites every node. -/
theorem for_each_node_ok {α : Type} (body : α → Except halt α) (g : α → α) :
    ∀ (l : List α), (∀ x ∈ l, body x = Except.ok (g x)) →
      for_each_node body l = Except.ok (l.map g) := by
  intro l
  induction l with
  | nil => intro _; rfl
  | cons x rest ih =>
      intro h
      unfold for_each_node
      rw [h x (List.mem_cons_self _ _), ih (fun y hy => h y (List.mem_cons_of_mem _ hy))]
      rfl

/-- A loop with a pass that fails, all failures being fatal, is fatal. -/
theorem for_each_node_fatal {α : Type} (body : α → Except halt α) :
    ∀ (l : List α), (∀ x ∈ l, ∀ e, body x = Except.error e → e = halt.fatal) →
      (∃ x ∈ l, ∃ e, body x = Except.error e) →
      for_each_node body l = Except.error halt.fatal := by
  intro l
  induction l with
  | nil =>
      rintro _ ⟨x, hx, _⟩
      exact absurd hx (List.not_mem_nil x)
  | cons x rest ih =>
      intro hall hex
      unfold for_each_node
      cases hb : body x with
      | error e =>
          rw [hall x (List.mem_cons_self _ _) e hb]
      | ok y =>
          have hrest : ∃ z ∈ rest, ∃ e, body z = Except.error e := by
            obtain ⟨z, hz, e, he⟩ := hex
            rcases List.mem_cons.1 hz with rfl | hz'
            · rw [hb] at he
              cases he
            · exact ⟨z, hz', e, he⟩
          simp only
          rw [ih (fun z hz => hall z (List.mem_cons_of_mem _ hz)) hrest]

/-- C37: for every array `colmatch`, `arithmetic_indexs_final` is a fatal
error when some operand of an arithmetic column has an index `k` with
`colmatch[k]` other than 1; otherwise it returns, having replaced the index
`k` of every operand of an arithmetic column by the sum of `colmatch[0]`,
..., `colmatch[k-1]` (a token that is no column, its index being
`GAL_BLANK_SIZE_T`, is left as it is), and `start` and `numsimple` of every
package of simple columns by the sum of `colmatch[0]`, ...,
`colmatch[start-1]` and by the sum of `colmatch[start]`, ...,
`colmatch[start+numsimple-1]`. -/
theorem arithmetic_indexs_final_spec (c : table_lib) (p : tableparams) (colmatch : List Nat) :
    ((∃ pack ∈ p.outcols, ∃ t ∈ pack.tokens,
          t.index ≠ c.GAL_BLANK_SIZE_T ∧ rdN colmatch t.index ≠ 1) →
        arithmetic_indexs_final c p colmatch = Except.error halt.fatal)
    ∧ ((∀ pack ∈ p.outcols, ∀ t ∈ pack.tokens,
          t.index ≠ c.GAL_BLANK_SIZE_T → rdN colmatch t.index = 1) →
        arithmetic_indexs_final c p colmatch
          = Except.ok { p with outcols := p.outcols.map (fun pack =>
              if pack.tokens ≠ [] then
                { pack with tokens := pack.tokens.map (fun t =>
                    if t.index ≠ c.GAL_BLANK_SIZE_T then
                      { t with index := colmatch_total colmatch 0 t.index }
                    else t) }
              else
                { pack with
                  start := colmatch_total colmatch 0 pack.start
                  numsimple := colmatch_total colmatch pack.start pack.numsimple }) }) := by
  have htok_err : ∀ (t : arithmetic_token) (e : halt),
      arithmetic_indexs_final_token c colmatch t = Except.error e → e = halt.fatal := by
    intro t e h
    unfold arithmetic_indexs_final_token at h
    split at h
    · split at h
      · cases h
        rfl
      · cases h
    · cases h
  have hpack_err : ∀ (pack : column_pack) (e : halt),
      arithmetic_indexs_final_pack c colmatch pack = Except.error e → e = halt.fatal := by
    intro pack e h
    unfold arithmetic_indexs_final_pack at h
    split at h
    · cases hf : for_each_node (arithmetic_indexs_final_token c colmatch) pack.tokens with
      | error e' =>
          rw [hf] at h
          simp only at h
          cases h
          -- a failure of the loop over the tokens is fatal
          by_contra hne
          have : ∀ (l : List arithmetic_token) (e : halt),
              for_each_node (arithmetic_indexs_final_token c colmatch) l = Except.error e →
              e = halt.fatal := by
            intro l
            induction l with
            | nil => intro e he; cases he
            | cons x rest ih =>
                intro e he
                unfold for_each_node at he
                cases hb : arithmetic_indexs_final_token c colmatch x with
                | error e1 =>
                    rw [hb] at he
                    cases he
                    exact htok_err x _ hb
                | ok y =>
                    rw [hb] at he
                    simp only at he
                    cases hr : for_each_node (arithmetic_indexs_final_token c colmatch) rest with
                    | error e2 =>
                        rw [hr] at he
                        cases he
                        exact ih _ hr
                    | ok ys =>
                        rw [hr] at he
                        cases he
          exact hne (this _ _ hf)
      | ok ts =>
          rw [hf] at h
          cases h
    · cases h
  constructor
  · rintro ⟨pack, hpack, t, ht, hidx, hne⟩
    unfold arithmetic_indexs_final
    have htfail : arithmetic_indexs_final_token c colmatch t = Except.error halt.fatal := by
      unfold arithmetic_indexs_final_token
      rw [if_pos hidx, if_pos hne]
    have hpfail : arithmetic_indexs_final_pack c colmatch pack = Except.error halt.fatal := by
      unfold arithmetic_indexs_final_pack
      rw [if_pos (List.ne_nil_of_mem ht),
        for_each_node_fatal _ pack.tokens (fun x _ e he => htok_err x e he)
          ⟨t, ht, _, htfail⟩]
    rw [for_each_node_fatal _ p.outcols (fun x _ e he => hpack_err x e he)
      ⟨pack, hpack, _, hpfail⟩]
  · intro hall
    unfold arithmetic_indexs_final
    rw [for_each_node_ok (arithmetic_indexs_final_pack c colmatch) (fun pack =>
        if pack.tokens ≠ [] then
          { pack with tokens := pack.tokens.map (fun t =>
              if t.index ≠ c.GAL_BLANK_SIZE_T then
                { t with index := colmatch_total colmatch 0 t.index }
              else t) }
        else
          { pack with
            start := colmatch_total colmatch 0 pack.start
            numsimple := colmatch_total colmatch pack.start pack.numsimple }) p.outcols]
    intro pack hpack
    unfold arithmetic_indexs_final_pack
    by_cases hne : pack.tokens ≠ []
    · rw [if_pos hne, if_pos hne,
        for_each_node_ok (arithmetic_indexs_final_token c colmatch) (fun t =>
          if t.index ≠ c.GAL_BLANK_SIZE_T then
            { t with index := colmatch_total colmatch 0 t.index }
          else t) pack.tokens]
      intro t ht
      unfold arithmetic_indexs_final_token
      by_cases hidx : t.index ≠ c.GAL_BLANK_SIZE_T
      · rw [if_pos hidx, if_pos hidx, if_neg (not_not.2 (hall pack hpack t ht hidx)),
          colmatch_count_eq]
      · rw [if_neg hidx, if_neg hidx]
    · rw [if_neg hne, if_neg hne, colmatch_count_eq, colmatch_count_eq]

/-! ## The operators of Table: names and codes -/

theorem set_operator_code_sin (c : table_lib)
    (h : (c.gal_arithmetic_set_operator "sin").1 = c.GAL_ARITHMETIC_OP_INVALID) :
    arithmetic_set_operator_code c "sin" = (ARITHMETIC_TABLE_OP_SIN c, 0) := by
  simp [arithmetic_set_operator_code, h]

theorem operator_name_sin (c : table_lib)
    (h : c.gal_arithmetic_operator_string (ARITHMETIC_TABLE_OP_SIN c) = none) :
    arithmetic_operator_name c (ARITHMETIC_TABLE_OP_SIN c) = Except.ok "sin" := by
  unfold arithmetic_operator_name
  rw [h]
  simp [ARITHMETIC_TABLE_OP_SIN, ARITHMETIC_TABLE_OP_COS, ARITHMETIC_TABLE_OP_TAN, ARITHMETIC_TABLE_OP_ASIN, ARITHMETIC_TABLE_OP_ACOS, ARITHMETIC_TABLE_OP_ATAN, ARITHMETIC_TABLE_OP_ATAN2, ARITHMETIC_TABLE_OP_SINH, ARITHMETIC_TABLE_OP_COSH, ARITHMETIC_TABLE_OP_TANH, ARITHMETIC_TABLE_OP_ASINH, ARITHMETIC_TABLE_OP_ACOSH, ARITHMETIC_TABLE_OP_ATANH, ARITHMETIC_TABLE_OP_WCSTOIMG, ARITHMETIC_TABLE_OP_IMGTOWCS, ARITHMETIC_TABLE_OP_DATETOSEC, ARITHMETIC_TABLE_OP_DISTANCEFLAT, ARITHMETIC_TABLE_OP_DISTANCEONSPHERE]

theorem set_operator_code_cos (c : table_lib)
    (h : (c.gal_arithmetic_set_operator "cos").1 = c.GAL_ARITHMETIC_OP_INVALID) :
    arithmetic_set_operator_code c "cos" = (ARITHMETIC_TABLE_OP_COS c, 0) := by
  simp [arithmetic_set_operator_code, h]

theorem operator_name_cos (c : table_lib)
    (h : c.gal_arithmetic_operator_string (ARITHMETIC_TABLE_OP_COS c) = none) :
    arithmetic_operator_name c (ARITHMETIC_TABLE_OP_COS c) = Except.ok "cos" := by
  unfold arithmetic_operator_name
  rw [h]
  simp [ARITHMETIC_TABLE_OP_SIN, ARITHMETIC_TABLE_OP_COS, ARITHMETIC_TABLE_OP_TAN, ARITHMETIC_TABLE_OP_ASIN, ARITHMETIC_TABLE_OP_ACOS, ARITHMETIC_TABLE_OP_ATAN, ARITHMETIC_TABLE_OP_ATAN2, ARITHMETIC_TABLE_OP_SINH, ARITHMETIC_TABLE_OP_COSH, ARITHMETIC_TABLE_OP_TANH, ARITHMETIC_TABLE_OP_ASINH, ARITHMETIC_TABLE_OP_ACOSH, ARITHMETIC_TABLE_OP_ATANH, ARITHMETIC_TABLE_OP_WCSTOIMG, ARITHMETIC_TABLE_OP_IMGTOWCS, ARITHMETIC_TABLE_OP_DATETOSEC, ARITHMETIC_TABLE_OP_DISTANCEFLAT, ARITHMETIC_TABLE_OP_DISTANCEONSPHERE]

theorem set_operator_code_tan (c : table_lib)
    (h : (c.gal_arithmetic_set_operator "tan").1 = c.GAL_ARITHMETIC_OP_INVALID) :
    arithmetic_set_operator_code c "tan" = (ARITHMETIC_TABLE_OP_TAN c, 0) := by
  simp [arithmetic_set_operator_code, h]

theorem operator_name_tan (c : table_lib)
    (h : c.gal_arithmetic_operator_string (ARITHMETIC_TABLE_OP_TAN c) = none) :
    arithmetic_operator_name c (ARITHMETIC_TABLE_OP_TAN c) = Except.ok "tan" := by
  unfold arithmetic_operator_name
  rw [h]
  simp [ARITHMETIC_TABLE_OP_SIN, ARITHMETIC_TABLE_OP_COS, ARITHMETIC_TABLE_OP_TAN, ARITHMETIC_TABLE_OP_ASIN, ARITHMETIC_TABLE_OP_ACOS, ARITHMETIC_TABLE_OP_ATAN, ARITHMETIC_TABLE_OP_ATAN2, ARITHMETIC_TABLE_OP_SINH, ARITHMETIC_TABLE_OP_COSH, ARITHMETIC_TABLE_OP_TANH, ARITHMETIC_TABLE_OP_ASINH, ARITHMETIC_TABLE_OP_ACOSH, ARITHMETIC_TABLE_OP_ATANH, ARITHMETIC_TABLE_OP_WCSTOIMG, ARITHMETIC_TABLE_OP_IMGTOWCS, ARITHMETIC_TABLE_OP_DATETOSEC, ARITHMETIC_TABLE_OP_DISTANCEFLAT, ARITHMETIC_TABLE_OP_DISTANCEONSPHERE]

theorem set_operator_code_asin (c : table_lib)
    (h : (c.gal_arithmetic_set_operator "asin").1 = c.GAL_ARITHMETIC_OP_INVALID) :
    arithmetic_set_operator_code c "asin" = (ARITHMETIC_TABLE_OP_ASIN c, 0) := by
  simp [arithmetic_set_operator_code, h]

theorem operator_name_asin (c : table_lib)
    (h : c.gal_arithmetic_operator_string (ARITHMETIC_TABLE_OP_ASIN c) = none) :
    arithmetic_operator_name c (ARITHMETIC_TABLE_OP_ASIN c) = Except.ok "asin" := by
  unfold arithmetic_operator_name
  rw [h]
  simp [ARITHMETIC_TABLE_OP_SIN, ARITHMETIC_TABLE_OP_COS, ARITHMETIC_TABLE_OP_TAN, ARITHMETIC_TABLE_OP_ASIN, ARITHMETIC_TABLE_OP_ACOS, ARITHMETIC_TABLE_OP_ATAN, ARITHMETIC_TABLE_OP_ATAN2, ARITHMETIC_TABLE_OP_SINH, ARITHMETIC_TABLE_OP_COSH, ARITHMETIC_TABLE_OP_TANH, ARITHMETIC_TABLE_OP_ASINH, ARITHMETIC_TABLE_OP_ACOSH, ARITHMETIC_TABLE_OP_ATANH, ARITHMETIC_TABLE_OP_WCSTOIMG, ARITHMETIC_TABLE_OP_IMGTOWCS, ARITHMETIC_TABLE_OP_DATETOSEC, ARITHMETIC_TABLE_OP_DISTANCEFLAT, ARITHMETIC_TABLE_OP_DISTANCEONSPHERE]

theorem set_operator_code_acos (c : table_lib)
    (h : (c.gal_arithmetic_set_operator "acos").1 = c.GAL_ARITHMETIC_OP_INVALID) :
    arithmetic_set_operator_code c "acos" = (ARITHMETIC_TABLE_OP_ACOS c, 0) := by
  simp [arithmetic_set_operator_code, h]

theorem operator_name_acos (c : table_lib)
    (h : c.gal_arithmetic_operator_string (ARITHMETIC_TABLE_OP_ACOS c) = none) :
    arithmetic_operator_name c (ARITHMETIC_TABLE_OP_ACOS c) = Except.ok "acos" := by
  unfold arithmetic_operator_name
  rw [h]
  simp [ARITHMETIC_TABLE_OP_SIN, ARITHMETIC_TABLE_OP_COS, ARITHMETIC_TABLE_OP_TAN, ARITHMETIC_TABLE_OP_ASIN, ARITHMETIC_TABLE_OP_ACOS, ARITHMETIC_TABLE_OP_ATAN, ARITHMETIC_TABLE_OP_ATAN2, ARITHMETIC_TABLE_OP_SINH, ARITHMETIC_TABLE_OP_COSH, ARITHMETIC_TABLE_OP_TANH, ARITHMETIC_TABLE_OP_ASINH, ARITHMETIC_TABLE_OP_ACOSH, ARITHMETIC_TABLE_OP_ATANH, ARITHMETIC_TABLE_OP_WCSTOIMG, ARITHMETIC_TABLE_OP_IMGTOWCS, ARITHMETIC_TABLE_OP_DATETOSEC, ARITHMETIC_TABLE_OP_DISTANCEFLAT, ARITHMETIC_TABLE_OP_DISTANCEONSPHERE]

theorem set_operator_code_atan (c : table_lib)
    (h : (c.gal_arithmetic_set_operator "atan").1 = c.GAL_ARITHMETIC_OP_INVALID) :
    arithmetic_set_operator_code c "atan" = (ARITHMETIC_TABLE_OP_ATAN c, 0) := by
  simp [arithmetic_set_operator_code, h]

theorem operator_name_atan (c : table_lib)
    (h : c.gal_arithmetic_operator_string (ARITHMETIC_TABLE_OP_ATAN c) = none) :
    arithmetic_operator_name c (ARITHMETIC_TABLE_OP_ATAN c) = Except.ok "atan" := by
  unfold arithmetic_operator_name
  rw [h]
  simp [ARITHMETIC_TABLE_OP_SIN, ARITHMETIC_TABLE_OP_COS, ARITHMETIC_TABLE_OP_TAN, ARITHMETIC_TABLE_OP_ASIN, ARITHMETIC_TABLE_OP_ACOS, ARITHMETIC_TABLE_OP_ATAN, ARITHMETIC_TABLE_OP_ATAN2, ARITHMETIC_TABLE_OP_SINH, ARITHMETIC_TABLE_OP_COSH, ARITHMETIC_TABLE_OP_TANH, ARITHMETIC_TABLE_OP_ASINH, ARITHMETIC_TABLE_OP_ACOSH, ARITHMETIC_TABLE_OP_ATANH, ARITHMETIC_TABLE_OP_WCSTOIMG, ARITHMETIC_TABLE_OP_IMGTOWCS, ARITHMETIC_TABLE_OP_DATETOSEC, ARITHMETIC_TABLE_OP_DISTANCEFLAT, ARITHMETIC_TABLE_OP_DISTANCEONSPHERE]

theorem set_operator_code_atan2 (c : table_lib)
    (h : (c.gal_arithmetic_set_operator "atan2").1 = c.GAL_ARITHMETIC_OP_INVALID) :
    arithmetic_set_operator_code c "atan2" = (ARITHMETIC_TABLE_OP_ATAN2 c, 0) := by
  simp [arithmetic_set_operator_code, h]

theorem operator_name_atan2 (c : table_lib)
    (h : c.gal_arithmetic_operator_string (ARITHMETIC_TABLE_OP_ATAN2 c) = none) :
    arithmetic_operator_name c (ARITHMETIC_TABLE_OP_ATAN2 c) = Except.ok "atan2" := by
  unfold arithmetic_operator_name
  rw [h]
  simp [ARITHMETIC_TABLE_OP_SIN, ARITHMETIC_TABLE_OP_COS, ARITHMETIC_TABLE_OP_TAN, ARITHMETIC_TABLE_OP_ASIN, ARITHMETIC_TABLE_OP_ACOS, ARITHMETIC_TABLE_OP_ATAN, ARITHMETIC_TABLE_OP_ATAN2, ARITHMETIC_TABLE_OP_SINH, ARITHMETIC_TABLE_OP_COSH, ARITHMETIC_TABLE_OP_TANH, ARITHMETIC_TABLE_OP_ASINH, ARITHMETIC_TABLE_OP_ACOSH, ARITHMETIC_TABLE_OP_ATANH, ARITHMETIC_TABLE_OP_WCSTOIMG, ARITHMETIC_TABLE_OP_IMGTOWCS, ARITHMETIC_TABLE_OP_DATETOSEC, ARITHMETIC_TABLE_OP_DISTANCEFLAT, ARITHMETIC_TABLE_OP_DISTANCEONSPHERE]

theorem set_operator_code_sinh (c : table_lib)
    (h : (c.gal_arithmetic_set_operator "sinh").1 = c.GAL_ARITHMETIC_OP_INVALID) :
    arithmetic_set_operator_code c "sinh" = (ARITHMETIC_TABLE_OP_SINH c, 0) := by
  simp [arithmetic_set_operator_code, h]

theorem operator_name_sinh (c : table_lib)
    (h : c.gal_arithmetic_operator_string (ARITHMETIC_TABLE_OP_SINH c) = none) :
    arithmetic_operator_name c (ARITHMETIC_TABLE_OP_SINH c) = Except.ok "sinh" := by
  unfold arithmetic_operator_name
  rw [h]
  simp [ARITHMETIC_TABLE_OP_SIN, ARITHMETIC_TABLE_OP_COS, ARITHMETIC_TABLE_OP_TAN, ARITHMETIC_TABLE_OP_ASIN, ARITHMETIC_TABLE_OP_ACOS, ARITHMETIC_TABLE_OP_ATAN, ARITHMETIC_TABLE_OP_ATAN2, ARITHMETIC_TABLE_OP_SINH, ARITHMETIC_TABLE_OP_COSH, ARITHMETIC_TABLE_OP_TANH, ARITHMETIC_TABLE_OP_ASINH, ARITHMETIC_TABLE_OP_ACOSH, ARITHMETIC_TABLE_OP_ATANH, ARITHMETIC_TABLE_OP_WCSTOIMG, ARITHMETIC_TABLE_OP_IMGTOWCS, ARITHMETIC_TABLE_OP_DATETOSEC, ARITHMETIC_TABLE_OP_DISTANCEFLAT, ARITHMETIC_TABLE_OP_DISTANCEONSPHERE]

theorem set_operator_code_cosh (c : table_lib)
    (h : (c.gal_arithmetic_set_operator "cosh").1 = c.GAL_ARITHMETIC_OP_INVALID) :
    arithmetic_set_operator_code c "cosh" = (ARITHMETIC_TABLE_OP_COSH c, 0) := by
  simp [arithmetic_set_operator_code, h]

theorem operator_name_cosh (c : table_lib)
    (h : c.gal_arithmetic_operator_string (ARITHMETIC_TABLE_OP_COSH c) = none) :
    arithmetic_operator_name c (ARITHMETIC_TABLE_OP_COSH c) = Except.ok "cosh" := by
  unfold arithmetic_operator_name
  rw [h]
  simp [ARITHMETIC_TABLE_OP_SIN, ARITHMETIC_TABLE_OP_COS, ARITHMETIC_TABLE_OP_TAN, ARITHMETIC_TABLE_OP_ASIN, ARITHMETIC_TABLE_OP_ACOS, ARITHMETIC_TABLE_OP_ATAN, ARITHMETIC_TABLE_OP_ATAN2, ARITHMETIC_TABLE_OP_SINH, ARITHMETIC_TABLE_OP_COSH, ARITHMETIC_TABLE_OP_TANH, ARITHMETIC_TABLE_OP_ASINH, ARITHMETIC_TABLE_OP_ACOSH, ARITHMETIC_TABLE_OP_ATANH, ARITHMETIC_TABLE_OP_WCSTOIMG, ARITHMETIC_TABLE_OP_IMGTOWCS, ARITHMETIC_TABLE_OP_DATETOSEC, ARITHMETIC_TABLE_OP_DISTANCEFLAT, ARITHMETIC_TABLE_OP_DISTANCEONSPHERE]

theorem set_operator_code_tanh (c : table_lib)
    (h : (c.gal_arithmetic_set_operator "tanh").1 = c.GAL_ARITHMETIC_OP_INVALID) :
    arithmetic_set_operator_code c "tanh" = (ARITHMETIC_TABLE_OP_TANH c, 0) := by
  simp [arithmetic_set_operator_code, h]

theorem operator_name_tanh (c : table_lib)
    (h : c.gal_arithmetic_operator_string (ARITHMETIC_TABLE_OP_TANH c) = none) :
    arithmetic_operator_name c (ARITHMETIC_TABLE_OP_TANH c) = Except.ok "tanh" := by
  unfold arithmetic_operator_name
  rw [h]
  simp [ARITHMETIC_TABLE_OP_SIN, ARITHMETIC_TABLE_OP_COS, ARITHMETIC_TABLE_OP_TAN, ARITHMETIC_TABLE_OP_ASIN, ARITHMETIC_TABLE_OP_ACOS, ARITHMETIC_TABLE_OP_ATAN, ARITHMETIC_TABLE_OP_ATAN2, ARITHMETIC_TABLE_OP_SINH, ARITHMETIC_TABLE_OP_COSH, ARITHMETIC_TABLE_OP_TANH, ARITHMETIC_TABLE_OP_ASINH, ARITHMETIC_TABLE_OP_ACOSH, ARITHMETIC_TABLE_OP_ATANH, ARITHMETIC_TABLE_OP_WCSTOIMG, ARITHMETIC_TABLE_OP_IMGTOWCS, ARITHMETIC_TABLE_OP_DATETOSEC, ARITHMETIC_TABLE_OP_DISTANCEFLAT, ARITHMETIC_TABLE_OP_DISTANCEONSPHERE]

theorem set_operator_code_asinh (c : table_lib)
    (h : (c.gal_arithmetic_set_operator "asinh").1 = c.GAL_ARITHMETIC_OP_INVALID) :
    arithmetic_set_operator_code c "asinh" = (ARITHMETIC_TABLE_OP_ASINH c, 0) := by
  simp [arithmetic_set_operator_code, h]

theorem operator_name_asinh (c : table_lib)
    (h : c.gal_arithmetic_operator_string (ARITHMETIC_TABLE_OP_ASINH c) = none) :
    arithmetic_operator_name c (ARITHMETIC_TABLE_OP_ASINH c) = Except.ok "asinh" := by
  unfold arithmetic_operator_name
  rw [h]
  simp [ARITHMETIC_TABLE_OP_SIN, ARITHMETIC_TABLE_OP_COS, ARITHMETIC_TABLE_OP_TAN, ARITHMETIC_TABLE_OP_ASIN, ARITHMETIC_TABLE_OP_ACOS, ARITHMETIC_TABLE_OP_ATAN, ARITHMETIC_TABLE_OP_ATAN2, ARITHMETIC_TABLE_OP_SINH, ARITHMETIC_TABLE_OP_COSH, ARITHMETIC_TABLE_OP_TANH, ARITHMETIC_TABLE_OP_ASINH, ARITHMETIC_TABLE_OP_ACOSH, ARITHMETIC_TABLE_OP_ATANH, ARITHMETIC_TABLE_OP_WCSTOIMG, ARITHMETIC_TABLE_OP_IMGTOWCS, ARITHMETIC_TABLE_OP_DATETOSEC, ARITHMETIC_TABLE_OP_DISTANCEFLAT, ARITHMETIC_TABLE_OP_DISTANCEONSPHERE]

theorem set_operator_code_acosh (c : table_lib)
    (h : (c.gal_arithmetic_set_operator "acosh").1 = c.GAL_ARITHMETIC_OP_INVALID) :
    arithmetic_set_operator_code c "acosh" = (ARITHMETIC_TABLE_OP_ACOSH c, 0) := by
  simp [arithmetic_set_operator_code, h]

theorem operator_name_acosh (c : table_lib)
    (h : c.gal_arithmetic_operator_string (ARITHMETIC_TABLE_OP_ACOSH c) = none) :
    arithmetic_operator_name c (ARITHMETIC_TABLE_OP_ACOSH c) = Except.ok "acosh" := by
  unfold arithmetic_operator_name
  rw [h]
  simp [ARITHMETIC_TABLE_OP_SIN, ARITHMETIC_TABLE_OP_COS, ARITHMETIC_TABLE_OP_TAN, ARITHMETIC_TABLE_OP_ASIN, ARITHMETIC_TABLE_OP_ACOS, ARITHMETIC_TABLE_OP_ATAN, ARITHMETIC_TABLE_OP_ATAN2, ARITHMETIC_TABLE_OP_SINH, ARITHMETIC_TABLE_OP_COSH, ARITHMETIC_TABLE_OP_TANH, ARITHMETIC_TABLE_OP_ASINH, ARITHMETIC_TABLE_OP_ACOSH, ARITHMETIC_TABLE_OP_ATANH, ARITHMETIC_TABLE_OP_WCSTOIMG, ARITHMETIC_TABLE_OP_IMGTOWCS, ARITHMETIC_TABLE_OP_DATETOSEC, ARITHMETIC_TABLE_OP_DISTANCEFLAT, ARITHMETIC_TABLE_OP_DISTANCEONSPHERE]

theorem set_operator_code_atanh (c : table_lib)
    (h : (c.gal_arithmetic_set_operator "atanh").1 = c.GAL_ARITHMETIC_OP_INVALID) :
    arithmetic_set_operator_code c "atanh" = (ARITHMETIC_TABLE_OP_ATANH c, 0) := by
  simp [arithmetic_set_operator_code, h]

theorem operator_name_atanh (c : table_lib)
    (h : c.gal_arithmetic_operator_string (ARITHMETIC_TABLE_OP_ATANH c) = none) :
    arithmetic_operator_name c (ARITHMETIC_TABLE_OP_ATANH c) = Except.ok "atanh" := by
  unfold arithmetic_operator_name
  rw [h]
  simp [ARITHMETIC_TABLE_OP_SIN, ARITHMETIC_TABLE_OP_COS, ARITHMETIC_TABLE_OP_TAN, ARITHMETIC_TABLE_OP_ASIN, ARITHMETIC_TABLE_OP_ACOS, ARITHMETIC_TABLE_OP_ATAN, ARITHMETIC_TABLE_OP_ATAN2, ARITHMETIC_TABLE_OP_SINH, ARITHMETIC_TABLE_OP_COSH, ARITHMETIC_TABLE_OP_TANH, ARITHMETIC_TABLE_OP_ASINH, ARITHMETIC_TABLE_OP_ACOSH, ARITHMETIC_TABLE_OP_ATANH, ARITHMETIC_TABLE_OP_WCSTOIMG, ARITHMETIC_TABLE_OP_IMGTOWCS, ARITHMETIC_TABLE_OP_DATETOSEC, ARITHMETIC_TABLE_OP_DISTANCEFLAT, ARITHMETIC_TABLE_OP_DISTANCEONSPHERE]

theorem set_operator_code_wcstoimg (c : table_lib)
    (h : (c.gal_arithmetic_set_operator "wcstoimg").1 = c.GAL_ARITHMETIC_OP_INVALID) :
    arithmetic_set_operator_code c "wcstoimg" = (ARITHMETIC_TABLE_OP_WCSTOIMG c, 0) := by
  simp [arithmetic_set_operator_code, h]

theorem operator_name_wcstoimg (c : table_lib)
    (h : c.gal_arithmetic_operator_string (ARITHMETIC_TABLE_OP_WCSTOIMG c) = none) :
    arithmetic_operator_name c (ARITHMETIC_TABLE_OP_WCSTOIMG c) = Except.ok "wcstoimg" := by
  unfold arithmetic_operator_name
  rw [h]
  simp [ARITHMETIC_TABLE_OP_SIN, ARITHMETIC_TABLE_OP_COS, ARITHMETIC_TABLE_OP_TAN, ARITHMETIC_TABLE_OP_ASIN, ARITHMETIC_TABLE_OP_ACOS, ARITHMETIC_TABLE_OP_ATAN, ARITHMETIC_TABLE_OP_ATAN2, ARITHMETIC_TABLE_OP_SINH, ARITHMETIC_TABLE_OP_COSH, ARITHMETIC_TABLE_OP_TANH, ARITHMETIC_TABLE_OP_ASINH, ARITHMETIC_TABLE_OP_ACOSH, ARITHMETIC_TABLE_OP_ATANH, ARITHMETIC_TABLE_OP_WCSTOIMG, ARITHMETIC_TABLE_OP_IMGTOWCS, ARITHMETIC_TABLE_OP_DATETOSEC, ARITHMETIC_TABLE_OP_DISTANCEFLAT, ARITHMETIC_TABLE_OP_DISTANCEONSPHERE]

theorem set_operator_code_imgtowcs (c : table_lib)
    (h : (c.gal_arithmetic_set_operator "imgtowcs").1 = c.GAL_ARITHMETIC_OP_INVALID) :
    arithmetic_set_operator_code c "imgtowcs" = (ARITHMETIC_TABLE_OP_IMGTOWCS c, 0) := by
  simp [arithmetic_set_operator_code, h]

theorem operator_name_imgtowcs (c : table_lib)
    (h : c.gal_arithmetic_operator_string (ARITHMETIC_TABLE_OP_IMGTOWCS c) = none) :
    arithmetic_operator_name c (ARITHMETIC_TABLE_OP_IMGTOWCS c) = Except.ok "imgtowcs" := by
  unfold arithmetic_operator_name
  rw [h]
  simp [ARITHMETIC_TABLE_OP_SIN, ARITHMETIC_TABLE_OP_COS, ARITHMETIC_TABLE_OP_TAN, ARITHMETIC_TABLE_OP_ASIN, ARITHMETIC_TABLE_OP_ACOS, ARITHMETIC_TABLE_OP_ATAN, ARITHMETIC_TABLE_OP_ATAN2, ARITHMETIC_TABLE_OP_SINH, ARITHMETIC_TABLE_OP_COSH, ARITHMETIC_TABLE_OP_TANH, ARITHMETIC_TABLE_OP_ASINH, ARITHMETIC_TABLE_OP_ACOSH, ARITHMETIC_TABLE_OP_ATANH, ARITHMETIC_TABLE_OP_WCSTOIMG, ARITHMETIC_TABLE_OP_IMGTOWCS, ARITHMETIC_TABLE_OP_DATETOSEC, ARITHMETIC_TABLE_OP_DISTANCEFLAT, ARITHMETIC_TABLE_OP_DISTANCEONSPHERE]

theorem set_operator_code_distance_flat (c : table_lib)
    (h : (c.gal_arithmetic_set_operator "distance-flat").1 = c.GAL_ARITHMETIC_OP_INVALID) :
    arithmetic_set_operator_code c "distance-flat" = (ARITHMETIC_TABLE_OP_DISTANCEFLAT c, 0) := by
  simp [arithmetic_set_operator_code, h]

theorem operator_name_distance_flat (c : table_lib)
    (h : c.gal_arithmetic_operator_string (ARITHMETIC_TABLE_OP_DISTANCEFLAT c) = none) :
    arithmetic_operator_name c (ARITHMETIC_TABLE_OP_DISTANCEFLAT c) = Except.ok "distance-flat" := by
  unfold arithmetic_operator_name
  rw [h]
  simp [ARITHMETIC_TABLE_OP_SIN, ARITHMETIC_TABLE_OP_COS, ARITHMETIC_TABLE_OP_TAN, ARITHMETIC_TABLE_OP_ASIN, ARITHMETIC_TABLE_OP_ACOS, ARITHMETIC_TABLE_OP_ATAN, ARITHMETIC_TABLE_OP_ATAN2, ARITHMETIC_TABLE_OP_SINH, ARITHMETIC_TABLE_OP_COSH, ARITHMETIC_TABLE_OP_TANH, ARITHMETIC_TABLE_OP_ASINH, ARITHMETIC_TABLE_OP_ACOSH, ARITHMETIC_TABLE_OP_ATANH, ARITHMETIC_TABLE_OP_WCSTOIMG, ARITHMETIC_TABLE_OP_IMGTOWCS, ARITHMETIC_TABLE_OP_DATETOSEC, ARITHMETIC_TABLE_OP_DISTANCEFLAT, ARITHMETIC_TABLE_OP_DISTANCEONSPHERE]

theorem set_operator_code_distance_on_sphere (c : table_lib)
    (h : (c.gal_arithmetic_set_operator "distance-on-sphere").1 = c.GAL_ARITHMETIC_OP_INVALID) :
    arithmetic_set_operator_code c "distance-on-sphere" = (ARITHMETIC_TABLE_OP_DISTANCEONSPHERE c, 0) := by
  simp [arithmetic_set_operator_code, h]

theorem operator_name_distance_on_sphere (c : table_lib)
    (h : c.gal_arithmetic_operator_string (ARITHMETIC_TABLE_OP_DISTANCEONSPHERE c) = none) :
    arithmetic_operator_name c (ARITHMETIC_TABLE_OP_DISTANCEONSPHERE c) = Except.ok "distance-on-sphere" := by
  unfold arithmetic_operator_name
  rw [h]
  simp [ARITHMETIC_TABLE_OP_SIN, ARITHMETIC_TABLE_OP_COS, ARITHMETIC_TABLE_OP_TAN, ARITHMETIC_TABLE_OP_ASIN, ARITHMETIC_TABLE_OP_ACOS, ARITHMETIC_TABLE_OP_ATAN, ARITHMETIC_TABLE_OP_ATAN2, ARITHMETIC_TABLE_OP_SINH, ARITHMETIC_TABLE_OP_COSH, ARITHMETIC_TABLE_OP_TANH, ARITHMETIC_TABLE_OP_ASINH, ARITHMETIC_TABLE_OP_ACOSH, ARITHMETIC_TABLE_OP_ATANH, ARITHMETIC_TABLE_OP_WCSTOIMG, ARITHMETIC_TABLE_OP_IMGTOWCS, ARITHMETIC_TABLE_OP_DATETOSEC, ARITHMETIC_TABLE_OP_DISTANCEFLAT, ARITHMETIC_TABLE_OP_DISTANCEONSPHERE]

/-- For a name of Table that the library does not know, on a library that
names none of the codes of Table: the code is that of the name with no
operand, the code gives back the name, and the code is that of `wcstoimg` or
`imgtowcs` for these two names only. -/
theorem table_operator_round_trip (c : table_lib) (name : String)
    (hname : name ∈ table_operator_names)
    (hlib : (c.gal_arithmetic_set_operator name).1 = c.GAL_ARITHMETIC_OP_INVALID)
    (hcodes : ∀ k : Int, c.GAL_ARITHMETIC_OP_LAST_CODE < k →
      k ≤ c.GAL_ARITHMETIC_OP_LAST_CODE + 18 → c.gal_arithmetic_operator_string k = none) :
    (arithmetic_set_operator_code c name).2 = 0
    ∧ arithmetic_operator_name c (arithmetic_set_operator_code c name).1 = Except.ok name
    ∧ (((arithmetic_set_operator_code c name).1 = ARITHMETIC_TABLE_OP_WCSTOIMG c
          ∨ (arithmetic_set_operator_code c name).1 = ARITHMETIC_TABLE_OP_IMGTOWCS c)
        ↔ (name = "wcstoimg" ∨ name = "imgtowcs")) := by
  have key : ∀ (code : Int),
      arithmetic_set_operator_code c name = (code, 0)
      → arithmetic_operator_name c code = Except.ok name
      → ((code = ARITHMETIC_TABLE_OP_WCSTOIMG c ∨ code = ARITHMETIC_TABLE_OP_IMGTOWCS c)
          ↔ (name = "wcstoimg" ∨ name = "imgtowcs"))
      → ((arithmetic_set_operator_code c name).2 = 0
        ∧ arithmetic_operator_name c (arithmetic_set_operator_code c name).1 = Except.ok name
        ∧ (((arithmetic_set_operator_code c name).1 = ARITHMETIC_TABLE_OP_WCSTOIMG c
              ∨ (arithmetic_set_operator_code c name).1 = ARITHMETIC_TABLE_OP_IMGTOWCS c)
            ↔ (name = "wcstoimg" ∨ name = "imgtowcs"))) := by
    intro code h1 h2 h3
    rw [h1]
    exact ⟨rfl, h2, h3⟩
  have hcase : name = "sin" ∨ name = "cos" ∨ name = "tan" ∨ name = "asin" ∨ name = "acos"
      ∨ name = "atan" ∨ name = "atan2" ∨ name = "sinh" ∨ name = "cosh" ∨ name = "tanh"
      ∨ name = "asinh" ∨ name = "acosh" ∨ name = "atanh" ∨ name = "wcstoimg"
      ∨ name = "imgtowcs" ∨ name = "distance-flat" ∨ name = "distance-on-sphere" := by
    simpa [table_operator_names] using hname
  rcases hcase with rfl | rfl | rfl | rfl | rfl | rfl | rfl | rfl | rfl | rfl | rfl | rfl | rfl | rfl | rfl | rfl | rfl
  · exact key _ (set_operator_code_sin c hlib)
      (operator_name_sin c (hcodes _ (by unfold ARITHMETIC_TABLE_OP_SIN; omega)
        (by unfold ARITHMETIC_TABLE_OP_SIN; omega)))
      (by simp [ARITHMETIC_TABLE_OP_SIN, ARITHMETIC_TABLE_OP_WCSTOIMG,
        ARITHMETIC_TABLE_OP_IMGTOWCS])
  · exact key _ (set_operator_code_cos c hlib)
      (operator_name_cos c (hcodes _ (by unfold ARITHMETIC_TABLE_OP_COS; omega)
        (by unfold ARITHMETIC_TABLE_OP_COS; omega)))
      (by simp [ARITHMETIC_TABLE_OP_COS, ARITHMETIC_TABLE_OP_WCSTOIMG,
        ARITHMETIC_TABLE_OP_IMGTOWCS])
  · exact key _ (set_operator_code_tan c hlib)
      (operator_name_tan c (hcodes _ (by unfold ARITHMETIC_TABLE_OP_TAN; omega)
        (by unfold ARITHMETIC_TABLE_OP_TAN; omega)))
      (by simp [ARITHMETIC_TABLE_OP_TAN, ARITHMETIC_TABLE_OP_WCSTOIMG,
        ARITHMETIC_TABLE_OP_IMGTOWCS])
  · exact key _ (set_operator_code_asin c hlib)
      (operator_name_asin c (hcodes _ (by unfold ARITHMETIC_TABLE_OP_ASIN; omega)
        (by unfold ARITHMETIC_TABLE_OP_ASIN; omega)))
      (by simp [ARITHMETIC_TABLE_OP_ASIN, ARITHMETIC_TABLE_OP_WCSTOIMG,
        ARITHMETIC_TABLE_OP_IMGTOWCS])
  · exact key _ (set_operator_code_acos c hlib)
      (operator_name_acos c (hcodes _ (by unfold ARITHMETIC_TABLE_OP_ACOS; omega)
        (by unfold ARITHMETIC_TABLE_OP_ACOS; omega)))
      (by simp [ARITHMETIC_TABLE_OP_ACOS, ARITHMETIC_TABLE_OP_WCSTOIMG,
        ARITHMETIC_TABLE_OP_IMGTOWCS])
  · exact key _ (set_operator_code_atan c hlib)
      (operator_name_atan c (hcodes _ (by unfold ARITHMETIC_TABLE_OP_ATAN; omega)
        (by unfold ARITHMETIC_TABLE_OP_ATAN; omega)))
      (by simp [ARITHMETIC_TABLE_OP_ATAN, ARITHMETIC_TABLE_OP_WCSTOIMG,
        ARITHMETIC_TABLE_OP_IMGTOWCS])
  · exact key _ (set_operator_code_atan2 c hlib)
      (operator_name_atan2 c (hcodes _ (by unfold ARITHMETIC_TABLE_OP_ATAN2; omega)
        (by unfold ARITHMETIC_TABLE_OP_ATAN2; omega)))
      (by simp [ARITHMETIC_TABLE_OP_ATAN2, ARITHMETIC_TABLE_OP_WCSTOIMG,
        ARITHMETIC_TABLE_OP_IMGTOWCS])
  · exact key _ (set_operator_code_sinh c hlib)
      (operator_name_sinh c (hcodes _ (by unfold ARITHMETIC_TABLE_OP_SINH; omega)
        (by unfold ARITHMETIC_TABLE_OP_SINH; omega)))
      (by simp [ARITHMETIC_TABLE_OP_SINH, ARITHMETIC_TABLE_OP_WCSTOIMG,
        ARITHMETIC_TABLE_OP_IMGTOWCS])
  · exact key _ (set_operator_code_cosh c hlib)
      (operator_name_cosh c (hcodes _ (by unfold ARITHMETIC_TABLE_OP_COSH; omega)
        (by unfold ARITHMETIC_TABLE_OP_COSH; omega)))
      (by simp [ARITHMETIC_TABLE_OP_COSH, ARITHMETIC_TABLE_OP_WCSTOIMG,
        ARITHMETIC_TABLE_OP_IMGTOWCS])
  · exact key _ (set_operator_code_tanh c hlib)
      (operator_name_tanh c (hcodes _ (by unfold ARITHMETIC_TABLE_OP_TANH; omega)
        (by unfold ARITHMETIC_TABLE_OP_TANH; omega)))
      (by simp [ARITHMETIC_TABLE_OP_TANH, ARITHMETIC_TABLE_OP_WCSTOIMG,
        ARITHMETIC_TABLE_OP_IMGTOWCS])
  · exact key _ (set_operator_code_asinh c hlib)
      (operator_name_asinh c (hcodes _ (by unfold ARITHMETIC_TABLE_OP_ASINH; omega)
        (by unfold ARITHMETIC_TABLE_OP_ASINH; omega)))
      (by simp [ARITHMETIC_TABLE_OP_ASINH, ARITHMETIC_TABLE_OP_WCSTOIMG,
        ARITHMETIC_TABLE_OP_IMGTOWCS])
  · exact key _ (set_operator_code_acosh c hlib)
      (operator_name_acosh c (hcodes _ (by unfold ARITHMETIC_TABLE_OP_ACOSH; omega)
        (by unfold ARITHMETIC_TABLE_OP_ACOSH; omega)))
      (by simp [ARITHMETIC_TABLE_OP_ACOSH, ARITHMETIC_TABLE_OP_WCSTOIMG,
        ARITHMETIC_TABLE_OP_IMGTOWCS])
  · exact key _ (set_operator_code_atanh c hlib)
      (operator_name_atanh c (hcodes _ (by unfold ARITHMETIC_TABLE_OP_ATANH; omega)
        (by unfold ARITHMETIC_TABLE_OP_ATANH; omega)))
      (by simp [ARITHMETIC_TABLE_OP_ATANH, ARITHMETIC_TABLE_OP_WCSTOIMG,
        ARITHMETIC_TABLE_OP_IMGTOWCS])
  · exact key _ (set_operator_code_wcstoimg c hlib)
      (operator_name_wcstoimg c (hcodes _ (by unfold ARITHMETIC_TABLE_OP_WCSTOIMG; omega)
        (by unfold ARITHMETIC_TABLE_OP_WCSTOIMG; omega)))
      (by simp [ARITHMETIC_TABLE_OP_WCSTOIMG, ARITHMETIC_TABLE_OP_WCSTOIMG,
        ARITHMETIC_TABLE_OP_IMGTOWCS])
  · exact key _ (set_operator_code_imgtowcs c hlib)
      (operator_name_imgtowcs c (hcodes _ (by unfold ARITHMETIC_TABLE_OP_IMGTOWCS; omega)
        (by unfold ARITHMETIC_TABLE_OP_IMGTOWCS; omega)))
      (by simp [ARITHMETIC_TABLE_OP_IMGTOWCS, ARITHMETIC_TABLE_OP_WCSTOIMG,
        ARITHMETIC_TABLE_OP_IMGTOWCS])
  · exact key _ (set_operator_code_distance_flat c hlib)
      (operator_name_distance_flat c (hcodes _ (by unfold ARITHMETIC_TABLE_OP_DISTANCEFLAT; omega)
        (by unfold ARITHMETIC_TABLE_OP_DISTANCEFLAT; omega)))
      (by simp [ARITHMETIC_TABLE_OP_DISTANCEFLAT, ARITHMETIC_TABLE_OP_WCSTOIMG,
        ARITHMETIC_TABLE_OP_IMGTOWCS])
  · exact key _ (set_operator_code_distance_on_sphere c hlib)
      (operator_name_distance_on_sphere c (hcodes _ (by unfold ARITHMETIC_TABLE_OP_DISTANCEONSPHERE; omega)
        (by unfold ARITHMETIC_TABLE_OP_DISTANCEONSPHERE; omega)))
      (by simp [ARITHMETIC_TABLE_OP_DISTANCEONSPHERE, ARITHMETIC_TABLE_OP_WCSTOIMG,
        ARITHMETIC_TABLE_OP_IMGTOWCS])

/-- The function `arithmetic_init_wcs` returns, with a WCS loaded and the
other fields as they were, when a WCS is at hand, and is a fatal error
otherwise. -/
theorem arithmetic_init_wcs_spec (c : table_lib) (p : tableparams) :
    (wcs_available c p = true →
      ∃ p1, arithmetic_init_wcs c p = Except.ok p1 ∧ wcs_available c p1 = true)
    ∧ (wcs_available c p = false → arithmetic_init_wcs c p = Except.error halt.fatal) := by
  cases hw : p.wcs with
  | some w =>
      have hav : wcs_available c p = true := by simp [wcs_available, hw]
      have hi : arithmetic_init_wcs c p = Except.ok p := by simp [arithmetic_init_wcs, hw]
      refine ⟨fun _ => ⟨p, hi, hav⟩, fun h => ?_⟩
      rw [hav] at h
      cases h
  | none =>
      cases hf : p.wcsfile with
      | none =>
          have hav : wcs_available c p = false := by simp [wcs_available, hw, hf]
          have hi : arithmetic_init_wcs c p = Except.error halt.fatal := by
            simp [arithmetic_init_wcs, hw, hf]
          refine ⟨fun h => ?_, fun _ => hi⟩
          rw [hav] at h
          cases h
      | some f =>
          cases hh : p.wcshdu with
          | none =>
              have hav : wcs_available c p = false := by simp [wcs_available, hw, hf, hh]
              have hi : arithmetic_init_wcs c p = Except.error halt.fatal := by
                simp [arithmetic_init_wcs, hw, hf, hh]
              refine ⟨fun h => ?_, fun _ => hi⟩
              rw [hav] at h
              cases h
          | some hdu =>
              cases hr : c.gal_wcs_read f hdu with
              | none =>
                  have hav : wcs_available c p = false := by
                    simp [wcs_available, hw, hf, hh, hr]
                  have hi : arithmetic_init_wcs c p = Except.error halt.fatal := by
                    simp [arithmetic_init_wcs, hw, hf, hh, hr]
                  refine ⟨fun h => ?_, fun _ => hi⟩
                  rw [hav] at h
                  cases h
              | some w =>
                  have hav : wcs_available c p = true := by
                    simp [wcs_available, hw, hf, hh, hr]
                  have hi : arithmetic_init_wcs c p
                      = Except.ok { p with wcs := some w.1, nwcs := w.2 } := by
                    simp [arithmetic_init_wcs, hw, hf, hh, hr]
                  refine ⟨fun _ => ⟨_, hi, rfl⟩, fun h => ?_⟩
                  rw [hav] at h
                  cases h

/-! ## C40: the names of the operators of Table -/

/-- C40, the claim as worded fails: the library `sample_table_lib` does not
know the name `wcstoimg`, which is one of the names of Table, and with no
WCS loaded and no WCS file given `arithmetic_set_operator` is a fatal error
on this name: it returns no code. -/
theorem operator_names_counterexample :
    "wcstoimg" ∈ table_operator_names
    ∧ (sample_table_lib.gal_arithmetic_set_operator "wcstoimg").1
        = sample_table_lib.GAL_ARITHMETIC_OP_INVALID
    ∧ arithmetic_set_operator sample_table_lib {} "wcstoimg" = Except.error halt.fatal :=
  ⟨by decide, rfl, rfl⟩

/-- C40, amended: for each of the names of Table (`sin`, `cos`, `tan`,
`asin`, `acos`, `atan`, `atan2`, `sinh`, `cosh`, `tanh`, `asinh`, `acosh`,
`atanh`, `wcstoimg`, `imgtowcs`, `distance-flat`, `distance-on-sphere`) that
the library does not recognise, on a library that names none of the codes of
Table: when the name is neither `wcstoimg` nor `imgtowcs`, or a WCS is at
hand, `arithmetic_set_operator` returns a code with the operand count 0 on
which `arithmetic_operator_name` returns the same name; for `wcstoimg` and
`imgtowcs` without a WCS at hand it is a fatal error; and two of these names
with the same code are the same name. -/
theorem operator_names_round_trip (c : table_lib) (p : tableparams) (name : String)
    (hname : name ∈ table_operator_names)
    (hlib : (c.gal_arithmetic_set_operator name).1 = c.GAL_ARITHMETIC_OP_INVALID)
    (hcodes : ∀ k : Int, c.GAL_ARITHMETIC_OP_LAST_CODE < k →
      k ≤ c.GAL_ARITHMETIC_OP_LAST_CODE + 18 → c.gal_arithmetic_operator_string k = none) :
    (((name = "wcstoimg" ∨ name = "imgtowcs") → wcs_available c p = true) →
        ∃ p1 code, arithmetic_set_operator c p name = Except.ok (p1, code, 0)
          ∧ arithmetic_operator_name c code = Except.ok name)
    ∧ ((name = "wcstoimg" ∨ name = "imgtowcs") → wcs_available c p = false →
        arithmetic_set_operator c p name = Except.error halt.fatal)
    ∧ (∀ other ∈ table_operator_names,
        (c.gal_arithmetic_set_operator other).1 = c.GAL_ARITHMETIC_OP_INVALID →
        (arithmetic_set_operator_code c other).1 = (arithmetic_set_operator_code c name).1 →
        other = name) := by
  obtain ⟨hzero, hback, hwcs⟩ := table_operator_round_trip c name hname hlib hcodes
  have hpair : arithmetic_set_operator_code c name
      = ((arithmetic_set_operator_code c name).1, 0) := by
    rw [← hzero]
  refine ⟨fun hav => ?_, fun hw hno => ?_, fun other hother hlib2 hsame => ?_⟩
  · unfold arithmetic_set_operator
    simp only
    by_cases hw : (arithmetic_set_operator_code c name).1 = ARITHMETIC_TABLE_OP_WCSTOIMG c
        ∨ (arithmetic_set_operator_code c name).1 = ARITHMETIC_TABLE_OP_IMGTOWCS c
    · rw [if_pos hw]
      obtain ⟨p1, hp1, _⟩ := (arithmetic_init_wcs_spec c p).1 (hav (hwcs.1 hw))
      rw [hp1]
      exact ⟨p1, _, by rw [hpair]; rfl, hback⟩
    · rw [if_neg hw]
      exact ⟨p, _, by rw [hpair], hback⟩
  · unfold arithmetic_set_operator
    simp only
    rw [if_pos (hwcs.2 hw), (arithmetic_init_wcs_spec c p).2 hno]
    rfl
  · have h2 := (table_operator_round_trip c other hother hlib2 hcodes).2.1
    rw [hsame, hback] at h2
    cases h2
    rfl

/-- C40, amended, on the name `sin` with the sample library. -/
theorem operator_names_round_trip_witness :
    "sin" ∈ table_operator_names
    ∧ (sample_table_lib.gal_arithmetic_set_operator "sin").1
        = sample_table_lib.GAL_ARITHMETIC_OP_INVALID
    ∧ ∃ p1 code, arithmetic_set_operator sample_table_lib {} "sin" = Except.ok (p1, code, 0)
        ∧ arithmetic_operator_name sample_table_lib code = Except.ok "sin" :=
  ⟨by decide, rfl,
    (operator_names_round_trip sample_table_lib {} "sin" (by decide) rfl
      (fun k h1 h2 => by
        show (if k = 1 then some "+" else none) = none
        rw [if_neg]
        intro hk
        rw [hk] at h1
        exact absurd h1 (by decide))).1
      (fun h => by rcases h with h | h <;> exact absurd h (by decide))⟩

/-! ## C36: the tokens of an arithmetic column -/

/-- One pass of the loop of `arithmetic_init` on a token that needs no WCS,
or with a WCS at hand. -/
theorem arithmetic_init_token_ok (c : table_lib) (s : arithmetic_init_state) (t : String)
    (h : needs_wcs c t = true → wcs_available c s.p = true) :
    ∃ s1 node, arithmetic_init_token c s t = Except.ok s1
      ∧ s1.arith = s.arith ++ [node] ∧ s1.node = some node
      ∧ node.operator = (arithmetic_set_operator_code c t).1
      ∧ (is_column_operand c t = true → node.index = s.totcalled)
      ∧ s1.totcalled = s.totcalled + (if is_column_operand c t = true then 1 else 0)
      ∧ (wcs_available c s.p = true → wcs_available c s1.p = true)
      ∧ (needs_wcs c t = false → s1.p = s.p) := by
  have hset : ∃ p1, arithmetic_set_operator c s.p t
        = Except.ok (p1, arithmetic_set_operator_code c t)
      ∧ (wcs_available c s.p = true → wcs_available c p1 = true)
      ∧ (needs_wcs c t = false → p1 = s.p) := by
    unfold arithmetic_set_operator
    simp only
    by_cases hw : (arithmetic_set_operator_code c t).1 = ARITHMETIC_TABLE_OP_WCSTOIMG c
        ∨ (arithmetic_set_operator_code c t).1 = ARITHMETIC_TABLE_OP_IMGTOWCS c
    · have hn : needs_wcs c t = true := by
        unfold needs_wcs
        exact decide_eq_true hw
      rw [if_pos hw]
      obtain ⟨p1, hp1, hav⟩ := (arithmetic_init_wcs_spec c s.p).1 (h hn)
      rw [hp1]
      exact ⟨p1, rfl, fun _ => hav, fun hf => absurd hn (by rw [hf]; decide)⟩
    · rw [if_neg hw]
      exact ⟨s.p, rfl, fun h => h, fun _ => rfl⟩
  obtain ⟨p1, hp1, hav, hsame⟩ := hset
  unfold arithmetic_init_token
  rw [hp1]
  simp only [Except.map]
  by_cases hinv : (arithmetic_set_operator_code c t).1 = c.GAL_ARITHMETIC_OP_INVALID
  · have hop : is_operator c t = false := by
      unfold is_operator
      exact decide_eq_false (not_not.2 hinv)
    rw [if_pos hinv]
    cases hnum : c.gal_type_string_to_number t with
    | some num =>
        have hcol : is_column_operand c t = false := by
          unfold is_column_operand
          rw [hop, hnum]
          rfl
        refine ⟨_, _, rfl, rfl, rfl, rfl, fun hc => ?_, ?_, hav, hsame⟩
        · rw [hcol] at hc
          exact absurd hc (by decide)
        · rw [hcol]
          rfl
    | none =>
        have hcol : is_column_operand c t = true := by
          unfold is_column_operand
          rw [hop, hnum]
          rfl
        refine ⟨_, _, rfl, rfl, rfl, rfl, fun _ => rfl, ?_, hav, hsame⟩
        rw [hcol]
        rfl
  · have hop : is_operator c t = true := by
      unfold is_operator
      exact decide_eq_true hinv
    have hcol : is_column_operand c t = false := by
      unfold is_column_operand
      rw [hop]
      rfl
    rw [if_neg hinv]
    refine ⟨_, _, rfl, rfl, rfl, rfl, fun hc => ?_, ?_, hav, hsame⟩
    · rw [hcol] at hc
      exact absurd hc (by decide)
    · rw [hcol]
      rfl

/-- One pass of the loop of `arithmetic_init` on a token that needs a WCS,
with none at hand, is a fatal error. -/
theorem arithmetic_init_token_fatal (c : table_lib) (s : arithmetic_init_state) (t : String)
    (hn : needs_wcs c t = true) (hno : wcs_available c s.p = false) :
    arithmetic_init_token c s t = Except.error halt.fatal := by
  have hw : (arithmetic_set_operator_code c t).1 = ARITHMETIC_TABLE_OP_WCSTOIMG c
      ∨ (arithmetic_set_operator_code c t).1 = ARITHMETIC_TABLE_OP_IMGTOWCS c := by
    unfold needs_wcs at hn
    exact of_decide_eq_true hn
  unfold arithmetic_init_token arithmetic_set_operator
  simp only
  rw [if_pos hw, (arithmetic_init_wcs_spec c s.p).2 hno]
  rfl

/-- The loop of `arithmetic_init` when no token needs a WCS or a WCS is at
hand: it adds one node per token, in order. -/
theorem arithmetic_init_loop_ok (c : table_lib) :
    ∀ (toks : List String) (s : arithmetic_init_state),
      ((∃ t ∈ toks, needs_wcs c t = true) → wcs_available c s.p = true) →
      ∃ s1 new, arithmetic_init_loop c toks s = Except.ok s1
        ∧ s1.arith = s.arith ++ new ∧ new.length = toks.length
        ∧ (∀ k t node, toks[k]? = some t → new[k]? = some node →
            node.operator = (arithmetic_set_operator_code c t).1
            ∧ (is_column_operand c t = true →
                node.index = s.totcalled + ((toks.take k).filter (is_column_operand c)).length))
        ∧ s1.totcalled = s.totcalled + (toks.filter (is_column_operand c)).length
        ∧ (toks = [] → s1.node = s.node)
        ∧ (∀ last, toks.getLast? = some last →
            ∃ node, s1.node = some node
              ∧ node.operator = (arithmetic_set_operator_code c last).1) := by
  intro toks
  induction toks with
  | nil =>
      intro s _
      refine ⟨s, [], rfl, by simp, rfl, ?_, by simp, fun _ => rfl, ?_⟩
      · intro k t node hk
        simp at hk
      · intro last hl
        simp at hl
  | cons t rest ih =>
      intro s h
      obtain ⟨s1, node, hs1, harith, hnode, hop, hidx, htot, hav, hsame⟩ :=
        arithmetic_init_token_ok c s t (fun hn => h ⟨t, List.mem_cons_self _ _, hn⟩)
      have hrest : (∃ t' ∈ rest, needs_wcs c t' = true) → wcs_available c s1.p = true := by
        rintro ⟨t', ht', hn'⟩
        exact hav (h ⟨t', List.mem_cons_of_mem _ ht', hn'⟩)
      obtain ⟨s2, new, hs2, harith2, hlen2, hnodes2, htot2, hnil2, hlast2⟩ := ih s1 hrest
      refine ⟨s2, node :: new, ?_, ?_, ?_, ?_, ?_, ?_, ?_⟩
      · unfold arithmetic_init_loop
        rw [hs1]
        exact hs2
      · rw [harith2, harith, List.append_assoc]
        rfl
      · simp [hlen2]
      · intro k t' node' hk hn
        cases k with
        | zero =>
            simp only [List.getElem?_cons_zero, Option.some.injEq] at hk hn
            subst hk
            subst hn
            refine ⟨hop, fun hc => ?_⟩
            rw [hidx hc]
            simp
        | succ k =>
            simp only [List.getElem?_cons_succ] at hk hn
            obtain ⟨h1, h2⟩ := hnodes2 k t' node' hk hn
            refine ⟨h1, fun hc => ?_⟩
            rw [h2 hc, htot, List.take_succ_cons, List.filter_cons]
            by_cases hct : is_column_operand c t = true
            · rw [if_pos hct, if_pos hct, List.length_cons]
              omega
            · rw [if_neg hct, if_neg hct]
              omega
      · rw [htot2, htot, List.filter_cons]
        by_cases hct : is_column_operand c t = true
        · rw [if_pos hct, if_pos hct, List.length_cons]
          omega
        · rw [if_neg hct, if_neg hct]
          omega
      · intro hcontra
        exact absurd hcontra (List.cons_ne_nil _ _)
      · intro last hl
        cases rest with
        | nil =>
            simp only [List.getLast?_singleton, Option.some.injEq] at hl
            subst hl
            rw [hnil2 rfl, hnode]
            exact ⟨node, rfl, hop⟩
        | cons t2 rest2 =>
            rw [List.getLast?_cons_cons] at hl
            exact hlast2 last hl

/-- The loop of `arithmetic_init` when a token needs a WCS and none is at
hand is a fatal error. -/
theorem arithmetic_init_loop_fatal (c : table_lib) :
    ∀ (toks : List String) (s : arithmetic_init_state),
      (∃ t ∈ toks, needs_wcs c t = true) → wcs_available c s.p = false →
      arithmetic_init_loop c toks s = Except.error halt.fatal := by
  intro toks
  induction toks with
  | nil =>
      rintro s ⟨t, ht, _⟩ _
      exact absurd ht (List.not_mem_nil t)
  | cons t rest ih =>
      intro s hex hno
      unfold arithmetic_init_loop
      by_cases hn : needs_wcs c t = true
      · rw [arithmetic_init_token_fatal c s t hn hno]
      · obtain ⟨s1, node, hs1, _, _, _, _, _, _, hsame⟩ :=
          arithmetic_init_token_ok c s t (fun h => absurd h hn)
        rw [hs1]
        simp only
        have hp : s1.p = s.p := hsame (by simpa using hn)
        apply ih s1
        · obtain ⟨t', ht', hn'⟩ := hex
          rcases List.mem_cons.1 ht' with rfl | ht''
          · exact absurd hn' hn
          · exact ⟨t', ht'', hn'⟩
        · rw [hp]
          exact hno

/-- C36, the claim as worded fails: the expression `$1 $2 wcstoimg` has
three tokens, the last of which is a recognised operator, and with no WCS
loaded and no WCS file given `arithmetic_init` is a fatal error on it. -/
theorem arithmetic_init_counterexample :
    strtok_tokens "$1 $2 wcstoimg" = ["$1", "$2", "wcstoimg"]
    ∧ is_operator sample_table_lib "wcstoimg" = true
    ∧ arithmetic_init sample_table_lib {} [] [] 0 "$1 $2 wcstoimg"
        = Except.error halt.fatal :=
  ⟨by decide, by decide, rfl⟩

/-- C36, amended: `arithmetic_init` returns exactly when the expression has
a last token, this token is a recognised operator, and a WCS is at hand if
one of the tokens is `wcstoimg` or `imgtowcs`; otherwise it is a fatal
error.  When it returns, it has added to the list one node per token, in
the order of the tokens, each with the operator code of its token, the
column operand number `k` (from 0) has the index `*totcalled` of before the
call plus `k`, and `*totcalled` has grown by the number of column
operands. -/
theorem arithmetic_init_spec (c : table_lib) (p : tableparams) (arith : List arithmetic_token)
    (toread : List String) (totcalled : Nat) (expression : String) :
    ((¬ ((∃ last, (strtok_tokens expression).getLast? = some last
              ∧ is_operator c last = true)
          ∧ ((∃ t ∈ strtok_tokens expression, needs_wcs c t = true) →
              wcs_available c p = true))) →
        arithmetic_init c p arith toread totcalled expression = Except.error halt.fatal)
    ∧ (((∃ last, (strtok_tokens expression).getLast? = some last ∧ is_operator c last = true)
          ∧ ((∃ t ∈ strtok_tokens expression, needs_wcs c t = true) →
              wcs_available c p = true)) →
        ∃ s new, arithmetic_init c p arith toread totcalled expression = Except.ok s
          ∧ s.arith = arith ++ new
          ∧ new.length = (strtok_tokens expression).length
          ∧ (∀ k t node, (strtok_tokens expression)[k]? = some t → new[k]? = some node →
              node.operator = (arithmetic_set_operator_code c t).1
              ∧ (is_column_operand c t = true →
                  node.index = totcalled
                    + (((strtok_tokens expression).take k).filter
                        (is_column_operand c)).length))
          ∧ s.totcalled = totcalled
              + ((strtok_tokens expression).filter (is_column_operand c)).length) := by
  have hinit : arithmetic_init c p arith toread totcalled expression
      = (match arithmetic_init_loop c (strtok_tokens expression)
          { p := p, arith := arith, toread := toread, totcalled := totcalled, node := none } with
        | Except.error e => Except.error e
        | Except.ok s =>
          match s.node with
          | none => Except.error halt.fatal
          | some node =>
            if node.operator = c.GAL_ARITHMETIC_OP_INVALID then Except.error halt.fatal
            else Except.ok s) := rfl
  rw [hinit]
  generalize strtok_tokens expression = toks
  by_cases hwcs : (∃ t ∈ toks, needs_wcs c t = true) → wcs_available c p = true
  · obtain ⟨s1, new, hs1, harith, hlen, hnodes, htot, hnil, hlast⟩ :=
      arithmetic_init_loop_ok c toks
        { p := p, arith := arith, toread := toread, totcalled := totcalled, node := none } hwcs
    rw [hs1]
    simp only
    cases hl : toks.getLast? with
    | none =>
        have hn : toks = [] := List.getLast?_eq_none_iff.1 hl
        rw [hnil hn]
        refine ⟨fun _ => rfl, ?_⟩
        rintro ⟨⟨last, hlast', _⟩, _⟩
        cases hlast'
    | some last =>
        obtain ⟨node, hnode, hop⟩ := hlast last hl
        rw [hnode]
        simp only
        by_cases hinv : (arithmetic_set_operator_code c last).1 = c.GAL_ARITHMETIC_OP_INVALID
        · rw [if_pos (by rw [hop]; exact hinv)]
          refine ⟨fun _ => rfl, ?_⟩
          rintro ⟨⟨last', hlast', hisop⟩, _⟩
          cases hlast'
          unfold is_operator at hisop
          exact absurd hinv (of_decide_eq_true hisop)
        · rw [if_neg (by rw [hop]; exact hinv)]
          refine ⟨fun hnot => ?_, fun _ => ⟨s1, new, rfl, harith, hlen, hnodes, htot⟩⟩
          exfalso
          apply hnot
          refine ⟨⟨last, rfl, ?_⟩, hwcs⟩
          unfold is_operator
          exact decide_eq_true hinv
  · have hex : ∃ t ∈ toks, needs_wcs c t = true := by
      by_contra hne
      exact hwcs (fun h => absurd h hne)
    have hno : wcs_available c p = false := by
      cases hav : wcs_available c p with
      | false => rfl
      | true => exact absurd (fun _ => hav) hwcs
    rw [arithmetic_init_loop_fatal c toks _ hex hno]
    refine ⟨fun _ => rfl, ?_⟩
    rintro ⟨_, h⟩
    exact absurd h hwcs

end NoiseChisel
